import Mathlib

/-!
# yig: authorization pipeline, multipart uploads and the object table

A shallow embedding of `api/auth-handler.go`, of `storage/multipart.go`
(the bucket-ACL checks of the multipart operations, the write path
`PutObjectPart`, `CopyObjectPart`, `CompleteMultipartUpload`, and
`ListObjectParts`), of `api/datatype/versioning.go` and of
`meta/client/tidbclient` (`PutObject`, `GetObject`, `GetLatestObjectVersion`,
`GetBucket`, `CheckAndPutBucket`, `ListObjects`, `ListLatestObjects`,
`ListVersionedObjects`, `IsEmptyBucket`), with theorems about the
authorization pipeline, the multipart operations and the object table.

Conventions of the embedding:

* the database is a collaborator: its answers are fields of `TidbClient`, and
  `tableClient` is the store that answers the select statements from a table,
  by filtering, sorting and truncating (`Select.run`);
* object names are compared as byte strings (`GoString`, `bytesLess`), version
  ids are the numbers written in the `version` column;
* a `for` loop without a bound takes a `fuel` argument and returns `none` when
  it runs out; the theorems hold for every fuel above a stated bound;

* the effects of an operation (backend writes, metadata commits, recycle-queue
  entries, cache invalidations) are returned as a trace, a `List Event`;
* a Go `map[int]*Part` is an association list read with `List.lookup`;
* `int64` arithmetic that may overflow is wrapped explicitly (`wrapInt64`);

* a Go `(value, error)` result is a pair whose second component is
  `Option ApiError` (`none` is Go's `nil` error);
* a Go pointer that may be `nil` is an `Option`;
* a Go `map[string][]string` is a function `String → Option (List String)`;
* packages that are not part of the embedded sources (the policy language, JSON
  decoding, signature verification, `net.SplitHostPort`, the configuration) are
  taken as parameters, bundled in `Env`.
-/

namespace Yig

/-! ## Errors -/

/-- The API errors returned by the embedded code (package `error`), plus `Other`
for errors produced by collaborators outside the embedded sources. -/
inductive ApiError where
  | ErrSignatureVersionNotSupported
  | ErrAccessDenied
  | ErrNoSuchBucket
  | ErrBucketAccessForbidden
  | InDatatypeFatalError
  | Other (code : String)
  | ErrEntityTooLarge
  | ErrInvalidSseHeader
  | ErrNotImplemented
  | ErrIncompleteBody
  | ErrBadDigest
  | ErrInvalidPart
  | ErrNoSuchKey
  | ErrForbiddenOverwriteKey
  | ErrInvalidVersioning
  /-- An error `NewError(InTidbFatalError, msg, err)`; the wrapped cause `err` of the
  store is left out. -/
  | InTidbFatalError (msg : String)
  /-- The error struct `meta.PartTooSmall`. -/
  | PartTooSmall (PartSize : Int) (PartNumber : Int) (PartETag : String)
  deriving DecidableEq, Repr

/-! ## Policy evaluation interface (package `policy`) -/

/-- Go map `map[string][]string`. -/
abbrev StrMap := String → Option (List String)

/-- The empty map, `make(map[string][]string)`. -/
def StrMap.empty : StrMap := fun _ => none

/-- Map assignment `m[k] = v`. -/
def StrMap.set (m : StrMap) (k : String) (v : List String) : StrMap :=
  fun x => if x = k then some v else m x

/-- Type `policy.Action` is a string type. -/
abbrev Action := String

/-- Modelled from the spec: the constant `policy.ListAllMyBucketsAction` (package
`policy` is not among the embedded sources). -/
def ListAllMyBucketsAction : Action := "s3:ListAllMyBuckets"

/-- Modelled from the spec: the constant `policy.CreateBucketAction` (package
`policy` is not among the embedded sources). -/
def CreateBucketAction : Action := "s3:CreateBucket"

/-- Outcome of a policy evaluation: `policy.PolicyAllow`, `policy.PolicyDeny`, or
neither (indeterminate). -/
inductive PolicyResult where
  | PolicyAllow
  | PolicyDeny
  | PolicyIndeterminate
  deriving DecidableEq, Repr

/-- The struct `policy.Args` as built by `IsBucketPolicyAllowed` and
`IsRamPolicyAllowed`. -/
structure Args where
  AccountName : String
  Action : Action
  BucketName : String
  ConditionValues : StrMap
  IsOwner : Bool
  ObjectName : String

/-- Modelled from the spec: the type `policy.Policy` with its method `IsAllowed`
(the policy language is consumed, not defined). A policy is represented by its
evaluation function. -/
structure Policy where
  IsAllowed : Args → PolicyResult

/-! ## Credentials, ACLs, buckets, requests -/

/-- The struct `common.Credential` (package `iam/common`), with the fields the
embedded code reads or writes. The zero value is `Credential.zero`. -/
structure Credential where
  ExternUserId : String
  ExternRootId : String
  DisplayName : String
  AllowOtherUserAccess : Bool
  Policy : Option Policy

/-- Go zero value of `common.Credential` (the named result `c` before assignment). -/
def Credential.zero : Credential :=
  ⟨"", "", "", false, none⟩

/-- Modelled from the spec: grantee of an explicit grant (`datatype.Grantee`):
`XsiType` is `"CanonicalUser"` or `"Group"`, `ID` the grantee id, `URI` the group. -/
structure Grantee where
  XsiType : String
  ID : String
  URI : String
  deriving DecidableEq, Repr

/-- Modelled from the spec: one explicit grant (`datatype.Grant`). -/
structure Grant where
  Grantee : Grantee
  Permission : String
  deriving DecidableEq, Repr

/-- Modelled from the spec: `datatype.AccessControlPolicy`, the explicit grants. -/
structure AccessControlPolicy where
  AccessControlList : List Grant
  deriving DecidableEq, Repr

/-- The struct `datatype.Acl`: a canned ACL name (empty when explicit grants are
used) and the explicit grants. -/
structure Acl where
  CannedAcl : String
  Policy : AccessControlPolicy
  deriving DecidableEq, Repr

def ACL_TYPE_CANON_USER : String := "CanonicalUser"
def ACL_TYPE_GROUP : String := "Group"
def ACL_PERM_READ : String := "READ"
def ACL_PERM_WRITE : String := "WRITE"
def ACL_PERM_FULL_CONTROL : String := "FULL_CONTROL"
def ACL_GROUP_TYPE_ALL_USERS : String := "http://acs.amazonaws.com/groups/global/AllUsers"
def ACL_GROUP_TYPE_AUTHENTICATED_USERS : String :=
  "http://acs.amazonaws.com/groups/global/AuthenticatedUsers"
def ACL_GROUP_TYPE_LOG_DELIVERY : String := "http://acs.amazonaws.com/groups/s3/LogDelivery"

/-- Modelled from the spec: `datatype.IsPermissionMatchedById` (not among the
embedded sources): some explicit grant gives `permission` to the canonical user `id`. -/
def IsPermissionMatchedById (policy : AccessControlPolicy) (permission : String)
    (id : String) : Bool :=
  policy.AccessControlList.any fun grant =>
    grant.Grantee.XsiType == ACL_TYPE_CANON_USER &&
      (grant.Grantee.ID == id && grant.Permission == permission)

/-- Modelled from the spec: `datatype.IsPermissionMatchedByGroup` (not among the
embedded sources): some explicit grant gives `permission` to the group `uri`. -/
def IsPermissionMatchedByGroup (policy : AccessControlPolicy) (permission : String)
    (uri : String) : Bool :=
  policy.AccessControlList.any fun grant =>
    grant.Grantee.XsiType == ACL_TYPE_GROUP &&
      (grant.Grantee.URI == uri && grant.Permission == permission)

/-- Modelled from the spec: `helper.StringInSlice` (not among the embedded sources). -/
def StringInSlice (s : String) (slice : List String) : Bool :=
  slice.contains s

/-- Type `datatype.BucketVersioningType` is a string type. -/
abbrev BucketVersioningType := String

def BucketVersioningEnabled : BucketVersioningType := "Enabled"
def BucketVersioningDisabled : BucketVersioningType := "Disabled"
def BucketVersioningSuspended : BucketVersioningType := "Suspended"

/-- The struct `types.Bucket` (package `meta/types`), with the fields the embedded
code reads. `Policy` is the serialized bucket policy. -/
structure Bucket where
  Name : String
  OwnerId : String
  ACL : Acl
  Policy : List UInt8
  Versioning : BucketVersioningType
  deriving DecidableEq, Repr

/-- The parts of `http.Request` read by the embedded code. `Header` holds the
entries of the header map (canonical keys, each key once), `Query` the entries of
`request.URL.Query()`. -/
structure Request where
  Header : List (String × List String)
  Query : List (String × List String)
  RemoteAddr : String
  deriving DecidableEq, Repr

/-- Type `signature.AuthType`. `AuthTypeOther` stands for the values that
`checkRequestAuth` does not name (post-policy and streaming-signed requests). -/
inductive AuthType where
  | AuthTypeUnknown
  | AuthTypeAnonymous
  | AuthTypePresignedV4
  | AuthTypePresignedV2
  | AuthTypeSignedV4
  | AuthTypeSignedV2
  | AuthTypeOther
  deriving DecidableEq, Repr

/-- Type `meta.ObjectType`; the zero value is `ObjectTypeNormal`. -/
inductive ObjectType where
  | ObjectTypeNormal
  | ObjectTypeAppendable
  | ObjectTypeMultipart
  deriving DecidableEq, Repr

/-- Type `StorageClass` of package `meta/common`, an unsigned integer type. -/
abbrev StorageClass := Nat

/-- Modelled from the spec: the constant `ObjectStorageClassGlacier` (package
`meta/common` is not among the embedded sources). -/
def ObjectStorageClassGlacier : StorageClass := 2

/-- The struct `meta.Part`. `PartNumber` is a Go `int`, `Size` and `Offset` are
`int64`. -/
structure Part where
  PartNumber : Int
  Size : Int
  ObjectId : String
  Offset : Int
  Etag : String
  LastModified : String
  InitializationVector : List UInt8
  deriving DecidableEq, Repr

/-- Go map `map[int]*Part`, as the list of its entries (each key once). A read
`m[k]` is `m.lookup k`. -/
abbrev PartsMap := List (Int × Part)

/-- The struct `meta.Object`, with the fields set by `CompleteMultipartUpload` and the
blob placement fields. Times are nanoseconds since the epoch; the Go field `Type` is
`Type_` here. -/
structure Object where
  Name : String
  BucketName : String
  OwnerId : String
  Pool : String
  Location : String
  ObjectId : String
  Size : Int
  LastModifiedTime : Int
  Etag : String
  ContentType : String
  Parts : PartsMap
  ACL : Acl
  NullVersion : Bool
  DeleteMarker : Bool
  SseType : String
  EncryptionKey : List UInt8
  InitializationVector : List UInt8
  CustomAttributes : List (String × String)
  Type_ : ObjectType
  StorageClass : StorageClass
  CreateTime : Nat
  VersionId : String
  /-- The field `PartsIndex *SimpleIndex`: `none` is `nil`, `some index` is
  `&SimpleIndex{Index: index}`. -/
  PartsIndex : Option (List Int) := none
  deriving DecidableEq, Repr

/-- The fields of `context.RequestContext` read by the embedded code. -/
structure RequestContext where
  AuthType : AuthType
  BucketInfo : Option Bucket
  BucketName : String
  ObjectName : String
  ObjectInfo : Option Object := none
  IsObjectForbidOverwrite : Bool := false
  deriving DecidableEq, Repr

/-- Collaborators outside the embedded sources, taken as parameters:
`signature.IsReqAuthenticated`; `json.Unmarshal` into a `policy.Policy` (`none` is a
decoding error); the host part returned by `net.SplitHostPort` (empty on error); and
the configured `helper.CONFIG.LogDeliveryGroup`. -/
structure Env where
  IsReqAuthenticated : Request → Credential × Option ApiError
  Unmarshal : List UInt8 → Option Policy
  SplitHostPort : String → String
  LogDeliveryGroup : List String

/-! ## `api/auth-handler.go` -/

/-- Method `http.Header.Get`: the first value stored under `key`, or the empty string. -/
def HeaderGet (h : List (String × List String)) (key : String) : String :=
  match h.lookup key with
  | some (v :: _) => v
  | _ => ""

/-- Value of `http.CanonicalHeaderKey("X-Forwarded-For")`. -/
def xForwardedFor : String := "X-Forwarded-For"

/-- Value of `http.CanonicalHeaderKey("X-Real-IP")`. -/
def xRealIP : String := "X-Real-Ip"

/-- Value of `http.CanonicalHeaderKey("Forwarded")`. -/
def forwarded : String := "Forwarded"

/-- Search of `strings.Index` from position `i`: the position of the first occurrence
of `sep` at or after the current one, `-1` when there is none. -/
def indexFrom (sep : List Char) : List Char → Nat → Int
  | [], i => if sep.isEmpty then (i : Int) else -1
  | c :: cs, i => if sep.isPrefixOf (c :: cs) then (i : Int) else indexFrom sep cs (i + 1)

/-- Function `strings.Index(s, sep)`, counting characters. -/
def stringsIndex (s sep : String) : Int :=
  indexFrom sep.data s.data 0

/-- The characters excluded by the class `[^(;|,| )]` of `forRegex`. -/
def forRegexExcluded (c : Char) : Bool :=
  c == '(' || c == ';' || c == '|' || c == ',' || c == ' ' || c == ')'

/-- A match of `forRegex` starting exactly here: `for=` in any letter case followed by
at least one character outside the excluded class; the result is capture group 1,
the longest run of such characters. -/
def forRegexMatchHere : List Char → Option (List Char)
  | f :: o :: r :: e :: rest =>
    if (f == 'f' || f == 'F') && (o == 'o' || o == 'O') && (r == 'r' || r == 'R') && e == '='
    then
      let g := rest.takeWhile fun c => !forRegexExcluded c
      if g.isEmpty then none else some g
    else none
  | _ => none

/-- Capture group 1 of the leftmost match of
`forRegex = (?i)(?:for=)([^(;|,| )]+)(.*)`, as `forRegex.FindStringSubmatch(fwd)[1]`;
`none` when the expression does not match. -/
def forRegexFind : List Char → Option (List Char)
  | [] => none
  | c :: cs =>
    match forRegexMatchHere (c :: cs) with
    | some g => some g
    | none => forRegexFind cs

/-- Call `strings.Trim(s, "\"")`: leading and trailing double quotes removed. -/
def trimQuotes (s : List Char) : List Char :=
  ((s.dropWhile fun c => c == '"').reverse.dropWhile fun c => c == '"').reverse

/-- Function `GetSourceIP`: the client address from `X-Forwarded-For`, `X-Real-IP`,
`Forwarded`, in that order, else the host of `r.RemoteAddr`. -/
def GetSourceIP (env : Env) (r : Request) : String :=
  let addr : String :=
    let fwd := HeaderGet r.Header xForwardedFor
    if fwd ≠ "" then
      let s := stringsIndex fwd ", "
      let s := if s == -1 then (fwd.length : Int) else s
      String.mk (fwd.data.take s.toNat)
    else
      let fwd := HeaderGet r.Header xRealIP
      if fwd ≠ "" then fwd
      else
        let fwd := HeaderGet r.Header forwarded
        if fwd ≠ "" then
          match forRegexFind fwd.data with
          | some g => String.mk (trimQuotes g)
          | none => ""
        else ""
  if addr ≠ "" then addr else env.SplitHostPort r.RemoteAddr

/-- One of the two `range` loops of `getConditionValues`: every entry is appended to
the values already stored under its key, or stored when the key is new. -/
def mergeValues (args : StrMap) (entries : List (String × List String)) : StrMap :=
  entries.foldl
    (fun args kv =>
      match args kv.1 with
      | some existingValues => args.set kv.1 (existingValues ++ kv.2)
      | none => args.set kv.1 kv.2)
    args

/-- Function `getConditionValues`. -/
def getConditionValues (env : Env) (request : Request) (locationConstraint : String) :
    StrMap :=
  let args := StrMap.empty
  let args := mergeValues args request.Header
  let args := mergeValues args request.Query
  let args := args.set "SourceIp" [GetSourceIP env request]
  if locationConstraint ≠ "" then args.set "LocationConstraint" [locationConstraint]
  else args

/-- The `policy.Args` that `IsBucketPolicyAllowed` passes to the bucket policy. -/
def bucketPolicyArgs (env : Env) (c : Credential) (bucket : Bucket) (r : Request)
    (action : Action) (objectName : String) : Args :=
  { AccountName := c.ExternUserId
    Action := action
    BucketName := bucket.Name
    ConditionValues := getConditionValues env r ""
    IsOwner := false
    ObjectName := objectName }

/-- The `policy.Args` that `IsRamPolicyAllowed` passes to the IAM policy. -/
def ramPolicyArgs (env : Env) (r : Request) (action : Action) : Args :=
  { AccountName := ""
    Action := action
    BucketName := ""
    ConditionValues := getConditionValues env r ""
    IsOwner := false
    ObjectName := "" }

/-- Function `IsBucketPolicyAllowed`. -/
def IsBucketPolicyAllowed (env : Env) (c : Credential) (bucket : Option Bucket)
    (r : Request) (action : Action) (objectName : String) : Bool × Option ApiError :=
  match bucket with
  | none => (false, some .ErrNoSuchBucket)
  | some bucket =>
    -- the root user always has full control of his bucket
    if bucket.OwnerId = c.ExternRootId ∧ c.ExternUserId = c.ExternRootId then (true, none)
    else
      match env.Unmarshal bucket.Policy with
      | none => (false, some .InDatatypeFatalError)
      | some p =>
        let policyResult := p.IsAllowed (bucketPolicyArgs env c bucket r action objectName)
        if policyResult = .PolicyAllow then (true, none)
        else if policyResult = .PolicyDeny then (false, some .ErrAccessDenied)
        else (false, none)

/-- Function `IsRamPolicyAllowed`. -/
def IsRamPolicyAllowed (env : Env) (p : Option Policy) (r : Request) (action : Action) :
    Bool × Option ApiError :=
  match p with
  | none =>
    if action = ListAllMyBucketsAction ∨ action = CreateBucketAction then
      (false, some .ErrAccessDenied)
    else (false, none)
  | some p =>
    let policyResult := p.IsAllowed (ramPolicyArgs env r action)
    if policyResult = .PolicyAllow then (true, none)
    else if policyResult = .PolicyDeny then (false, some .ErrAccessDenied)
    else if action = ListAllMyBucketsAction ∨ action = CreateBucketAction then
      (false, some .ErrAccessDenied)
    else (false, none)

/-- The statements shared by `checkRequestAuth` (signed branch) and
`checkSourceBucketAuth`: the bucket policy first, then the IAM policy when the bucket
policy neither allowed nor failed and the caller belongs to the bucket owner's
account. The result is the final `(isAllow, err)`. -/
def policyThenRam (env : Env) (c : Credential) (bucket : Option Bucket) (r : Request)
    (action : Action) (objectName : String) : Bool × Option ApiError :=
  let res := IsBucketPolicyAllowed env c bucket r action objectName
  if res.2 = none ∧ res.1 = false then
    match bucket with
    | some bucketInfo =>
      if c.ExternRootId = bucketInfo.OwnerId then IsRamPolicyAllowed env c.Policy r action
      else res
    -- not reached: on a nil bucket IsBucketPolicyAllowed fails with ErrNoSuchBucket
    | none => res
  else res

/-- Function `checkRequestAuth`; `ctx` is `context.GetRequestContext(r)`. -/
def checkRequestAuth (env : Env) (ctx : RequestContext) (r : Request) (action : Action) :
    Credential × Option ApiError :=
  match ctx.AuthType with
  | .AuthTypeUnknown => (Credential.zero, some .ErrSignatureVersionNotSupported)
  | .AuthTypeSignedV4 | .AuthTypePresignedV4 | .AuthTypePresignedV2 | .AuthTypeSignedV2 =>
    let auth := env.IsReqAuthenticated r
    let c := auth.1
    match auth.2 with
    | some err => (c, some err)
    | none =>
      if action = ListAllMyBucketsAction ∨ action = CreateBucketAction then
        let res := IsRamPolicyAllowed env c.Policy r action
        ({ c with AllowOtherUserAccess := res.1 }, res.2)
      else
        -- do bucket policy check first, then the ram policy check
        let res := policyThenRam env c ctx.BucketInfo r action ctx.ObjectName
        ({ c with AllowOtherUserAccess := res.1 }, res.2)
  | .AuthTypeAnonymous =>
    let c := Credential.zero
    if action = ListAllMyBucketsAction then (c, some .ErrAccessDenied)
    else
      let res := IsBucketPolicyAllowed env c ctx.BucketInfo r action ctx.ObjectName
      ({ c with AllowOtherUserAccess := res.1 }, res.2)
  | .AuthTypeOther => (Credential.zero, some .ErrAccessDenied)

/-- Function `checkSourceBucketAuth`; the credential is updated in place, so the
updated credential is returned with the error. -/
def checkSourceBucketAuth (env : Env) (r : Request) (action : Action)
    (bucket : Option Bucket) (object : String) (c : Credential) :
    Credential × Option ApiError :=
  let res := policyThenRam env c bucket r action object
  ({ c with AllowOtherUserAccess := res.1 }, res.2)

/-! ## Bucket-ACL checks of `storage/multipart.go`

Every multipart operation runs the same block on a non-nil `bucket`:
`if !credential.AllowOtherUserAccess`, then the owner test, then a `switch` on the
canned ACL or a `switch true` over the explicit grants. Each check below returns
`none` when the block is left without an error (the operation goes on) and `some e`
when the operation returns `e` from inside the block. -/

/-- The `case` selection of the `switch true` over the explicit grants, which reads
the same in the seven operations up to the required permission `perm`
(`ACL_PERM_READ` or `ACL_PERM_WRITE`). The result is `true` when one of the four
`case` clauses is selected and `false` when the `default` clause runs. A Go `case`
body does not fall through: once the `AuthenticatedUsers` or the `LogDelivery`
clause is selected, the switch ends after its body, whether the inner `if` reaches
its `break` or not. -/
def grantCaseSelected (env : Env) (policy : AccessControlPolicy) (perm : String)
    (credential : Credential) : Bool :=
  if IsPermissionMatchedById policy perm credential.ExternUserId ||
      IsPermissionMatchedById policy ACL_PERM_FULL_CONTROL credential.ExternUserId then
    true -- break
  else if IsPermissionMatchedByGroup policy perm ACL_GROUP_TYPE_ALL_USERS ||
      IsPermissionMatchedByGroup policy ACL_PERM_FULL_CONTROL ACL_GROUP_TYPE_ALL_USERS then
    true -- break
  else if IsPermissionMatchedByGroup policy perm ACL_GROUP_TYPE_AUTHENTICATED_USERS ||
      IsPermissionMatchedByGroup policy ACL_PERM_FULL_CONTROL
        ACL_GROUP_TYPE_AUTHENTICATED_USERS then
    if credential.ExternUserId ≠ "" then
      true -- break
    else
      true -- end of the case body, no fallthrough
  else if IsPermissionMatchedByGroup policy perm ACL_GROUP_TYPE_LOG_DELIVERY ||
      IsPermissionMatchedByGroup policy ACL_PERM_FULL_CONTROL ACL_GROUP_TYPE_LOG_DELIVERY then
    if StringInSlice credential.ExternUserId env.LogDeliveryGroup then
      true -- break
    else
      true -- end of the case body, no fallthrough
  else
    false -- default

/-- ACL block of `ListMultipartUploads`. -/
def ListMultipartUploadsAcl (env : Env) (bucket : Bucket) (credential : Credential) :
    Option ApiError :=
  if !credential.AllowOtherUserAccess then
    if ¬(bucket.OwnerId = credential.ExternRootId ∧
        credential.ExternUserId = credential.ExternRootId) then
      if bucket.ACL.CannedAcl ≠ "" then
        if bucket.ACL.CannedAcl = "public-read" ∨ bucket.ACL.CannedAcl = "public-read-write" then
          none
        else if bucket.ACL.CannedAcl = "authenticated-read" then
          if credential.ExternUserId = "" then some .ErrBucketAccessForbidden else none
        else some .ErrBucketAccessForbidden
      else if grantCaseSelected env bucket.ACL.Policy ACL_PERM_READ credential then none
      else some .ErrBucketAccessForbidden
    else none
  else none

/-- ACL block of `NewMultipartUpload`. -/
def NewMultipartUploadAcl (env : Env) (bucket : Bucket) (credential : Credential) :
    Option ApiError :=
  if !credential.AllowOtherUserAccess then
    if ¬(bucket.OwnerId = credential.ExternRootId ∧
        credential.ExternUserId = credential.ExternRootId) then
      if bucket.ACL.CannedAcl ≠ "" then
        if bucket.ACL.CannedAcl = "public-read-write" then none
        else some .ErrBucketAccessForbidden
      else if grantCaseSelected env bucket.ACL.Policy ACL_PERM_WRITE credential then none
      else some .ErrBucketAccessForbidden
    else none
  else none

/-- ACL block of `PutObjectPart`. -/
def PutObjectPartAcl (env : Env) (bucket : Bucket) (credential : Credential) :
    Option ApiError :=
  if !credential.AllowOtherUserAccess then
    if ¬(bucket.OwnerId = credential.ExternRootId ∧
        credential.ExternUserId = credential.ExternRootId) then
      if bucket.ACL.CannedAcl ≠ "" then
        if bucket.ACL.CannedAcl = "public-read-write" then none
        else some .ErrBucketAccessForbidden
      else if grantCaseSelected env bucket.ACL.Policy ACL_PERM_WRITE credential then none
      else some .ErrBucketAccessForbidden
    else none
  else none

/-- ACL block of `CopyObjectPart` (the error; the block also queues the written blob
for recycling before it returns). -/
def CopyObjectPartAcl (env : Env) (bucket : Bucket) (credential : Credential) :
    Option ApiError :=
  if !credential.AllowOtherUserAccess then
    if ¬(bucket.OwnerId = credential.ExternRootId ∧
        credential.ExternUserId = credential.ExternRootId) then
      if bucket.ACL.CannedAcl ≠ "" then
        if bucket.ACL.CannedAcl = "public-read-write" then none
        else some .ErrBucketAccessForbidden
      else if grantCaseSelected env bucket.ACL.Policy ACL_PERM_WRITE credential then none
      else some .ErrBucketAccessForbidden
    else none
  else none

/-- ACL block of `ListObjectParts`; `ownerId` is `multipart.Metadata.OwnerId`. -/
def ListObjectPartsAcl (env : Env) (bucket : Bucket) (credential : Credential)
    (ownerId : String) : Option ApiError :=
  if !credential.AllowOtherUserAccess then
    if ¬(bucket.OwnerId = credential.ExternRootId ∧
        credential.ExternUserId = credential.ExternRootId) then
      if bucket.ACL.CannedAcl ≠ "" then
        if bucket.ACL.CannedAcl = "public-read" ∨ bucket.ACL.CannedAcl = "public-read-write" then
          none
        else if bucket.ACL.CannedAcl = "authenticated-read" then
          if credential.ExternUserId = "" then some .ErrBucketAccessForbidden else none
        else if ownerId ≠ credential.ExternUserId then some .ErrAccessDenied
        else none
      else if grantCaseSelected env bucket.ACL.Policy ACL_PERM_READ credential then none
      else if ownerId ≠ credential.ExternUserId then some .ErrAccessDenied
      else none
    else none
  else none

/-- ACL block of `AbortMultipartUpload`. -/
def AbortMultipartUploadAcl (env : Env) (bucket : Bucket) (credential : Credential) :
    Option ApiError :=
  if !credential.AllowOtherUserAccess then
    if ¬(bucket.OwnerId = credential.ExternRootId ∧
        credential.ExternUserId = credential.ExternRootId) then
      if bucket.ACL.CannedAcl ≠ "" then
        if bucket.ACL.CannedAcl = "public-read-write" then none
        else some .ErrAccessDenied
      else if grantCaseSelected env bucket.ACL.Policy ACL_PERM_WRITE credential then none
      else some .ErrAccessDenied
    else none
  else none

/-- ACL block of `CompleteMultipartUpload`. -/
def CompleteMultipartUploadAcl (env : Env) (bucket : Bucket) (credential : Credential) :
    Option ApiError :=
  if !credential.AllowOtherUserAccess then
    if ¬(bucket.OwnerId = credential.ExternRootId ∧
        credential.ExternUserId = credential.ExternRootId) then
      if bucket.ACL.CannedAcl ≠ "" then
        if bucket.ACL.CannedAcl = "public-read-write" then none
        else some .ErrAccessDenied
      else if grantCaseSelected env bucket.ACL.Policy ACL_PERM_WRITE credential then none
      else some .ErrAccessDenied
    else none
  else none

/-- The seven multipart operations of `storage/multipart.go`. -/
inductive MultipartOp where
  | ListMultipartUploads
  | NewMultipartUpload
  | PutObjectPart
  | CopyObjectPart
  | ListObjectParts
  | AbortMultipartUpload
  | CompleteMultipartUpload
  deriving DecidableEq, Repr

/-- The ACL block of the given operation (`ownerId` is only read by
`ListObjectParts`). -/
def aclCheck (env : Env) (op : MultipartOp) (bucket : Bucket) (credential : Credential)
    (ownerId : String) : Option ApiError :=
  match op with
  | .ListMultipartUploads => ListMultipartUploadsAcl env bucket credential
  | .NewMultipartUpload => NewMultipartUploadAcl env bucket credential
  | .PutObjectPart => PutObjectPartAcl env bucket credential
  | .CopyObjectPart => CopyObjectPartAcl env bucket credential
  | .ListObjectParts => ListObjectPartsAcl env bucket credential ownerId
  | .AbortMultipartUpload => AbortMultipartUploadAcl env bucket credential
  | .CompleteMultipartUpload => CompleteMultipartUploadAcl env bucket credential

/-- The permission the explicit-grant check of an operation asks for. -/
def requiredPermission : MultipartOp → String
  | .ListMultipartUploads => ACL_PERM_READ
  | .ListObjectParts => ACL_PERM_READ
  | _ => ACL_PERM_WRITE

/-- The overall decision on a request: `checkRequestAuth` succeeds and the ACL block of
the storage operation, run on the request's bucket with the credential that
`checkRequestAuth` returned, is left without an error. -/
def accessGranted (env : Env) (op : MultipartOp) (ctx : RequestContext) (r : Request)
    (action : Action) (ownerId : String) : Bool :=
  match ctx.BucketInfo with
  | none => false
  | some bucket =>
    let res := checkRequestAuth env ctx r action
    res.2.isNone && (aclCheck env op bucket res.1 ownerId).isNone

/-! ## Multipart write path of `storage/multipart.go`

The operations below return the Go results together with the list of the effects they
had on their collaborators, in the order in which they happened (`Event`): writes to
the blob backend, sends on `RecycleQueue`, calls that commit metadata, cache
invalidations and the launch of `removeOldObject`. The collaborators themselves (the
metadata store, the blob clusters, the clock, MD5, base64, the encryption helpers) are
parameters, bundled in `YigStorage`. -/

/-- Minimum part size for a multipart upload, `100 << 10`. -/
def MIN_PART_SIZE : Int := 102400

/-- Maximum part size per PUT request, `5 << 30`. -/
def MAX_PART_SIZE : Int := 5368709120

/-- Maximum part number of a multipart upload. -/
def MAX_PART_NUMBER : Int := 10000

/-- The value of an `int64` expression whose mathematical value is `x` (two's
complement wrap-around). -/
def wrapInt64 (x : Int) : Int :=
  (x + 9223372036854775808) % 18446744073709551616 - 9223372036854775808

/-- Conversion `uint64(x)` of an `int64` value. -/
def toUint64 (x : Int) : Nat :=
  (x % 18446744073709551616).toNat

/-- Value of a hexadecimal digit, in either letter case. -/
def hexDigit (c : Char) : Option Nat :=
  if '0' ≤ c ∧ c ≤ '9' then some (c.toNat - 48)
  else if 'a' ≤ c ∧ c ≤ 'f' then some (c.toNat - 87)
  else if 'A' ≤ c ∧ c ≤ 'F' then some (c.toNat - 55)
  else none

/-- Function `hex.DecodeString` on the characters of its argument: `none` is an error
(odd length or a character that is not a hexadecimal digit). -/
def hexDecodeChars : List Char → Option (List UInt8)
  | [] => some []
  | [_] => none
  | a :: b :: rest =>
    match hexDigit a, hexDigit b, hexDecodeChars rest with
    | some x, some y, some bytes => some (UInt8.ofNat (16 * x + y) :: bytes)
    | _, _, _ => none

/-- Function `hex.DecodeString`. -/
def hexDecodeString (s : String) : Option (List UInt8) :=
  hexDecodeChars s.data

/-- The lower-case hexadecimal digit of a value below 16. -/
def hexChar (n : Nat) : Char :=
  if n < 10 then Char.ofNat (48 + n) else Char.ofNat (87 + n)

/-- Function `hex.EncodeToString`. -/
def hexEncodeToString (bytes : List UInt8) : String :=
  String.mk (bytes.flatMap fun b => [hexChar (b.toNat / 16), hexChar (b.toNat % 16)])

/-- Modelled from the spec: the value of `crypto.SSEC.String()` (package `crypto` is
not among the embedded sources). -/
def crypto_SSEC : String := "SSE-C"

/-- Modelled from the spec: the value of `crypto.S3.String()`. -/
def crypto_S3 : String := "SSE-S3"

/-- Modelled from the spec: the value of `crypto.S3KMS.String()`. -/
def crypto_S3KMS : String := "SSE-KMS"

/-- The struct `datatype.SseRequest`, with the fields the embedded code reads; the Go
field `Type` is `Type_` here. -/
structure SseRequest where
  Type_ : String
  SseCustomerAlgorithm : String
  SseCustomerKey : List UInt8
  SseAwsKmsKeyId : String
  deriving DecidableEq, Repr

/-- The struct `meta.MultipartMetadata`. -/
structure MultipartMetadata where
  InitiatorId : String
  OwnerId : String
  ContentType : String
  Location : String
  Pool : String
  Acl : Acl
  SseRequest : SseRequest
  EncryptionKey : List UInt8
  CipherKey : List UInt8
  Attrs : List (String × String)
  StorageClass : StorageClass
  deriving DecidableEq, Repr

/-- The struct `meta.Multipart`. -/
structure Multipart where
  BucketName : String
  ObjectName : String
  InitialTime : Nat
  UploadId : String
  Metadata : MultipartMetadata
  Parts : PartsMap
  deriving DecidableEq, Repr

/-- The struct `meta.CompletePart`: one entry of the list sent with Complete. -/
structure CompletePart where
  PartNumber : Int
  ETag : String
  deriving DecidableEq, Repr

/-- The struct `datatype.DeltaSizeInfo`. -/
structure DeltaSizeInfo where
  StorageClass : StorageClass
  Delta : Int
  deriving DecidableEq, Repr

/-- The struct `datatype.PutObjectPartResult`. -/
structure PutObjectPartResult where
  ETag : String
  SseType : String
  SseAwsKmsKeyIdBase64 : String
  SseCustomerAlgorithm : String
  SseCustomerKeyMd5Base64 : String
  LastModified : Int
  DeltaSize : DeltaSizeInfo
  deriving DecidableEq, Repr

/-- Go zero value of `datatype.PutObjectPartResult`. -/
def PutObjectPartResult.zero : PutObjectPartResult :=
  ⟨"", "", "", "", "", 0, ⟨0, 0⟩⟩

/-- The struct `datatype.CompleteMultipartResult`. -/
structure CompleteMultipartResult where
  ETag : String
  ObjectSize : Int
  ContentType : String
  CreateTime : Nat
  SseType : String
  SseAwsKmsKeyIdBase64 : String
  SseCustomerAlgorithm : String
  SseCustomerKeyMd5Base64 : String
  deriving DecidableEq, Repr

/-- Go zero value of `datatype.CompleteMultipartResult`. -/
def CompleteMultipartResult.zero : CompleteMultipartResult :=
  ⟨"", 0, "", 0, "", "", "", ""⟩

/-- The struct `objectToRecycle` sent on `RecycleQueue`. -/
structure objectToRecycle where
  location : String
  pool : String
  objectId : String
  objectType : ObjectType
  deriving DecidableEq, Repr

/-- What `cluster.Put(pool, reader)` returns: the id of the blob, the number of bytes
written (a `uint64`) and the error; `bytesRead` is the number of plaintext bytes the
call drew from its reader. -/
structure PutOutcome where
  objectId : String
  bytesWritten : Nat
  bytesRead : Nat
  err : Option ApiError
  deriving DecidableEq, Repr

/-- A blob cluster: its `ID()` and its `Put`, which receives the pool, the plaintext
offered by the reader, and the key and initialization vector of the encryption
wrapper. -/
structure Cluster where
  ID : String
  Put : String → List UInt8 → List UInt8 → List UInt8 → PutOutcome

/-- Modelled from the spec: the freezer row of a Glacier object returned by
`MetaStorage.GetFreezer` (package `meta` is not among the embedded sources). -/
structure Freezer where
  BucketName : String
  Name : String
  VersionId : String
  deriving DecidableEq, Repr

/-- The request body `data`: its content, and the result of `Verify()` when the reader
is a `*signature.SignVerifyReadCloser` (`none` when it is not). -/
structure DataReader where
  content : List UInt8
  verify : Option (Credential × Option ApiError)

/-- The effects of an operation on its collaborators. -/
inductive Event where
  /-- A call `cluster.Put` on the cluster `location` returned. -/
  | BackendPut (location pool : String) (outcome : PutOutcome)
  /-- A send `RecycleQueue <- o`. -/
  | Recycle (o : objectToRecycle)
  /-- A call `MetaStorage.PutObjectPart(multipart, part)` returned `err`. -/
  | MetaPutObjectPart (uploadId : String) (part : Part) (err : Option ApiError)
  /-- A call `MetaStorage.DeleteFreezer(freezer)` returned `err`. -/
  | DeleteFreezer (freezer : Freezer) (err : Option ApiError)
  /-- A call `MetaStorage.PutObject(reqCtx, object, &multipart, false)` returned `err`. -/
  | MetaPutObject (object : Object) (multipart : Multipart) (err : Option ApiError)
  /-- A call `MetaStorage.Cache.Remove(redis.ObjectTable, key)`. -/
  | CacheRemove (key : String)
  /-- A call `DataCache.Remove(key)`. -/
  | DataCacheRemove (key : String)
  /-- The statement `go yig.removeOldObject(object)`. -/
  | RemoveOldObject (object : Object)
  deriving DecidableEq, Repr

/-- The receiver `yig *YigStorage` with the collaborators the multipart operations
call, taken as parameters: the metadata store (`GetMultipart`, `GetBucket`,
`MetaPutObjectPart` for `MetaStorage.PutObjectPart`, `MetaPutObject` for
`MetaStorage.PutObject`, `GetFreezer`, `DeleteFreezer`), `GetClusterByFsName`,
`newInitializationVector`, `wrapEncryptionReader` (its error), `Object.GenVersionId`,
the clock (`nowUnixNano`, `formatTime`), MD5 and base64. `env` holds the
configuration. -/
structure YigStorage where
  env : Env
  GetMultipart : String → String → String → Except ApiError Multipart
  GetBucket : String → Except ApiError Bucket
  MetaPutObjectPart : Multipart → Part → Int × Option ApiError
  MetaPutObject : RequestContext → Object → Multipart → Bool → Option ApiError
  GetFreezer : String → String → String → Except ApiError Freezer
  DeleteFreezer : Freezer → Option ApiError
  GetClusterByFsName : String → Except ApiError Cluster
  newInitializationVector : Except ApiError (List UInt8)
  wrapEncryptionReader : List UInt8 → List UInt8 → Option ApiError
  GenVersionId : Object → BucketVersioningType → String
  nowUnixNano : Int
  formatTime : Int → String
  md5Sum : List UInt8 → List UInt8
  base64 : List UInt8 → String

/-- The `switch multipart.Metadata.SseRequest.Type` of `PutObjectPart` and
`CopyObjectPart` (the same statements in both): the encryption key of the part, or the
error with which the operation returns. A type that matches no `case` leaves the key
`nil`. -/
def partEncryptionKey (multipart : Multipart) (sseRequest : SseRequest) :
    Except ApiError (List UInt8) :=
  if multipart.Metadata.SseRequest.Type_ = "" then .ok []
  else if multipart.Metadata.SseRequest.Type_ = crypto_SSEC then
    if sseRequest.Type_ ≠ crypto_SSEC then .error .ErrInvalidSseHeader
    else .ok sseRequest.SseCustomerKey
  else if multipart.Metadata.SseRequest.Type_ = crypto_S3 then
    .ok multipart.Metadata.EncryptionKey
  else if multipart.Metadata.SseRequest.Type_ = crypto_S3KMS then .error .ErrNotImplemented
  else .ok []

/-- The statements of `PutObjectPart` from the return of `cluster.Put` on: `outcome`
is what `cluster.Put` returned and `limited` the content of the limited reader it was
given. -/
def PutObjectPartAfterPut (yig : YigStorage) (multipart : Multipart) (cluster : Cluster)
    (initializationVector : List UInt8) (partId : Int) (size : Int) (data : DataReader)
    (md5Hex : String) (sseRequest : SseRequest) (limited : List UInt8)
    (outcome : PutOutcome) : PutObjectPartResult × Option ApiError × List Event :=
  let result := PutObjectPartResult.zero
  let poolName := multipart.Metadata.Pool
  let put := Event.BackendPut cluster.ID poolName outcome
  match outcome.err with
  | some err => (result, some err, [put])
  | none =>
  -- should the metadata update fail, the object is queued for asynchronous removal
  let maybeObjectToRecycle : objectToRecycle :=
    { location := cluster.ID, pool := poolName, objectId := outcome.objectId,
      objectType := .ObjectTypeMultipart }
  if wrapInt64 outcome.bytesWritten < size then
    (result, some .ErrIncompleteBody, [put, .Recycle maybeObjectToRecycle])
  else
  let calculatedMd5 := hexEncodeToString (yig.md5Sum (limited.take outcome.bytesRead))
  if md5Hex ≠ "" ∧ md5Hex ≠ calculatedMd5 then
    (result, some .ErrBadDigest, [put, .Recycle maybeObjectToRecycle])
  else
  match data.verify with
  | some (_, some err) => (result, some err, [put, .Recycle maybeObjectToRecycle])
  | _ =>
  let part : Part :=
    { PartNumber := partId, Size := size, ObjectId := outcome.objectId, Offset := 0,
      Etag := calculatedMd5, LastModified := yig.formatTime yig.nowUnixNano,
      InitializationVector := initializationVector }
  let commit := yig.MetaPutObjectPart multipart part
  let committed := Event.MetaPutObjectPart multipart.UploadId part commit.2
  match commit.2 with
  | some err => (result, some err, [put, committed, .Recycle maybeObjectToRecycle])
  | none =>
  -- remove possible old object in Ceph
  let old : List Event :=
    match multipart.Parts.lookup partId with
    | some part =>
      [.Recycle { location := multipart.Metadata.Location, pool := multipart.Metadata.Pool,
                  objectType := .ObjectTypeMultipart, objectId := part.ObjectId }]
    | none => []
  ({ result with
      ETag := calculatedMd5
      SseType := sseRequest.Type_
      SseAwsKmsKeyIdBase64 := yig.base64 sseRequest.SseAwsKmsKeyId.toUTF8.toList
      SseCustomerAlgorithm := sseRequest.SseCustomerAlgorithm
      SseCustomerKeyMd5Base64 := yig.base64 sseRequest.SseCustomerKey
      DeltaSize := { StorageClass := multipart.Metadata.StorageClass, Delta := commit.1 } },
    none, [put, committed] ++ old)

/-- Function `PutObjectPart`: the statements up to the call of `cluster.Put`, followed by
`PutObjectPartAfterPut`. -/
def PutObjectPart (yig : YigStorage) (reqCtx : RequestContext) (credential : Credential)
    (uploadId : String) (partId : Int) (size : Int) (data : DataReader) (md5Hex : String)
    (sseRequest : SseRequest) : PutObjectPartResult × Option ApiError × List Event :=
  let result := PutObjectPartResult.zero
  match reqCtx.BucketInfo with
  | none => (result, some .ErrNoSuchBucket, [])
  | some bucket =>
  match yig.GetMultipart reqCtx.BucketName reqCtx.ObjectName uploadId with
  | .error err => (result, some err, [])
  | .ok multipart =>
  if size > MAX_PART_SIZE then (result, some .ErrEntityTooLarge, [])
  else
  match PutObjectPartAcl yig.env bucket credential with
  | some err => (result, some err, [])
  | none =>
  match partEncryptionKey multipart sseRequest with
  | .error err => (result, some err, [])
  | .ok encryptionKey =>
  match yig.GetClusterByFsName multipart.Metadata.Location with
  | .error err => (result, some err, [])
  | .ok cluster =>
  match (if encryptionKey.length ≠ 0 then yig.newInitializationVector else .ok []) with
  | .error err => (result, some err, [])
  | .ok initializationVector =>
  match yig.wrapEncryptionReader encryptionKey initializationVector with
  | some err => (result, some err, [])
  | none =>
  let limited := data.content.take size.toNat
  PutObjectPartAfterPut yig multipart cluster initializationVector partId size data md5Hex
    sseRequest limited
    (cluster.Put multipart.Metadata.Pool limited encryptionKey initializationVector)

/-- The statements of `CopyObjectPart` from the return of `cephCluster.Put` on. The
named result `result` already carries the ETag when the operation fails after the
short-write test. -/
def CopyObjectPartAfterPut (yig : YigStorage) (bucketName : String) (multipart : Multipart)
    (cephCluster : Cluster) (initializationVector : List UInt8) (partId : Int) (size : Int)
    (credential : Credential) (limited : List UInt8) (outcome : PutOutcome) :
    PutObjectPartResult × Option ApiError × List Event :=
  let result := PutObjectPartResult.zero
  let poolName := multipart.Metadata.Pool
  let put := Event.BackendPut cephCluster.ID poolName outcome
  match outcome.err with
  | some err => (result, some err, [put])
  | none =>
  let maybeObjectToRecycle : objectToRecycle :=
    { location := cephCluster.ID, pool := poolName, objectId := outcome.objectId,
      objectType := .ObjectTypeMultipart }
  if wrapInt64 outcome.bytesWritten < size then
    (result, some .ErrIncompleteBody, [put, .Recycle maybeObjectToRecycle])
  else
  let result := { result with
    ETag := hexEncodeToString (yig.md5Sum (limited.take outcome.bytesRead)) }
  match yig.GetBucket bucketName with
  | .error err => (result, some err, [put, .Recycle maybeObjectToRecycle])
  | .ok bucket =>
  match CopyObjectPartAcl yig.env bucket credential with
  | some err => (result, some err, [put, .Recycle maybeObjectToRecycle])
  | none =>
  -- a nil initialization vector becomes the empty slice; both are the empty list here
  let now := yig.nowUnixNano
  let part : Part :=
    { PartNumber := partId, Size := size, ObjectId := outcome.objectId, Offset := 0,
      Etag := result.ETag, LastModified := yig.formatTime now,
      InitializationVector := initializationVector }
  let result := { result with LastModified := now }
  let commit := yig.MetaPutObjectPart multipart part
  let committed := Event.MetaPutObjectPart multipart.UploadId part commit.2
  match commit.2 with
  | some err => (result, some err, [put, committed, .Recycle maybeObjectToRecycle])
  | none =>
  -- remove possible old object in Ceph
  let old : List Event :=
    match multipart.Parts.lookup partId with
    | some part =>
      [.Recycle { location := multipart.Metadata.Location, pool := multipart.Metadata.Pool,
                  objectId := part.ObjectId, objectType := .ObjectTypeNormal }]
    | none => []
  ({ result with
      DeltaSize := { StorageClass := multipart.Metadata.StorageClass, Delta := commit.1 } },
    none, [put, committed] ++ old)

/-- Function `CopyObjectPart`: the statements up to the call of `cephCluster.Put`,
followed by `CopyObjectPartAfterPut`; `data` is the content of the reader. -/
def CopyObjectPart (yig : YigStorage) (bucketName objectName uploadId : String)
    (partId : Int) (size : Int) (data : List UInt8) (credential : Credential)
    (sseRequest : SseRequest) : PutObjectPartResult × Option ApiError × List Event :=
  let result := PutObjectPartResult.zero
  match yig.GetMultipart bucketName objectName uploadId with
  | .error err => (result, some err, [])
  | .ok multipart =>
  if size > MAX_PART_SIZE then (result, some .ErrEntityTooLarge, [])
  else
  match partEncryptionKey multipart sseRequest with
  | .error err => (result, some err, [])
  | .ok encryptionKey =>
  match yig.GetClusterByFsName multipart.Metadata.Location with
  | .error err => (result, some err, [])
  | .ok cephCluster =>
  match (if encryptionKey.length ≠ 0 then yig.newInitializationVector else .ok []) with
  | .error err => (result, some err, [])
  | .ok initializationVector =>
  match yig.wrapEncryptionReader encryptionKey initializationVector with
  | some err => (result, some err, [])
  | none =>
  let limited := data.take size.toNat
  CopyObjectPartAfterPut yig bucketName multipart cephCluster initializationVector partId size
    credential limited
    (cephCluster.Put multipart.Metadata.Pool limited encryptionKey initializationVector)

/-- The assignment `part.Offset = totalSize` through the pointer stored under key `k`
of the parts map. -/
def setOffset (parts : PartsMap) (k : Int) (offset : Int) : PartsMap :=
  parts.map fun e => if e.1 = k then (e.1, { e.2 with Offset := offset }) else e

/-- The validation loop of `CompleteMultipartUpload`,
`for i := 0; i < len(uploadedParts); i++`, from iteration `i` on, over the entries
still to visit; `n` is `len(uploadedParts)`. The state of the loop is the parts map
(whose offsets the loop assigns), `totalSize` and the bytes written so far to
`md5Writer`. The result is the error with which the operation returns, or the final
state. -/
def completeLoop (n : Nat) :
    List CompletePart → Nat → PartsMap → Int → List UInt8 →
      Except ApiError (PartsMap × Int × List UInt8)
  | [], _, parts, totalSize, written => .ok (parts, totalSize, written)
  | uploaded :: rest, i, parts, totalSize, written =>
    if uploaded.PartNumber ≠ (i : Int) + 1 then .error .ErrInvalidPart
    else
      match parts.lookup ((i : Int) + 1) with
      | none => .error .ErrInvalidPart
      | some part =>
        if part.Size < MIN_PART_SIZE ∧ part.PartNumber ≠ (n : Int) then
          .error (.PartTooSmall part.Size part.PartNumber part.Etag)
        else if part.Etag ≠ uploaded.ETag then .error .ErrInvalidPart
        else
          match hexDecodeString part.Etag with
          | none => .error .ErrInvalidPart
          | some etagBytes =>
            completeLoop n rest (i + 1) (setOffset parts ((i : Int) + 1) totalSize)
              (wrapInt64 (totalSize + part.Size)) (written ++ etagBytes)

/-- The object that `CompleteMultipartUpload` adds to the objects table: the struct
literal `&meta.Object{...}` followed by `object.VersionId = object.GenVersionId(...)`.
`multipart` is the multipart after the validation loop, `etag` is `result.ETag`. -/
def completedObject (yig : YigStorage) (reqCtx : RequestContext) (bucket : Bucket)
    (multipart : Multipart) (totalSize : Int) (etag : String) : Object :=
  let now := yig.nowUnixNano
  let object : Object :=
    { Name := reqCtx.ObjectName
      BucketName := reqCtx.BucketName
      OwnerId := multipart.Metadata.OwnerId
      Pool := multipart.Metadata.Pool
      Location := multipart.Metadata.Location
      ObjectId := ""
      Size := totalSize
      LastModifiedTime := now
      Etag := etag
      ContentType := multipart.Metadata.ContentType
      Parts := multipart.Parts
      ACL := multipart.Metadata.Acl
      NullVersion := if bucket.Versioning = BucketVersioningEnabled then false else true
      DeleteMarker := false
      SseType := multipart.Metadata.SseRequest.Type_
      EncryptionKey := multipart.Metadata.CipherKey
      InitializationVector := []
      CustomAttributes := multipart.Metadata.Attrs
      Type_ := .ObjectTypeMultipart
      StorageClass := multipart.Metadata.StorageClass
      CreateTime := toUint64 now
      VersionId := "" }
  { object with VersionId := yig.GenVersionId object bucket.Versioning }

/-- The statement `if eldObject := reqCtx.ObjectInfo; eldObject != nil { ... }` of
`CompleteMultipartUpload`, which deletes the freezer row of a Glacier object that is
overwritten: the error with which the operation returns (if any) and the effects. -/
def deleteOldFreezer (yig : YigStorage) (reqCtx : RequestContext) (bucket : Bucket)
    (object : Object) : Option ApiError × List Event :=
  match reqCtx.ObjectInfo with
  | none => (none, [])
  | some eldObject =>
    if eldObject.StorageClass = ObjectStorageClassGlacier ∧
        bucket.Versioning ≠ BucketVersioningEnabled then
      match yig.GetFreezer object.BucketName object.Name object.VersionId with
      | .ok freezer =>
        (yig.DeleteFreezer freezer, [.DeleteFreezer freezer (yig.DeleteFreezer freezer)])
      | .error err => if err ≠ .ErrNoSuchKey then (some err, []) else (none, [])
    else (none, [])

/-- Function `CompleteMultipartUpload`. -/
def CompleteMultipartUpload (yig : YigStorage) (reqCtx : RequestContext)
    (credential : Credential) (uploadId : String) (uploadedParts : List CompletePart) :
    CompleteMultipartResult × Option ApiError × List Event :=
  let result := CompleteMultipartResult.zero
  let bucketName := reqCtx.BucketName
  let objectName := reqCtx.ObjectName
  match reqCtx.BucketInfo with
  | none => (result, some .ErrNoSuchBucket, [])
  | some bucket =>
  match CompleteMultipartUploadAcl yig.env bucket credential with
  | some err => (result, some err, [])
  | none =>
  match yig.GetMultipart bucketName objectName uploadId with
  | .error err => (result, some err, [])
  | .ok multipart =>
  match completeLoop uploadedParts.length uploadedParts 0 multipart.Parts 0 [] with
  | .error err => (result, some err, [])
  | .ok (parts, totalSize, written) =>
  -- the loop assigned the offsets through the pointers of `multipart.Parts`
  let multipart := { multipart with Parts := parts }
  let result := { result with
    ETag := hexEncodeToString (yig.md5Sum written) ++ "-" ++ toString uploadedParts.length }
  -- add to objects table
  let object := completedObject yig reqCtx bucket multipart totalSize result.ETag
  let freezerStep := deleteOldFreezer yig reqCtx bucket object
  match freezerStep.1 with
  | some err => (result, some err, freezerStep.2)
  | none =>
  let commit := yig.MetaPutObject reqCtx object multipart false
  let committed := Event.MetaPutObject object multipart commit
  match commit with
  | some err => (result, some err, freezerStep.2 ++ [committed])
  | none =>
  let sseRequest := multipart.Metadata.SseRequest
  let result := { result with
    ObjectSize := object.Size
    ContentType := object.ContentType
    CreateTime := object.CreateTime
    SseType := sseRequest.Type_
    SseAwsKmsKeyIdBase64 := yig.base64 sseRequest.SseAwsKmsKeyId.toUTF8.toList
    SseCustomerAlgorithm := sseRequest.SseCustomerAlgorithm
    SseCustomerKeyMd5Base64 := yig.base64 sseRequest.SseCustomerKey }
  let removeOld : List Event :=
    match reqCtx.ObjectInfo with
    | some eldObject =>
      if bucket.Versioning ≠ BucketVersioningEnabled then [.RemoveOldObject eldObject] else []
    | none => []
  (result, none,
    freezerStep.2 ++
      [committed,
        .CacheRemove (bucketName ++ ":" ++ objectName ++ ":" ++ object.VersionId),
        .DataCacheRemove (bucketName ++ ":" ++ objectName ++ ":" ++ object.VersionId)] ++
      removeOld)

/-- The struct `datatype.ListPartsRequest`, with the fields the embedded code reads. -/
structure ListPartsRequest where
  EncodingType : String
  UploadId : String
  MaxParts : Int
  PartNumberMarker : Int
  deriving DecidableEq, Repr

/-- The struct `datatype.Part`, an entry of a parts listing. -/
structure datatype.Part where
  PartNumber : Int
  ETag : String
  LastModified : String
  Size : Int
  deriving DecidableEq, Repr

/-- The structs `datatype.Owner` and `datatype.Initiator` of a parts listing. -/
structure datatype.Owner where
  ID : String
  DisplayName : String
  deriving DecidableEq, Repr

/-- The struct `datatype.ListPartsResponse`; `StorageClass` is the storage class
before `ToString()` renders it as text. -/
structure ListPartsResponse where
  Bucket : String
  Key : String
  UploadId : String
  Initiator : datatype.Owner
  Owner : datatype.Owner
  StorageClass : StorageClass
  PartNumberMarker : Int
  NextPartNumberMarker : Int
  MaxParts : Int
  IsTruncated : Bool
  EncodingType : String
  Parts : List datatype.Part
  deriving DecidableEq, Repr

/-- Go zero value of `datatype.ListPartsResponse`. -/
def ListPartsResponse.zero : ListPartsResponse :=
  ⟨"", "", "", ⟨"", ""⟩, ⟨"", ""⟩, 0, 0, 0, 0, false, "", []⟩

/-- The functions of other packages that `ListObjectParts` calls, taken as parameters:
`iam.GetCredentialByUserId` and `url.QueryEscape`. -/
structure ListPartsEnv where
  GetCredentialByUserId : String → Except ApiError Credential
  QueryEscape : String → String

/-- The struct literal `datatype.Part{...}` that `ListObjectParts` builds for the
stored part `p` with number `i`. -/
def listPartsEntry (i : Int) (p : Part) : datatype.Part :=
  { PartNumber := i
    ETag := "\"" ++ p.Etag ++ "\""
    LastModified := p.LastModified
    Size := p.Size }

/-- The loop `for i := request.PartNumberMarker + 1; i <= MAX_PART_NUMBER; i++` of
`ListObjectParts`, from part number `i` on, with the number of iterations that are
left until `i` exceeds `MAX_PART_NUMBER`; the result is `result.Parts` after the
loop. -/
def listPartsLoop (parts : PartsMap) (maxParts : Int) :
    Nat → Int → List datatype.Part → List datatype.Part
  | 0, _, listed => listed
  | left + 1, i, listed =>
    match parts.lookup i with
    | some p =>
      let listed := listed ++ [listPartsEntry i p]
      if (listed.length : Int) > maxParts then listed
      else listPartsLoop parts maxParts left (i + 1) listed
    | none => listPartsLoop parts maxParts left (i + 1) listed

/-- The statements of `ListObjectParts` after its loop; `listed` is `result.Parts` as
the loop left it. The result is `none` when the Go code panics. -/
def ListObjectPartsAfterLoop (iam : ListPartsEnv) (bucketName objectName : String)
    (request : ListPartsRequest) (multipart : Multipart) (listed : List datatype.Part) :
    Option (ListPartsResponse × Option ApiError) :=
  let initiatorId := multipart.Metadata.InitiatorId
  let ownerId := multipart.Metadata.OwnerId
  let result := ListPartsResponse.zero
  let paged : Option ListPartsResponse :=
    if (listed.length : Int) = wrapInt64 (request.MaxParts + 1) then
      -- `result.Parts[request.MaxParts]` panics when the index is out of range, as it
      -- is for `MaxParts = -1` and an empty list
      if request.MaxParts < 0 then none
      else
        match listed.get? request.MaxParts.toNat with
        | none => none
        | some part =>
          some { result with
            IsTruncated := true
            NextPartNumberMarker := part.PartNumber
            Parts := listed.take request.MaxParts.toNat }
    else some { result with Parts := listed }
  match paged with
  | none => none
  | some result =>
  match iam.GetCredentialByUserId ownerId with
  | .error err => some (result, some err)
  | .ok user =>
  let result := { result with Owner := ⟨user.ExternUserId, user.DisplayName⟩ }
  match iam.GetCredentialByUserId initiatorId with
  | .error err => some (result, some err)
  | .ok user =>
  let result := { result with
    Initiator := ⟨user.ExternUserId, user.DisplayName⟩
    Bucket := bucketName
    Key := objectName
    UploadId := request.UploadId
    StorageClass := multipart.Metadata.StorageClass
    PartNumberMarker := request.PartNumberMarker
    MaxParts := request.MaxParts
    EncodingType := request.EncodingType }
  -- only "url" encoding is supported for now
  if result.EncodingType ≠ "" then
    some ({ result with Key := iam.QueryEscape result.Key }, none)
  else some (result, none)

/-- Function `ListObjectParts`: the statements up to its loop and the loop, followed by
`ListObjectPartsAfterLoop`; `none` is a Go panic. -/
def ListObjectParts (yig : YigStorage) (iam : ListPartsEnv) (credential : Credential)
    (bucketName objectName : String) (request : ListPartsRequest) :
    Option (ListPartsResponse × Option ApiError) :=
  let result := ListPartsResponse.zero
  match yig.GetMultipart bucketName objectName request.UploadId with
  | .error err => some (result, some err)
  | .ok multipart =>
  let ownerId := multipart.Metadata.OwnerId
  match yig.GetBucket bucketName with
  | .error err => some (result, some err)
  | .ok bucket =>
  match ListObjectPartsAcl yig.env bucket credential ownerId with
  | some err => some (result, some err)
  | none =>
  let first := wrapInt64 (request.PartNumberMarker + 1)
  ListObjectPartsAfterLoop iam bucketName objectName request multipart
    (listPartsLoop multipart.Parts request.MaxParts (MAX_PART_NUMBER - first + 1).toNat first [])

/-! ## `api/datatype/versioning.go` -/

/-- The struct `datatype.Versioning`; the field `XMLName` belongs to the decoder. -/
structure Versioning where
  Status : BucketVersioningType
  deriving DecidableEq, Repr

/-- Function `VersioningFromXml`. `xmlUnmarshal` is `xml.Unmarshal(xmlBytes, &versioning)`,
outside the embedded sources: the value it leaves in `versioning` and its error
(`none` is `nil`). -/
def VersioningFromXml (xmlUnmarshal : List UInt8 → Versioning × Option String)
    (xmlBytes : List UInt8) : Versioning × Option ApiError :=
  let versioning := (xmlUnmarshal xmlBytes).1
  match (xmlUnmarshal xmlBytes).2 with
  | some _ => (versioning, some .ErrInvalidVersioning)
  | none =>
    if versioning.Status ≠ BucketVersioningEnabled ∧
        versioning.Status ≠ BucketVersioningSuspended then
      (versioning, some .ErrInvalidVersioning)
    else (versioning, none)

/-! ## `meta/client/tidbclient`: statements, transactions and the store

The SQL store behind `t.Client` is outside the embedded sources. The model names the
statements the embedded functions execute and takes the store's answers as
parameters (`TidbClient`). -/

/-- The statements executed by `PutObject`: the part-row insert
`p.GetCreateSql(bucketName, objectName, version)`, the object-row insert
`object.GetCreateSql()`, the statements of `t.DeleteMultipart(multipart, tx)` (taken as
one, `DeleteMultipart` is outside the embedded sources) and the usage update
`update buckets set usages= usages + ? where bucketname=?`. -/
inductive Statement where
  | CreatePart (part : Part) (bucketName objectName version : String)
  | CreateObject (object : Object)
  | DeleteMultipart (multipart : Multipart)
  | UpdateUsage (size : Int) (bucketName : String)
  /-- The bucket-row insert `bucket.GetCreateSql()` of `CheckAndPutBucket`. -/
  | CreateBucket (bucket : Bucket)
  deriving DecidableEq, Repr

/-- A transaction `tx` in progress: the statements executed in it so far without
error, in order. -/
abbrev Tx := List Statement

/-- What a call left in the store: the statements made durable, in order (those of a
committed transaction; none after a rollback). -/
abbrev Persisted := List Statement

/-- The constant `math.MaxUint64`. -/
def MaxUint64 : Nat := 18446744073709551615

/-- A Go `string` where its bytes matter (comparison, slicing, concatenation): the
sequence of its bytes. -/
abbrev GoString := List UInt8

/-- The bytes of a Go string given as text: its UTF-8 encoding. -/
def goString (s : String) : GoString := s.toUTF8.data.toList

/-- A row of the table `objects` (the column set of the `select` statements of
`GetObject`). The column `version` is an unsigned integer; a version id, the string
Go scans it into, is the decimal text of that number. -/
structure ObjectRow where
  bucketname : String
  name : String
  version : Nat
  location : String
  pool : String
  ownerid : String
  size : Int
  objectid : String
  lastmodifiedtime : String
  etag : String
  contenttype : String
  customattributes : String
  acl : String
  nullversion : Bool
  deletemarker : Bool
  ssetype : String
  encryptionkey : List UInt8
  initializationvector : List UInt8
  type_ : ObjectType
  storageclass : StorageClass
  createtime : Nat
  deriving DecidableEq, Repr

/-- The comparison `a < b` of two strings by the store, byte by byte (a binary
collation), which is also the order of Go strings. -/
def bytesLess : GoString → GoString → Bool
  | _, [] => false
  | [], _ :: _ => true
  | a :: s, b :: t => a.toNat < b.toNat || (a == b && bytesLess s t)

/-- The predicate `name like pattern` of the store on bytes: `%` (37) stands for any
sequence, `_` (95) for any one byte, and `\` (92) takes the next byte of the pattern
literally. -/
def sqlLike : GoString → GoString → Bool
  | [], s => s.isEmpty
  | c :: p, s =>
    if c = 37 then s.tails.any (sqlLike p)
    else if c = 95 then
      match s with
      | [] => false
      | _ :: rest => sqlLike p rest
    else if c = 92 then
      match p, s with
      | d :: q, x :: rest => x == d && sqlLike q rest
      | [], x :: rest => x == c && rest.isEmpty
      | _, [] => false
    else
      match s with
      | [] => false
      | x :: rest => x == c && sqlLike p rest

/-- The `order by` clauses of the embedded `select` statements on `objects`. The
bucket name is fixed by the `where` clause, so `order by bucketname,name` orders by
name. -/
inductive OrderBy where
  | unordered
  | name
  | nameVersion
  | version
  deriving DecidableEq, Repr

/-- A `select ... from objects` statement of the embedded functions with its
arguments: the conjuncts of the `where` clause that are present (`bucketname=?` always
is), the `order by` clause and the `limit`. -/
structure Select where
  bucketName : String
  nameEq : Option GoString := none
  nameGt : Option GoString := none
  nameGe : Option GoString := none
  nameLike : Option GoString := none
  versionEq : Option Nat := none
  versionGt : Option Nat := none
  versionGe : Option Nat := none
  orderBy : OrderBy := .unordered
  limit : Option Int := none
  deriving DecidableEq, Repr

/-- A row of the table `buckets` (the column set of the `select` statement of
`GetBucket`). -/
structure BucketRow where
  bucketname : String
  acl : String
  cors : String
  logging : String
  lc : String
  uid : String
  policy : String
  website : String
  encryption : String
  createtime : String
  usages : Int
  versioning : BucketVersioningType
  deriving DecidableEq, Repr

/-- The receiver `t *TidbClient`. The answers of the SQL store behind `t.Client` are
parameters: the error of `t.Client.Begin()`, the error of `Exec` for a statement
given the statements executed before it in the same transaction, the error of
`tx.Commit()`, the rows of a `select` on `objects` and of the `select` of `getParts`
on `objectpart` (bucket name, object name, version). So are the helpers outside the
embedded sources: `time.Parse` with the layout of the store, `json.Unmarshal` into
an ACL and into custom attributes (`none` is an error), `Object.GenVersionId` and the
uploads returned by `t.ListMultipartUploads(bucketName, "", "", "", "", "", maxUploads)`.
`PiggybackUpdateUsage` is `helper.CONFIG.PiggybackUpdateUsage`. For the table
`buckets`, `QueryRowBucket` is what `QueryRow(...).Scan(...)` of `GetBucket` yields for
a bucket name (`none` is `sql.ErrNoRows`, `some (.error cause)` another error), and
`unmarshalColumn column text` tells whether `json.Unmarshal` accepts the text of the
column `cors`, `logging`, `lc`, `website` or `encryption`. -/
structure TidbClient where
  PiggybackUpdateUsage : Bool
  Begin : Option String
  Exec : Tx → Statement → Option String
  Commit : Tx → Option String
  Query : Select → Except String (List ObjectRow)
  QueryParts : String → String → Nat → Except String (List Part)
  parseTime : String → Option Int
  unmarshalAcl : String → Option Acl
  unmarshalAttrs : String → Option (List (String × String))
  GenVersionId : ObjectRow → BucketVersioningType → Nat
  ListMultipartUploads : String → Int → Except ApiError (List String)
  QueryRowBucket : String → Option (Except String BucketRow)
  unmarshalColumn : String → String → Bool

/-- Function `UpdateUsage`, `tx` being `none` for a `nil` transaction. The result is
the error and the statements the call executed without error: they join the
transaction `tx` when there is one and are durable at once otherwise. -/
def UpdateUsage (t : TidbClient) (bucketName : String) (size : Int) (tx : Option Tx) :
    Option ApiError × List Statement :=
  if !t.PiggybackUpdateUsage then (none, [])
  else
    let sqlStr := Statement.UpdateUsage size bucketName
    match tx with
    | none =>
      match t.Exec [] sqlStr with
      | some _ => (some (.InTidbFatalError "UpdateUsage err"), [])
      | none => (none, [sqlStr])
    | some executed =>
      match t.Exec executed sqlStr with
      | some _ => (some (.InTidbFatalError "UpdateUsage err"), [])
      | none => (none, [sqlStr])

/-- The deferred function of the transactional operations,
`if err == nil { err = tx.Commit() }; if err != nil { tx.Rollback() }`, run with the
value `err` of the named result at the `return` and the transaction `tx`: the error
the operation returns and what is durable. -/
def commitOrRollback (t : TidbClient) (err : Option ApiError) (tx : Tx) :
    Option ApiError × Persisted :=
  match err with
  | some e => (some e, [])
  | none =>
    match t.Commit tx with
    | some cause => (some (.Other cause), [])
    | none => (none, tx)

/-- The loop `for _, p := range object.Parts` of `PutObject` over the entries still
to visit, in the transaction `tx`: the error with which `PutObject` returns, or the
transaction after the loop. The entries are visited in list order (Go leaves the
order of a map range open). -/
def putPartRows (t : TidbClient) (object : Object) (version : String) :
    List (Int × Part) → Tx → Except ApiError Tx
  | [], tx => .ok tx
  | (_, p) :: rest, tx =>
    let psql := Statement.CreatePart p object.BucketName object.Name version
    match t.Exec tx psql with
    | some _ => .error (.InTidbFatalError "PutObject transaction executes err")
    | none => putPartRows t object version rest (tx ++ [psql])

/-- The body of `PutObject` between `Begin` and the deferred function: the value of
the named result `err` at the `return` and the transaction. The error of the
object-row insert is assigned to `err` and not tested. -/
def PutObjectBody (t : TidbClient) (object : Object) (multipart : Option Multipart)
    (updateUsage : Bool) : Option ApiError × Tx :=
  let version := toString (MaxUint64 - object.CreateTime)
  match putPartRows t object version object.Parts [] with
  | .error err => (some err, [])
  | .ok tx =>
    let sql := Statement.CreateObject object
    -- `_, err = tx.Exec(sql, args...)`
    let tx := match t.Exec tx sql with
      | some _ => tx
      | none => tx ++ [sql]
    let deleted : Option ApiError × Tx :=
      match multipart with
      | none => (none, tx)
      | some multipart =>
        match t.Exec tx (.DeleteMultipart multipart) with
        | some _ => (some (.InTidbFatalError "PutObject delete multipart err"), tx)
        | none => (none, tx ++ [.DeleteMultipart multipart])
    match deleted.1 with
    | some err => (some err, deleted.2)
    | none =>
      let tx := deleted.2
      if updateUsage then
        let usage := UpdateUsage t object.BucketName object.Size (some tx)
        match usage.1 with
        | some _ => (some (.InTidbFatalError "PutObject update usage err"), tx ++ usage.2)
        | none => (none, tx ++ usage.2)   -- `return nil`
      else (none, tx)   -- `return nil`

/-- Function `PutObject` (`multipart` being `none` for `nil`): the returned error and
what is durable in the store afterwards. -/
def PutObject (t : TidbClient) (object : Object) (multipart : Option Multipart)
    (updateUsage : Bool) : Option ApiError × Persisted :=
  match t.Begin with
  | some _ => (some (.InTidbFatalError "PutObject transaction starts err"), [])
  | none =>
    let body := PutObjectBody t object multipart updateUsage
    commitOrRollback t body.1 body.2

/-- Function `GetBucket` of `tidbclient/bucket.go`; the fields of `Bucket` that the
embedding does not carry (CORS, logging, lifecycle, website, encryption, creation time,
usage) are decoded for their errors only. -/
def GetBucket (t : TidbClient) (bucketName : String) : Except ApiError Bucket :=
  match t.QueryRowBucket bucketName with
  | none => .error .ErrNoSuchBucket
  | some (.error _) => .error (.InTidbFatalError "GetBucket scan row error")
  | some (.ok row) =>
    match t.parseTime row.createtime with
    | none => .error (.InTidbFatalError "GetBucket parse time error")
    | some _ =>
    match t.unmarshalAcl row.acl with
    | none => .error (.InTidbFatalError "GetBucket unmarshal acl error")
    | some acl =>
    if !t.unmarshalColumn "cors" row.cors then
      .error (.InTidbFatalError "GetBucket unmarshal cors error")
    else if !t.unmarshalColumn "logging" row.logging then
      .error (.InTidbFatalError "GetBucket unmarshal logging error")
    else if !t.unmarshalColumn "lc" row.lc then
      .error (.InTidbFatalError "GetBucket unmarshal lifecycle error")
    else if !t.unmarshalColumn "website" row.website then
      .error (.InTidbFatalError "GetBucket unmarshal website error")
    else if !t.unmarshalColumn "encryption" row.encryption then
      .error (.InTidbFatalError "GetBucket unmarshal encryption error")
    else
      .ok { Name := row.bucketname, OwnerId := row.uid, ACL := acl,
            Policy := row.policy.toUTF8.data.toList, Versioning := row.versioning }

/-- Function `CheckAndPutBucket`: the returned `processed` and error, and the
statements it left in the store. -/
def CheckAndPutBucket (t : TidbClient) (bucket : Bucket) :
    Bool × Option ApiError × Persisted :=
  match GetBucket t bucket.Name with
  | .ok _ => (false, none, [])
  | .error err =>
    if err ≠ .ErrNoSuchBucket then (false, some err, [])
    else
      let processed := true
      let sql := Statement.CreateBucket bucket
      match t.Exec [] sql with
      | some _ =>
        (processed, some (.InTidbFatalError "CheckAndPutBucket transaction executes error"), [])
      | none => (processed, none, [sql])

/-! ## `meta/client/tidbclient/object.go`: reading objects -/

/-- The assignment `parts[k] = p` on a Go map. -/
def PartsMap.set (parts : PartsMap) (k : Int) (p : Part) : PartsMap :=
  if parts.any (fun e => e.1 == k) then parts.map fun e => if e.1 = k then (k, p) else e
  else parts ++ [(k, p)]

/-- Function `getParts` on the rows the store returns: the map and the error. A row
is scanned into a `Part` and stored under its part number. -/
def getParts (t : TidbClient) (bucketName objectName : String) (version : Nat) :
    PartsMap × Option String :=
  match t.QueryParts bucketName objectName version with
  | .error err => ([], some err)
  | .ok rows => (rows.foldl (fun parts p => PartsMap.set parts p.PartNumber p) [], none)

/-- The statements `sortedPartNum := make([]int64, len(parts))` and
`for k, v := range parts { sortedPartNum[k-1] = v.Offset }`. An index out of range
makes the Go program panic: the result is then `none`. -/
def buildPartsIndex (parts : PartsMap) : Option (List Int) :=
  parts.foldl
    (fun index e =>
      match index with
      | none => none
      | some sortedPartNum =>
        if (0 : Int) ≤ e.1 - 1 ∧ e.1 - 1 < (sortedPartNum.length : Int) then
          some (sortedPartNum.set (e.1 - 1).toNat e.2.Offset)
        else none)
    (some (List.replicate parts.length 0))

/-- The zero value of `Acl`. -/
def Acl.zero : Acl := ⟨"", ⟨[]⟩⟩

/-- The `row.Scan(...)` of `GetObject` and `GetLatestObjectVersion` into the fields of a
fresh `Object`; the columns `lastmodifiedtime`, `customattributes` and `acl` are
scanned into local strings and the other fields keep their zero values. -/
def scanObject (row : ObjectRow) : Object :=
  { Name := row.name
    BucketName := row.bucketname
    OwnerId := row.ownerid
    Pool := row.pool
    Location := row.location
    ObjectId := row.objectid
    Size := row.size
    LastModifiedTime := 0
    Etag := row.etag
    ContentType := row.contenttype
    Parts := []
    ACL := Acl.zero
    NullVersion := row.nullversion
    DeleteMarker := row.deletemarker
    SseType := row.ssetype
    EncryptionKey := row.encryptionkey
    InitializationVector := row.initializationvector
    CustomAttributes := []
    Type_ := row.type_
    StorageClass := row.storageclass
    CreateTime := row.createtime
    VersionId := toString row.version }

/-- The block `if object.Type == ObjectTypeMultipart { ... }` of `GetObject` and
`GetLatestObjectVersion`, which loads the parts and builds the index. `caller` is
the function name in the error message. The result is `none` when building the index
panics. -/
def loadParts (t : TidbClient) (caller : String) (object : Object) :
    Option (Except ApiError Object) :=
  if object.Type_ = .ObjectTypeMultipart then
    let partVersion := MaxUint64 - object.CreateTime
    let loaded := getParts t object.BucketName object.Name partVersion
    match loaded.2 with
    | some _ => some (.error (.InTidbFatalError (caller ++ " getParts error")))
    | none =>
      let object := { object with Parts := loaded.1 }
      -- build simple index for multipart
      if object.Parts.length ≠ 0 then
        match buildPartsIndex object.Parts with
        | none => none
        | some sortedPartNum => some (.ok { object with PartsIndex := some sortedPartNum })
      else some (.ok object)
  else some (.ok object)

/-- The statements of `GetObject` and `GetLatestObjectVersion` that follow a `Scan`
without error: parsing the time (layout `"2006-01-02 15:04:05"`), decoding ACL and
custom attributes, loading the parts. `setNames` is the pair of assignments
`object.Name = objectName; object.BucketName = bucketName` that only `GetObject`
makes. -/
def decodeObject (t : TidbClient) (caller : String) (setNames : Option (String × String))
    (row : ObjectRow) : Option (Except ApiError Object) :=
  let object := scanObject row
  match t.parseTime row.lastmodifiedtime with
  | none => some (.error (.InTidbFatalError (caller ++ " parse time error")))
  | some lastModifiedTime =>
    let object := { object with LastModifiedTime := lastModifiedTime }
    let object :=
      match setNames with
      | some (objectName, bucketName) =>
        { object with Name := objectName, BucketName := bucketName }
      | none => object
    match t.unmarshalAcl row.acl with
    | none => some (.error (.InTidbFatalError (caller ++ " unmarshal acl error")))
    | some acl =>
      let object := { object with ACL := acl }
      match t.unmarshalAttrs row.customattributes with
      | none =>
        some (.error (.InTidbFatalError (caller ++ " unmarshal customattributes error")))
      | some attrs =>
        let object := { object with CustomAttributes := attrs }
        loadParts t caller object

/-- Function `GetObject`; `version` is the number whose decimal text the Go argument
is, and the argument `tx`, which the function does not use, is left out. The result
is `none` when the function panics. -/
def GetObject (t : TidbClient) (bucketName objectName : String) (version : Nat) :
    Option (Except ApiError Object) :=
  match t.Query { bucketName := bucketName, nameEq := some (goString objectName),
                  versionEq := some version } with
  | .error _ => some (.error (.InTidbFatalError "GetObject scan row error"))
  | .ok [] => some (.error .ErrNoSuchKey)
  | .ok (row :: _) =>
    decodeObject t "GetObject" (some (objectName, bucketName)) row

/-- The loop `for rows.Next() { object = &Object{}; ... }` of `GetLatestObjectVersion`
over the rows still to read: `object` is the pointer assigned so far (`none` is
`nil`). -/
def latestVersionedLoop (t : TidbClient) :
    List ObjectRow → Option Object → Option (Except ApiError (Option Object))
  | [], object => some (.ok object)
  | row :: rest, _ =>
    match decodeObject t "GetLatestObjectVersion" none row with
    | none => none
    | some (.error err) => some (.error err)
    | some (.ok object) => latestVersionedLoop t rest (some object)

/-- The last statement of `GetLatestObjectVersion`, which chooses between the null
version and the versioned object: `helper.Ternary(a.After(b), nullObject, object)`
in the case where both exist. -/
def chooseLatest (nullObject object : Option Object) : Except ApiError Object :=
  match nullObject, object with
  | none, none => .error .ErrNoSuchKey
  | none, some object => .ok object
  | some nullObject, none => .ok nullObject
  | some nullObject, some object =>
    .ok (if nullObject.LastModifiedTime > object.LastModifiedTime then nullObject else object)

/-- Function `GetLatestObjectVersion`. The transaction only reads, and its commit or
rollback in the deferred function does not change the returned values (the results
are not named). The result is `none` when the function panics. -/
def GetLatestObjectVersion (t : TidbClient) (bucketName objectName : String) :
    Option (Except ApiError Object) :=
  match t.Begin with
  | some _ =>
    some (.error (.InTidbFatalError "GetLatestObjectVersion transaction starts err"))
  | none =>
    match t.Query { bucketName := bucketName, nameEq := some (goString objectName),
                    versionEq := some 0 } with
    | .error _ =>
      some (.error (.InTidbFatalError "GetLatestObjectVersion transaction starts err"))
    | .ok nullRows =>
      -- `nullObjExists` is `nullRows.head?.isSome`
      let nullStep : Option (Except ApiError (Option Object)) :=
        match nullRows.head? with
        | none => some (.ok none)
        | some row =>
          match decodeObject t "GetLatestObjectVersion" none row with
          | none => none
          | some (.error err) => some (.error err)
          | some (.ok nullObject) => some (.ok (some nullObject))
      match nullStep with
      | none => none
      | some (.error err) => some (.error err)
      | some (.ok nullObject) =>
        match t.Query { bucketName := bucketName, nameEq := some (goString objectName),
                        versionGt := some 0, orderBy := .version, limit := some 1 } with
        | .error _ => some (.error (.InTidbFatalError "GetLatestObjectVersion query error"))
        | .ok rows =>
          match latestVersionedLoop t rows none with
          | none => none
          | some (.error err) => some (.error err)
          | some (.ok object) => some (chooseLatest nullObject object)

/-! ## `meta/client/tidbclient/bucket.go`: listing objects -/

/-- Function `strings.HasPrefix`. -/
def strings.HasPrefix (s prefix_ : GoString) : Bool := prefix_.isPrefixOf s

/-- Function `strings.HasSuffix`. -/
def strings.HasSuffix (s suffix : GoString) : Bool := suffix.isSuffixOf s

/-- Function `strings.TrimPrefix`. -/
def strings.TrimPrefix (s prefix_ : GoString) : GoString :=
  if strings.HasPrefix s prefix_ then s.drop prefix_.length else s

/-- The index of the first occurrence of `substr` in `s` at or after position `i`,
`s` being what follows position `i`; `-1` if there is none. -/
def strings.indexAfter (substr : GoString) : GoString → Nat → Int
  | [], i => if substr.isEmpty then (i : Int) else -1
  | c :: s, i =>
    if substr.isPrefixOf (c :: s) then (i : Int) else strings.indexAfter substr s (i + 1)

/-- Function `strings.Index`. -/
def strings.Index (s substr : GoString) : Int := strings.indexAfter substr s 0

/-- The call `strings.SplitN(s, sep, 2)` for a non-empty `sep`: `s` itself when `sep`
does not occur in it, else what stands before and after its first occurrence. -/
def strings.SplitN2 (s sep : GoString) : List GoString :=
  let i := strings.Index s sep
  if i = -1 then [s] else [s.take i.toNat, s.drop (i.toNat + sep.length)]

/-- The constant `MaxKeySuffix = string(0xFF)`. Converting the integer `0xFF` to a
string gives the UTF-8 encoding of the code point U+00FF, the two bytes `C3 BF`. -/
def MaxKeySuffix : GoString := [0xC3, 0xBF]

/-- The constant `NullVersion` (`"0"`), as the number a version id is the text of. -/
def NullVersion : Nat := 0

/-- The struct `datatype.Object`, an entry of an object listing; `OwnerID` is
`Owner.ID`, `LastModified` the time before it is rendered as text. -/
structure datatype.Object where
  Key : String
  OwnerID : String
  ETag : String
  LastModified : Int
  Size : Int
  StorageClass : StorageClass
  deriving DecidableEq, Repr

/-- The struct `datatype.VersionedObject`, an entry of a version listing, with the
fields the embedded code reads; `VersionId` is the number the version id is the text
of. -/
structure datatype.VersionedObject where
  Key : String
  VersionId : Nat
  DeleteMarker : Bool
  OwnerID : String
  ETag : String
  Size : Int
  StorageClass : StorageClass
  deriving DecidableEq, Repr

/-- The struct `ListObjectsInfo`. -/
structure ListObjectsInfo where
  IsTruncated : Bool
  NextMarker : GoString
  Objects : List datatype.Object
  Prefixes : List GoString
  deriving DecidableEq, Repr

/-- Go zero value of `ListObjectsInfo`. -/
def ListObjectsInfo.zero : ListObjectsInfo := ⟨false, [], [], []⟩

/-- The struct `VersionedListObjectsInfo`; a version-id marker is `none` when it is
the empty string. -/
structure VersionedListObjectsInfo where
  IsTruncated : Bool
  NextKeyMarker : GoString
  NextVersionIdMarker : Option Nat
  Objects : List datatype.VersionedObject
  Prefixes : List GoString
  deriving DecidableEq, Repr

/-- Go zero value of `VersionedListObjectsInfo`. -/
def VersionedListObjectsInfo.zero : VersionedListObjectsInfo := ⟨false, [], none, [], []⟩

/-- Modelled from the spec: the helper `ModifyMetaToObjectResult` is outside the
embedded sources; it renders the metadata of an object as a listing entry, as
`ListObjects` does inline (`o.Key = name`, owner, ETag, size, storage class). The
time is the parsed `lastmodifiedtime`, `0` when parsing fails (the callers ignore
that error). -/
def ModifyMetaToObjectResult (t : TidbClient) (objMeta : ObjectRow) : datatype.Object :=
  { Key := objMeta.name
    OwnerID := objMeta.ownerid
    ETag := objMeta.etag
    LastModified := (t.parseTime objMeta.lastmodifiedtime).getD 0
    Size := objMeta.size
    StorageClass := objMeta.storageclass }

/-- Modelled from the spec: the helper `ModifyMetaToVersionedObjectResult` is outside
the embedded sources; it renders the metadata of one version as an entry of a
version listing (key, version id, delete-marker flag, owner, ETag, size, storage
class). -/
def ModifyMetaToVersionedObjectResult (objMeta : ObjectRow) : datatype.VersionedObject :=
  { Key := objMeta.name
    VersionId := objMeta.version
    DeleteMarker := objMeta.deletemarker
    OwnerID := objMeta.ownerid
    ETag := objMeta.etag
    Size := objMeta.size
    StorageClass := objMeta.storageclass }

deriving instance DecidableEq for Except

/-- How the body of a `for rows.Next()` loop ends for one row: `next` at the end of
the body or at a `continue`, `stop` at a `break`, `fail` at a `return` with an
error. -/
inductive Flow (σ : Type) where
  | next (s : σ)
  | stop (s : σ)
  | fail (err : ApiError)

/-- A loop `for rows.Next() { ... }` over the rows still to read: the state after
the loop and the number of rows read (`loopcount`), or the error with which the
function returns. -/
def forRows {σ : Type} (body : σ → ObjectRow → Flow σ) :
    List ObjectRow → σ → Nat → Except ApiError (σ × Nat)
  | [], s, loopcount => .ok (s, loopcount)
  | row :: rest, s, loopcount =>
    match body s row with
    | .next s => forRows body rest s (loopcount + 1)
    | .stop s => .ok (s, loopcount + 1)
    | .fail err => .error err

/-- The variables of `ListObjects` that live across the iterations of its loops.
`commonPrefixes` is the key set of the Go map, in insertion order. -/
structure ListObjectsState where
  count : Nat
  exit : Bool
  lastMarker : GoString
  marker : GoString
  commonPrefixes : List GoString
  listInfo : ListObjectsInfo
  deriving DecidableEq, Repr

/-- The statements `count += 1; if count == maxKeys { listInfo.NextMarker = key }` of
`ListObjects`. -/
def ListObjectsState.counted (s : ListObjectsState) (maxKeys : Int) (key : GoString) :
    ListObjectsState :=
  let count := s.count + 1
  { s with
    count := count
    listInfo :=
      if (count : Int) = maxKeys then { s.listInfo with NextMarker := key } else s.listInfo }

/-- The statements `listInfo.IsTruncated = true; exit = true` of `ListObjects`. -/
def ListObjectsState.truncated (s : ListObjectsState) : ListObjectsState :=
  { s with exit := true, listInfo := { s.listInfo with IsTruncated := true } }

/-- The body of the loop `for rows.Next()` of `ListObjects` for one row. -/
def ListObjectsRow (t : TidbClient) (prefix_ delimiter : GoString) (maxKeys : Int)
    (s : ListObjectsState) (row : ObjectRow) : Flow ListObjectsState :=
  let name := goString row.name
  -- prepare next marker
  let s := { s with lastMarker := s.marker, marker := name }
  -- filter by prefix
  if !strings.HasPrefix name prefix_ then .next s
  -- filter by delete marker
  else if row.deletemarker then .next s
  else
    let subStr := strings.TrimPrefix name prefix_
    let n := strings.Index subStr delimiter
    -- filter by delimiter
    if delimiter.length ≠ 0 ∧ n ≠ -1 then
      let prefixKey := prefix_ ++ subStr.take (n + 1).toNat
      if s.lastMarker = prefixKey then
        -- skip this delimiter
        .stop { s with marker := prefixKey ++ MaxKeySuffix }
      else if prefixKey ∉ s.commonPrefixes then
        let s := s.counted maxKeys prefixKey
        if (s.count : Int) > maxKeys then .stop s.truncated
        else
          -- skip this delimiter
          .stop { s with commonPrefixes := s.commonPrefixes ++ [prefixKey],
                         marker := prefixKey ++ MaxKeySuffix }
      else .next s
    else
      match t.parseTime row.lastmodifiedtime with
      | none => .fail (.InTidbFatalError "ListObjects parse time error")
      | some lastt =>
        let o : datatype.Object :=
          { Key := row.name
            OwnerID := row.ownerid
            ETag := row.etag
            LastModified := lastt
            Size := row.size
            StorageClass := row.storageclass }
        let s := s.counted maxKeys name
        if s.count = 0 then .next s
        else if (s.count : Int) > maxKeys then .stop s.truncated
        else .next { s with listInfo := { s.listInfo with Objects := s.listInfo.Objects ++ [o] } }

/-- The `select` statement of one iteration of the outer loop of `ListObjects`. -/
def ListObjectsQuery (bucketName : String) (marker prefix_ : GoString) (maxKeys : Int) :
    Select :=
  if prefix_ = [] then
    if marker = [] then
      { bucketName := bucketName, orderBy := .name, limit := some maxKeys }
    else
      { bucketName := bucketName, nameGt := some marker, orderBy := .name,
        limit := some maxKeys }
  else
    -- prefix not empty
    let prefixPattern := prefix_ ++ [37]
    if marker = [] then
      { bucketName := bucketName, nameLike := some prefixPattern, orderBy := .name,
        limit := some maxKeys }
    else
      { bucketName := bucketName, nameGt := some marker, nameLike := some prefixPattern,
        orderBy := .name, limit := some maxKeys }

/-- The outer loop `for { ... }` of `ListObjects`, which queries again from the
marker until `exit` is set. `fuel` bounds the number of iterations; the result is
`none` when it is used up. -/
def ListObjectsLoop (t : TidbClient) (bucketName : String) (prefix_ delimiter : GoString)
    (maxKeys : Int) : Nat → ListObjectsState → Option (Except ApiError ListObjectsState)
  | 0, _ => none
  | fuel + 1, s =>
    match t.Query (ListObjectsQuery bucketName s.marker prefix_ maxKeys) with
    | .error _ => some (.error (.InTidbFatalError "ListObjects error"))
    | .ok rows =>
      match forRows (ListObjectsRow t prefix_ delimiter maxKeys) rows s 0 with
      | .error err => some (.error err)
      | .ok (s, loopcount) =>
        let s := if loopcount = 0 then { s with exit := true } else s
        if s.exit then some (.ok s)
        else ListObjectsLoop t bucketName prefix_ delimiter maxKeys fuel s

/-- Function `ListObjects`. `fuel` bounds the number of queries; the result is `none`
when it is used up. -/
def ListObjects (t : TidbClient) (bucketName : String) (marker prefix_ delimiter : GoString)
    (maxKeys : Int) (fuel : Nat) : Option (Except ApiError ListObjectsInfo) :=
  let start : ListObjectsState :=
    { count := 0, exit := false, lastMarker := [], marker := marker, commonPrefixes := [],
      listInfo := ListObjectsInfo.zero }
  match ListObjectsLoop t bucketName prefix_ delimiter maxKeys fuel start with
  | none => none
  | some (.error err) => some (.error err)
  | some (.ok s) => some (.ok { s.listInfo with Prefixes := s.commonPrefixes })

/-- The assignment `m[key] = nil` on a Go map used as a set, the keys being kept in
insertion order. -/
def setInsert {α : Type} [DecidableEq α] (m : List α) (key : α) : List α :=
  if key ∈ m then m else m ++ [key]

/-- The variables of `ListLatestObjects` that live across the iterations of its
loops; `previousNullObjectMeta` is declared anew, `nil`, in every iteration of the
outer loop. -/
structure ListLatestState where
  count : Nat
  exit : Bool
  objectMap : List String
  commonPrefixes : List GoString
  currentMarker : GoString
  previousNullObjectMeta : Option ObjectRow
  listInfo : ListObjectsInfo
  deriving DecidableEq, Repr

/-- The statements `count++; if count == maxKeys { listInfo.NextMarker = key }` of
`ListLatestObjects`. -/
def ListLatestState.counted (s : ListLatestState) (maxKeys : Int) (key : GoString) :
    ListLatestState :=
  let count := s.count + 1
  { s with
    count := count
    listInfo :=
      if (count : Int) = maxKeys then { s.listInfo with NextMarker := key } else s.listInfo }

/-- The statements `listInfo.IsTruncated = true; exit = true` of
`ListLatestObjects`. -/
def ListLatestState.truncated (s : ListLatestState) : ListLatestState :=
  { s with exit := true, listInfo := { s.listInfo with IsTruncated := true } }

/-- The statements `objectMap[meta.Name] = nil` and
`listInfo.Objects = append(listInfo.Objects, o)` of `ListLatestObjects`. -/
def ListLatestState.listed (s : ListLatestState) (name : String) (o : datatype.Object) :
    ListLatestState :=
  { s with
    objectMap := setInsert s.objectMap name
    listInfo := { s.listInfo with Objects := s.listInfo.Objects ++ [o] } }

/-- The block `if previousNullObjectMeta != nil { ... }` at the head of the row loop
of `ListLatestObjects`: `.error flow` when the block leaves the body of the loop (by
`continue` or `break`), `.ok` with the state when the body goes on. -/
def ListLatestObjectsCompare (t : TidbClient) (maxKeys : Int) (s : ListLatestState)
    (objMeta : ObjectRow) : Except (Flow ListLatestState) ListLatestState :=
  match s.previousNullObjectMeta with
  | none => .ok s
  | some previous =>
    let meta :=
      if objMeta.name ≠ previous.name then previous
      else if objMeta.createtime > previous.createtime then objMeta
      else previous
    if meta.deletemarker then
      .error (.next { s with objectMap := setInsert s.objectMap meta.name })
    else
      let o := ModifyMetaToObjectResult t meta
      let s := s.counted maxKeys (goString o.Key)
      if (s.count : Int) > maxKeys then
        .error (.stop { s.truncated with previousNullObjectMeta := none })
      else
        -- compare once
        .ok { s.listed meta.name o with previousNullObjectMeta := none }

/-- The body of the loop `for rows.Next()` of `ListLatestObjects` for one row;
`marker` is the argument of the function. -/
def ListLatestObjectsRow (t : TidbClient) (marker prefix_ delimiter : GoString)
    (maxKeys : Int) (s : ListLatestState) (objMeta : ObjectRow) : Flow ListLatestState :=
  let name := goString objMeta.name
  let lastMarker := s.currentMarker
  let s := { s with currentMarker := name }
  match ListLatestObjectsCompare t maxKeys s objMeta with
  | .error flow => flow
  | .ok s =>
    -- if the object key is in the result already, continue
    if objMeta.name ∈ s.objectMap then .next s
    else if !strings.HasPrefix name prefix_ then .next s
    -- if delete marker, continue
    else if objMeta.deletemarker then .next s
    else
      let subKey := strings.TrimPrefix name prefix_
      let sp := strings.SplitN2 subKey delimiter
      -- filter prefix by delimiter
      if delimiter ≠ [] ∧ sp.length = 2 then
        let prefixKey := prefix_ ++ sp.headD [] ++ delimiter
        if prefixKey = lastMarker then
          .stop { s with currentMarker := prefixKey ++ MaxKeySuffix }
        else if prefixKey ∉ s.commonPrefixes ∧ prefixKey ≠ marker then
          let s := s.counted maxKeys prefixKey
          if (s.count : Int) > maxKeys then .stop s.truncated
          else
            .stop { s with commonPrefixes := s.commonPrefixes ++ [prefixKey],
                           currentMarker := prefixKey ++ MaxKeySuffix }
        else .next s
      else if objMeta.version = NullVersion then
        .next { s with previousNullObjectMeta := some objMeta }
      else
        let s := { s with previousNullObjectMeta := none }
        let o := ModifyMetaToObjectResult t objMeta
        let s := s.counted maxKeys name
        if (s.count : Int) > maxKeys then
          .stop { s.truncated with previousNullObjectMeta := none }
        else .next (s.listed objMeta.name o)

/-- The block `if previousNullObjectMeta != nil { ... }` after the row loop of
`ListLatestObjects` (the last row read was a null version): `.error flow` when the
block leaves the iteration of the outer loop (`next` by `continue`, `stop` by `break`,
`fail` by `return`), `.ok` with the state when the iteration goes on. -/
def ListLatestObjectsTrailing (t : TidbClient) (bucketName : String) (maxKeys : Int)
    (s : ListLatestState) : Except (Flow ListLatestState) ListLatestState :=
  match s.previousNullObjectMeta with
  | none => .ok s
  | some previous =>
    match t.Query { bucketName := bucketName, nameEq := some (goString previous.name),
                    versionGt := some 0, orderBy := .nameVersion, limit := some 1 } with
    | .error _ => .error (.fail (.InTidbFatalError "ListLatestObjects scan row error"))
    | .ok rows =>
      let meta :=
        match rows.head? with
        | none => previous
        | some objMeta => if objMeta.createtime > previous.createtime then objMeta else previous
      if meta.deletemarker then
        .error (.next { s with objectMap := setInsert s.objectMap meta.name })
      else
        let o := ModifyMetaToObjectResult t meta
        let s := s.counted maxKeys (goString o.Key)
        if (s.count : Int) > maxKeys then .error (.stop s.truncated)
        else .ok (s.listed meta.name o)

/-- The `select` statement of one iteration of the outer loop of
`ListLatestObjects`. -/
def ListLatestObjectsQuery (bucketName : String) (currentMarker prefix_ : GoString)
    (maxKeys : Int) : Select :=
  if prefix_ = [] then
    if currentMarker = [] then
      { bucketName := bucketName, orderBy := .nameVersion, limit := some maxKeys }
    else
      { bucketName := bucketName, nameGt := some currentMarker, orderBy := .nameVersion,
        limit := some maxKeys }
  else
    -- prefix not empty
    let prefixPattern := prefix_ ++ [37]
    if currentMarker = [] then
      { bucketName := bucketName, nameLike := some prefixPattern, orderBy := .nameVersion,
        limit := some maxKeys }
    else
      { bucketName := bucketName, nameGt := some currentMarker,
        nameLike := some prefixPattern, orderBy := .nameVersion, limit := some maxKeys }

/-- The outer loop `for { ... }` of `ListLatestObjects`. `fuel` bounds the number of
iterations; the result is `none` when it is used up. -/
def ListLatestObjectsLoop (t : TidbClient) (bucketName : String)
    (marker prefix_ delimiter : GoString) (maxKeys : Int) :
    Nat → ListLatestState → Option (Except ApiError ListLatestState)
  | 0, _ => none
  | fuel + 1, s =>
    match t.Query (ListLatestObjectsQuery bucketName s.currentMarker prefix_ maxKeys) with
    | .error _ => some (.error (.InTidbFatalError "ListLatestObjects error"))
    | .ok rows =>
      match forRows (ListLatestObjectsRow t marker prefix_ delimiter maxKeys) rows
          { s with previousNullObjectMeta := none } 0 with
      | .error err => some (.error err)
      | .ok (s, loopCount) =>
        -- if the last one result is a null version
        match ListLatestObjectsTrailing t bucketName maxKeys s with
        | .error (.fail err) => some (.error err)
        | .error (.next s) =>
          ListLatestObjectsLoop t bucketName marker prefix_ delimiter maxKeys fuel s
        | .error (.stop s) => some (.ok s)
        | .ok s =>
          let s := if loopCount = 0 then { s with exit := true } else s
          if s.exit then some (.ok s)
          else ListLatestObjectsLoop t bucketName marker prefix_ delimiter maxKeys fuel s

/-- Function `ListLatestObjects`. `fuel` bounds the number of iterations of the outer
loop; the result is `none` when it is used up. -/
def ListLatestObjects (t : TidbClient) (bucketName : String)
    (marker prefix_ delimiter : GoString) (maxKeys : Int) (fuel : Nat) :
    Option (Except ApiError ListObjectsInfo) :=
  let start : ListLatestState :=
    { count := 0, exit := false, objectMap := [], commonPrefixes := [],
      currentMarker := marker, previousNullObjectMeta := none,
      listInfo := ListObjectsInfo.zero }
  match ListLatestObjectsLoop t bucketName marker prefix_ delimiter maxKeys fuel start with
  | none => none
  | some (.error err) => some (.error err)
  | some (.ok s) => some (.ok { s.listInfo with Prefixes := s.commonPrefixes })

/-- The variables of `ListVersionedObjects` that live across the iterations of its
loops. A version-id marker is `none` when it is the empty string and `some v` when it
is the decimal text of `v`. -/
structure ListVersionedState where
  count : Nat
  exit : Bool
  commonPrefixes : List GoString
  currentKeyMarker : GoString
  currentVerIdMarker : Option Nat
  previousNullObjectMeta : Option ObjectRow
  listInfo : VersionedListObjectsInfo
  deriving DecidableEq, Repr

/-- The statements `count++; if count == maxKeys { listInfo.NextKeyMarker = key;
listInfo.NextVersionIdMarker = versionId }` of `ListVersionedObjects`. -/
def ListVersionedState.counted (s : ListVersionedState) (maxKeys : Int) (key : GoString)
    (versionId : Nat) : ListVersionedState :=
  let count := s.count + 1
  { s with
    count := count
    listInfo :=
      if (count : Int) = maxKeys then
        { s.listInfo with NextKeyMarker := key, NextVersionIdMarker := some versionId }
      else s.listInfo }

/-- The statements `listInfo.IsTruncated = true; exit = true` of
`ListVersionedObjects`. -/
def ListVersionedState.truncated (s : ListVersionedState) : ListVersionedState :=
  { s with exit := true, listInfo := { s.listInfo with IsTruncated := true } }

/-- The statement `listInfo.Objects = append(listInfo.Objects, o)` of
`ListVersionedObjects`. -/
def ListVersionedState.listed (s : ListVersionedState) (o : datatype.VersionedObject) :
    ListVersionedState :=
  { s with listInfo := { s.listInfo with Objects := s.listInfo.Objects ++ [o] } }

/-- The statements `count++; ...; if count > maxKeys { ...; break };
listInfo.Objects = append(listInfo.Objects, o)` that list one entry in
`ListVersionedObjects`: `.error` with the state at the `break`, `.ok` with the state
after the entry is appended. -/
def ListVersionedState.emit (s : ListVersionedState) (maxKeys : Int)
    (o : datatype.VersionedObject) : Except ListVersionedState ListVersionedState :=
  let s := s.counted maxKeys (goString o.Key) o.VersionId
  if (s.count : Int) > maxKeys then .error s.truncated else .ok (s.listed o)

/-- The body of the loop `for rows.Next()` in the marker handling of
`ListVersionedObjects` for one row; the state carries `needCompareNull`, and
`nullObjMeta` is the null version found at the key marker (`none` if there is
none). -/
def ListVersionedMarkerRow (maxKeys : Int) (nullObjMeta : Option ObjectRow)
    (s : ListVersionedState × Bool) (VerObjMeta : ObjectRow) :
    Flow (ListVersionedState × Bool) :=
  let needCompareNull := s.2
  let s := { s.1 with currentKeyMarker := goString VerObjMeta.name,
                      currentVerIdMarker := some VerObjMeta.version }
  let chosen : ListVersionedState × Bool × datatype.VersionedObject :=
    match nullObjMeta with
    | some null =>
      if needCompareNull ∧ null.createtime > VerObjMeta.createtime then
        ({ s with currentVerIdMarker := some null.version }, false,
          ModifyMetaToVersionedObjectResult null)
      else (s, needCompareNull, ModifyMetaToVersionedObjectResult VerObjMeta)
    | none => (s, needCompareNull, ModifyMetaToVersionedObjectResult VerObjMeta)
  match chosen.1.emit maxKeys chosen.2.2 with
  | .error s => .stop (s, chosen.2.1)
  | .ok s => .next (s, chosen.2.1)

/-- The loop `for { ... }` in the marker handling of `ListVersionedObjects`, which
lists the versions of the marker key after the version marker. The loop is left only
when a query returns no row. `fuel` bounds the number of iterations; the result is
`none` when it is used up. -/
def ListVersionedMarkerLoop (t : TidbClient) (bucketName : String) (maxKeys : Int)
    (nullObjMeta : Option ObjectRow) :
    Nat → ListVersionedState × Bool → Option (Except ApiError (ListVersionedState × Bool))
  | 0, _ => none
  | fuel + 1, s =>
    match t.Query { bucketName := bucketName, nameEq := some s.1.currentKeyMarker,
                    versionGt := some (s.1.currentVerIdMarker.getD 0),
                    orderBy := .nameVersion, limit := some maxKeys } with
    | .error _ => some (.error (.InTidbFatalError "ListVersionedObjects query error"))
    | .ok rows =>
      match forRows (ListVersionedMarkerRow maxKeys nullObjMeta) rows s 0 with
      | .error err => some (.error err)
      | .ok (s, loopCount) =>
        if loopCount = 0 then some (.ok s)
        else ListVersionedMarkerLoop t bucketName maxKeys nullObjMeta fuel s

/-- The marker handling of `ListVersionedObjects`, the statement
`if currentKeyMarker != "" && !isPrefixMarker { ... }`: `.error listInfo` when the
function returns from inside it (`return listInfo, nil`), `.ok` with the state
otherwise. Version ids are compared as Go compares them there, as texts. -/
def ListVersionedMarker (t : TidbClient) (bucketName : String) (delimiter : GoString)
    (maxKeys : Int) (fuel : Nat) (s : ListVersionedState) :
    Option (Except ApiError (Except VersionedListObjectsInfo ListVersionedState)) :=
  let isPrefixMarker := delimiter ≠ [] ∧ strings.HasSuffix s.currentKeyMarker delimiter
  if s.currentKeyMarker ≠ [] ∧ ¬ isPrefixMarker then
    -- find null version first with specified marker
    match t.Query { bucketName := bucketName, nameEq := some s.currentKeyMarker,
                    versionEq := some 0 } with
    | .error _ => some (.error (.InTidbFatalError "ListVersionedObjects scan row error"))
    | .ok nullRows =>
      let prepared : Except VersionedListObjectsInfo (ListVersionedState × Bool) :=
        match nullRows.head? with
        | none =>
          if s.currentVerIdMarker = some NullVersion then .error s.listInfo else .ok (s, false)
        | some nullObjMeta =>
          -- the null object version to compare with other versioned objects
          let nullVerIdMarker := t.GenVersionId nullObjMeta BucketVersioningEnabled
          if s.currentVerIdMarker = some NullVersion then
            .ok ({ s with currentVerIdMarker := some nullVerIdMarker }, false)
          else if bytesLess (goString (toString nullVerIdMarker))
              (match s.currentVerIdMarker with
               | none => []
               | some v => goString (toString v)) then
            .ok (s, false)
          else .ok (s, true)
      match prepared with
      | .error listInfo => some (.ok (.error listInfo))
      | .ok start =>
        match ListVersionedMarkerLoop t bucketName maxKeys nullRows.head? fuel start with
        | none => none
        | some (.error err) => some (.error err)
        | some (.ok s) =>
          -- clear version marker to scan next key
          some (.ok (.ok { s.1 with currentVerIdMarker := none }))
  else some (.ok (.ok s))

/-- The block `if previousNullObjectMeta != nil { ... }` at the head of the main row
loop of `ListVersionedObjects`: `.error flow` when the block leaves the body of the
loop, `.ok` with the state when the body goes on. -/
def ListVersionedObjectsCompare (maxKeys : Int) (s : ListVersionedState)
    (objMeta : ObjectRow) : Except (Flow ListVersionedState) ListVersionedState :=
  match s.previousNullObjectMeta with
  | none => .ok s
  | some previous =>
    if objMeta.name ≠ previous.name then
      -- fill in previous NullObject
      let s := s.counted maxKeys (goString previous.name) previous.version
      if (s.count : Int) > maxKeys then
        .error (.stop { s.truncated with previousNullObjectMeta := none })
      else
        .ok { s.listed (ModifyMetaToVersionedObjectResult previous) with
              previousNullObjectMeta := none }
    else
      -- compare which is the latest of null version object and versioned object
      let nullIsLatest : Bool := previous.createtime > objMeta.createtime
      let o :=
        if nullIsLatest then ModifyMetaToVersionedObjectResult previous
        else ModifyMetaToVersionedObjectResult objMeta
      let s := if nullIsLatest then { s with previousNullObjectMeta := none } else s
      match s.emit maxKeys o with
      | .error s => .error (.stop s)
      | .ok s => if !nullIsLatest then .error (.next s) else .ok s

/-- The body of the main loop `for rows.Next()` of `ListVersionedObjects` for one
row. -/
def ListVersionedObjectsRow (prefix_ delimiter : GoString) (maxKeys : Int)
    (s : ListVersionedState) (objMeta : ObjectRow) : Flow ListVersionedState :=
  let name := goString objMeta.name
  if s.currentKeyMarker = name ∧ s.currentVerIdMarker = some objMeta.version then .next s
  else
    let lastKeyMarker := s.currentKeyMarker
    let s := { s with currentKeyMarker := name, currentVerIdMarker := some objMeta.version }
    match ListVersionedObjectsCompare maxKeys s objMeta with
    | .error flow => flow
    | .ok s =>
      if !strings.HasPrefix name prefix_ then .next s
      else
        let subKey := strings.TrimPrefix name prefix_
        let sp := strings.SplitN2 subKey delimiter
        -- filter prefix by delimiter
        if delimiter ≠ [] ∧ sp.length = 2 then
          let prefixKey := prefix_ ++ sp.headD [] ++ delimiter
          if prefixKey = lastKeyMarker then
            .stop { s with currentKeyMarker := prefixKey ++ MaxKeySuffix }
          else if prefixKey ∉ s.commonPrefixes ∧ prefixKey ≠ s.currentKeyMarker then
            let s := s.counted maxKeys prefixKey objMeta.version
            if (s.count : Int) > maxKeys then .stop s.truncated
            else
              .stop { s with commonPrefixes := s.commonPrefixes ++ [prefixKey],
                             currentKeyMarker := prefixKey ++ MaxKeySuffix }
          else .next s
        else if objMeta.version = NullVersion then
          .next { s with previousNullObjectMeta := some objMeta }
        else
          match s.emit maxKeys (ModifyMetaToVersionedObjectResult objMeta) with
          | .error s => .stop s
          | .ok s => .next s

/-- The `select` statement of one iteration of the main loop of
`ListVersionedObjects`. -/
def ListVersionedObjectsQuery (bucketName : String) (currentKeyMarker : GoString)
    (currentVerIdMarker : Option Nat) (prefix_ : GoString) (maxKeys : Int) : Select :=
  if prefix_ = [] then
    if currentKeyMarker = [] then
      { bucketName := bucketName, orderBy := .nameVersion, limit := some maxKeys }
    else
      match currentVerIdMarker with
      | none =>
        { bucketName := bucketName, nameGt := some currentKeyMarker,
          orderBy := .nameVersion, limit := some maxKeys }
      | some v =>
        { bucketName := bucketName, nameGe := some currentKeyMarker, versionGe := some v,
          orderBy := .nameVersion, limit := some maxKeys }
  else
    -- prefix not empty
    let prefixPattern := prefix_ ++ [37]
    if currentKeyMarker = [] then
      { bucketName := bucketName, nameLike := some prefixPattern, orderBy := .nameVersion,
        limit := some maxKeys }
    else
      match currentVerIdMarker with
      | none =>
        { bucketName := bucketName, nameGt := some currentKeyMarker,
          nameLike := some prefixPattern, orderBy := .nameVersion, limit := some maxKeys }
      | some v =>
        { bucketName := bucketName, nameGe := some currentKeyMarker,
          nameLike := some prefixPattern, versionGe := some v, orderBy := .nameVersion,
          limit := some maxKeys }

/-- The statements after the row loop in one iteration of the main loop of
`ListVersionedObjects`, from `if exit { break }` on: the state, with `exit` set when
the loop is left. -/
def ListVersionedObjectsAfterRows (maxKeys : Int) (loopCount : Nat)
    (s : ListVersionedState) : ListVersionedState :=
  if s.exit then s
  else if loopCount = 1 then
    -- the last one result is a null version object
    match s.previousNullObjectMeta with
    | some previous =>
      match s.emit maxKeys (ModifyMetaToVersionedObjectResult previous) with
      | .error s => s
      | .ok s => { s with exit := true }
    | none => { s with exit := true }
  else if loopCount = 0 then { s with exit := true }
  else s

/-- The main loop `for { ... }` of `ListVersionedObjects` ("begin to list other
objects"). `fuel` bounds the number of iterations; the result is `none` when it is
used up. -/
def ListVersionedObjectsLoop (t : TidbClient) (bucketName : String)
    (prefix_ delimiter : GoString) (maxKeys : Int) :
    Nat → ListVersionedState → Option (Except ApiError ListVersionedState)
  | 0, _ => none
  | fuel + 1, s =>
    match t.Query (ListVersionedObjectsQuery bucketName s.currentKeyMarker
        s.currentVerIdMarker prefix_ maxKeys) with
    | .error _ => some (.error (.InTidbFatalError "ListVersionedObjects error"))
    | .ok rows =>
      match forRows (ListVersionedObjectsRow prefix_ delimiter maxKeys) rows s 0 with
      | .error err => some (.error err)
      | .ok (s, loopCount) =>
        let s := ListVersionedObjectsAfterRows maxKeys loopCount s
        if s.exit then some (.ok s)
        else ListVersionedObjectsLoop t bucketName prefix_ delimiter maxKeys fuel s

/-- Function `ListVersionedObjects`. The version-id marker `verIdMarker` is `none`
for the empty string and `some v` for the decimal text of `v`; the marker `"null"`,
which the first statement of the function replaces by `NullVersion`, is `some 0`.
`fuel` bounds the number of iterations of each loop; the result is `none` when it is
used up. -/
def ListVersionedObjects (t : TidbClient) (bucketName : String) (marker : GoString)
    (verIdMarker : Option Nat) (prefix_ delimiter : GoString) (maxKeys : Int) (fuel : Nat) :
    Option (Except ApiError VersionedListObjectsInfo) :=
  let start : ListVersionedState :=
    { count := 0, exit := false, commonPrefixes := [], currentKeyMarker := marker,
      currentVerIdMarker := verIdMarker, previousNullObjectMeta := none,
      listInfo := VersionedListObjectsInfo.zero }
  -- handle marker data first
  match ListVersionedMarker t bucketName delimiter maxKeys fuel start with
  | none => none
  | some (.error err) => some (.error err)
  | some (.ok (.error listInfo)) => some (.ok listInfo)
  | some (.ok (.ok s)) =>
    if s.exit then some (.ok s.listInfo)
    else
      -- begin to list other objects
      match ListVersionedObjectsLoop t bucketName prefix_ delimiter maxKeys fuel s with
      | none => none
      | some (.error err) => some (.error err)
      | some (.ok s) => some (.ok { s.listInfo with Prefixes := s.commonPrefixes })

/-- Function `IsEmptyBucket`. `fuel` bounds the number of queries of the listing; the
result is `none` when it is used up. -/
def IsEmptyBucket (t : TidbClient) (bucket : Bucket) (fuel : Nat) :
    Option (Bool × Option ApiError) :=
  let listed : Option (Except ApiError Bool) :=
    if bucket.Versioning = BucketVersioningDisabled then
      match ListObjects t bucket.Name [] [] [] 1 fuel with
      | none => none
      | some (.error err) => some (.error err)
      | some (.ok listInfo) =>
        some (.ok (decide (listInfo.Objects.length ≠ 0 ∨ listInfo.Prefixes.length ≠ 0)))
    else
      match ListVersionedObjects t bucket.Name [] none [] [] 1 fuel with
      | none => none
      | some (.error err) => some (.error err)
      | some (.ok listInfo) =>
        some (.ok (decide (listInfo.Objects.length ≠ 0 ∨ listInfo.Prefixes.length ≠ 0)))
  match listed with
  | none => none
  | some (.error err) => some (false, some err)
  | some (.ok true) => some (false, none)
  | some (.ok false) =>
    -- check if object part is empty
    match t.ListMultipartUploads bucket.Name 1 with
    | .error err => some (false, some err)
    | .ok uploads => if uploads.length ≠ 0 then some (false, none) else some (true, none)

/-! ## The store behind the client: a table of object rows

The answers of the SQL store to the `select` statements, for a store that holds the
given rows and does not fail. -/

/-- The `where` clause of a `select` on one row. Names are compared as byte
strings. -/
def Select.selects (q : Select) (row : ObjectRow) : Bool :=
  let name := goString row.name
  row.bucketname == q.bucketName &&
    (match q.nameEq with | none => true | some v => name == v) &&
    (match q.nameGt with | none => true | some v => bytesLess v name) &&
    (match q.nameGe with | none => true | some v => !bytesLess name v) &&
    (match q.nameLike with | none => true | some v => sqlLike v name) &&
    (match q.versionEq with | none => true | some v => row.version == v) &&
    (match q.versionGt with | none => true | some v => decide (v < row.version)) &&
    (match q.versionGe with | none => true | some v => decide (v ≤ row.version))

/-- The order `a` before-or-with `b` of an `order by` clause. -/
def OrderBy.le : OrderBy → ObjectRow → ObjectRow → Bool
  | .unordered, _, _ => true
  | .name, a, b => !bytesLess (goString b.name) (goString a.name)
  | .nameVersion, a, b =>
    bytesLess (goString a.name) (goString b.name) ||
      (!bytesLess (goString b.name) (goString a.name) && decide (a.version ≤ b.version))
  | .version, a, b => decide (a.version ≤ b.version)

/-- The relation of `OrderBy.le`, for sorting. -/
def OrderBy.rel (o : OrderBy) (a b : ObjectRow) : Prop := o.le a b = true

instance (o : OrderBy) : DecidableRel o.rel := fun a b =>
  inferInstanceAs (Decidable (o.le a b = true))

/-- The rows a `select` returns from a table: those the `where` clause selects, in
the order of the `order by` clause (rows it does not distinguish stay in table
order), cut at the `limit`. A negative `limit` is an error of the store. -/
def Select.run (q : Select) (table : List ObjectRow) : Except String (List ObjectRow) :=
  let rows := (table.filter q.selects).insertionSort q.orderBy.rel
  match q.limit with
  | none => .ok rows
  | some n => if n < 0 then .error "limit" else .ok (rows.take n.toNat)

/-- The number a text of decimal digits stands for; `none` for the empty text and
for a text with another character. -/
def parseDecimal (text : String) : Option Nat :=
  match text.data with
  | [] => none
  | cs =>
    cs.foldl
      (fun acc c => acc.bind fun n => if c.isDigit then some (10 * n + (c.toNat - 48)) else none)
      (some 0)

/-- A client over a store that holds the rows `table` of `objects`, the rows `parts`
of `objectpart` (each with its bucket name, object name and version) and the
multipart uploads `uploads` (bucket name and upload id), and that executes every
statement without error. Times are stored as decimal seconds, ACLs and attributes
decode to their zero values. The table `buckets` holds no row. -/
def tableClient (table : List ObjectRow) (parts : List (String × String × Nat × Part))
    (uploads : List (String × String)) : TidbClient :=
  { PiggybackUpdateUsage := true
    Begin := none
    Exec := fun _ _ => none
    Commit := fun _ => none
    Query := fun q => q.run table
    QueryParts := fun bucketName objectName version =>
      .ok ((parts.filter fun r =>
        r.1 == bucketName && r.2.1 == objectName && r.2.2.1 == version).map fun r => r.2.2.2)
    parseTime := fun text => (parseDecimal text).map Int.ofNat
    unmarshalAcl := fun _ => some Acl.zero
    unmarshalAttrs := fun _ => some []
    GenVersionId := fun row _ => MaxUint64 - row.createtime
    ListMultipartUploads := fun bucketName maxUploads =>
      .ok (((uploads.filter fun u => u.1 == bucketName).map fun u => u.2).take
        maxUploads.toNat)
    QueryRowBucket := fun _ => none
    unmarshalColumn := fun _ _ => true }

/-! ## Vocabulary of the statements -/

/-- The auth types of the signed branch of `checkRequestAuth`. -/
def AuthType.isSigned : AuthType → Bool
  | .AuthTypeSignedV4 | .AuthTypePresignedV4 | .AuthTypePresignedV2 | .AuthTypeSignedV2 => true
  | _ => false

/-- The owner test: the credential is the root user of the account owning the bucket. -/
def ownerShortcut (bucket : Bucket) (c : Credential) : Prop :=
  bucket.OwnerId = c.ExternRootId ∧ c.ExternUserId = c.ExternRootId

instance (bucket : Bucket) (c : Credential) : Decidable (ownerShortcut bucket c) := by
  unfold ownerShortcut; infer_instance

/-- Outcome of the bucket policy for a request: `none` when the stored policy does not
decode, else what the decoded policy answers on the arguments built by
`IsBucketPolicyAllowed`. -/
def bucketPolicyOutcome (env : Env) (c : Credential) (bucket : Bucket) (r : Request)
    (action : Action) (objectName : String) : Option PolicyResult :=
  (env.Unmarshal bucket.Policy).map fun p =>
    p.IsAllowed (bucketPolicyArgs env c bucket r action objectName)

/-- The credential's IAM policy answers `PolicyAllow` on the arguments built by
`IsRamPolicyAllowed`. -/
def ramAllows (env : Env) (c : Credential) (r : Request) (action : Action) : Prop :=
  ∃ p, c.Policy = some p ∧ p.IsAllowed (ramPolicyArgs env r action) = .PolicyAllow

/-- The credential's IAM policy answers `PolicyDeny`. -/
def ramDenies (env : Env) (c : Credential) (r : Request) (action : Action) : Prop :=
  ∃ p, c.Policy = some p ∧ p.IsAllowed (ramPolicyArgs env r action) = .PolicyDeny

/-- The credential has no IAM policy, or it answers neither allow nor deny. -/
def ramIndeterminate (env : Env) (c : Credential) (r : Request) (action : Action) : Prop :=
  ∀ p, c.Policy = some p →
    p.IsAllowed (ramPolicyArgs env r action) = .PolicyIndeterminate

/-- The IAM stage after an indeterminate bucket policy, as a property of the result
`res` of the check for credential `c` on `bucket`: when `c` belongs to the bucket
owner's account the result is the one of `IsRamPolicyAllowed` (allow gives
`AllowOtherUserAccess = true` without error, deny gives `ErrAccessDenied`); otherwise
the result is `AllowOtherUserAccess = false` without error, whatever the IAM policy. -/
def iamStage (env : Env) (c : Credential) (bucket : Bucket) (r : Request) (action : Action)
    (res : Credential × Option ApiError) : Prop :=
  (c.ExternRootId = bucket.OwnerId →
      res = ({ c with AllowOtherUserAccess := (IsRamPolicyAllowed env c.Policy r action).1 },
        (IsRamPolicyAllowed env c.Policy r action).2) ∧
      (ramAllows env c r action → res = ({ c with AllowOtherUserAccess := true }, none)) ∧
      (ramDenies env c r action →
        res = ({ c with AllowOtherUserAccess := false }, some .ErrAccessDenied))) ∧
    (c.ExternRootId ≠ bucket.OwnerId →
      res = ({ c with AllowOtherUserAccess := false }, none))

/-- The decision formula in the words of the specification:
`owner_shortcut ∨ policy_allow ∨ (policy_indeterminate ∧ ram_allow) ∨
(policy_indeterminate ∧ ram_indeterminate ∧ acl_allow)`, where `acl_allow` is the ACL
block of the operation run with `AllowOtherUserAccess = false`. -/
def statedDecision (env : Env) (op : MultipartOp) (c : Credential) (bucket : Bucket)
    (r : Request) (action : Action) (objectName ownerId : String) : Prop :=
  ownerShortcut bucket c ∨
    bucketPolicyOutcome env c bucket r action objectName = some .PolicyAllow ∨
    (bucketPolicyOutcome env c bucket r action objectName = some .PolicyIndeterminate ∧
      ramAllows env c r action) ∨
    (bucketPolicyOutcome env c bucket r action objectName = some .PolicyIndeterminate ∧
      ramIndeterminate env c r action ∧
      aclCheck env op bucket { c with AllowOtherUserAccess := false } ownerId = none)

/-- Some `case` of the explicit-grant switch can match for `perm`: the permission is
granted to the canonical user `id` or to one of the three groups the switch looks at. -/
def grantedInSomeCase (policy : AccessControlPolicy) (perm : String) (id : String) : Bool :=
  IsPermissionMatchedById policy perm id ||
    IsPermissionMatchedByGroup policy perm ACL_GROUP_TYPE_ALL_USERS ||
    IsPermissionMatchedByGroup policy perm ACL_GROUP_TYPE_AUTHENTICATED_USERS ||
    IsPermissionMatchedByGroup policy perm ACL_GROUP_TYPE_LOG_DELIVERY

/-- The error raised by iteration `i` of the validation loop of
`CompleteMultipartUpload` on the entry `uploaded`, `none` when the iteration passes
all its checks; `n` is `len(uploadedParts)`. -/
def entryError (n : Nat) (parts : PartsMap) (i : Nat) (uploaded : CompletePart) :
    Option ApiError :=
  if uploaded.PartNumber ≠ (i : Int) + 1 then some .ErrInvalidPart
  else
    match parts.lookup ((i : Int) + 1) with
    | none => some .ErrInvalidPart
    | some part =>
      if part.Size < MIN_PART_SIZE ∧ part.PartNumber ≠ (n : Int) then
        some (.PartTooSmall part.Size part.PartNumber part.Etag)
      else if part.Etag ≠ uploaded.ETag then some .ErrInvalidPart
      else
        match hexDecodeString part.Etag with
        | none => some .ErrInvalidPart
        | some _ => none

/-- The error of the first iteration that fails, from iteration `i` on. -/
def firstError (n : Nat) (parts : PartsMap) : List CompletePart → Nat → Option ApiError
  | [], _ => none
  | uploaded :: rest, i =>
    match entryError n parts i uploaded with
    | some e => some e
    | none => firstError n parts rest (i + 1)

/-- The entries are numbered `i + 1`, `i + 2`, … in that order. -/
def wellNumberedFrom : Nat → List CompletePart → Bool
  | _, [] => true
  | i, uploaded :: rest => uploaded.PartNumber == (i : Int) + 1 && wellNumberedFrom (i + 1) rest

/-- The part numbers of the list are exactly `1, 2, …, N` in that order. -/
def wellNumbered (uploadedParts : List CompletePart) : Bool :=
  wellNumberedFrom 0 uploadedParts

/-- Size of the part stored under `k` (0 when there is none). -/
def sizeAt (parts : PartsMap) (k : Int) : Int :=
  match parts.lookup k with
  | some p => p.Size
  | none => 0

/-- Sizes of the `c` parts stored under `i + 1`, …, `i + c`. -/
def partSizes (parts : PartsMap) : Nat → Nat → List Int
  | _, 0 => []
  | i, c + 1 => sizeAt parts ((i : Int) + 1) :: partSizes parts (i + 1) c

/-- The hex-decoding of the ETag of the part stored under `k` (empty when there is no
such part or its ETag is not hexadecimal). -/
def etagBytesAt (parts : PartsMap) (k : Int) : List UInt8 :=
  match parts.lookup k with
  | some p => (hexDecodeString p.Etag).getD []
  | none => []

/-- Concatenation of the decoded ETags of the `c` parts stored under `i + 1`, …,
`i + c`. -/
def partEtagBytes (parts : PartsMap) : Nat → Nat → List UInt8
  | _, 0 => []
  | i, c + 1 => etagBytesAt parts ((i : Int) + 1) ++ partEtagBytes parts (i + 1) c

/-- The entry of the recycle queue for the blob written by the backend write
`BackendPut location pool outcome`. -/
def recycleEntry (location pool : String) (outcome : PutOutcome) : objectToRecycle :=
  { location := location, pool := pool, objectId := outcome.objectId,
    objectType := .ObjectTypeMultipart }

/-- The hex MD5 that `PutObjectPart` and `CopyObjectPart` compute over the plaintext read
through the tee reader (`calculatedMd5`). -/
def calculatedMd5 (yig : YigStorage) (limited : List UInt8) (outcome : PutOutcome) : String :=
  hexEncodeToString (yig.md5Sum (limited.take outcome.bytesRead))

/-- The part record that `PutObjectPart` and `CopyObjectPart` hand to
`MetaStorage.PutObjectPart`. -/
def newPart (yig : YigStorage) (initializationVector : List UInt8) (partId size : Int)
    (outcome : PutOutcome) (etag : String) : Part :=
  { PartNumber := partId, Size := size, ObjectId := outcome.objectId, Offset := 0,
    Etag := etag, LastModified := yig.formatTime yig.nowUnixNano,
    InitializationVector := initializationVector }

/-- The object of the first successful commit `MetaStorage.PutObject` in a trace. -/
def committedObject : List Event → Option Object
  | [] => none
  | .MetaPutObject object _ none :: _ => some object
  | _ :: rest => committedObject rest

/-- Modelled from the spec: the row of `objects` that the statement
`object.GetCreateSql()` inserts, its columns taken from the fields of the object (the
texts of time, attributes and ACL are those of the sample store). -/
def storedObjectRow (object : Object) : ObjectRow :=
  { bucketname := object.BucketName, name := object.Name,
    version := (parseDecimal object.VersionId).getD 0, location := object.Location,
    pool := object.Pool, ownerid := object.OwnerId, size := object.Size,
    objectid := object.ObjectId, lastmodifiedtime := "1700000000", etag := object.Etag,
    contenttype := object.ContentType, customattributes := "", acl := "",
    nullversion := object.NullVersion, deletemarker := object.DeleteMarker,
    ssetype := object.SseType, encryptionkey := object.EncryptionKey,
    initializationvector := object.InitializationVector, type_ := object.Type_,
    storageclass := object.StorageClass, createtime := object.CreateTime }

/-- The rows of `objectpart` that durable part-row inserts leave in the store. -/
def storedPartRows (persisted : Persisted) : List (String × String × Nat × Part) :=
  persisted.filterMap fun statement =>
    match statement with
    | .CreatePart part bucketName objectName version =>
      some (bucketName, objectName, (parseDecimal version).getD 0, part)
    | _ => none

/-- The common prefix that the spec gives a key under `prefix_` and `delimiter`: the
prefix followed by the remainder of the key up to and including the first occurrence
of the delimiter; `none` when the key is not folded (no delimiter, key without the
prefix, or remainder without the delimiter). -/
def commonPrefixOf (prefix_ delimiter name : GoString) : Option GoString :=
  if delimiter = [] ∨ !strings.HasPrefix name prefix_ then none
  else
    let remainder := name.drop prefix_.length
    let n := strings.Index remainder delimiter
    if n = -1 then none else some (prefix_ ++ remainder.take (n.toNat + delimiter.length))

/-- The rows of a bucket that a listing under `prefix_` is about: those that are not
delete markers and whose key has the prefix. -/
def liveRows (table : List ObjectRow) (bucketName : String) (prefix_ : GoString) :
    List ObjectRow :=
  table.filter fun row =>
    row.bucketname == bucketName && !row.deletemarker &&
      strings.HasPrefix (goString row.name) prefix_

/-- The objects of the reference listing: the keys of the live rows that are not
folded into a common prefix. -/
def referenceObjects (table : List ObjectRow) (bucketName : String)
    (prefix_ delimiter : GoString) : List String :=
  ((liveRows table bucketName prefix_).filter fun row =>
    (commonPrefixOf prefix_ delimiter (goString row.name)).isNone).map fun row => row.name

/-- The common prefixes of the reference listing, each once. -/
def referencePrefixes (table : List ObjectRow) (bucketName : String)
    (prefix_ delimiter : GoString) : List GoString :=
  ((liveRows table bucketName prefix_).filterMap fun row =>
    commonPrefixOf prefix_ delimiter (goString row.name)).dedup

/-- The pages obtained from `ListObjects` by passing the returned `NextMarker` as the
next marker while `IsTruncated` is set, at most `pages` of them, with a flag that
tells whether the last of them ended the listing (`IsTruncated` false). `none` when a
call fails or runs out of fuel. -/
def ListObjectsPages (t : TidbClient) (bucketName : String) (prefix_ delimiter : GoString)
    (maxKeys : Int) (fuel : Nat) : Nat → GoString → Option (List ListObjectsInfo × Bool)
  | 0, _ => some ([], false)
  | pages + 1, marker =>
    match ListObjects t bucketName marker prefix_ delimiter maxKeys fuel with
    | some (.ok page) =>
      if page.IsTruncated then
        match ListObjectsPages t bucketName prefix_ delimiter maxKeys fuel pages
            page.NextMarker with
        | some (rest, ended) => some (page :: rest, ended)
        | none => none
      else some ([page], true)
    | _ => none

/-- What `GetObject` returns for an object after `PutObject` has stored it in an
empty store: the store then holds the row of the object and the part rows that
`PutObject` made durable. -/
def readBack (object : Object) (multipart : Option Multipart) :
    Option (Except ApiError Object) :=
  GetObject
    (tableClient [storedObjectRow object]
      (storedPartRows (PutObject (tableClient [] [] []) object multipart false).2) [])
    object.BucketName object.Name ((parseDecimal object.VersionId).getD 0)

/-- The number of entries of the reference listing: its objects and its distinct
common prefixes. -/
def referenceMatches (table : List ObjectRow) (bucketName : String)
    (prefix_ delimiter : GoString) : Nat :=
  (referenceObjects table bucketName prefix_ delimiter).length +
    (referencePrefixes table bucketName prefix_ delimiter).length

/-- The rows of the key `(bucketName, objectName)` in a table of `objects`. -/
def versionsOf (table : List ObjectRow) (bucketName objectName : String) : List ObjectRow :=
  table.filter fun row =>
    row.bucketname == bucketName && goString row.name == goString objectName

/-- The row `row` is the null version among `rows`: its version is 0. -/
def isNullVersionOf (rows : List ObjectRow) (row : ObjectRow) : Prop :=
  row ∈ rows ∧ row.version = 0

/-- The row `row` is the versioned row with the smallest positive version id among
`rows`. -/
def isSmallestVersionedOf (rows : List ObjectRow) (row : ObjectRow) : Prop :=
  row ∈ rows ∧ 0 < row.version ∧
    ∀ other ∈ rows, 0 < other.version → row.version ≤ other.version

/-- The rows of a bucket in a table of `objects`. -/
def bucketRows (table : List ObjectRow) (bucketName : String) : List ObjectRow :=
  table.filter fun row => row.bucketname == bucketName

/-- The rows that lie after a marker: all rows when the marker is empty, else those
whose name is greater than the marker. -/
def rowsAfter (rows : List ObjectRow) (marker : GoString) : List ObjectRow :=
  rows.filter fun row => marker.isEmpty || bytesLess marker (goString row.name)

/-- The in-flight uploads of a bucket in a table of uploads (bucket name and upload
id). -/
def uploadsOf (uploads : List (String × String)) (bucketName : String) : List String :=
  (uploads.filter fun u => u.1 == bucketName).map fun u => u.2

/-- The rows have one row per key and no empty key: the names are non-empty and
pairwise distinct. -/
def oneRowPerKey (rows : List ObjectRow) : Prop :=
  (∀ row ∈ rows, goString row.name ≠ []) ∧ (rows.map fun row => goString row.name).Nodup

/-- The key of a row in the primary-key order of `objects`: its name, as bytes, and
its version. -/
def rowKey (row : ObjectRow) : GoString × Nat := (goString row.name, row.version)

/-- The state of the main loop of `ListVersionedObjects` after it has read the rows
`processed` from the empty markers without truncation: the entries listed so far are
those of the rows `out`, which are the versioned rows read, in reading order, and the
null versions read, the last of which may still be buffered in
`previousNullObjectMeta`; the markers are the key of the last row read. -/
def versionsListed (processed : List ObjectRow) (s : ListVersionedState) : Prop :=
  ∃ out : List ObjectRow,
    s.listInfo.Objects = out.map ModifyMetaToVersionedObjectResult ∧
      out.filter (fun r => r.version != 0) = processed.filter (fun r => r.version != 0) ∧
      out.filter (fun r => r.version == 0) ++ s.previousNullObjectMeta.toList =
        processed.filter (fun r => r.version == 0) ∧
      out.length + s.previousNullObjectMeta.toList.length = processed.length ∧
      s.count = out.length ∧ s.exit = false ∧ s.commonPrefixes = [] ∧
      s.listInfo.IsTruncated = false ∧
      (s.currentKeyMarker, s.currentVerIdMarker) =
        match processed.getLast? with
        | none => ([], none)
        | some last => (goString last.name, some last.version)

/-- The first entry of a comma-separated list: the text before the first comma. -/
def firstListEntry (s : String) : String :=
  String.mk (s.data.takeWhile fun c => c != ',')

/-- Every comma of the text is followed by a space: the entries of the list are
separated by `, `. -/
def commaSpaceSeparated : List Char → Bool
  | [] => true
  | c :: cs => (c != ',' || [' '].isPrefixOf cs) && commaSpaceSeparated cs

/-- What stands before the first occurrence of a comma followed by a space, the whole
text when there is none. -/
def beforeCommaSpace : List Char → List Char
  | [] => []
  | c :: cs => if [',', ' '].isPrefixOf (c :: cs) then [] else c :: beforeCommaSpace cs

/-- The address that `GetSourceIP` takes from the `Forwarded` header: the first
`for=` value with the double quotes around it removed, empty when there is none. -/
def forwardedFor (r : Request) : List Char :=
  match forRegexFind (HeaderGet r.Header forwarded).data with
  | some g => trimQuotes g
  | none => []

/-- The values stored under `key` in the entries of a header or query map, in order. -/
def valuesOf (entries : List (String × List String)) (key : String) : List String :=
  (entries.filter fun kv => kv.1 == key).flatMap fun kv => kv.2

/-- Some entry of a header or query map is stored under `key`. -/
def hasKey (entries : List (String × List String)) (key : String) : Bool :=
  entries.any fun kv => kv.1 == key

/-- The pages of a parts listing: `ListObjectParts` is called with the marker, and
again with the returned `NextPartNumberMarker` while the page is truncated, at most
`calls` times. The result is the list of the parts of each page, and whether the
last page was not truncated; `none` when a call fails or panics. -/
def ListObjectPartsPages (yig : YigStorage) (iam : ListPartsEnv) (credential : Credential)
    (bucketName objectName uploadId : String) (maxParts : Int) :
    Nat → Int → Option (List (List datatype.Part) × Bool)
  | 0, _ => some ([], false)
  | calls + 1, marker =>
    match ListObjectParts yig iam credential bucketName objectName
        ⟨"", uploadId, maxParts, marker⟩ with
    | some (page, none) =>
      if page.IsTruncated then
        match ListObjectPartsPages yig iam credential bucketName objectName uploadId maxParts
            calls page.NextPartNumberMarker with
        | some (rest, ended) => some (page.Parts :: rest, ended)
        | none => none
      else some ([page.Parts], true)
    | _ => none

/-- The pages obtained from `ListLatestObjects` by passing the returned `NextMarker` as
the next marker while `IsTruncated` is set, at most `pages` of them, with a flag that
tells whether the last of them ended the listing (`IsTruncated` false). `none` when a
call fails or runs out of fuel. -/
def ListLatestObjectsPages (t : TidbClient) (bucketName : String)
    (prefix_ delimiter : GoString) (maxKeys : Int) (fuel : Nat) :
    Nat → GoString → Option (List ListObjectsInfo × Bool)
  | 0, _ => some ([], false)
  | pages + 1, marker =>
    match ListLatestObjects t bucketName marker prefix_ delimiter maxKeys fuel with
    | some (.ok page) =>
      if page.IsTruncated then
        match ListLatestObjectsPages t bucketName prefix_ delimiter maxKeys fuel pages
            page.NextMarker with
        | some (rest, ended) => some (page :: rest, ended)
        | none => none
      else some ([page], true)
    | _ => none

/-- The keys of the objects on the pages of a listing. -/
def listedKeys (pages : List ListObjectsInfo) : List String :=
  pages.flatMap fun page => page.Objects.map fun o => o.Key

/-- The common prefixes on the pages of a listing. -/
def listedPrefixes (pages : List ListObjectsInfo) : List GoString :=
  pages.flatMap fun page => page.Prefixes

/-- One iteration of the outer loop `for { ... }` of `ListObjects` from the state `s`:
the state at the test `if exit` that ends the iteration, or the error with which the
function returns. -/
def ListObjectsRound (t : TidbClient) (bucketName : String) (prefix_ delimiter : GoString)
    (maxKeys : Int) (s : ListObjectsState) : Except ApiError ListObjectsState :=
  match t.Query (ListObjectsQuery bucketName s.marker prefix_ maxKeys) with
  | .error _ => .error (.InTidbFatalError "ListObjects error")
  | .ok rows =>
    match forRows (ListObjectsRow t prefix_ delimiter maxKeys) rows s 0 with
    | .error err => .error err
    | .ok (s, loopcount) => .ok (if loopcount = 0 then { s with exit := true } else s)

/-- The common prefix `prefixKey` into which the row loop of `ListObjects` folds a row:
`none` for a row that the loop skips before (no prefix, delete marker) and for a row
without the delimiter after the prefix. -/
def foldKey (prefix_ delimiter : GoString) (row : ObjectRow) : Option GoString :=
  if !strings.HasPrefix (goString row.name) prefix_ then none
  else if row.deletemarker then none
  else if delimiter.length ≠ 0 ∧
      strings.Index (strings.TrimPrefix (goString row.name) prefix_) delimiter ≠ -1 then
    some (prefix_ ++ (strings.TrimPrefix (goString row.name) prefix_).take
      (strings.Index (strings.TrimPrefix (goString row.name) prefix_) delimiter + 1).toNat)
  else none

/-- The rows whose name lies beyond the cursor `marker`. -/
def rowsBeyond (rows : List ObjectRow) (marker : GoString) : List ObjectRow :=
  rows.filter fun row => bytesLess marker (goString row.name)

/-- The common prefix of the row, if it folds into one, does not lie before the cursor
`marker`. -/
def foldsAt (prefix_ delimiter marker : GoString) (row : ObjectRow) : Bool :=
  match foldKey prefix_ delimiter row with
  | some key => !bytesLess key marker
  | none => false

/-- The rows that fold into a common prefix which does not lie before the cursor. -/
def foldsAhead (rows : List ObjectRow) (prefix_ delimiter marker : GoString) :
    List ObjectRow :=
  rows.filter (foldsAt prefix_ delimiter marker)

/-- The measure that every iteration of the outer loop of `ListObjects` lowers unless
it sets `exit`: the entries that may still be counted, weighted, plus the rows beyond
the cursor, plus the rows whose common prefix is not before the cursor. -/
def ListObjectsMeasure (rows : List ObjectRow) (prefix_ delimiter : GoString) (maxKeys : Int)
    (s : ListObjectsState) : Nat :=
  (maxKeys.toNat - s.count) * (2 * rows.length + 1) + (rowsBeyond rows s.marker).length +
    (foldsAhead rows prefix_ delimiter s.marker).length

/-- The state `s` of an iteration of the outer loop of `ListObjects` that began in
`start`, after the row loop has read at least one row and not left: `exit` is not set,
the count has not passed `maxKeys`, and the cursor is the name of a row beyond the
cursor of `start`. -/
def ListObjectsState.advanced (rows : List ObjectRow) (maxKeys : Int)
    (start s : ListObjectsState) : Prop :=
  s.exit = false ∧ s.count ≤ maxKeys.toNat ∧ start.count ≤ s.count ∧
    bytesLess start.marker s.marker = true ∧ ∃ q ∈ rows, goString q.name = s.marker

/-- The end of an iteration of the outer loop of `ListObjects` that began in `start`:
`exit` is set, or the measure is lower than in `start`. -/
def ListObjectsState.progress (rows : List ObjectRow) (prefix_ delimiter : GoString)
    (maxKeys : Int) (start s : ListObjectsState) : Prop :=
  s.exit = true ∨
    (s.count ≤ maxKeys.toNat ∧
      ListObjectsMeasure rows prefix_ delimiter maxKeys s <
        ListObjectsMeasure rows prefix_ delimiter maxKeys start)

/-! ## Sample data -/

/-- A policy with a constant answer. -/
def constPolicy (res : PolicyResult) : Policy := ⟨fun _ => res⟩

/-- A decoder for sample policy blobs: `[0]` is an indeterminate policy, `[1]` allows
everything, `[2]` denies everything, any other blob does not decode. -/
def sampleUnmarshal (b : List UInt8) : Option Policy :=
  if b = [0] then some (constPolicy .PolicyIndeterminate)
  else if b = [1] then some (constPolicy .PolicyAllow)
  else if b = [2] then some (constPolicy .PolicyDeny)
  else none

/-- The host that `net.SplitHostPort` returns: the text before the last colon, without
the brackets around an IPv6 literal; empty in the cases in which Go returns an error
(no port, a colon in a host without brackets, a missing or misplaced bracket). -/
def sampleSplitHostPort (hostport : String) : String :=
  let cs := hostport.data
  let back := cs.reverse.indexOf ':'
  -- missing port in address
  if back = cs.length then ""
  else
    let i := cs.length - 1 - back
    if cs.head? = some '[' then
      let close := cs.indexOf ']'
      -- the first `]` is expected just before the last colon
      if close = cs.length then ""
      else if close + 1 ≠ i then ""
      else if (cs.drop 1).contains '[' || (cs.drop (close + 1)).contains ']' then ""
      else String.mk ((cs.take close).drop 1)
    else
      let host := cs.take i
      -- too many colons in address
      if host.contains ':' then ""
      else if cs.contains '[' || cs.contains ']' then ""
      else String.mk host

/-- A sample environment in which signature verification yields `c`, and the host of
an address is the one `net.SplitHostPort` returns. -/
def sampleEnv (c : Credential) : Env :=
  { IsReqAuthenticated := fun _ => (c, none)
    Unmarshal := sampleUnmarshal
    SplitHostPort := sampleSplitHostPort
    LogDeliveryGroup := ["logger"] }

/-- A sample bucket owned by `owner`, with the given ACL and policy blob. -/
def sampleBucket (acl : Acl) (policy : List UInt8) : Bucket :=
  { Name := "photos", OwnerId := "owner", ACL := acl, Policy := policy,
    Versioning := BucketVersioningDisabled }

/-- A canned ACL without explicit grants. -/
def cannedAcl (name : String) : Acl := ⟨name, ⟨[]⟩⟩

/-- An ACL made of explicit grants to one group: READ and WRITE. -/
def groupAcl (uri : String) : Acl :=
  ⟨"", ⟨[⟨⟨ACL_TYPE_GROUP, "", uri⟩, ACL_PERM_READ⟩, ⟨⟨ACL_TYPE_GROUP, "", uri⟩, ACL_PERM_WRITE⟩]⟩⟩

/-- A sample request context. -/
def sampleCtx (authType : AuthType) (bucket : Option Bucket) : RequestContext :=
  { AuthType := authType, BucketInfo := bucket, BucketName := "photos",
    ObjectName := "cat.png" }

/-- A sample request. -/
def sampleRequest : Request :=
  { Header := [("X-Forwarded-For", ["10.0.0.1, 10.0.0.2"])], Query := [],
    RemoteAddr := "192.0.2.1:4711" }

/-- A user of another account than the bucket owner's, with the given IAM policy. -/
def strangerCred (p : Option Policy) : Credential :=
  ⟨"mallory", "mallory", "Mallory", false, p⟩

/-- A sub-user of the bucket owner's account, with the given IAM policy. -/
def subUserCred (p : Option Policy) : Credential :=
  ⟨"owner-sub", "owner", "Sub", false, p⟩

/-- The root user of the bucket owner's account. -/
def ownerCred : Credential :=
  ⟨"owner", "owner", "Owner", false, none⟩

/-- An ACL made of one explicit grant of `perm` to the canonical user `id`. -/
def userAcl (id perm : String) : Acl :=
  ⟨"", ⟨[⟨⟨ACL_TYPE_CANON_USER, id, ""⟩, perm⟩]⟩⟩

/-- An ACL made of two explicit grants: `idPerm` to the canonical user `id` and
`groupPerm` to the group `uri`. -/
def userAndGroupAcl (id idPerm uri groupPerm : String) : Acl :=
  ⟨"", ⟨[⟨⟨ACL_TYPE_CANON_USER, id, ""⟩, idPerm⟩, ⟨⟨ACL_TYPE_GROUP, "", uri⟩, groupPerm⟩]⟩⟩

/-- Explicit grants that give READ to the user `mallory` and WRITE to the
`LogDelivery` group. -/
def readGranteeAcl : Acl :=
  userAndGroupAcl "mallory" ACL_PERM_READ ACL_GROUP_TYPE_LOG_DELIVERY ACL_PERM_WRITE

/-- Explicit grants that give WRITE to the user `mallory` and READ to the
`LogDelivery` group. -/
def writeGranteeAcl : Acl :=
  userAndGroupAcl "mallory" ACL_PERM_WRITE ACL_GROUP_TYPE_LOG_DELIVERY ACL_PERM_READ

/-- A stored part with the given number, size and ETag. -/
def samplePart (number size : Int) (etag : String) : Part :=
  { PartNumber := number, Size := size, ObjectId := "blob-old", Offset := 0, Etag := etag,
    LastModified := "2023-11-14T22:13:20.000Z", InitializationVector := [] }

/-- A sample multipart upload with the given declared SSE type and stored parts. -/
def sampleMultipart (sseType : String) (parts : PartsMap) : Multipart :=
  { BucketName := "photos", ObjectName := "cat.png", InitialTime := 1700000000000000000,
    UploadId := "upload-1",
    Metadata :=
      { InitiatorId := "owner", OwnerId := "owner", ContentType := "image/png",
        Location := "ceph-1", Pool := "rabbit", Acl := cannedAcl "private",
        SseRequest := ⟨sseType, "", [], ""⟩, EncryptionKey := [7, 7], CipherKey := [],
        Attrs := [], StorageClass := 0 },
    Parts := parts }

/-- A sample cluster whose `Put` creates the blob `blob-new`, reads the whole reader and
reports `bytesWritten` bytes written. -/
def sampleCluster (bytesWritten : Nat) : Cluster :=
  { ID := "ceph-1",
    Put := fun _ data _ _ => ⟨"blob-new", bytesWritten, data.length, none⟩ }

/-- A sample cluster whose `Put` creates the blob `blob-new`, reads the whole reader and
reports the length of the plaintext plus the length of the key as bytes written, so
that its outcome shows the key it was given. -/
def keyedCluster : Cluster :=
  { ID := "ceph-1",
    Put := fun _ data key _ => ⟨"blob-new", data.length + key.length, data.length, none⟩ }

/-- A sample storage layer: the multipart lookup yields `multipart`, blobs go to
`cluster`, the metadata commits return `commitErr`, and the digest of a byte string is
its length as one byte. -/
def sampleYig (multipart : Multipart) (cluster : Cluster) (commitErr : Option ApiError) :
    YigStorage :=
  { env := sampleEnv ownerCred
    GetMultipart := fun _ _ _ => .ok multipart
    GetBucket := fun _ => .ok (sampleBucket (cannedAcl "private") [0])
    MetaPutObjectPart := fun _ part => (part.Size, commitErr)
    MetaPutObject := fun _ _ _ _ => commitErr
    GetFreezer := fun _ _ _ => .error .ErrNoSuchKey
    DeleteFreezer := fun _ => none
    GetClusterByFsName := fun _ => .ok cluster
    newInitializationVector := .ok [1, 2, 3]
    wrapEncryptionReader := fun _ _ => none
    GenVersionId := fun _ _ => "0"
    nowUnixNano := 1700000000000000000
    formatTime := fun _ => "2023-11-14T22:13:20.000Z"
    md5Sum := fun bytes => [UInt8.ofNat bytes.length]
    base64 := fun _ => "" }

/-- A signed request context on the sample bucket with the ACL `private`. -/
def sampleReqCtx : RequestContext :=
  sampleCtx .AuthTypeSignedV4 (some (sampleBucket (cannedAcl "private") [0]))

/-- A sample decoder of versioning documents: the document `[1]` carries the status
`Enabled`, `[2]` carries `Suspended`, `[3]` carries `Disabled`, `[4]` carries no
status, and any other document does not parse. -/
def sampleXmlUnmarshal (xmlBytes : List UInt8) : Versioning × Option String :=
  if xmlBytes = [1] then (⟨"Enabled"⟩, none)
  else if xmlBytes = [2] then (⟨"Suspended"⟩, none)
  else if xmlBytes = [3] then (⟨"Disabled"⟩, none)
  else if xmlBytes = [4] then (⟨""⟩, none)
  else (⟨""⟩, some "XML syntax error")

/-- A sample row of `objects` in the bucket `photos`. -/
def sampleRow (name : String) (version : Nat) (deletemarker : Bool) (createtime : Nat) :
    ObjectRow :=
  { bucketname := "photos", name := name, version := version, location := "ceph-1",
    pool := "rabbit", ownerid := "owner", size := 1, objectid := "blob",
    lastmodifiedtime := "1700000000", etag := "aa", contenttype := "image/png",
    customattributes := "", acl := "", nullversion := version == 0,
    deletemarker := deletemarker, ssetype := "", encryptionkey := [],
    initializationvector := [], type_ := .ObjectTypeNormal, storageclass := 0,
    createtime := createtime }

/-- A sample client over a store that holds the given rows of `objects` and nothing
else. -/
def sampleStore (table : List ObjectRow) : TidbClient := tableClient table [] []

/-- The listing entry of a sample row. -/
def sampleEntry (name : String) : datatype.Object := ⟨name, "owner", "aa", 1700000000, 1, 0⟩

/-- A sample client over a store in which the insert into `objects` fails and every
other statement, `Begin` and `Commit` succeed. -/
def insertFailsClient : TidbClient :=
  { tableClient [] [] [] with
    Exec := fun _ statement =>
      match statement with
      | .CreateObject _ => some "Error 1062: Duplicate entry"
      | _ => none }

/-- A sample multipart object with one part. -/
def sampleObject : Object :=
  { scanObject (sampleRow "cat.png" 0 false 1700000000000000000) with
    Parts := [(1, samplePart 1 10 "aa")], Type_ := .ObjectTypeMultipart, Size := 10 }

/-- A sample multipart upload whose stored parts are numbered 1 and 5. -/
def gappedMultipart : Multipart :=
  sampleMultipart "" [(1, samplePart 1 10 "aa"), (5, samplePart 5 10 "bb")]

/-- The completion of the sample upload with stored parts 1 and 5 by the list `[1]`. -/
def gappedCompletion : CompleteMultipartResult × Option ApiError × List Event :=
  CompleteMultipartUpload (sampleYig gappedMultipart (sampleCluster 0) none) sampleReqCtx
    ownerCred "upload-1" [⟨1, "aa"⟩]

/-- The rows of one key after PUT, PUT, DELETE in an Enabled bucket, in ascending
version order: the delete marker, the second object, the first object. -/
def putPutDelete : List ObjectRow :=
  [{ sampleRow "k" 100 true 30 with etag := "" },
   { sampleRow "k" 200 false 20 with etag := "v2" },
   { sampleRow "k" 300 false 10 with etag := "v1" }]

/-- The rows of one key with a null version and two versioned rows, all modified at
the same second. -/
def nullAndVersions : List ObjectRow :=
  [{ sampleRow "k" 0 false 30 with etag := "null" },
   { sampleRow "k" 100 false 20 with etag := "v2" },
   { sampleRow "k" 200 false 10 with etag := "v1" }]

/-- The sample bucket `photos` with the given versioning state. -/
def versionedBucket (versioning : BucketVersioningType) : Bucket :=
  { Name := "photos", OwnerId := "owner", ACL := cannedAcl "private", Policy := [],
    Versioning := versioning }

/-- A request with the given `X-Forwarded-For` header and remote address. -/
def forwardedRequest (xff remoteAddr : String) : Request :=
  { Header := [("X-Forwarded-For", [xff])], Query := [], RemoteAddr := remoteAddr }

/-- A request whose query carries the parameters `SourceIp` and `LocationConstraint`. -/
def queryRequest : Request :=
  { Header := [("X-Forwarded-For", ["10.0.0.1"])],
    Query := [("SourceIp", ["127.0.0.1"]), ("LocationConstraint", ["eu"])],
    RemoteAddr := "192.0.2.1:4711" }

/-- A request context on the sample bucket with the given versioning state, in which
the key already holds the sample object. -/
def overwriteCtx (versioning : BucketVersioningType) : RequestContext :=
  { sampleCtx .AuthTypeSignedV4 (some (versionedBucket versioning)) with
    ObjectInfo := some sampleObject }

/-- Sample functions of the packages `iam` and `url`: every user id has a credential,
and escaping leaves a key as it is. -/
def sampleIam : ListPartsEnv :=
  { GetCredentialByUserId := fun id => .ok ⟨id, id, id, false, none⟩
    QueryEscape := fun key => key }

/-- A sample multipart upload with the stored parts 1, 2 and 3. -/
def threeParts : Multipart :=
  sampleMultipart ""
    [(1, samplePart 1 102400 "aa"), (2, samplePart 2 102400 "bb"), (3, samplePart 3 10 "cc")]

/-- The listing entry of part `number` of the sample upload with three parts. -/
def listedPart (number size : Int) (etag : String) : datatype.Part :=
  ⟨number, etag, "2023-11-14T22:13:20.000Z", size⟩

/-- A sample client over a store that holds no bucket and in which the insert into
`buckets` fails, as it does when the connection drops or another request inserts the
same name first. -/
def bucketInsertFailsClient : TidbClient :=
  { tableClient [] [] [] with
    Exec := fun _ statement =>
      match statement with
      | .CreateBucket _ => some "Error 1062: Duplicate entry"
      | _ => none }

/-- The version row of a sample key in a listing of versions. -/
def sampleVersion (name : String) (version : Nat) : datatype.VersionedObject :=
  ⟨name, version, false, "owner", "aa", 1, 0⟩

/-- The start state of `ListObjects` called with the given marker. -/
def startAt (marker : GoString) : ListObjectsState :=
  ⟨0, false, [], marker, [], ListObjectsInfo.zero⟩

/-! ## Lemmas on the embedding -/

theorem IsBucketPolicyAllowed_nil (env : Env) (c : Credential) (r : Request)
    (action : Action) (objectName : String) :
    IsBucketPolicyAllowed env c none r action objectName = (false, some .ErrNoSuchBucket) :=
  rfl

/-- An allow answer never comes with an error, and the only results of
`IsRamPolicyAllowed` are allow, deny and undecided. -/
theorem IsRamPolicyAllowed_cases (env : Env) (p : Option Policy) (r : Request)
    (action : Action) :
    IsRamPolicyAllowed env p r action = (true, none) ∨
    IsRamPolicyAllowed env p r action = (false, some .ErrAccessDenied) ∨
    IsRamPolicyAllowed env p r action = (false, none) := by
  unfold IsRamPolicyAllowed
  cases p with
  | none => dsimp only; split <;> simp
  | some p =>
    dsimp only
    split
    · simp
    · split
      · simp
      · split <;> simp

/-- In the signed branch with a verified signature and an action other than
`ListAllMyBuckets` and `CreateBucket`, `checkRequestAuth` is `policyThenRam`. -/
theorem checkRequestAuth_signed (env : Env) (ctx : RequestContext) (r : Request)
    (action : Action) (c : Credential)
    (hsig : ctx.AuthType.isSigned = true) (hauth : env.IsReqAuthenticated r = (c, none))
    (hl : action ≠ ListAllMyBucketsAction) (hc : action ≠ CreateBucketAction) :
    checkRequestAuth env ctx r action =
      ({ c with AllowOtherUserAccess :=
          (policyThenRam env c ctx.BucketInfo r action ctx.ObjectName).1 },
        (policyThenRam env c ctx.BucketInfo r action ctx.ObjectName).2) := by
  unfold checkRequestAuth
  cases hty : ctx.AuthType <;> simp [AuthType.isSigned, hty] at hsig <;>
    simp [hauth, hl, hc]

/-- In the signed branch with a verified signature and the action `ListAllMyBuckets` or
`CreateBucket`, `checkRequestAuth` is `IsRamPolicyAllowed`. -/
theorem checkRequestAuth_signed_ram (env : Env) (ctx : RequestContext) (r : Request)
    (action : Action) (c : Credential)
    (hsig : ctx.AuthType.isSigned = true) (hauth : env.IsReqAuthenticated r = (c, none))
    (hact : action = ListAllMyBucketsAction ∨ action = CreateBucketAction) :
    checkRequestAuth env ctx r action =
      ({ c with AllowOtherUserAccess := (IsRamPolicyAllowed env c.Policy r action).1 },
        (IsRamPolicyAllowed env c.Policy r action).2) := by
  unfold checkRequestAuth
  cases hty : ctx.AuthType <;> simp [AuthType.isSigned, hty] at hsig <;>
    simp [hauth, hact]

theorem IsRamPolicyAllowed_of_allows (env : Env) (c : Credential) (r : Request)
    (action : Action) (h : ramAllows env c r action) :
    IsRamPolicyAllowed env c.Policy r action = (true, none) := by
  obtain ⟨p, hp, hall⟩ := h
  simp [IsRamPolicyAllowed, hp, hall]

theorem IsRamPolicyAllowed_of_denies (env : Env) (c : Credential) (r : Request)
    (action : Action) (h : ramDenies env c r action) :
    IsRamPolicyAllowed env c.Policy r action = (false, some .ErrAccessDenied) := by
  obtain ⟨p, hp, hden⟩ := h
  simp [IsRamPolicyAllowed, hp, hden]

theorem IsRamPolicyAllowed_of_indeterminate (env : Env) (c : Credential) (r : Request)
    (action : Action) (hl : action ≠ ListAllMyBucketsAction)
    (hc : action ≠ CreateBucketAction) (h : ramIndeterminate env c r action) :
    IsRamPolicyAllowed env c.Policy r action = (false, none) := by
  unfold IsRamPolicyAllowed
  cases hp : c.Policy with
  | none => simp [hl, hc]
  | some p => simp [h p hp, hl, hc]

/-- The three outcomes of the IAM policy are exhaustive. -/
theorem ram_trichotomy (env : Env) (c : Credential) (r : Request) (action : Action) :
    ramAllows env c r action ∨ ramDenies env c r action ∨ ramIndeterminate env c r action := by
  unfold ramAllows ramDenies ramIndeterminate
  cases hp : c.Policy with
  | none => simp
  | some p =>
    cases hres : p.IsAllowed (ramPolicyArgs env r action) <;> simp [hres]

/-- After an indeterminate bucket policy, `policyThenRam` is the IAM stage for the bucket
owner's account and `(false, nil)` for any other account. -/
theorem policyThenRam_indeterminate (env : Env) (c : Credential) (bucket : Bucket)
    (r : Request) (action : Action) (objectName : String)
    (hind : IsBucketPolicyAllowed env c (some bucket) r action objectName = (false, none)) :
    policyThenRam env c (some bucket) r action objectName =
      if c.ExternRootId = bucket.OwnerId then IsRamPolicyAllowed env c.Policy r action
      else (false, none) := by
  simp [policyThenRam, hind]

theorem iamStage_of_policyThenRam (env : Env) (c : Credential) (bucket : Bucket)
    (r : Request) (action : Action) (objectName : String)
    (hind : IsBucketPolicyAllowed env c (some bucket) r action objectName = (false, none)) :
    iamStage env c bucket r action
      ({ c with AllowOtherUserAccess :=
          (policyThenRam env c (some bucket) r action objectName).1 },
        (policyThenRam env c (some bucket) r action objectName).2) := by
  rw [policyThenRam_indeterminate env c bucket r action objectName hind]
  refine ⟨fun hsub => ?_, fun hsub => ?_⟩
  · rw [if_pos hsub]
    refine ⟨rfl, fun h => ?_, fun h => ?_⟩
    · rw [IsRamPolicyAllowed_of_allows env c r action h]
    · rw [IsRamPolicyAllowed_of_denies env c r action h]
  · rw [if_neg hsub]

/-- With `AllowOtherUserAccess` set, the ACL block of every operation is skipped. -/
theorem aclCheck_allowOther (env : Env) (op : MultipartOp) (bucket : Bucket)
    (c : Credential) (ownerId : String) (h : c.AllowOtherUserAccess = true) :
    aclCheck env op bucket c ownerId = none := by
  cases op <;>
    simp [aclCheck, ListMultipartUploadsAcl, NewMultipartUploadAcl, PutObjectPartAcl,
      CopyObjectPartAcl, ListObjectPartsAcl, AbortMultipartUploadAcl,
      CompleteMultipartUploadAcl, h]

/-! ## Auth-type dispatch (C8, C9) -/

/-- C8: for a request whose auth type is unknown, `checkRequestAuth` returns
`ErrSignatureVersionNotSupported` with the zero credential for every action; the
result is the same under every environment, so neither signature verification nor
any policy evaluation contributes to it. -/
theorem checkRequestAuth_unknown (env : Env) (ctx : RequestContext) (r : Request)
    (action : Action) (h : ctx.AuthType = .AuthTypeUnknown) :
    checkRequestAuth env ctx r action =
        (Credential.zero, some .ErrSignatureVersionNotSupported) ∧
      ∀ env2 : Env, checkRequestAuth env2 ctx r action = checkRequestAuth env ctx r action := by
  have key : ∀ e : Env, checkRequestAuth e ctx r action =
      (Credential.zero, some .ErrSignatureVersionNotSupported) := by
    intro e
    unfold checkRequestAuth
    simp [h]
  exact ⟨key env, fun e => by rw [key e, key env]⟩

theorem checkRequestAuth_unknown_witness :
    (sampleCtx .AuthTypeUnknown none).AuthType = .AuthTypeUnknown ∧
      checkRequestAuth (sampleEnv ownerCred) (sampleCtx .AuthTypeUnknown none) sampleRequest
        "s3:PutObject" = (Credential.zero, some .ErrSignatureVersionNotSupported) :=
  ⟨rfl, (checkRequestAuth_unknown (sampleEnv ownerCred) (sampleCtx .AuthTypeUnknown none)
    sampleRequest "s3:PutObject" rfl).1⟩

/-- C9: for an anonymous request with action `ListAllMyBuckets`, `checkRequestAuth`
returns `ErrAccessDenied` with the zero credential; the result is the same for every
environment, request context of anonymous type (whatever its bucket) and request, so
no bucket policy is evaluated. -/
theorem checkRequestAuth_anonymous_list (env : Env) (ctx : RequestContext) (r : Request)
    (h : ctx.AuthType = .AuthTypeAnonymous) :
    checkRequestAuth env ctx r ListAllMyBucketsAction =
        (Credential.zero, some .ErrAccessDenied) ∧
      ∀ (env2 : Env) (ctx2 : RequestContext) (r2 : Request),
        ctx2.AuthType = .AuthTypeAnonymous →
        checkRequestAuth env2 ctx2 r2 ListAllMyBucketsAction =
          checkRequestAuth env ctx r ListAllMyBucketsAction := by
  have key : ∀ (e : Env) (x : RequestContext) (q : Request),
      x.AuthType = .AuthTypeAnonymous →
      checkRequestAuth e x q ListAllMyBucketsAction =
        (Credential.zero, some .ErrAccessDenied) := by
    intro e x q hx
    unfold checkRequestAuth
    simp [hx]
  exact ⟨key env ctx r h, fun e x q hx => by rw [key e x q hx, key env ctx r h]⟩

theorem checkRequestAuth_anonymous_list_witness :
    (sampleCtx .AuthTypeAnonymous (some (sampleBucket (cannedAcl "public-read") [1]))).AuthType =
        .AuthTypeAnonymous ∧
      checkRequestAuth (sampleEnv ownerCred)
        (sampleCtx .AuthTypeAnonymous (some (sampleBucket (cannedAcl "public-read") [1])))
        sampleRequest ListAllMyBucketsAction = (Credential.zero, some .ErrAccessDenied) :=
  ⟨rfl, (checkRequestAuth_anonymous_list (sampleEnv ownerCred)
    (sampleCtx .AuthTypeAnonymous (some (sampleBucket (cannedAcl "public-read") [1])))
    sampleRequest rfl).1⟩

/-! ## `ListAllMyBuckets` and `CreateBucket` (C7) -/

/-- C7: for a signed request with a verified signature whose action is
`ListAllMyBuckets` or `CreateBucket`, the result of `checkRequestAuth` does not depend
on the request's bucket, object name or the policy decoder (the bucket policy is not
evaluated); it is the credential with `AllowOtherUserAccess = true` and no error
exactly when the credential's IAM policy answers allow, and in every other case (deny,
indeterminate, no IAM policy) it is `ErrAccessDenied` with
`AllowOtherUserAccess = false`. -/
theorem checkRequestAuth_list_create (env : Env) (ctx : RequestContext) (r : Request)
    (action : Action) (c : Credential)
    (hsig : ctx.AuthType.isSigned = true) (hauth : env.IsReqAuthenticated r = (c, none))
    (hact : action = ListAllMyBucketsAction ∨ action = CreateBucketAction) :
    (∀ (ctx2 : RequestContext) (u : List UInt8 → Option Policy),
        ctx2.AuthType.isSigned = true →
        checkRequestAuth { env with Unmarshal := u } ctx2 r action =
          checkRequestAuth env ctx r action) ∧
      ((checkRequestAuth env ctx r action).2 = none ↔ ramAllows env c r action) ∧
      (ramAllows env c r action →
        checkRequestAuth env ctx r action =
          ({ c with AllowOtherUserAccess := true }, none)) ∧
      (¬ ramAllows env c r action →
        checkRequestAuth env ctx r action =
          ({ c with AllowOtherUserAccess := false }, some .ErrAccessDenied)) := by
  have hyes : ramAllows env c r action →
      IsRamPolicyAllowed env c.Policy r action = (true, none) := by
    rintro ⟨p, hp, hall⟩
    simp [IsRamPolicyAllowed, hp, hall]
  have hno : ¬ ramAllows env c r action →
      IsRamPolicyAllowed env c.Policy r action = (false, some .ErrAccessDenied) := by
    intro hn
    unfold IsRamPolicyAllowed
    cases hp : c.Policy with
    | none => simp [hact]
    | some p =>
      have hne : p.IsAllowed (ramPolicyArgs env r action) ≠ .PolicyAllow :=
        fun hall => hn ⟨p, hp, hall⟩
      simp [hne, hact]
  have hres := checkRequestAuth_signed_ram env ctx r action c hsig hauth hact
  refine ⟨?_, ?_, ?_, ?_⟩
  · intro ctx2 u hsig2
    rw [hres, checkRequestAuth_signed_ram { env with Unmarshal := u } ctx2 r action c hsig2
      hauth hact]
    rfl
  · rw [hres]
    by_cases hr : ramAllows env c r action
    · simp [hyes hr, hr]
    · simp [hno hr, hr]
  · intro hr
    rw [hres, hyes hr]
  · intro hr
    rw [hres, hno hr]

theorem checkRequestAuth_list_create_witness :
    (sampleCtx .AuthTypeSignedV4 none).AuthType.isSigned = true ∧
      (sampleEnv (subUserCred (some (constPolicy .PolicyAllow)))).IsReqAuthenticated
          sampleRequest = (subUserCred (some (constPolicy .PolicyAllow)), none) ∧
      checkRequestAuth (sampleEnv (subUserCred (some (constPolicy .PolicyAllow))))
          (sampleCtx .AuthTypeSignedV4 none) sampleRequest CreateBucketAction =
        ({ subUserCred (some (constPolicy .PolicyAllow)) with AllowOtherUserAccess := true },
          none) :=
  ⟨rfl, rfl,
    (checkRequestAuth_list_create (sampleEnv (subUserCred (some (constPolicy .PolicyAllow))))
      (sampleCtx .AuthTypeSignedV4 none) sampleRequest CreateBucketAction
      (subUserCred (some (constPolicy .PolicyAllow))) rfl rfl (Or.inr rfl)).2.2.1
      ⟨constPolicy .PolicyAllow, rfl, rfl⟩⟩

/-! ## Bucket policy first (C4), owner shortcut (C5), IAM policy second (C6) -/

/-- What `IsBucketPolicyAllowed` returns for a non-owner on an existing bucket, by the
outcome of the bucket policy. -/
theorem IsBucketPolicyAllowed_outcome (env : Env) (c : Credential) (bucket : Bucket)
    (r : Request) (action : Action) (objectName : String)
    (hown : ¬ ownerShortcut bucket c) :
    IsBucketPolicyAllowed env c (some bucket) r action objectName =
      match bucketPolicyOutcome env c bucket r action objectName with
      | none => (false, some .InDatatypeFatalError)
      | some .PolicyAllow => (true, none)
      | some .PolicyDeny => (false, some .ErrAccessDenied)
      | some .PolicyIndeterminate => (false, none) := by
  unfold ownerShortcut at hown
  unfold IsBucketPolicyAllowed bucketPolicyOutcome
  simp only [hown, if_false]
  cases hp : env.Unmarshal bucket.Policy with
  | none => rfl
  | some p =>
    simp only [Option.map_some']
    cases hres : p.IsAllowed (bucketPolicyArgs env c bucket r action objectName) <;> simp

/-- C4: in `checkRequestAuth`, for a signed request with a verified signature by a
non-owner, on an existing bucket, with an action other than `ListAllMyBuckets` and
`CreateBucket`: if the bucket policy answers allow, the result is the credential with
`AllowOtherUserAccess = true` and no error, whatever the credential's IAM policy is;
if it answers deny, the result is `ErrAccessDenied`, whatever the IAM policy is and
also for a sub-user of the bucket owner. -/
theorem checkRequestAuth_bucket_policy_decides (env : Env) (ctx : RequestContext)
    (r : Request) (action : Action) (c : Credential) (bucket : Bucket)
    (hsig : ctx.AuthType.isSigned = true) (hauth : env.IsReqAuthenticated r = (c, none))
    (hl : action ≠ ListAllMyBucketsAction) (hc : action ≠ CreateBucketAction)
    (hb : ctx.BucketInfo = some bucket) (hown : ¬ ownerShortcut bucket c) :
    (bucketPolicyOutcome env c bucket r action ctx.ObjectName = some .PolicyAllow →
        checkRequestAuth env ctx r action =
          ({ c with AllowOtherUserAccess := true }, none)) ∧
      (bucketPolicyOutcome env c bucket r action ctx.ObjectName = some .PolicyDeny →
        checkRequestAuth env ctx r action =
          ({ c with AllowOtherUserAccess := false }, some .ErrAccessDenied)) := by
  have hres := checkRequestAuth_signed env ctx r action c hsig hauth hl hc
  have hbp := IsBucketPolicyAllowed_outcome env c bucket r action ctx.ObjectName hown
  constructor
  · intro ho
    rw [ho] at hbp
    rw [hres]
    simp [policyThenRam, hb, hbp]
  · intro ho
    rw [ho] at hbp
    rw [hres]
    simp [policyThenRam, hb, hbp]

theorem checkRequestAuth_bucket_policy_decides_witness :
    (sampleCtx .AuthTypeSignedV2 (some (sampleBucket (cannedAcl "private") [2]))).AuthType.isSigned
        = true ∧
      ¬ ownerShortcut (sampleBucket (cannedAcl "private") [2])
        (subUserCred (some (constPolicy .PolicyAllow))) ∧
      bucketPolicyOutcome (sampleEnv (subUserCred (some (constPolicy .PolicyAllow))))
        (subUserCred (some (constPolicy .PolicyAllow))) (sampleBucket (cannedAcl "private") [2])
        sampleRequest "s3:PutObject" "cat.png" = some .PolicyDeny ∧
      checkRequestAuth (sampleEnv (subUserCred (some (constPolicy .PolicyAllow))))
          (sampleCtx .AuthTypeSignedV2 (some (sampleBucket (cannedAcl "private") [2])))
          sampleRequest "s3:PutObject" =
        ({ subUserCred (some (constPolicy .PolicyAllow)) with AllowOtherUserAccess := false },
          some .ErrAccessDenied) :=
  ⟨rfl, by decide, rfl,
    (checkRequestAuth_bucket_policy_decides
      (sampleEnv (subUserCred (some (constPolicy .PolicyAllow))))
      (sampleCtx .AuthTypeSignedV2 (some (sampleBucket (cannedAcl "private") [2])))
      sampleRequest "s3:PutObject" (subUserCred (some (constPolicy .PolicyAllow)))
      (sampleBucket (cannedAcl "private") [2]) rfl rfl (by decide) (by decide) rfl
      (by decide)).2 rfl⟩

/-- C5: for every bucket and every credential that is the root user of the bucket
owner's account (`bucket.OwnerId == ExternRootId` and `ExternUserId == ExternRootId`),
`IsBucketPolicyAllowed` returns `(true, nil)` for every action, object name, request
and policy blob and under every policy decoder, and the ACL block of each of the
seven multipart operations is left without an error, whatever the bucket ACL is. -/
theorem owner_shortcut_passes (env : Env) (c : Credential) (bucket : Bucket)
    (h1 : bucket.OwnerId = c.ExternRootId) (h2 : c.ExternUserId = c.ExternRootId) :
    (∀ (r : Request) (action : Action) (objectName : String),
        IsBucketPolicyAllowed env c (some bucket) r action objectName = (true, none)) ∧
      ∀ (op : MultipartOp) (ownerId : String), aclCheck env op bucket c ownerId = none := by
  constructor
  · intro r action objectName
    simp [IsBucketPolicyAllowed, h1, h2]
  · intro op ownerId
    cases op <;>
      simp [aclCheck, ListMultipartUploadsAcl, NewMultipartUploadAcl, PutObjectPartAcl,
        CopyObjectPartAcl, ListObjectPartsAcl, AbortMultipartUploadAcl,
        CompleteMultipartUploadAcl, h1, h2]

theorem owner_shortcut_passes_witness :
    (sampleBucket (cannedAcl "private") [2]).OwnerId = ownerCred.ExternRootId ∧
      ownerCred.ExternUserId = ownerCred.ExternRootId ∧
      IsBucketPolicyAllowed (sampleEnv ownerCred) ownerCred
        (some (sampleBucket (cannedAcl "private") [2])) sampleRequest "s3:GetObject" "cat.png" =
        (true, none) ∧
      aclCheck (sampleEnv ownerCred) .CompleteMultipartUpload
        (sampleBucket (cannedAcl "private") [2]) ownerCred "owner" = none :=
  ⟨rfl, rfl,
    (owner_shortcut_passes (sampleEnv ownerCred) ownerCred
      (sampleBucket (cannedAcl "private") [2]) rfl rfl).1 sampleRequest "s3:GetObject" "cat.png",
    (owner_shortcut_passes (sampleEnv ownerCred) ownerCred
      (sampleBucket (cannedAcl "private") [2]) rfl rfl).2 .CompleteMultipartUpload "owner"⟩

/-- C6: when the bucket policy is indeterminate (`IsBucketPolicyAllowed` returns
`(false, nil)`), `checkSourceBucketAuth` and `checkRequestAuth` (signed request with a
verified signature and an action other than `ListAllMyBuckets` and `CreateBucket`, or
anonymous request with an action other than `ListAllMyBuckets`) satisfy `iamStage`: the
IAM policy decides exactly when the credential's `ExternRootId` equals the bucket's
`OwnerId` (allow gives `AllowOtherUserAccess = true` without error, deny gives
`ErrAccessDenied`); when `ExternRootId` differs, the result is
`AllowOtherUserAccess = false` without error, whatever the IAM policy is. -/
theorem indeterminate_bucket_policy_goes_to_iam (env : Env) (ctx : RequestContext)
    (r : Request) (action : Action) (c : Credential) (bucket : Bucket) (object : String)
    (hind : IsBucketPolicyAllowed env c (some bucket) r action object = (false, none)) :
    iamStage env c bucket r action (checkSourceBucketAuth env r action (some bucket) object c) ∧
      (ctx.AuthType.isSigned = true → env.IsReqAuthenticated r = (c, none) →
        action ≠ ListAllMyBucketsAction → action ≠ CreateBucketAction →
        ctx.BucketInfo = some bucket → ctx.ObjectName = object →
        iamStage env c bucket r action (checkRequestAuth env ctx r action)) ∧
      (ctx.AuthType = .AuthTypeAnonymous → c = Credential.zero →
        action ≠ ListAllMyBucketsAction →
        ctx.BucketInfo = some bucket → ctx.ObjectName = object →
        iamStage env c bucket r action (checkRequestAuth env ctx r action)) := by
  refine ⟨?_, ?_, ?_⟩
  · unfold checkSourceBucketAuth
    exact iamStage_of_policyThenRam env c bucket r action object hind
  · intro hsig hauth hl hc hb ho
    rw [checkRequestAuth_signed env ctx r action c hsig hauth hl hc, hb, ho]
    exact iamStage_of_policyThenRam env c bucket r action object hind
  · intro hty hzero hl hb ho
    subst hzero
    have hres : checkRequestAuth env ctx r action =
        ({ Credential.zero with AllowOtherUserAccess := false }, none) := by
      unfold checkRequestAuth
      simp [hty, hl, hb, ho, hind]
    rw [hres]
    refine ⟨fun hsub => ?_, fun _ => rfl⟩
    exfalso
    have hshort : IsBucketPolicyAllowed env Credential.zero (some bucket) r action object =
        (true, none) := by
      simp [IsBucketPolicyAllowed, ← hsub, Credential.zero]
    rw [hshort] at hind
    simp at hind

theorem indeterminate_bucket_policy_goes_to_iam_witness :
    IsBucketPolicyAllowed (sampleEnv (subUserCred (some (constPolicy .PolicyDeny))))
        (subUserCred (some (constPolicy .PolicyDeny))) (some (sampleBucket (cannedAcl "private") [0]))
        sampleRequest "s3:PutObject" "cat.png" = (false, none) ∧
      checkSourceBucketAuth (sampleEnv (subUserCred (some (constPolicy .PolicyDeny))))
          sampleRequest "s3:PutObject" (some (sampleBucket (cannedAcl "private") [0])) "cat.png"
          (subUserCred (some (constPolicy .PolicyDeny))) =
        ({ subUserCred (some (constPolicy .PolicyDeny)) with AllowOtherUserAccess := false },
          some .ErrAccessDenied) :=
  ⟨rfl,
    ((indeterminate_bucket_policy_goes_to_iam
      (sampleEnv (subUserCred (some (constPolicy .PolicyDeny))))
      (sampleCtx .AuthTypeSignedV4 (some (sampleBucket (cannedAcl "private") [0])))
      sampleRequest "s3:PutObject" (subUserCred (some (constPolicy .PolicyDeny)))
      (sampleBucket (cannedAcl "private") [0]) "cat.png" rfl).1.1 rfl).2.2
      ⟨constPolicy .PolicyDeny, rfl, rfl⟩⟩

/-! ## Canned ACLs of `ListMultipartUploads` (C10) -/

/-- C10: in `ListMultipartUploads`, for a non-owner credential without
`AllowOtherUserAccess` and a bucket with a canned ACL: the ACL block passes for every
credential when the canned ACL is `public-read` or `public-read-write`; with
`authenticated-read` it passes iff `ExternUserId` is not empty and fails with
`ErrBucketAccessForbidden` otherwise; with any other canned ACL it fails with
`ErrBucketAccessForbidden`. -/
theorem ListMultipartUploads_canned_acl (env : Env) (bucket : Bucket) (c : Credential)
    (hflag : c.AllowOtherUserAccess = false) (hown : ¬ ownerShortcut bucket c)
    (hcanned : bucket.ACL.CannedAcl ≠ "") :
    (bucket.ACL.CannedAcl = "public-read" ∨ bucket.ACL.CannedAcl = "public-read-write" →
        ListMultipartUploadsAcl env bucket c = none) ∧
      (bucket.ACL.CannedAcl = "authenticated-read" →
        (ListMultipartUploadsAcl env bucket c = none ↔ c.ExternUserId ≠ "") ∧
        (c.ExternUserId = "" →
          ListMultipartUploadsAcl env bucket c = some .ErrBucketAccessForbidden)) ∧
      (bucket.ACL.CannedAcl ≠ "public-read" → bucket.ACL.CannedAcl ≠ "public-read-write" →
        bucket.ACL.CannedAcl ≠ "authenticated-read" →
        ListMultipartUploadsAcl env bucket c = some .ErrBucketAccessForbidden) := by
  unfold ownerShortcut at hown
  refine ⟨fun h => ?_, fun h => ⟨?_, fun hu => ?_⟩, fun h1 h2 h3 => ?_⟩
  · simp [ListMultipartUploadsAcl, hflag, hown, hcanned, h]
  · by_cases hu : c.ExternUserId = ""
    · rw [hu] at hown
      simp [ListMultipartUploadsAcl, hflag, hown, h, hu]
    · simp [ListMultipartUploadsAcl, hflag, hown, h, hu]
  · rw [hu] at hown
    simp [ListMultipartUploadsAcl, hflag, hown, h, hu]
  · simp [ListMultipartUploadsAcl, hflag, hown, hcanned, h1, h2, h3]

theorem ListMultipartUploads_canned_acl_witness :
    Credential.zero.AllowOtherUserAccess = false ∧
      ¬ ownerShortcut (sampleBucket (cannedAcl "authenticated-read") [0]) Credential.zero ∧
      (sampleBucket (cannedAcl "authenticated-read") [0]).ACL.CannedAcl ≠ "" ∧
      ListMultipartUploadsAcl (sampleEnv ownerCred)
          (sampleBucket (cannedAcl "authenticated-read") [0]) Credential.zero =
        some .ErrBucketAccessForbidden :=
  ⟨rfl, by decide, by decide,
    ((ListMultipartUploads_canned_acl (sampleEnv ownerCred)
      (sampleBucket (cannedAcl "authenticated-read") [0]) Credential.zero rfl (by decide)
      (by decide)).2.1 rfl).2 rfl⟩

/-! ## The overall decision (C1) -/

/-- C1 as stated fails: a signed request by a user of another account whose own IAM
policy allows everything, on a bucket with an indeterminate bucket policy and the
canned ACL `private`, is refused by `NewMultipartUpload` (the IAM policy is only
consulted for the bucket owner's account), while the stated formula holds through
`policy_indeterminate ∧ ram_allow`. -/
theorem statedDecision_counterexample :
    ¬ (accessGranted (sampleEnv (strangerCred (some (constPolicy .PolicyAllow))))
          .NewMultipartUpload
          (sampleCtx .AuthTypeSignedV4 (some (sampleBucket (cannedAcl "private") [0])))
          sampleRequest "s3:PutObject" "owner" = true ↔
        statedDecision (sampleEnv (strangerCred (some (constPolicy .PolicyAllow))))
          .NewMultipartUpload (strangerCred (some (constPolicy .PolicyAllow)))
          (sampleBucket (cannedAcl "private") [0]) sampleRequest "s3:PutObject" "cat.png"
          "owner") := by
  intro h
  have hstated : statedDecision (sampleEnv (strangerCred (some (constPolicy .PolicyAllow))))
      .NewMultipartUpload (strangerCred (some (constPolicy .PolicyAllow)))
      (sampleBucket (cannedAcl "private") [0]) sampleRequest "s3:PutObject" "cat.png"
      "owner" :=
    Or.inr (Or.inr (Or.inl ⟨rfl, constPolicy .PolicyAllow, rfl, rfl⟩))
  have hgranted := h.mpr hstated
  revert hgranted
  decide

/-- C1 (amended): for a signed request with a verified signature on an existing bucket,
with an action other than `ListAllMyBuckets` and `CreateBucket`, the overall decision
(`checkRequestAuth`, then the ACL block of the storage operation) grants access iff
`owner_shortcut ∨ policy_allow ∨ (policy_indeterminate ∧ sub_user ∧ ram_allow) ∨
(policy_indeterminate ∧ (¬ sub_user ∨ ram_indeterminate) ∧ acl_allow)`, where
`sub_user` says that the credential's `ExternRootId` is the bucket's `OwnerId`: the
IAM policy is consulted only for credentials of the bucket owner's account. -/
theorem accessGranted_iff (env : Env) (op : MultipartOp) (ctx : RequestContext)
    (r : Request) (action : Action) (c : Credential) (bucket : Bucket) (ownerId : String)
    (hsig : ctx.AuthType.isSigned = true) (hauth : env.IsReqAuthenticated r = (c, none))
    (hl : action ≠ ListAllMyBucketsAction) (hc : action ≠ CreateBucketAction)
    (hb : ctx.BucketInfo = some bucket) :
    accessGranted env op ctx r action ownerId = true ↔
      ownerShortcut bucket c ∨
        bucketPolicyOutcome env c bucket r action ctx.ObjectName = some .PolicyAllow ∨
        (bucketPolicyOutcome env c bucket r action ctx.ObjectName =
            some .PolicyIndeterminate ∧
          c.ExternRootId = bucket.OwnerId ∧ ramAllows env c r action) ∨
        (bucketPolicyOutcome env c bucket r action ctx.ObjectName =
            some .PolicyIndeterminate ∧
          (c.ExternRootId ≠ bucket.OwnerId ∨ ramIndeterminate env c r action) ∧
          aclCheck env op bucket { c with AllowOtherUserAccess := false } ownerId = none) := by
  have hres := checkRequestAuth_signed env ctx r action c hsig hauth hl hc
  unfold accessGranted
  rw [hb] at hres ⊢
  simp only [hres]
  by_cases hown : ownerShortcut bucket c
  · have hbp : IsBucketPolicyAllowed env c (some bucket) r action ctx.ObjectName =
        (true, none) := by
      unfold ownerShortcut at hown
      simp [IsBucketPolicyAllowed, hown]
    have hptr : policyThenRam env c (some bucket) r action ctx.ObjectName = (true, none) := by
      simp [policyThenRam, hbp]
    rw [hptr]
    simp [hown, aclCheck_allowOther]
  · have hbp := IsBucketPolicyAllowed_outcome env c bucket r action ctx.ObjectName hown
    cases hout : bucketPolicyOutcome env c bucket r action ctx.ObjectName with
    | none =>
      rw [hout] at hbp
      simp [policyThenRam, hbp, hown]
    | some res =>
      rw [hout] at hbp
      cases res with
      | PolicyAllow =>
        simp only at hbp
        have hptr : policyThenRam env c (some bucket) r action ctx.ObjectName =
            (true, none) := by
          simp [policyThenRam, hbp]
        rw [hptr]
        simp [aclCheck_allowOther]
      | PolicyDeny =>
        simp only at hbp
        simp [policyThenRam, hbp, hown]
      | PolicyIndeterminate =>
        simp only at hbp
        rw [policyThenRam_indeterminate env c bucket r action ctx.ObjectName hbp]
        by_cases hsub : c.ExternRootId = bucket.OwnerId
        · rw [if_pos hsub]
          rcases ram_trichotomy env c r action with hra | hrd | hri
          · rw [IsRamPolicyAllowed_of_allows env c r action hra]
            simp [hsub, hra, aclCheck_allowOther]
          · rw [IsRamPolicyAllowed_of_denies env c r action hrd]
            have hna : ¬ ramAllows env c r action := by
              obtain ⟨p, hp, hden⟩ := hrd
              rintro ⟨q, hq, hall⟩
              rw [hp] at hq
              cases hq
              rw [hden] at hall
              cases hall
            have hni : ¬ ramIndeterminate env c r action := by
              obtain ⟨p, hp, hden⟩ := hrd
              intro hi
              have := hi p hp
              rw [hden] at this
              cases this
            simp [hown, hsub, hna, hni]
          · rw [IsRamPolicyAllowed_of_indeterminate env c r action hl hc hri]
            have hna : ¬ ramAllows env c r action := by
              rintro ⟨q, hq, hall⟩
              have := hri q hq
              rw [hall] at this
              cases this
            simp [hown, hsub, hna, hri]
        · rw [if_neg hsub]
          simp [hown, hsub]

theorem accessGranted_iff_witness :
    (sampleCtx .AuthTypeSignedV4
        (some (sampleBucket (cannedAcl "public-read-write") [0]))).AuthType.isSigned = true ∧
      (sampleEnv (strangerCred (some (constPolicy .PolicyAllow)))).IsReqAuthenticated
          sampleRequest = (strangerCred (some (constPolicy .PolicyAllow)), none) ∧
      accessGranted (sampleEnv (strangerCred (some (constPolicy .PolicyAllow))))
          .NewMultipartUpload
          (sampleCtx .AuthTypeSignedV4 (some (sampleBucket (cannedAcl "public-read-write") [0])))
          sampleRequest "s3:PutObject" "owner" = true :=
  ⟨rfl, rfl,
    (accessGranted_iff (sampleEnv (strangerCred (some (constPolicy .PolicyAllow))))
      .NewMultipartUpload
      (sampleCtx .AuthTypeSignedV4 (some (sampleBucket (cannedAcl "public-read-write") [0])))
      sampleRequest "s3:PutObject" (strangerCred (some (constPolicy .PolicyAllow)))
      (sampleBucket (cannedAcl "public-read-write") [0]) "owner" rfl rfl (by decide)
      (by decide) rfl).mpr
      (Or.inr (Or.inr (Or.inr ⟨rfl, Or.inl (by decide), by decide⟩)))⟩

/-! ## Group grants in the explicit-grant check (C2, C3) -/

/-- C2, the code at the failing input: on a bucket owned by `owner` whose explicit grants
give READ and WRITE to the `AuthenticatedUsers` group only, the anonymous credential
(empty `ExternUserId`, no `AllowOtherUserAccess`, not the owner, no grant by id and none
to `AllUsers`) leaves the ACL block of each of the seven multipart operations without
an error: the `AuthenticatedUsers` case is selected and the switch ends after its body. -/
theorem authenticated_users_grant_admits_anonymous :
    Credential.zero.ExternUserId = "" ∧
      Credential.zero.AllowOtherUserAccess = false ∧
      ¬ ownerShortcut (sampleBucket (groupAcl ACL_GROUP_TYPE_AUTHENTICATED_USERS) [0])
        Credential.zero ∧
      (∀ op : MultipartOp,
        IsPermissionMatchedByGroup (groupAcl ACL_GROUP_TYPE_AUTHENTICATED_USERS).Policy
            (requiredPermission op) ACL_GROUP_TYPE_AUTHENTICATED_USERS = true ∧
          IsPermissionMatchedById (groupAcl ACL_GROUP_TYPE_AUTHENTICATED_USERS).Policy
            (requiredPermission op) "" = false ∧
          IsPermissionMatchedById (groupAcl ACL_GROUP_TYPE_AUTHENTICATED_USERS).Policy
            ACL_PERM_FULL_CONTROL "" = false ∧
          IsPermissionMatchedByGroup (groupAcl ACL_GROUP_TYPE_AUTHENTICATED_USERS).Policy
            (requiredPermission op) ACL_GROUP_TYPE_ALL_USERS = false ∧
          IsPermissionMatchedByGroup (groupAcl ACL_GROUP_TYPE_AUTHENTICATED_USERS).Policy
            ACL_PERM_FULL_CONTROL ACL_GROUP_TYPE_ALL_USERS = false ∧
          aclCheck (sampleEnv ownerCred) op
            (sampleBucket (groupAcl ACL_GROUP_TYPE_AUTHENTICATED_USERS) [0]) Credential.zero
            "owner" = none) := by
  refine ⟨rfl, rfl, by decide, ?_⟩
  intro op
  cases op <;> decide

/-- C3, the code at the failing input: on a bucket owned by `owner` whose explicit grants
give READ and WRITE to the `LogDelivery` group only, with the configured log-delivery
group `["logger"]`, the credential of user `mallory` (not in that list, no
`AllowOtherUserAccess`, not the owner, no grant by id, none to `AllUsers` or
`AuthenticatedUsers`) leaves the ACL block of each of the seven multipart operations
without an error: the `LogDelivery` case is selected and the switch ends after its
body. -/
theorem log_delivery_grant_admits_non_member :
    StringInSlice (strangerCred none).ExternUserId (sampleEnv ownerCred).LogDeliveryGroup =
        false ∧
      (strangerCred none).AllowOtherUserAccess = false ∧
      ¬ ownerShortcut (sampleBucket (groupAcl ACL_GROUP_TYPE_LOG_DELIVERY) [0])
        (strangerCred none) ∧
      (∀ op : MultipartOp,
        IsPermissionMatchedByGroup (groupAcl ACL_GROUP_TYPE_LOG_DELIVERY).Policy
            (requiredPermission op) ACL_GROUP_TYPE_LOG_DELIVERY = true ∧
          IsPermissionMatchedById (groupAcl ACL_GROUP_TYPE_LOG_DELIVERY).Policy
            (requiredPermission op) "mallory" = false ∧
          IsPermissionMatchedById (groupAcl ACL_GROUP_TYPE_LOG_DELIVERY).Policy
            ACL_PERM_FULL_CONTROL "mallory" = false ∧
          IsPermissionMatchedByGroup (groupAcl ACL_GROUP_TYPE_LOG_DELIVERY).Policy
            (requiredPermission op) ACL_GROUP_TYPE_ALL_USERS = false ∧
          IsPermissionMatchedByGroup (groupAcl ACL_GROUP_TYPE_LOG_DELIVERY).Policy
            ACL_PERM_FULL_CONTROL ACL_GROUP_TYPE_ALL_USERS = false ∧
          IsPermissionMatchedByGroup (groupAcl ACL_GROUP_TYPE_LOG_DELIVERY).Policy
            (requiredPermission op) ACL_GROUP_TYPE_AUTHENTICATED_USERS = false ∧
          IsPermissionMatchedByGroup (groupAcl ACL_GROUP_TYPE_LOG_DELIVERY).Policy
            ACL_PERM_FULL_CONTROL ACL_GROUP_TYPE_AUTHENTICATED_USERS = false ∧
          aclCheck (sampleEnv ownerCred) op
            (sampleBucket (groupAcl ACL_GROUP_TYPE_LOG_DELIVERY) [0]) (strangerCred none)
            "owner" = none) := by
  refine ⟨by decide, rfl, by decide, ?_⟩
  intro op
  cases op <;> decide

/-! ## Required permission by operation kind (C11) -/

/-- The required permission when no group grant comes into play: for a non-owner
credential without `AllowOtherUserAccess` on a bucket with explicit grants only, each
mutating operation (`NewMultipartUpload`, `PutObjectPart`, `AbortMultipartUpload`,
`CompleteMultipartUpload`) accepts a grantee holding WRITE or FULL_CONTROL and rejects
a credential when neither WRITE nor FULL_CONTROL is granted to it or to one of the
three groups, and `ListMultipartUploads` does the same with READ. -/
theorem required_permission_by_operation (env : Env) (bucket : Bucket) (c : Credential)
    (ownerId : String)
    (hflag : c.AllowOtherUserAccess = false) (hown : ¬ ownerShortcut bucket c)
    (hexp : bucket.ACL.CannedAcl = "") :
    (∀ op : MultipartOp,
        op = .NewMultipartUpload ∨ op = .PutObjectPart ∨ op = .AbortMultipartUpload ∨
          op = .CompleteMultipartUpload →
        ((IsPermissionMatchedById bucket.ACL.Policy ACL_PERM_WRITE c.ExternUserId = true ∨
            IsPermissionMatchedById bucket.ACL.Policy ACL_PERM_FULL_CONTROL c.ExternUserId =
              true) →
          aclCheck env op bucket c ownerId = none) ∧
        (grantedInSomeCase bucket.ACL.Policy ACL_PERM_WRITE c.ExternUserId = false →
          grantedInSomeCase bucket.ACL.Policy ACL_PERM_FULL_CONTROL c.ExternUserId = false →
          aclCheck env op bucket c ownerId = some .ErrBucketAccessForbidden ∨
            aclCheck env op bucket c ownerId = some .ErrAccessDenied)) ∧
      ((IsPermissionMatchedById bucket.ACL.Policy ACL_PERM_READ c.ExternUserId = true ∨
          IsPermissionMatchedById bucket.ACL.Policy ACL_PERM_FULL_CONTROL c.ExternUserId =
            true) →
        aclCheck env .ListMultipartUploads bucket c ownerId = none) ∧
      (grantedInSomeCase bucket.ACL.Policy ACL_PERM_READ c.ExternUserId = false →
        grantedInSomeCase bucket.ACL.Policy ACL_PERM_FULL_CONTROL c.ExternUserId = false →
        aclCheck env .ListMultipartUploads bucket c ownerId =
          some .ErrBucketAccessForbidden) := by
  unfold ownerShortcut at hown
  have hsel : ∀ perm : String,
      (IsPermissionMatchedById bucket.ACL.Policy perm c.ExternUserId = true ∨
        IsPermissionMatchedById bucket.ACL.Policy ACL_PERM_FULL_CONTROL c.ExternUserId = true) →
      grantCaseSelected env bucket.ACL.Policy perm c = true := by
    intro perm h
    unfold grantCaseSelected
    rcases h with h | h <;> simp [h]
  have hnot : ∀ perm : String,
      grantedInSomeCase bucket.ACL.Policy perm c.ExternUserId = false →
      grantedInSomeCase bucket.ACL.Policy ACL_PERM_FULL_CONTROL c.ExternUserId = false →
      grantCaseSelected env bucket.ACL.Policy perm c = false := by
    intro perm h1 h2
    simp only [grantedInSomeCase, Bool.or_eq_false_iff] at h1 h2
    obtain ⟨⟨⟨a1, a2⟩, a3⟩, a4⟩ := h1
    obtain ⟨⟨⟨b1, b2⟩, b3⟩, b4⟩ := h2
    simp [grantCaseSelected, a1, a2, a3, a4, b1, b2, b3, b4]
  refine ⟨?_, ?_, ?_⟩
  · intro op hop
    refine ⟨fun h => ?_, fun h1 h2 => ?_⟩
    · have := hsel ACL_PERM_WRITE h
      rcases hop with rfl | rfl | rfl | rfl <;>
        simp [aclCheck, NewMultipartUploadAcl, PutObjectPartAcl, AbortMultipartUploadAcl,
          CompleteMultipartUploadAcl, hflag, hown, hexp, this]
    · have := hnot ACL_PERM_WRITE h1 h2
      rcases hop with rfl | rfl | rfl | rfl <;>
        simp [aclCheck, NewMultipartUploadAcl, PutObjectPartAcl, AbortMultipartUploadAcl,
          CompleteMultipartUploadAcl, hflag, hown, hexp, this]
  · intro h
    have := hsel ACL_PERM_READ h
    simp [aclCheck, ListMultipartUploadsAcl, hflag, hown, hexp, this]
  · intro h1 h2
    have := hnot ACL_PERM_READ h1 h2
    simp [aclCheck, ListMultipartUploadsAcl, hflag, hown, hexp, this]

theorem required_permission_by_operation_witness :
    (strangerCred none).AllowOtherUserAccess = false ∧
      ¬ ownerShortcut (sampleBucket (userAcl "mallory" ACL_PERM_READ) [0]) (strangerCred none) ∧
      (sampleBucket (userAcl "mallory" ACL_PERM_READ) [0]).ACL.CannedAcl = "" ∧
      (aclCheck (sampleEnv ownerCred) .NewMultipartUpload
            (sampleBucket (userAcl "mallory" ACL_PERM_READ) [0]) (strangerCred none) "owner" =
          some .ErrBucketAccessForbidden ∨
        aclCheck (sampleEnv ownerCred) .NewMultipartUpload
            (sampleBucket (userAcl "mallory" ACL_PERM_READ) [0]) (strangerCred none) "owner" =
          some .ErrAccessDenied) ∧
      aclCheck (sampleEnv ownerCred) .ListMultipartUploads
          (sampleBucket (userAcl "mallory" ACL_PERM_READ) [0]) (strangerCred none) "owner" =
        none :=
  ⟨rfl, by decide, rfl,
    ((required_permission_by_operation (sampleEnv ownerCred)
      (sampleBucket (userAcl "mallory" ACL_PERM_READ) [0]) (strangerCred none) "owner" rfl
      (by decide) rfl).1 .NewMultipartUpload (Or.inl rfl)).2 (by decide) (by decide),
    (required_permission_by_operation (sampleEnv ownerCred)
      (sampleBucket (userAcl "mallory" ACL_PERM_READ) [0]) (strangerCred none) "owner" rfl
      (by decide) rfl).2.1 (Or.inl (by decide))⟩

/-- C11 (fails on the code): on a bucket owned by `owner` whose explicit grants give
READ to the user `mallory` and WRITE to the `LogDelivery` group, with the configured
log-delivery group `["logger"]`, the credential of `mallory` (not the owner, no
`AllowOtherUserAccess`, not in that list) holds only READ: neither WRITE nor
FULL_CONTROL is granted to it, to `AllUsers` or to `AuthenticatedUsers`. Yet the ACL
block of each of the four mutating operations is left without an error. Likewise, with
WRITE granted to `mallory` and READ to the `LogDelivery` group, `mallory` holds only
WRITE and the ACL block of `ListMultipartUploads` is left without an error. In both
cases the `LogDelivery` case is selected and the switch ends after its body. -/
theorem read_only_grantee_admitted_to_mutations :
    (strangerCred none).AllowOtherUserAccess = false ∧
      ¬ ownerShortcut (sampleBucket readGranteeAcl [0]) (strangerCred none) ∧
      StringInSlice (strangerCred none).ExternUserId (sampleEnv ownerCred).LogDeliveryGroup =
        false ∧
      readGranteeAcl.CannedAcl = "" ∧
      IsPermissionMatchedById readGranteeAcl.Policy ACL_PERM_READ "mallory" = true ∧
      (IsPermissionMatchedById readGranteeAcl.Policy ACL_PERM_WRITE "mallory" ||
        IsPermissionMatchedById readGranteeAcl.Policy ACL_PERM_FULL_CONTROL "mallory" ||
        IsPermissionMatchedByGroup readGranteeAcl.Policy ACL_PERM_WRITE
          ACL_GROUP_TYPE_ALL_USERS ||
        IsPermissionMatchedByGroup readGranteeAcl.Policy ACL_PERM_FULL_CONTROL
          ACL_GROUP_TYPE_ALL_USERS ||
        IsPermissionMatchedByGroup readGranteeAcl.Policy ACL_PERM_WRITE
          ACL_GROUP_TYPE_AUTHENTICATED_USERS ||
        IsPermissionMatchedByGroup readGranteeAcl.Policy ACL_PERM_FULL_CONTROL
          ACL_GROUP_TYPE_AUTHENTICATED_USERS) = false ∧
      [MultipartOp.NewMultipartUpload, .PutObjectPart, .AbortMultipartUpload,
          .CompleteMultipartUpload].map
          (fun op => aclCheck (sampleEnv ownerCred) op (sampleBucket readGranteeAcl [0])
            (strangerCred none) "owner") =
        [none, none, none, none] ∧
      writeGranteeAcl.CannedAcl = "" ∧
      IsPermissionMatchedById writeGranteeAcl.Policy ACL_PERM_WRITE "mallory" = true ∧
      (IsPermissionMatchedById writeGranteeAcl.Policy ACL_PERM_READ "mallory" ||
        IsPermissionMatchedById writeGranteeAcl.Policy ACL_PERM_FULL_CONTROL "mallory" ||
        IsPermissionMatchedByGroup writeGranteeAcl.Policy ACL_PERM_READ
          ACL_GROUP_TYPE_ALL_USERS ||
        IsPermissionMatchedByGroup writeGranteeAcl.Policy ACL_PERM_FULL_CONTROL
          ACL_GROUP_TYPE_ALL_USERS ||
        IsPermissionMatchedByGroup writeGranteeAcl.Policy ACL_PERM_READ
          ACL_GROUP_TYPE_AUTHENTICATED_USERS ||
        IsPermissionMatchedByGroup writeGranteeAcl.Policy ACL_PERM_FULL_CONTROL
          ACL_GROUP_TYPE_AUTHENTICATED_USERS) = false ∧
      aclCheck (sampleEnv ownerCred) .ListMultipartUploads (sampleBucket writeGranteeAcl [0])
        (strangerCred none) "owner" = none := by
  decide

/-! ## Lemmas on the validation loop of `CompleteMultipartUpload` -/

theorem wrapInt64_of_range (x : Int) (h1 : -9223372036854775808 ≤ x)
    (h2 : x < 9223372036854775808) : wrapInt64 x = x := by
  unfold wrapInt64
  omega

theorem wrapInt64_idem (x : Int) : wrapInt64 (wrapInt64 x) = wrapInt64 x := by
  unfold wrapInt64
  omega

theorem wrapInt64_add_left (a b : Int) : wrapInt64 (wrapInt64 a + b) = wrapInt64 (a + b) := by
  unfold wrapInt64
  omega

theorem setOffset_cons (key : Int) (p : Part) (rest : PartsMap) (k : Int) (offset : Int) :
    setOffset ((key, p) :: rest) k offset =
      (key, if key = k then { p with Offset := offset } else p) :: setOffset rest k offset := by
  unfold setOffset
  by_cases h : key = k <;> simp [h]

theorem lookup_setOffset (parts : PartsMap) (k k2 : Int) (offset : Int) :
    (setOffset parts k offset).lookup k2 =
      (parts.lookup k2).map fun p => if k2 = k then { p with Offset := offset } else p := by
  induction parts with
  | nil => rfl
  | cons e rest ih =>
    obtain ⟨key, p⟩ := e
    rw [setOffset_cons]
    by_cases hk : k2 = key
    · subst hk
      simp [List.lookup]
    · have hne : (k2 == key) = false := by simpa using hk
      simp only [List.lookup, hne]
      exact ih

theorem entryError_setOffset (n : Nat) (parts : PartsMap) (k : Int) (offset : Int) (i : Nat)
    (uploaded : CompletePart) :
    entryError n (setOffset parts k offset) i uploaded = entryError n parts i uploaded := by
  unfold entryError
  rw [lookup_setOffset]
  cases parts.lookup ((i : Int) + 1) with
  | none => rfl
  | some p =>
    by_cases hk : (i : Int) + 1 = k <;> simp [hk]

theorem firstError_setOffset (n : Nat) (parts : PartsMap) (k : Int) (offset : Int) :
    ∀ (ups : List CompletePart) (i : Nat),
      firstError n (setOffset parts k offset) ups i = firstError n parts ups i := by
  intro ups
  induction ups with
  | nil => intro i; rfl
  | cons up rest ih =>
    intro i
    simp only [firstError, entryError_setOffset, ih]

theorem sizeAt_setOffset (parts : PartsMap) (k k2 : Int) (offset : Int) :
    sizeAt (setOffset parts k offset) k2 = sizeAt parts k2 := by
  unfold sizeAt
  rw [lookup_setOffset]
  cases parts.lookup k2 with
  | none => rfl
  | some p => by_cases hk : k2 = k <;> simp [hk]

theorem partSizes_setOffset (parts : PartsMap) (k : Int) (offset : Int) :
    ∀ (c i : Nat), partSizes (setOffset parts k offset) i c = partSizes parts i c := by
  intro c
  induction c with
  | zero => intro i; rfl
  | succ c ih => intro i; simp only [partSizes, sizeAt_setOffset, ih]

theorem etagBytesAt_setOffset (parts : PartsMap) (k k2 : Int) (offset : Int) :
    etagBytesAt (setOffset parts k offset) k2 = etagBytesAt parts k2 := by
  unfold etagBytesAt
  rw [lookup_setOffset]
  cases parts.lookup k2 with
  | none => rfl
  | some p => by_cases hk : k2 = k <;> simp [hk]

theorem partEtagBytes_setOffset (parts : PartsMap) (k : Int) (offset : Int) :
    ∀ (c i : Nat), partEtagBytes (setOffset parts k offset) i c = partEtagBytes parts i c := by
  intro c
  induction c with
  | zero => intro i; rfl
  | succ c ih => intro i; simp only [partEtagBytes, etagBytesAt_setOffset, ih]

/-- What a passing iteration knows about its entry. -/
theorem entryError_none (n : Nat) (parts : PartsMap) (i : Nat) (uploaded : CompletePart)
    (h : entryError n parts i uploaded = none) :
    uploaded.PartNumber = (i : Int) + 1 ∧
      ∃ part etagBytes, parts.lookup ((i : Int) + 1) = some part ∧
        ¬ (part.Size < MIN_PART_SIZE ∧ part.PartNumber ≠ (n : Int)) ∧
        part.Etag = uploaded.ETag ∧ hexDecodeString part.Etag = some etagBytes := by
  unfold entryError at h
  by_cases h1 : uploaded.PartNumber = (i : Int) + 1
  · refine ⟨h1, ?_⟩
    simp only [h1, ne_eq, not_true_eq_false, if_false] at h
    cases hl : parts.lookup ((i : Int) + 1) with
    | none => simp [hl] at h
    | some part =>
      simp only [hl] at h
      by_cases h2 : part.Size < MIN_PART_SIZE ∧ part.PartNumber ≠ (n : Int)
      · simp [h2] at h
      · simp only [h2, if_false] at h
        by_cases h3 : part.Etag = uploaded.ETag
        · simp only [h3, ne_eq, not_true_eq_false, if_false] at h
          cases hd : hexDecodeString uploaded.ETag with
          | none => simp [hd] at h
          | some bytes => exact ⟨part, bytes, rfl, h2, h3, by rw [h3]; exact hd⟩
        · simp [h3] at h
  · simp [h1] at h

/-- One iteration of the validation loop. -/
theorem completeLoop_cons (n : Nat) (up : CompletePart) (rest : List CompletePart) (i : Nat)
    (parts : PartsMap) (total : Int) (written : List UInt8) :
    completeLoop n (up :: rest) i parts total written =
      match entryError n parts i up with
      | some e => .error e
      | none =>
        completeLoop n rest (i + 1) (setOffset parts ((i : Int) + 1) total)
          (wrapInt64 (total + sizeAt parts ((i : Int) + 1)))
          (written ++ etagBytesAt parts ((i : Int) + 1)) := by
  rw [completeLoop]
  unfold entryError sizeAt etagBytesAt
  by_cases h1 : up.PartNumber = (i : Int) + 1
  · simp only [h1, ne_eq, not_true_eq_false, if_false]
    cases hl : parts.lookup ((i : Int) + 1) with
    | none => rfl
    | some part =>
      simp only []
      by_cases h2 : part.Size < MIN_PART_SIZE ∧ part.PartNumber ≠ (n : Int)
      · rw [if_pos h2, if_pos h2]
      · rw [if_neg h2, if_neg h2]
        by_cases h3 : part.Etag = up.ETag
        · rw [if_neg (not_not.mpr h3), if_neg (not_not.mpr h3)]
          cases hd : hexDecodeString part.Etag with
          | none => rfl
          | some bytes => rfl
        · rw [if_pos h3, if_pos h3]
  · rw [if_pos h1, if_pos h1]

/-- The loop returns the error of the first failing iteration. -/
theorem completeLoop_error (n : Nat) :
    ∀ (ups : List CompletePart) (i : Nat) (parts : PartsMap) (total : Int)
      (written : List UInt8) (e : ApiError),
      firstError n parts ups i = some e →
      completeLoop n ups i parts total written = .error e := by
  intro ups
  induction ups with
  | nil => intro i parts total written e h; simp [firstError] at h
  | cons up rest ih =>
    intro i parts total written e h
    rw [completeLoop_cons]
    simp only [firstError] at h
    cases he : entryError n parts i up with
    | some e2 =>
      rw [he] at h
      simp only [Option.some.injEq] at h
      rw [h]
    | none =>
      rw [he] at h
      simp only at h ⊢
      apply ih
      rw [firstError_setOffset]
      exact h

/-- When no iteration fails, the loop ends with the running total of the sizes, the
concatenation of the decoded ETags, and a parts map in which the part listed at
position `j` carries the total of the sizes listed before it as its offset. -/
theorem completeLoop_ok (n : Nat) :
    ∀ (ups : List CompletePart) (i : Nat) (parts : PartsMap) (total : Int)
      (written : List UInt8),
      firstError n parts ups i = none → wrapInt64 total = total →
      ∃ final : PartsMap,
        completeLoop n ups i parts total written =
          .ok (final, wrapInt64 (total + (partSizes parts i ups.length).sum),
            written ++ partEtagBytes parts i ups.length) ∧
        (∀ k : Int, k ≤ (i : Int) → final.lookup k = parts.lookup k) ∧
        (∀ j : Nat, j < ups.length → ∀ p : Part,
          parts.lookup (((i + j : Nat) : Int) + 1) = some p →
          final.lookup (((i + j : Nat) : Int) + 1) =
            some { p with
              Offset := wrapInt64 (total + ((partSizes parts i ups.length).take j).sum) }) := by
  intro ups
  induction ups with
  | nil =>
    intro i parts total written _ hw
    refine ⟨parts, ?_, fun _ _ => rfl, ?_⟩
    · simp [completeLoop, partSizes, partEtagBytes, hw]
    · intro j hj
      simp at hj
  | cons up rest ih =>
    intro i parts total written h hw
    simp only [firstError] at h
    cases he : entryError n parts i up with
    | some e2 => rw [he] at h; simp at h
    | none =>
      rw [he] at h
      simp only at h
      have h2 : firstError n (setOffset parts ((i : Int) + 1) total) rest (i + 1) = none := by
        rw [firstError_setOffset]; exact h
      obtain ⟨final, hrun, hlow, hoff⟩ :=
        ih (i + 1) (setOffset parts ((i : Int) + 1) total)
          (wrapInt64 (total + sizeAt parts ((i : Int) + 1)))
          (written ++ etagBytesAt parts ((i : Int) + 1)) h2 (wrapInt64_idem _)
      refine ⟨final, ?_, ?_, ?_⟩
      · rw [completeLoop_cons, he]
        simp only []
        rw [hrun, partSizes_setOffset, partEtagBytes_setOffset]
        simp only [List.length_cons, partSizes, partEtagBytes, List.sum_cons,
          wrapInt64_add_left, List.append_assoc, add_assoc]
      · intro k hk
        rw [hlow k (by push_cast; omega), lookup_setOffset]
        have : k ≠ (i : Int) + 1 := by omega
        cases parts.lookup k with
        | none => rfl
        | some p => simp [this]
      · intro j hj p hp
        cases j with
        | zero =>
          simp only [Nat.add_zero] at hp ⊢
          rw [hlow ((i : Int) + 1) (by push_cast; omega), lookup_setOffset, hp]
          simp [hw]
        | succ j =>
          have hj2 : j < rest.length := by simpa using hj
          have hkey : (((i + (j + 1) : Nat) : Int) + 1) = (((i + 1 + j : Nat) : Int) + 1) := by
            push_cast; omega
          rw [hkey] at hp ⊢
          have hne : (((i + 1 + j : Nat) : Int) + 1) ≠ (i : Int) + 1 := by
            push_cast; omega
          have hp2 : (setOffset parts ((i : Int) + 1) total).lookup
              (((i + 1 + j : Nat) : Int) + 1) = some p := by
            rw [lookup_setOffset, hp]
            simp only [Option.map_some', if_neg hne]
          rw [hoff j hj2 p hp2, partSizes_setOffset]
          simp only [List.length_cons, partSizes, List.take_succ_cons, List.sum_cons,
            wrapInt64_add_left, add_assoc]

/-- An iteration fails with `ErrInvalidPart`, or with `PartTooSmall` for the stored
part of a well-numbered entry that is too small and is not numbered `n`. -/
theorem entryError_some (n : Nat) (parts : PartsMap) (i : Nat) (uploaded : CompletePart)
    (e : ApiError) (h : entryError n parts i uploaded = some e) :
    e = .ErrInvalidPart ∨
      (uploaded.PartNumber = (i : Int) + 1 ∧
        ∃ p, parts.lookup ((i : Int) + 1) = some p ∧ p.Size < MIN_PART_SIZE ∧
          p.PartNumber ≠ (n : Int) ∧ e = .PartTooSmall p.Size p.PartNumber p.Etag) := by
  unfold entryError at h
  by_cases h1 : uploaded.PartNumber = (i : Int) + 1
  · rw [if_neg (not_not.mpr h1)] at h
    cases hl : parts.lookup ((i : Int) + 1) with
    | none =>
      rw [hl] at h
      simp only [Option.some.injEq] at h
      exact Or.inl h.symm
    | some p =>
      rw [hl] at h
      simp only [] at h
      by_cases h2 : p.Size < MIN_PART_SIZE ∧ p.PartNumber ≠ (n : Int)
      · rw [if_pos h2] at h
        simp only [Option.some.injEq] at h
        exact Or.inr ⟨h1, p, rfl, h2.1, h2.2, h.symm⟩
      · rw [if_neg h2] at h
        by_cases h3 : p.Etag = uploaded.ETag
        · rw [if_neg (not_not.mpr h3)] at h
          cases hd : hexDecodeString p.Etag with
          | none =>
            rw [hd] at h
            simp only [Option.some.injEq] at h
            exact Or.inl h.symm
          | some bytes => rw [hd] at h; simp at h
        · rw [if_pos h3] at h
          simp only [Option.some.injEq] at h
          exact Or.inl h.symm
  · rw [if_pos h1] at h
    simp only [Option.some.injEq] at h
    exact Or.inl h.symm

theorem wellNumberedFrom_cons (i : Nat) (up : CompletePart) (rest : List CompletePart) :
    wellNumberedFrom i (up :: rest) = true ↔
      up.PartNumber = (i : Int) + 1 ∧ wellNumberedFrom (i + 1) rest = true := by
  simp [wellNumberedFrom]

/-- When the loop fails, the error is `ErrInvalidPart`, or `PartTooSmall` for a stored
part that is too small and listed at a position up to which the list is well
numbered. -/
theorem firstError_some (n : Nat) (parts : PartsMap) :
    ∀ (ups : List CompletePart) (i : Nat) (e : ApiError),
      firstError n parts ups i = some e →
      e = .ErrInvalidPart ∨
        ∃ (pre : List CompletePart) (up : CompletePart) (post : List CompletePart) (p : Part),
          ups = pre ++ up :: post ∧ wellNumberedFrom i (pre ++ [up]) = true ∧
          parts.lookup (((i + pre.length : Nat) : Int) + 1) = some p ∧
          p.Size < MIN_PART_SIZE ∧ p.PartNumber ≠ (n : Int) ∧
          e = .PartTooSmall p.Size p.PartNumber p.Etag := by
  intro ups
  induction ups with
  | nil => intro i e h; simp [firstError] at h
  | cons up rest ih =>
    intro i e h
    simp only [firstError] at h
    cases he : entryError n parts i up with
    | some e2 =>
      rw [he] at h
      simp only [Option.some.injEq] at h
      subst h
      rcases entryError_some n parts i up e2 he with h1 | ⟨hnum, p, hl, hs, hn, hp⟩
      · exact Or.inl h1
      · refine Or.inr ⟨[], up, rest, p, rfl, ?_, ?_, hs, hn, hp⟩
        · simp [wellNumberedFrom, hnum]
        · simpa using hl
    | none =>
      rw [he] at h
      simp only [] at h
      have hnum := (entryError_none n parts i up he).1
      rcases ih (i + 1) e h with h1 | ⟨pre, up2, post, p, hsplit, hwn, hl, hs, hn, hp⟩
      · exact Or.inl h1
      · refine Or.inr ⟨up :: pre, up2, post, p, ?_, ?_, ?_, hs, hn, hp⟩
        · rw [hsplit]; rfl
        · rw [List.cons_append, wellNumberedFrom_cons]
          exact ⟨hnum, hwn⟩
        · have : i + (up :: pre).length = i + 1 + pre.length := by
            simp only [List.length_cons]; omega
          rw [this]
          exact hl

/-- When no iteration fails, the list is well numbered and every listed part is stored
with the supplied ETag. -/
theorem firstError_none (n : Nat) (parts : PartsMap) :
    ∀ (ups : List CompletePart) (i : Nat),
      firstError n parts ups i = none →
      wellNumberedFrom i ups = true ∧
        ∀ up ∈ ups, ∃ p, parts.lookup up.PartNumber = some p ∧ p.Etag = up.ETag := by
  intro ups
  induction ups with
  | nil => intro i _; exact ⟨rfl, fun up hup => by simp at hup⟩
  | cons up rest ih =>
    intro i h
    simp only [firstError] at h
    cases he : entryError n parts i up with
    | some e2 => rw [he] at h; simp at h
    | none =>
      rw [he] at h
      simp only [] at h
      obtain ⟨hnum, p, _, hl, _, hetag, _⟩ := entryError_none n parts i up he
      obtain ⟨hwn, hall⟩ := ih (i + 1) h
      refine ⟨(wellNumberedFrom_cons i up rest).mpr ⟨hnum, hwn⟩, ?_⟩
      intro up2 hup2
      rcases List.mem_cons.mp hup2 with rfl | hmem
      · exact ⟨p, by rw [hnum]; exact hl, hetag⟩
      · exact hall up2 hmem

/-- After authorization and a successful multipart lookup, a failing validation loop
makes `CompleteMultipartUpload` return its error, with a zero result and no effect. -/
theorem CompleteMultipartUpload_validation_error (yig : YigStorage) (reqCtx : RequestContext)
    (credential : Credential) (uploadId : String) (ups : List CompletePart)
    (bucket : Bucket) (multipart : Multipart) (e : ApiError)
    (hb : reqCtx.BucketInfo = some bucket)
    (hacl : CompleteMultipartUploadAcl yig.env bucket credential = none)
    (hm : yig.GetMultipart reqCtx.BucketName reqCtx.ObjectName uploadId = .ok multipart)
    (he : firstError ups.length multipart.Parts ups 0 = some e) :
    CompleteMultipartUpload yig reqCtx credential uploadId ups =
      (CompleteMultipartResult.zero, some e, []) := by
  unfold CompleteMultipartUpload
  simp only [hb, hacl, hm, completeLoop_error ups.length ups 0 multipart.Parts 0 [] e he]

/-- The loop passes exactly when no iteration fails. -/
theorem firstError_of_completeLoop_ok (n : Nat) (ups : List CompletePart) (i : Nat)
    (parts : PartsMap) (total : Int) (written : List UInt8)
    (st : PartsMap × Int × List UInt8)
    (h : completeLoop n ups i parts total written = .ok st) :
    firstError n parts ups i = none := by
  cases he : firstError n parts ups i with
  | none => rfl
  | some e =>
    rw [completeLoop_error n ups i parts total written e he] at h
    cases h

/-- The freezer step only emits `DeleteFreezer` events. -/
theorem deleteOldFreezer_events (yig : YigStorage) (reqCtx : RequestContext) (bucket : Bucket)
    (object : Object) (ev : Event)
    (h : ev ∈ (deleteOldFreezer yig reqCtx bucket object).2) :
    ∃ f e, ev = Event.DeleteFreezer f e := by
  unfold deleteOldFreezer at h
  split at h
  · simp at h
  · split at h
    · split at h
      · simp only [List.mem_singleton] at h
        exact ⟨_, _, h⟩
      · split at h <;> simp at h
    · simp at h

/-- A successful `CompleteMultipartUpload` passed the validation loop and committed
exactly one object, built from the final state of the loop. -/
theorem CompleteMultipartUpload_success (yig : YigStorage) (reqCtx : RequestContext)
    (credential : Credential) (uploadId : String) (ups : List CompletePart)
    (result : CompleteMultipartResult) (trace : List Event)
    (h : CompleteMultipartUpload yig reqCtx credential uploadId ups = (result, none, trace)) :
    ∃ (bucket : Bucket) (multipart : Multipart) (final : PartsMap) (total : Int)
      (written : List UInt8),
      reqCtx.BucketInfo = some bucket ∧
      yig.GetMultipart reqCtx.BucketName reqCtx.ObjectName uploadId = .ok multipart ∧
      completeLoop ups.length ups 0 multipart.Parts 0 [] = .ok (final, total, written) ∧
      result.ETag = hexEncodeToString (yig.md5Sum written) ++ "-" ++ toString ups.length ∧
      result.ObjectSize = total ∧
      Event.MetaPutObject
          (completedObject yig reqCtx bucket { multipart with Parts := final } total result.ETag)
          { multipart with Parts := final } none ∈ trace ∧
      ∀ o m e, Event.MetaPutObject o m e ∈ trace →
        o = completedObject yig reqCtx bucket { multipart with Parts := final } total
          result.ETag ∧ e = none := by
  unfold CompleteMultipartUpload at h
  cases hb : reqCtx.BucketInfo with
  | none => simp [hb] at h
  | some bucket =>
    simp only [hb] at h
    cases hacl : CompleteMultipartUploadAcl yig.env bucket credential with
    | some err => simp [hacl] at h
    | none =>
      simp only [hacl] at h
      cases hm : yig.GetMultipart reqCtx.BucketName reqCtx.ObjectName uploadId with
      | error err => simp [hm] at h
      | ok multipart =>
        simp only [hm] at h
        cases hloop : completeLoop ups.length ups 0 multipart.Parts 0 [] with
        | error err => simp [hloop] at h
        | ok st =>
          obtain ⟨final, total, written⟩ := st
          simp only [hloop] at h
          split at h
          · simp at h
          · split at h
            · simp at h
            · rename_i hfree _ hcommit
              simp only [Prod.mk.injEq, true_and] at h
              obtain ⟨hres, htrace⟩ := h
              have hetag : result.ETag =
                  hexEncodeToString (yig.md5Sum written) ++ "-" ++ toString ups.length := by
                rw [← hres]
              have hsize : result.ObjectSize = total := by
                rw [← hres]; rfl
              refine ⟨bucket, multipart, final, total, written, rfl, rfl, hloop, hetag, hsize,
                ?_, ?_⟩
              · rw [← htrace, hetag, hcommit]
                simp
              · intro o m e hmem
                rw [← htrace, hcommit] at hmem
                rw [hetag]
                simp only [List.mem_append, List.mem_cons, Event.MetaPutObject.injEq,
                  List.mem_singleton, List.not_mem_nil, or_false, reduceCtorEq] at hmem
                rcases hmem with (hmem | hmem) | hmem
                · obtain ⟨f, e2, hev⟩ := deleteOldFreezer_events _ _ _ _ _ hmem
                  cases hev
                · exact ⟨hmem.1, hmem.2.2⟩
                · exfalso
                  revert hmem
                  split
                  · split <;> simp
                  · simp

/-- When no iteration fails, the parts numbered `i + 1`, …, `i + N` are stored with
hexadecimal ETags. -/
theorem firstError_none_lookup (n : Nat) (parts : PartsMap) :
    ∀ (ups : List CompletePart) (i : Nat),
      firstError n parts ups i = none →
      ∀ j : Nat, j < ups.length →
        ∃ p bytes, parts.lookup (((i + j : Nat) : Int) + 1) = some p ∧
          hexDecodeString p.Etag = some bytes := by
  intro ups
  induction ups with
  | nil => intro i _ j hj; simp at hj
  | cons up rest ih =>
    intro i h j hj
    simp only [firstError] at h
    cases he : entryError n parts i up with
    | some e2 => rw [he] at h; simp at h
    | none =>
      rw [he] at h
      simp only [] at h
      obtain ⟨_, p, bytes, hl, _, _, hd⟩ := entryError_none n parts i up he
      cases j with
      | zero => exact ⟨p, bytes, by simpa using hl, hd⟩
      | succ j =>
        have hj2 : j < rest.length := by simpa using hj
        have hkey : (((i + (j + 1) : Nat) : Int) + 1) = (((i + 1 + j : Nat) : Int) + 1) := by
          push_cast; omega
        rw [hkey]
        exact ih (i + 1) h j hj2

theorem partSizes_length (parts : PartsMap) :
    ∀ (c i : Nat), (partSizes parts i c).length = c := by
  intro c
  induction c with
  | zero => intro i; rfl
  | succ c ih => intro i; simp [partSizes, ih]

/-- Sizes within `0 .. MAX_PART_SIZE` add up to at most `MAX_PART_SIZE` per part. -/
theorem partSizes_sum_bounds (parts : PartsMap)
    (hsize : ∀ k p, parts.lookup k = some p → 0 ≤ p.Size ∧ p.Size ≤ MAX_PART_SIZE) :
    ∀ (c i j : Nat),
      0 ≤ ((partSizes parts i c).take j).sum ∧
        ((partSizes parts i c).take j).sum ≤ (c : Int) * MAX_PART_SIZE := by
  intro c
  induction c with
  | zero => intro i j; simp [partSizes]
  | succ c ih =>
    intro i j
    have hs : 0 ≤ sizeAt parts ((i : Int) + 1) ∧ sizeAt parts ((i : Int) + 1) ≤ MAX_PART_SIZE := by
      unfold sizeAt
      cases hl : parts.lookup ((i : Int) + 1) with
      | none => simp only []; unfold MAX_PART_SIZE; omega
      | some p => exact hsize _ p hl
    cases j with
    | zero =>
      simp only [List.take_zero, List.sum_nil, le_refl, true_and]
      unfold MAX_PART_SIZE
      push_cast
      omega
    | succ j =>
      simp only [partSizes, List.take_succ_cons, List.sum_cons]
      have := ih (i + 1) j
      unfold MAX_PART_SIZE at *
      push_cast
      omega

/-- C12 as stated fails: the list `[1, 3]` is not numbered `1, 2`, yet with a stored
part 1 of 10 bytes `CompleteMultipartUpload` returns `PartTooSmall` for part 1, not
`ErrInvalidPart`: iteration 0 fails its size check before iteration 1 meets the
mis-numbered entry. -/
theorem misnumbered_list_counterexample :
    wellNumbered [⟨1, "aa"⟩, ⟨3, "bb"⟩] = false ∧
      sampleReqCtx.BucketInfo = some (sampleBucket (cannedAcl "private") [0]) ∧
      CompleteMultipartUploadAcl (sampleEnv ownerCred) (sampleBucket (cannedAcl "private") [0])
        ownerCred = none ∧
      (CompleteMultipartUpload
          (sampleYig
            (sampleMultipart "" [(1, samplePart 1 10 "aa"), (3, samplePart 3 200000 "bb")])
            (sampleCluster 0) none)
          sampleReqCtx ownerCred "upload-1" [⟨1, "aa"⟩, ⟨3, "bb"⟩]).2.1 =
        some (.PartTooSmall 10 1 "aa") ∧
      (CompleteMultipartUpload
          (sampleYig
            (sampleMultipart "" [(1, samplePart 1 10 "aa"), (3, samplePart 3 200000 "bb")])
            (sampleCluster 0) none)
          sampleReqCtx ownerCred "upload-1" [⟨1, "aa"⟩, ⟨3, "bb"⟩]).2.1 ≠
        some .ErrInvalidPart := by
  decide

/-- C12 (amended): after authorization and a successful multipart lookup,
`CompleteMultipartUpload` fails for every uploaded-parts list whose part numbers are
not exactly `1, 2, …, N` in that order; the error is `ErrInvalidPart`, or it is
`PartTooSmall` for a stored part smaller than `MIN_PART_SIZE` that is listed in the
well-numbered beginning of the list, before the first mis-numbered entry. -/
theorem complete_misnumbered_list_fails (yig : YigStorage) (reqCtx : RequestContext)
    (credential : Credential) (uploadId : String) (ups : List CompletePart)
    (bucket : Bucket) (multipart : Multipart)
    (hb : reqCtx.BucketInfo = some bucket)
    (hacl : CompleteMultipartUploadAcl yig.env bucket credential = none)
    (hm : yig.GetMultipart reqCtx.BucketName reqCtx.ObjectName uploadId = .ok multipart)
    (hbad : wellNumbered ups = false) :
    ∃ e, (CompleteMultipartUpload yig reqCtx credential uploadId ups).2.1 = some e ∧
      (e = .ErrInvalidPart ∨
        ∃ (pre : List CompletePart) (up : CompletePart) (post : List CompletePart) (p : Part),
          ups = pre ++ up :: post ∧ wellNumbered (pre ++ [up]) = true ∧
          multipart.Parts.lookup ((pre.length : Int) + 1) = some p ∧
          p.Size < MIN_PART_SIZE ∧ e = .PartTooSmall p.Size p.PartNumber p.Etag) := by
  cases he : firstError ups.length multipart.Parts ups 0 with
  | none =>
    have := (firstError_none ups.length multipart.Parts ups 0 he).1
    unfold wellNumbered at hbad
    rw [this] at hbad
    cases hbad
  | some e =>
    refine ⟨e, ?_, ?_⟩
    · rw [CompleteMultipartUpload_validation_error yig reqCtx credential uploadId ups bucket
        multipart e hb hacl hm he]
    · rcases firstError_some ups.length multipart.Parts ups 0 e he with
        h1 | ⟨pre, up, post, p, hsplit, hwn, hl, hs, _, hp⟩
      · exact Or.inl h1
      · exact Or.inr ⟨pre, up, post, p, hsplit, hwn, by simpa using hl, hs, hp⟩

theorem complete_misnumbered_list_fails_witness :
    wellNumbered [⟨1, "aa"⟩, ⟨3, "bb"⟩] = false ∧
      (CompleteMultipartUpload
          (sampleYig
            (sampleMultipart "" [(1, samplePart 1 200000 "aa"), (3, samplePart 3 200000 "bb")])
            (sampleCluster 0) none)
          sampleReqCtx ownerCred "upload-1" [⟨1, "aa"⟩, ⟨3, "bb"⟩]).2.1 ≠ none :=
  ⟨by decide,
    match complete_misnumbered_list_fails
      (sampleYig
        (sampleMultipart "" [(1, samplePart 1 200000 "aa"), (3, samplePart 3 200000 "bb")])
        (sampleCluster 0) none)
      sampleReqCtx ownerCred "upload-1" [⟨1, "aa"⟩, ⟨3, "bb"⟩]
      (sampleBucket (cannedAcl "private") [0])
      (sampleMultipart "" [(1, samplePart 1 200000 "aa"), (3, samplePart 3 200000 "bb")])
      rfl (by decide) rfl (by decide) with
    | ⟨_, he, _⟩ => by rw [he]; simp⟩

/-- C13 as stated fails: part 2 of the list `[1, 2]` is absent from the parts map, yet
with a stored part 1 of 10 bytes `CompleteMultipartUpload` returns `PartTooSmall` for
part 1, not `ErrInvalidPart`: iteration 0 fails its size check before iteration 1
looks up part 2. -/
theorem absent_part_counterexample :
    (sampleMultipart "" [(1, samplePart 1 10 "aa")]).Parts.lookup 2 = none ∧
      sampleReqCtx.BucketInfo = some (sampleBucket (cannedAcl "private") [0]) ∧
      CompleteMultipartUploadAcl (sampleEnv ownerCred) (sampleBucket (cannedAcl "private") [0])
        ownerCred = none ∧
      (CompleteMultipartUpload
          (sampleYig (sampleMultipart "" [(1, samplePart 1 10 "aa")]) (sampleCluster 0) none)
          sampleReqCtx ownerCred "upload-1" [⟨1, "aa"⟩, ⟨2, "bb"⟩]).2.1 =
        some (.PartTooSmall 10 1 "aa") ∧
      (CompleteMultipartUpload
          (sampleYig (sampleMultipart "" [(1, samplePart 1 10 "aa")]) (sampleCluster 0) none)
          sampleReqCtx ownerCred "upload-1" [⟨1, "aa"⟩, ⟨2, "bb"⟩]).2.1 ≠
        some .ErrInvalidPart := by
  decide

/-- C13 (amended): after authorization and a successful multipart lookup,
`CompleteMultipartUpload` fails whenever some listed part number is absent from the
multipart's parts map, or the ETag supplied for a listed part differs from the ETag
stored for that part; the error is `ErrInvalidPart`, or it is `PartTooSmall` for a
stored part smaller than `MIN_PART_SIZE` that is listed in the well-numbered beginning
of the list and is validated first. -/
theorem complete_absent_or_mismatched_part_fails (yig : YigStorage)
    (reqCtx : RequestContext) (credential : Credential) (uploadId : String)
    (ups : List CompletePart) (bucket : Bucket) (multipart : Multipart)
    (hb : reqCtx.BucketInfo = some bucket)
    (hacl : CompleteMultipartUploadAcl yig.env bucket credential = none)
    (hm : yig.GetMultipart reqCtx.BucketName reqCtx.ObjectName uploadId = .ok multipart)
    (hbad : ∃ up ∈ ups, multipart.Parts.lookup up.PartNumber = none ∨
      ∃ p, multipart.Parts.lookup up.PartNumber = some p ∧ p.Etag ≠ up.ETag) :
    ∃ e, (CompleteMultipartUpload yig reqCtx credential uploadId ups).2.1 = some e ∧
      (e = .ErrInvalidPart ∨
        ∃ (pre : List CompletePart) (up : CompletePart) (post : List CompletePart) (p : Part),
          ups = pre ++ up :: post ∧ wellNumbered (pre ++ [up]) = true ∧
          multipart.Parts.lookup ((pre.length : Int) + 1) = some p ∧
          p.Size < MIN_PART_SIZE ∧ e = .PartTooSmall p.Size p.PartNumber p.Etag) := by
  cases he : firstError ups.length multipart.Parts ups 0 with
  | none =>
    exfalso
    obtain ⟨up, hmem, hup⟩ := hbad
    obtain ⟨p, hl, hetag⟩ := (firstError_none ups.length multipart.Parts ups 0 he).2 up hmem
    rcases hup with hnone | ⟨q, hq, hne⟩
    · rw [hl] at hnone
      cases hnone
    · rw [hl] at hq
      cases hq
      exact hne hetag
  | some e =>
    refine ⟨e, ?_, ?_⟩
    · rw [CompleteMultipartUpload_validation_error yig reqCtx credential uploadId ups bucket
        multipart e hb hacl hm he]
    · rcases firstError_some ups.length multipart.Parts ups 0 e he with
        h1 | ⟨pre, up, post, p, hsplit, hwn, hl, hs, _, hp⟩
      · exact Or.inl h1
      · exact Or.inr ⟨pre, up, post, p, hsplit, hwn, by simpa using hl, hs, hp⟩

theorem complete_absent_or_mismatched_part_fails_witness :
    (sampleMultipart "" [(1, samplePart 1 200000 "aa")]).Parts.lookup 2 = none ∧
      (CompleteMultipartUpload
          (sampleYig (sampleMultipart "" [(1, samplePart 1 200000 "aa")]) (sampleCluster 0) none)
          sampleReqCtx ownerCred "upload-1" [⟨1, "aa"⟩, ⟨2, "bb"⟩]).2.1 ≠ none :=
  ⟨by decide,
    match complete_absent_or_mismatched_part_fails
      (sampleYig (sampleMultipart "" [(1, samplePart 1 200000 "aa")]) (sampleCluster 0) none)
      sampleReqCtx ownerCred "upload-1" [⟨1, "aa"⟩, ⟨2, "bb"⟩]
      (sampleBucket (cannedAcl "private") [0])
      (sampleMultipart "" [(1, samplePart 1 200000 "aa")])
      rfl (by decide) rfl ⟨⟨2, "bb"⟩, by decide, Or.inl (by decide)⟩ with
    | ⟨_, he, _⟩ => by rw [he]; simp⟩

/-- C15: for every successful `CompleteMultipartUpload` with `N` listed parts, exactly
one object is committed; in its parts map the part numbered `j + 1` carries as offset
the `int64` sum of the sizes of the parts `1 .. j` (0 for part 1), and its size, which
is also `result.ObjectSize`, is the `int64` sum of the sizes of the parts `1 .. N`.
When the stored sizes lie within `0 .. MAX_PART_SIZE` and `N ≤ MAX_PART_NUMBER`, these
`int64` sums are the exact sums. -/
theorem complete_offsets_and_size (yig : YigStorage) (reqCtx : RequestContext)
    (credential : Credential) (uploadId : String) (ups : List CompletePart)
    (h : (CompleteMultipartUpload yig reqCtx credential uploadId ups).2.1 = none) :
    ∃ (multipart committed : Multipart) (object : Object),
      yig.GetMultipart reqCtx.BucketName reqCtx.ObjectName uploadId = .ok multipart ∧
      Event.MetaPutObject object committed none ∈
        (CompleteMultipartUpload yig reqCtx credential uploadId ups).2.2 ∧
      (∀ o m e,
        Event.MetaPutObject o m e ∈
          (CompleteMultipartUpload yig reqCtx credential uploadId ups).2.2 → o = object) ∧
      (∀ j : Nat, j < ups.length →
        ∃ p, multipart.Parts.lookup ((j : Int) + 1) = some p ∧
          object.Parts.lookup ((j : Int) + 1) =
            some { p with
              Offset := wrapInt64 ((partSizes multipart.Parts 0 ups.length).take j).sum }) ∧
      object.Size = wrapInt64 (partSizes multipart.Parts 0 ups.length).sum ∧
      (CompleteMultipartUpload yig reqCtx credential uploadId ups).1.ObjectSize = object.Size ∧
      ((∀ k p, multipart.Parts.lookup k = some p → 0 ≤ p.Size ∧ p.Size ≤ MAX_PART_SIZE) →
        (ups.length : Int) ≤ MAX_PART_NUMBER →
        (∀ j : Nat,
          wrapInt64 ((partSizes multipart.Parts 0 ups.length).take j).sum =
            ((partSizes multipart.Parts 0 ups.length).take j).sum) ∧
        wrapInt64 (partSizes multipart.Parts 0 ups.length).sum =
          (partSizes multipart.Parts 0 ups.length).sum) := by
  have h2 : CompleteMultipartUpload yig reqCtx credential uploadId ups =
      ((CompleteMultipartUpload yig reqCtx credential uploadId ups).1, none,
        (CompleteMultipartUpload yig reqCtx credential uploadId ups).2.2) :=
    Prod.ext rfl (Prod.ext h rfl)
  obtain ⟨bucket, multipart, final, total, written, _, hm, hloop, _, hsize, hmem, huniq⟩ :=
    CompleteMultipartUpload_success yig reqCtx credential uploadId ups _ _ h2
  have hpass := firstError_of_completeLoop_ok _ _ _ _ _ _ _ hloop
  obtain ⟨final2, hrun, _, hoff⟩ :=
    completeLoop_ok ups.length ups 0 multipart.Parts 0 [] hpass (by decide)
  rw [hloop] at hrun
  simp only [Except.ok.injEq, Prod.mk.injEq, zero_add, List.nil_append] at hrun
  obtain ⟨hfinal, htotal, _⟩ := hrun
  subst hfinal
  refine ⟨multipart, _, _, hm, hmem, fun o m e ho => (huniq o m e ho).1, ?_, ?_, ?_, ?_⟩
  · intro j hj
    obtain ⟨p, _, hp, _⟩ := firstError_none_lookup _ _ ups 0 hpass j hj
    have hp2 : multipart.Parts.lookup ((j : Int) + 1) = some p := by simpa using hp
    refine ⟨p, hp2, ?_⟩
    have := hoff j hj p hp
    simp only [zero_add] at this
    exact this
  · exact htotal
  · rw [hsize]; rfl
  · intro hbound hn
    have hall : ∀ j : Nat,
        wrapInt64 ((partSizes multipart.Parts 0 ups.length).take j).sum =
          ((partSizes multipart.Parts 0 ups.length).take j).sum := by
      intro j
      have hb := partSizes_sum_bounds multipart.Parts hbound ups.length 0 j
      apply wrapInt64_of_range
      · omega
      · unfold MAX_PART_SIZE MAX_PART_NUMBER at *
        omega
    refine ⟨hall, ?_⟩
    have := hall ups.length
    rw [List.take_of_length_le (by rw [partSizes_length])] at this
    exact this

theorem complete_offsets_and_size_witness :
    (CompleteMultipartUpload
        (sampleYig
          (sampleMultipart "" [(1, samplePart 1 102400 "aa"), (2, samplePart 2 51200 "bb")])
          (sampleCluster 0) none)
        sampleReqCtx ownerCred "upload-1" [⟨1, "aa"⟩, ⟨2, "bb"⟩]).2.1 = none ∧
      (CompleteMultipartUpload
          (sampleYig
            (sampleMultipart "" [(1, samplePart 1 102400 "aa"), (2, samplePart 2 51200 "bb")])
            (sampleCluster 0) none)
          sampleReqCtx ownerCred "upload-1" [⟨1, "aa"⟩, ⟨2, "bb"⟩]).1.ObjectSize = 153600 :=
  ⟨by decide,
    match complete_offsets_and_size
      (sampleYig
        (sampleMultipart "" [(1, samplePart 1 102400 "aa"), (2, samplePart 2 51200 "bb")])
        (sampleCluster 0) none)
      sampleReqCtx ownerCred "upload-1" [⟨1, "aa"⟩, ⟨2, "bb"⟩] (by decide) with
    | ⟨multipart, _, object, hm, _, _, _, hsz, hres, _⟩ => by
      simp only [sampleYig, Except.ok.injEq] at hm
      subst hm
      rw [hres, hsz]
      decide⟩

/-- C16: for every successful `CompleteMultipartUpload` with `N` listed parts, the
returned ETag and the ETag of the committed object are
`hex(MD5(b_1 ++ … ++ b_N))` followed by `"-"` and the decimal rendering of `N`, where
`b_i` is the hex-decoding of the stored ETag of part `i`, which exists for each of the
`N` parts. -/
theorem complete_etag (yig : YigStorage) (reqCtx : RequestContext)
    (credential : Credential) (uploadId : String) (ups : List CompletePart)
    (h : (CompleteMultipartUpload yig reqCtx credential uploadId ups).2.1 = none) :
    ∃ (multipart committed : Multipart) (object : Object),
      yig.GetMultipart reqCtx.BucketName reqCtx.ObjectName uploadId = .ok multipart ∧
      Event.MetaPutObject object committed none ∈
        (CompleteMultipartUpload yig reqCtx credential uploadId ups).2.2 ∧
      (∀ o m e,
        Event.MetaPutObject o m e ∈
          (CompleteMultipartUpload yig reqCtx credential uploadId ups).2.2 → o = object) ∧
      (∀ j : Nat, j < ups.length →
        ∃ p bytes, multipart.Parts.lookup ((j : Int) + 1) = some p ∧
          hexDecodeString p.Etag = some bytes ∧
          etagBytesAt multipart.Parts ((j : Int) + 1) = bytes) ∧
      (CompleteMultipartUpload yig reqCtx credential uploadId ups).1.ETag =
        hexEncodeToString (yig.md5Sum (partEtagBytes multipart.Parts 0 ups.length)) ++ "-" ++
          toString ups.length ∧
      object.Etag = (CompleteMultipartUpload yig reqCtx credential uploadId ups).1.ETag := by
  have h2 : CompleteMultipartUpload yig reqCtx credential uploadId ups =
      ((CompleteMultipartUpload yig reqCtx credential uploadId ups).1, none,
        (CompleteMultipartUpload yig reqCtx credential uploadId ups).2.2) :=
    Prod.ext rfl (Prod.ext h rfl)
  obtain ⟨bucket, multipart, final, total, written, _, hm, hloop, hetag, _, hmem, huniq⟩ :=
    CompleteMultipartUpload_success yig reqCtx credential uploadId ups _ _ h2
  have hpass := firstError_of_completeLoop_ok _ _ _ _ _ _ _ hloop
  obtain ⟨final2, hrun, _, _⟩ :=
    completeLoop_ok ups.length ups 0 multipart.Parts 0 [] hpass (by decide)
  rw [hloop] at hrun
  simp only [Except.ok.injEq, Prod.mk.injEq, List.nil_append] at hrun
  obtain ⟨_, _, hwritten⟩ := hrun
  refine ⟨multipart, _, _, hm, hmem, fun o m e ho => (huniq o m e ho).1, ?_, ?_, rfl⟩
  · intro j hj
    obtain ⟨p, bytes, hp, hd⟩ := firstError_none_lookup _ _ ups 0 hpass j hj
    have hp2 : multipart.Parts.lookup ((j : Int) + 1) = some p := by simpa using hp
    refine ⟨p, bytes, hp2, hd, ?_⟩
    unfold etagBytesAt
    rw [hp2]
    simp [hd]
  · rw [hetag, hwritten]

theorem complete_etag_witness :
    (CompleteMultipartUpload
        (sampleYig
          (sampleMultipart "" [(1, samplePart 1 102400 "aa"), (2, samplePart 2 51200 "bbcc")])
          (sampleCluster 0) none)
        sampleReqCtx ownerCred "upload-1" [⟨1, "aa"⟩, ⟨2, "bbcc"⟩]).2.1 = none ∧
      (CompleteMultipartUpload
          (sampleYig
            (sampleMultipart "" [(1, samplePart 1 102400 "aa"), (2, samplePart 2 51200 "bbcc")])
            (sampleCluster 0) none)
          sampleReqCtx ownerCred "upload-1" [⟨1, "aa"⟩, ⟨2, "bbcc"⟩]).1.ETag = "03-2" :=
  ⟨by decide,
    match complete_etag
      (sampleYig
        (sampleMultipart "" [(1, samplePart 1 102400 "aa"), (2, samplePart 2 51200 "bbcc")])
        (sampleCluster 0) none)
      sampleReqCtx ownerCred "upload-1" [⟨1, "aa"⟩, ⟨2, "bbcc"⟩] (by decide) with
    | ⟨multipart, _, _, hm, _, _, _, hres, _⟩ => by
      simp only [sampleYig, Except.ok.injEq] at hm
      subst hm
      rw [hres]
      decide⟩

/-! ## Lemmas on the part write path -/

/-- `PutObjectPart` either returns an error before any effect, or reaches `cluster.Put`
after all its preparations passed. -/
theorem PutObjectPart_cases (yig : YigStorage) (reqCtx : RequestContext)
    (credential : Credential) (uploadId : String) (partId : Int) (size : Int)
    (data : DataReader) (md5Hex : String) (sseRequest : SseRequest) :
    ((PutObjectPart yig reqCtx credential uploadId partId size data md5Hex sseRequest).2.2 = [] ∧
      (PutObjectPart yig reqCtx credential uploadId partId size data md5Hex sseRequest).2.1 ≠
        none) ∨
    ∃ (bucket : Bucket) (multipart : Multipart) (encryptionKey : List UInt8)
      (cluster : Cluster) (iv : List UInt8),
      reqCtx.BucketInfo = some bucket ∧
      yig.GetMultipart reqCtx.BucketName reqCtx.ObjectName uploadId = .ok multipart ∧
      size ≤ MAX_PART_SIZE ∧
      PutObjectPartAcl yig.env bucket credential = none ∧
      partEncryptionKey multipart sseRequest = .ok encryptionKey ∧
      yig.GetClusterByFsName multipart.Metadata.Location = .ok cluster ∧
      (if encryptionKey.length ≠ 0 then yig.newInitializationVector else .ok []) = .ok iv ∧
      PutObjectPart yig reqCtx credential uploadId partId size data md5Hex sseRequest =
        PutObjectPartAfterPut yig multipart cluster iv partId size data md5Hex sseRequest
          (data.content.take size.toNat)
          (cluster.Put multipart.Metadata.Pool (data.content.take size.toNat) encryptionKey
            iv) := by
  unfold PutObjectPart
  cases hb : reqCtx.BucketInfo with
  | none => exact Or.inl ⟨rfl, by simp⟩
  | some bucket =>
    simp only []
    cases hm : yig.GetMultipart reqCtx.BucketName reqCtx.ObjectName uploadId with
    | error err => exact Or.inl ⟨rfl, by simp⟩
    | ok multipart =>
      simp only []
      by_cases hsize : size > MAX_PART_SIZE
      · rw [if_pos hsize]; exact Or.inl ⟨rfl, by simp⟩
      · rw [if_neg hsize]
        cases hacl : PutObjectPartAcl yig.env bucket credential with
        | some err => exact Or.inl ⟨rfl, by simp⟩
        | none =>
          simp only []
          cases hkey : partEncryptionKey multipart sseRequest with
          | error err => exact Or.inl ⟨rfl, by simp⟩
          | ok encryptionKey =>
            simp only []
            cases hcl : yig.GetClusterByFsName multipart.Metadata.Location with
            | error err => exact Or.inl ⟨rfl, by simp⟩
            | ok cluster =>
              simp only []
              cases hiv : (if encryptionKey.length ≠ 0 then yig.newInitializationVector
                  else Except.ok []) with
              | error err => exact Or.inl ⟨rfl, by simp⟩
              | ok iv =>
                simp only []
                cases hwrap : yig.wrapEncryptionReader encryptionKey iv with
                | some err => exact Or.inl ⟨rfl, by simp⟩
                | none =>
                  simp only []
                  exact Or.inr ⟨bucket, multipart, encryptionKey, cluster, iv, rfl, rfl,
                    not_lt.mp hsize, hacl, hkey, hcl, hiv, rfl⟩

/-- `CopyObjectPart` either returns an error before any effect, or reaches
`cephCluster.Put` after all its preparations passed. -/
theorem CopyObjectPart_cases (yig : YigStorage) (bucketName objectName uploadId : String)
    (partId : Int) (size : Int) (data : List UInt8) (credential : Credential)
    (sseRequest : SseRequest) :
    ((CopyObjectPart yig bucketName objectName uploadId partId size data credential
        sseRequest).2.2 = [] ∧
      (CopyObjectPart yig bucketName objectName uploadId partId size data credential
        sseRequest).2.1 ≠ none) ∨
    ∃ (multipart : Multipart) (encryptionKey : List UInt8) (cluster : Cluster)
      (iv : List UInt8),
      yig.GetMultipart bucketName objectName uploadId = .ok multipart ∧
      size ≤ MAX_PART_SIZE ∧
      partEncryptionKey multipart sseRequest = .ok encryptionKey ∧
      yig.GetClusterByFsName multipart.Metadata.Location = .ok cluster ∧
      (if encryptionKey.length ≠ 0 then yig.newInitializationVector else .ok []) = .ok iv ∧
      CopyObjectPart yig bucketName objectName uploadId partId size data credential sseRequest =
        CopyObjectPartAfterPut yig bucketName multipart cluster iv partId size credential
          (data.take size.toNat)
          (cluster.Put multipart.Metadata.Pool (data.take size.toNat) encryptionKey iv) := by
  unfold CopyObjectPart
  cases hm : yig.GetMultipart bucketName objectName uploadId with
  | error err => exact Or.inl ⟨rfl, by simp⟩
  | ok multipart =>
    simp only []
    by_cases hsize : size > MAX_PART_SIZE
    · rw [if_pos hsize]; exact Or.inl ⟨rfl, by simp⟩
    · rw [if_neg hsize]
      cases hkey : partEncryptionKey multipart sseRequest with
      | error err => exact Or.inl ⟨rfl, by simp⟩
      | ok encryptionKey =>
        simp only []
        cases hcl : yig.GetClusterByFsName multipart.Metadata.Location with
        | error err => exact Or.inl ⟨rfl, by simp⟩
        | ok cluster =>
          simp only []
          cases hiv : (if encryptionKey.length ≠ 0 then yig.newInitializationVector
              else Except.ok []) with
          | error err => exact Or.inl ⟨rfl, by simp⟩
          | ok iv =>
            simp only []
            cases hwrap : yig.wrapEncryptionReader encryptionKey iv with
            | some err => exact Or.inl ⟨rfl, by simp⟩
            | none =>
              simp only []
              exact Or.inr ⟨multipart, encryptionKey, cluster, iv, rfl, not_lt.mp hsize, hkey,
                hcl, hiv, rfl⟩

/-- The runs of `PutObjectPartAfterPut`, in the order of its tests. -/
theorem PutObjectPartAfterPut_outcomes (yig : YigStorage) (multipart : Multipart)
    (cluster : Cluster) (iv : List UInt8) (partId : Int) (size : Int) (data : DataReader)
    (md5Hex : String) (sseRequest : SseRequest) (limited : List UInt8) (outcome : PutOutcome) :
    (∃ e, outcome.err = some e ∧
      PutObjectPartAfterPut yig multipart cluster iv partId size data md5Hex sseRequest limited
          outcome =
        (PutObjectPartResult.zero, some e,
          [Event.BackendPut cluster.ID multipart.Metadata.Pool outcome])) ∨
    (outcome.err = none ∧ wrapInt64 outcome.bytesWritten < size ∧
      PutObjectPartAfterPut yig multipart cluster iv partId size data md5Hex sseRequest limited
          outcome =
        (PutObjectPartResult.zero, some .ErrIncompleteBody,
          [Event.BackendPut cluster.ID multipart.Metadata.Pool outcome,
            Event.Recycle (recycleEntry cluster.ID multipart.Metadata.Pool outcome)])) ∨
    (outcome.err = none ∧ ¬ wrapInt64 outcome.bytesWritten < size ∧
      (md5Hex ≠ "" ∧ md5Hex ≠ calculatedMd5 yig limited outcome) ∧
      PutObjectPartAfterPut yig multipart cluster iv partId size data md5Hex sseRequest limited
          outcome =
        (PutObjectPartResult.zero, some .ErrBadDigest,
          [Event.BackendPut cluster.ID multipart.Metadata.Pool outcome,
            Event.Recycle (recycleEntry cluster.ID multipart.Metadata.Pool outcome)])) ∨
    (outcome.err = none ∧ ¬ wrapInt64 outcome.bytesWritten < size ∧
      ¬ (md5Hex ≠ "" ∧ md5Hex ≠ calculatedMd5 yig limited outcome) ∧
      ∃ c e, data.verify = some (c, some e) ∧
      PutObjectPartAfterPut yig multipart cluster iv partId size data md5Hex sseRequest limited
          outcome =
        (PutObjectPartResult.zero, some e,
          [Event.BackendPut cluster.ID multipart.Metadata.Pool outcome,
            Event.Recycle (recycleEntry cluster.ID multipart.Metadata.Pool outcome)])) ∨
    (outcome.err = none ∧ ¬ wrapInt64 outcome.bytesWritten < size ∧
      ¬ (md5Hex ≠ "" ∧ md5Hex ≠ calculatedMd5 yig limited outcome) ∧
      (∀ c e, data.verify ≠ some (c, some e)) ∧
      ∃ e, (yig.MetaPutObjectPart multipart
          (newPart yig iv partId size outcome (calculatedMd5 yig limited outcome))).2 = some e ∧
      PutObjectPartAfterPut yig multipart cluster iv partId size data md5Hex sseRequest limited
          outcome =
        (PutObjectPartResult.zero, some e,
          [Event.BackendPut cluster.ID multipart.Metadata.Pool outcome,
            Event.MetaPutObjectPart multipart.UploadId
              (newPart yig iv partId size outcome (calculatedMd5 yig limited outcome)) (some e),
            Event.Recycle (recycleEntry cluster.ID multipart.Metadata.Pool outcome)])) ∨
    (outcome.err = none ∧ ¬ wrapInt64 outcome.bytesWritten < size ∧
      ¬ (md5Hex ≠ "" ∧ md5Hex ≠ calculatedMd5 yig limited outcome) ∧
      (∀ c e, data.verify ≠ some (c, some e)) ∧
      (yig.MetaPutObjectPart multipart
          (newPart yig iv partId size outcome (calculatedMd5 yig limited outcome))).2 = none ∧
      (PutObjectPartAfterPut yig multipart cluster iv partId size data md5Hex sseRequest
        limited outcome).2.1 = none ∧
      (PutObjectPartAfterPut yig multipart cluster iv partId size data md5Hex sseRequest
        limited outcome).1.ETag = calculatedMd5 yig limited outcome ∧
      ∃ old, (∀ ev ∈ old, ∃ o, ev = Event.Recycle o) ∧
        (PutObjectPartAfterPut yig multipart cluster iv partId size data md5Hex sseRequest
          limited outcome).2.2 =
          [Event.BackendPut cluster.ID multipart.Metadata.Pool outcome,
            Event.MetaPutObjectPart multipart.UploadId
              (newPart yig iv partId size outcome (calculatedMd5 yig limited outcome)) none] ++
            old) := by
  unfold PutObjectPartAfterPut calculatedMd5 newPart recycleEntry
  cases herr : outcome.err with
  | some e => exact Or.inl ⟨e, rfl, rfl⟩
  | none =>
    refine Or.inr ?_
    simp only []
    by_cases hshort : wrapInt64 outcome.bytesWritten < size
    · rw [if_pos hshort]
      exact Or.inl ⟨trivial, hshort, rfl⟩
    · rw [if_neg hshort]
      refine Or.inr ?_
      by_cases hbad : md5Hex ≠ "" ∧
          md5Hex ≠ hexEncodeToString (yig.md5Sum (limited.take outcome.bytesRead))
      · rw [if_pos hbad]
        exact Or.inl ⟨trivial, hshort, hbad, rfl⟩
      · rw [if_neg hbad]
        refine Or.inr ?_
        split
        · rename_i c e hv
          exact Or.inl ⟨trivial, hshort, hbad, c, e, hv, rfl⟩
        · rename_i hv
          refine Or.inr ?_
          split
          · rename_i e hc
            exact Or.inl ⟨trivial, hshort, hbad, fun c e h => hv c e h, e, hc, by rw [hc]⟩
          · rename_i hc
            refine Or.inr ⟨trivial, hshort, hbad, fun c e h => hv c e h, hc, rfl, rfl, ?_⟩
            cases hold : multipart.Parts.lookup partId with
            | none =>
              refine ⟨[], fun ev hev => absurd hev (List.not_mem_nil _), ?_⟩
              rw [hc]
            | some part =>
              refine ⟨_, fun ev hev => ?_, by rw [hc]⟩
              rw [List.mem_singleton] at hev
              exact ⟨_, hev⟩

/-- After the backend write, the trace of `PutObjectPart` starts with that write and
holds no other; a failure after a successful write recycles the blob; a short write
fails with `ErrIncompleteBody` right after the write. -/
theorem PutObjectPartAfterPut_summary (yig : YigStorage) (multipart : Multipart)
    (cluster : Cluster) (iv : List UInt8) (partId : Int) (size : Int) (data : DataReader)
    (md5Hex : String) (sseRequest : SseRequest) (limited : List UInt8) (outcome : PutOutcome) :
    ∃ rest,
      (PutObjectPartAfterPut yig multipart cluster iv partId size data md5Hex sseRequest
        limited outcome).2.2 =
          Event.BackendPut cluster.ID multipart.Metadata.Pool outcome :: rest ∧
      (∀ l p o, Event.BackendPut l p o ∉ rest) ∧
      (outcome.err = none →
        (PutObjectPartAfterPut yig multipart cluster iv partId size data md5Hex sseRequest
          limited outcome).2.1 ≠ none →
        Event.Recycle (recycleEntry cluster.ID multipart.Metadata.Pool outcome) ∈ rest) ∧
      (outcome.err = none → wrapInt64 outcome.bytesWritten < size →
        (PutObjectPartAfterPut yig multipart cluster iv partId size data md5Hex sseRequest
          limited outcome).2.1 = some .ErrIncompleteBody ∧
        rest = [Event.Recycle (recycleEntry cluster.ID multipart.Metadata.Pool outcome)]) := by
  rcases PutObjectPartAfterPut_outcomes yig multipart cluster iv partId size data md5Hex
      sseRequest limited outcome with
    ⟨e, he, hr⟩ | ⟨he, hs, hr⟩ | ⟨he, hs, hb, hr⟩ | ⟨he, hs, hb, c, e, hv, hr⟩ |
    ⟨he, hs, hb, hv, e, hc, hr⟩ | ⟨he, hs, hb, hv, hc, hnone, hetag, old, hold, hr⟩
  · rw [hr]
    refine ⟨[], rfl, (by simp), ?_, ?_⟩
    · intro h; rw [he] at h; cases h
    · intro h; rw [he] at h; cases h
  · rw [hr]
    exact ⟨_, rfl, (by simp), (fun _ _ => by simp), (fun _ _ => ⟨rfl, rfl⟩)⟩
  · rw [hr]
    exact ⟨_, rfl, (by simp), (fun _ _ => by simp), (fun _ h => absurd h hs)⟩
  · rw [hr]
    exact ⟨_, rfl, (by simp), (fun _ _ => by simp), (fun _ h => absurd h hs)⟩
  · rw [hr]
    exact ⟨_, rfl, (by simp), (fun _ _ => by simp), (fun _ h => absurd h hs)⟩
  · rw [hr, hnone]
    refine ⟨_, rfl, ?_, fun _ h => absurd rfl h, fun _ h => absurd h hs⟩
    intro l p o hmem
    rcases List.mem_append.mp hmem with h1 | h2
    · rw [List.mem_singleton] at h1
      cases h1
    · obtain ⟨o2, ho2⟩ := hold _ h2
      cases ho2

/-- After the backend write, the trace of `CopyObjectPart` starts with that write and
holds no other; a failure after a successful write recycles the blob; a short write
fails with `ErrIncompleteBody` right after the write. -/
theorem CopyObjectPartAfterPut_summary (yig : YigStorage) (bucketName : String)
    (multipart : Multipart) (cluster : Cluster) (iv : List UInt8) (partId : Int) (size : Int)
    (credential : Credential) (limited : List UInt8) (outcome : PutOutcome) :
    ∃ rest,
      (CopyObjectPartAfterPut yig bucketName multipart cluster iv partId size credential
        limited outcome).2.2 =
          Event.BackendPut cluster.ID multipart.Metadata.Pool outcome :: rest ∧
      (∀ l p o, Event.BackendPut l p o ∉ rest) ∧
      (outcome.err = none →
        (CopyObjectPartAfterPut yig bucketName multipart cluster iv partId size credential
          limited outcome).2.1 ≠ none →
        Event.Recycle (recycleEntry cluster.ID multipart.Metadata.Pool outcome) ∈ rest) ∧
      (outcome.err = none → wrapInt64 outcome.bytesWritten < size →
        (CopyObjectPartAfterPut yig bucketName multipart cluster iv partId size credential
          limited outcome).2.1 = some .ErrIncompleteBody ∧
        rest = [Event.Recycle (recycleEntry cluster.ID multipart.Metadata.Pool outcome)]) := by
  unfold CopyObjectPartAfterPut recycleEntry
  cases herr : outcome.err with
  | some e => exact ⟨[], rfl, (by simp), (fun h => by cases h), (fun h => by cases h)⟩
  | none =>
    simp only []
    by_cases hshort : wrapInt64 outcome.bytesWritten < size
    · rw [if_pos hshort]
      exact ⟨_, rfl, (by simp), (fun _ _ => by simp), (fun _ _ => ⟨rfl, rfl⟩)⟩
    · rw [if_neg hshort]
      cases hb : yig.GetBucket bucketName with
      | error e =>
        exact ⟨_, rfl, (by simp), (fun _ _ => by simp), (fun _ h => absurd h hshort)⟩
      | ok bucket =>
        simp only []
        cases hacl : CopyObjectPartAcl yig.env bucket credential with
        | some e =>
          exact ⟨_, rfl, (by simp), (fun _ _ => by simp), (fun _ h => absurd h hshort)⟩
        | none =>
          simp only []
          split
          · exact ⟨_, rfl, (by simp), (fun _ _ => by simp), (fun _ h => absurd h hshort)⟩
          · refine ⟨_, rfl, ?_, fun _ h => absurd rfl h, fun _ h => absurd h hshort⟩
            intro l p o hmem
            rcases List.mem_append.mp hmem with h1 | h2
            · rw [List.mem_singleton] at h1
              cases h1
            · revert h2
              cases multipart.Parts.lookup partId <;> simp

/-! ## No storage leak, short writes (C17, C18) -/

/-- `PutObjectPart` calls `cluster.Put` when the statements before the call pass: the
bucket is present, the multipart is found, the size is within `MAX_PART_SIZE`, the ACL
block and the encryption preparation pass, the cluster is found, and the
initialization vector and the encryption wrapper are obtained. -/
theorem PutObjectPart_reaches_put (yig : YigStorage) (reqCtx : RequestContext)
    (credential : Credential) (uploadId : String) (partId : Int) (size : Int)
    (data : DataReader) (md5Hex : String) (sseRequest : SseRequest) (bucket : Bucket)
    (multipart : Multipart) (key : List UInt8) (cluster : Cluster) (iv : List UInt8)
    (hb : reqCtx.BucketInfo = some bucket)
    (hm : yig.GetMultipart reqCtx.BucketName reqCtx.ObjectName uploadId = .ok multipart)
    (hsize : size ≤ MAX_PART_SIZE)
    (hacl : PutObjectPartAcl yig.env bucket credential = none)
    (hkey : partEncryptionKey multipart sseRequest = .ok key)
    (hcl : yig.GetClusterByFsName multipart.Metadata.Location = .ok cluster)
    (hiv : (if key.length ≠ 0 then yig.newInitializationVector else .ok []) = .ok iv)
    (hwrap : yig.wrapEncryptionReader key iv = none) :
    PutObjectPart yig reqCtx credential uploadId partId size data md5Hex sseRequest =
      PutObjectPartAfterPut yig multipart cluster iv partId size data md5Hex sseRequest
        (data.content.take size.toNat)
        (cluster.Put multipart.Metadata.Pool (data.content.take size.toNat) key iv) := by
  have hnsize : ¬ size > MAX_PART_SIZE := not_lt.mpr hsize
  unfold PutObjectPart
  simp only [hb, hm, hnsize, if_false, hacl, hkey, hcl, hiv, hwrap]

/-- `CopyObjectPart` calls `cephCluster.Put` when the statements before the call pass:
the multipart is found, the size is within `MAX_PART_SIZE`, the encryption preparation
passes, the cluster is found, and the initialization vector and the encryption wrapper
are obtained. -/
theorem CopyObjectPart_reaches_put (yig : YigStorage)
    (bucketName objectName uploadId : String) (partId : Int) (size : Int)
    (data : List UInt8) (credential : Credential) (sseRequest : SseRequest)
    (multipart : Multipart) (key : List UInt8) (cluster : Cluster) (iv : List UInt8)
    (hm : yig.GetMultipart bucketName objectName uploadId = .ok multipart)
    (hsize : size ≤ MAX_PART_SIZE)
    (hkey : partEncryptionKey multipart sseRequest = .ok key)
    (hcl : yig.GetClusterByFsName multipart.Metadata.Location = .ok cluster)
    (hiv : (if key.length ≠ 0 then yig.newInitializationVector else .ok []) = .ok iv)
    (hwrap : yig.wrapEncryptionReader key iv = none) :
    CopyObjectPart yig bucketName objectName uploadId partId size data credential sseRequest =
      CopyObjectPartAfterPut yig bucketName multipart cluster iv partId size credential
        (data.take size.toNat)
        (cluster.Put multipart.Metadata.Pool (data.take size.toNat) key iv) := by
  have hnsize : ¬ size > MAX_PART_SIZE := not_lt.mpr hsize
  unfold CopyObjectPart
  simp only [hm, hnsize, if_false, hkey, hcl, hiv, hwrap]

/-- C17: take a run of `PutObjectPart` or of `CopyObjectPart` that reaches the backend
write: the statements before the call of `cluster.Put` pass (for `PutObjectPart` the
bucket is present and its ACL block passes; for both the multipart is found, the size
is within `MAX_PART_SIZE`, the encryption preparation yields `key`, the cluster of the
multipart's location is found, the initialization vector and the encryption wrapper
are obtained). Then the trace of the operation starts with that write, on that
cluster and the multipart's pool, and holds no other backend write; and when the write
succeeded and the operation returns an error, whatever later step raised it, the entry
`{location = cluster id, pool, objectId}` of the written blob was sent on the recycle
queue after the write, before the operation returns. -/
theorem no_storage_leak (yig : YigStorage) (uploadId : String) (partId : Int) (size : Int)
    (sseRequest : SseRequest) (multipart : Multipart) (key : List UInt8) (cluster : Cluster)
    (iv : List UInt8)
    (hsize : size ≤ MAX_PART_SIZE)
    (hkey : partEncryptionKey multipart sseRequest = .ok key)
    (hcl : yig.GetClusterByFsName multipart.Metadata.Location = .ok cluster)
    (hiv : (if key.length ≠ 0 then yig.newInitializationVector else .ok []) = .ok iv)
    (hwrap : yig.wrapEncryptionReader key iv = none) :
    (∀ (reqCtx : RequestContext) (bucket : Bucket) (credential : Credential)
        (data : DataReader) (md5Hex : String),
      reqCtx.BucketInfo = some bucket →
      yig.GetMultipart reqCtx.BucketName reqCtx.ObjectName uploadId = .ok multipart →
      PutObjectPartAcl yig.env bucket credential = none →
      ∃ rest,
        (PutObjectPart yig reqCtx credential uploadId partId size data md5Hex
            sseRequest).2.2 =
          Event.BackendPut cluster.ID multipart.Metadata.Pool
            (cluster.Put multipart.Metadata.Pool (data.content.take size.toNat) key iv) ::
            rest ∧
        (∀ l p o, Event.BackendPut l p o ∉ rest) ∧
        ((cluster.Put multipart.Metadata.Pool (data.content.take size.toNat) key iv).err =
            none →
          (PutObjectPart yig reqCtx credential uploadId partId size data md5Hex
            sseRequest).2.1 ≠ none →
          Event.Recycle
              (recycleEntry cluster.ID multipart.Metadata.Pool
                (cluster.Put multipart.Metadata.Pool (data.content.take size.toNat) key iv)) ∈
            rest)) ∧
    (∀ (bucketName objectName : String) (credential : Credential) (copyData : List UInt8),
      yig.GetMultipart bucketName objectName uploadId = .ok multipart →
      ∃ rest,
        (CopyObjectPart yig bucketName objectName uploadId partId size copyData credential
            sseRequest).2.2 =
          Event.BackendPut cluster.ID multipart.Metadata.Pool
            (cluster.Put multipart.Metadata.Pool (copyData.take size.toNat) key iv) :: rest ∧
        (∀ l p o, Event.BackendPut l p o ∉ rest) ∧
        ((cluster.Put multipart.Metadata.Pool (copyData.take size.toNat) key iv).err = none →
          (CopyObjectPart yig bucketName objectName uploadId partId size copyData credential
            sseRequest).2.1 ≠ none →
          Event.Recycle
              (recycleEntry cluster.ID multipart.Metadata.Pool
                (cluster.Put multipart.Metadata.Pool (copyData.take size.toNat) key iv)) ∈
            rest)) := by
  constructor
  · intro reqCtx bucket credential data md5Hex hb hm hacl
    rw [PutObjectPart_reaches_put yig reqCtx credential uploadId partId size data md5Hex
      sseRequest bucket multipart key cluster iv hb hm hsize hacl hkey hcl hiv hwrap]
    obtain ⟨rest, htr, hno, hrec, _⟩ :=
      PutObjectPartAfterPut_summary yig multipart cluster iv partId size data md5Hex
        sseRequest (data.content.take size.toNat)
        (cluster.Put multipart.Metadata.Pool (data.content.take size.toNat) key iv)
    exact ⟨rest, htr, hno, hrec⟩
  · intro bucketName objectName credential copyData hm
    rw [CopyObjectPart_reaches_put yig bucketName objectName uploadId partId size copyData
      credential sseRequest multipart key cluster iv hm hsize hkey hcl hiv hwrap]
    obtain ⟨rest, htr, hno, hrec, _⟩ :=
      CopyObjectPartAfterPut_summary yig bucketName multipart cluster iv partId size
        credential (copyData.take size.toNat)
        (cluster.Put multipart.Metadata.Pool (copyData.take size.toNat) key iv)
    exact ⟨rest, htr, hno, hrec⟩

/-- Witness of C17: `PutObjectPart` of three bytes with the digest `ff`, which is not
theirs, fails with `ErrBadDigest` after the blob `blob-new` was written, and
`CopyObjectPart` by a user without access to the bucket fails with
`ErrBucketAccessForbidden` after the blob was written; in both runs the entry of that
blob is sent on the recycle queue. -/
theorem no_storage_leak_witness :
    (PutObjectPart (sampleYig (sampleMultipart "" []) (sampleCluster 3) none) sampleReqCtx
        ownerCred "upload-1" 1 3 ⟨[1, 2, 3], none⟩ "ff" ⟨"", "", [], ""⟩).2.1 =
      some .ErrBadDigest ∧
    (∃ rest,
      (PutObjectPart (sampleYig (sampleMultipart "" []) (sampleCluster 3) none) sampleReqCtx
          ownerCred "upload-1" 1 3 ⟨[1, 2, 3], none⟩ "ff" ⟨"", "", [], ""⟩).2.2 =
        Event.BackendPut "ceph-1" "rabbit" ⟨"blob-new", 3, 3, none⟩ :: rest ∧
      Event.Recycle ⟨"ceph-1", "rabbit", "blob-new", .ObjectTypeMultipart⟩ ∈ rest) ∧
    (CopyObjectPart (sampleYig (sampleMultipart "" []) (sampleCluster 3) none) "photos"
        "cat.png" "upload-1" 1 3 [1, 2, 3] (strangerCred none) ⟨"", "", [], ""⟩).2.1 =
      some .ErrBucketAccessForbidden ∧
    (∃ rest,
      (CopyObjectPart (sampleYig (sampleMultipart "" []) (sampleCluster 3) none) "photos"
          "cat.png" "upload-1" 1 3 [1, 2, 3] (strangerCred none) ⟨"", "", [], ""⟩).2.2 =
        Event.BackendPut "ceph-1" "rabbit" ⟨"blob-new", 3, 3, none⟩ :: rest ∧
      Event.Recycle ⟨"ceph-1", "rabbit", "blob-new", .ObjectTypeMultipart⟩ ∈ rest) := by
  have h := no_storage_leak (sampleYig (sampleMultipart "" []) (sampleCluster 3) none)
    "upload-1" 1 3 ⟨"", "", [], ""⟩ (sampleMultipart "" []) [] (sampleCluster 3) []
    (by decide) rfl rfl rfl rfl
  refine ⟨by decide, ?_, by decide, ?_⟩
  · obtain ⟨rest, htr, _, hrec⟩ := h.1 sampleReqCtx (sampleBucket (cannedAcl "private") [0])
      ownerCred ⟨[1, 2, 3], none⟩ "ff" rfl rfl (by decide)
    exact ⟨rest, htr, hrec rfl (by decide)⟩
  · obtain ⟨rest, htr, _, hrec⟩ := h.2 "photos" "cat.png" (strangerCred none) [1, 2, 3] rfl
    exact ⟨rest, htr, hrec rfl (by decide)⟩

/-- A byte count below a size that passed the `MAX_PART_SIZE` test is below it as an
`int64` too. -/
theorem wrapInt64_lt_of_lt (written : Nat) (size : Int) (hsize : size ≤ MAX_PART_SIZE)
    (h : (written : Int) < size) : wrapInt64 written < size := by
  unfold MAX_PART_SIZE at hsize
  rw [wrapInt64_of_range] <;> omega

/-- C18: take a run of `PutObjectPart` or of `CopyObjectPart` that reaches the backend
write (the statements before the call of `cluster.Put` pass, as in C17). Whenever the
write succeeds but reports fewer bytes written than `size`, the operation fails with
`ErrIncompleteBody`, its effects are the write followed by the sending of the written
blob on the recycle queue, and no part metadata is committed. -/
theorem short_write_fails (yig : YigStorage) (uploadId : String) (partId : Int) (size : Int)
    (sseRequest : SseRequest) (multipart : Multipart) (key : List UInt8) (cluster : Cluster)
    (iv : List UInt8)
    (hsize : size ≤ MAX_PART_SIZE)
    (hkey : partEncryptionKey multipart sseRequest = .ok key)
    (hcl : yig.GetClusterByFsName multipart.Metadata.Location = .ok cluster)
    (hiv : (if key.length ≠ 0 then yig.newInitializationVector else .ok []) = .ok iv)
    (hwrap : yig.wrapEncryptionReader key iv = none) :
    (∀ (reqCtx : RequestContext) (bucket : Bucket) (credential : Credential)
        (data : DataReader) (md5Hex : String),
      reqCtx.BucketInfo = some bucket →
      yig.GetMultipart reqCtx.BucketName reqCtx.ObjectName uploadId = .ok multipart →
      PutObjectPartAcl yig.env bucket credential = none →
      (cluster.Put multipart.Metadata.Pool (data.content.take size.toNat) key iv).err = none →
      ((cluster.Put multipart.Metadata.Pool (data.content.take size.toNat) key
        iv).bytesWritten : Int) < size →
      (PutObjectPart yig reqCtx credential uploadId partId size data md5Hex sseRequest).2.1 =
        some .ErrIncompleteBody ∧
      (PutObjectPart yig reqCtx credential uploadId partId size data md5Hex sseRequest).2.2 =
        [Event.BackendPut cluster.ID multipart.Metadata.Pool
            (cluster.Put multipart.Metadata.Pool (data.content.take size.toNat) key iv),
          Event.Recycle
            (recycleEntry cluster.ID multipart.Metadata.Pool
              (cluster.Put multipart.Metadata.Pool (data.content.take size.toNat) key iv))] ∧
      ∀ u p e, Event.MetaPutObjectPart u p e ∉
        (PutObjectPart yig reqCtx credential uploadId partId size data md5Hex
          sseRequest).2.2) ∧
    (∀ (bucketName objectName : String) (credential : Credential) (copyData : List UInt8),
      yig.GetMultipart bucketName objectName uploadId = .ok multipart →
      (cluster.Put multipart.Metadata.Pool (copyData.take size.toNat) key iv).err = none →
      ((cluster.Put multipart.Metadata.Pool (copyData.take size.toNat) key
        iv).bytesWritten : Int) < size →
      (CopyObjectPart yig bucketName objectName uploadId partId size copyData credential
        sseRequest).2.1 = some .ErrIncompleteBody ∧
      (CopyObjectPart yig bucketName objectName uploadId partId size copyData credential
        sseRequest).2.2 =
        [Event.BackendPut cluster.ID multipart.Metadata.Pool
            (cluster.Put multipart.Metadata.Pool (copyData.take size.toNat) key iv),
          Event.Recycle
            (recycleEntry cluster.ID multipart.Metadata.Pool
              (cluster.Put multipart.Metadata.Pool (copyData.take size.toNat) key iv))] ∧
      ∀ u p e, Event.MetaPutObjectPart u p e ∉
        (CopyObjectPart yig bucketName objectName uploadId partId size copyData credential
          sseRequest).2.2) := by
  constructor
  · intro reqCtx bucket credential data md5Hex hb hm hacl hok hlt
    rw [PutObjectPart_reaches_put yig reqCtx credential uploadId partId size data md5Hex
      sseRequest bucket multipart key cluster iv hb hm hsize hacl hkey hcl hiv hwrap]
    obtain ⟨rest, htr, _, _, hshort⟩ :=
      PutObjectPartAfterPut_summary yig multipart cluster iv partId size data md5Hex
        sseRequest (data.content.take size.toNat)
        (cluster.Put multipart.Metadata.Pool (data.content.take size.toNat) key iv)
    obtain ⟨herr, hrest⟩ := hshort hok (wrapInt64_lt_of_lt _ size hsize hlt)
    rw [htr, hrest]
    refine ⟨herr, rfl, ?_⟩
    intro u p e hq
    simp at hq
  · intro bucketName objectName credential copyData hm hok hlt
    rw [CopyObjectPart_reaches_put yig bucketName objectName uploadId partId size copyData
      credential sseRequest multipart key cluster iv hm hsize hkey hcl hiv hwrap]
    obtain ⟨rest, htr, _, _, hshort⟩ :=
      CopyObjectPartAfterPut_summary yig bucketName multipart cluster iv partId size
        credential (copyData.take size.toNat)
        (cluster.Put multipart.Metadata.Pool (copyData.take size.toNat) key iv)
    obtain ⟨herr, hrest⟩ := hshort hok (wrapInt64_lt_of_lt _ size hsize hlt)
    rw [htr, hrest]
    refine ⟨herr, rfl, ?_⟩
    intro u p e hq
    simp at hq

/-- Witness of C18: on a cluster that reports 2 bytes written, `PutObjectPart` and
`CopyObjectPart` of three bytes fail with `ErrIncompleteBody`, and their effects are
the write and the sending of the blob `blob-new` on the recycle queue. -/
theorem short_write_fails_witness :
    ((PutObjectPart (sampleYig (sampleMultipart "" []) (sampleCluster 2) none) sampleReqCtx
        ownerCred "upload-1" 1 3 ⟨[1, 2, 3], none⟩ "" ⟨"", "", [], ""⟩).2.1 =
      some .ErrIncompleteBody ∧
    (PutObjectPart (sampleYig (sampleMultipart "" []) (sampleCluster 2) none) sampleReqCtx
        ownerCred "upload-1" 1 3 ⟨[1, 2, 3], none⟩ "" ⟨"", "", [], ""⟩).2.2 =
      [Event.BackendPut "ceph-1" "rabbit" ⟨"blob-new", 2, 3, none⟩,
        Event.Recycle ⟨"ceph-1", "rabbit", "blob-new", .ObjectTypeMultipart⟩]) ∧
    ((CopyObjectPart (sampleYig (sampleMultipart "" []) (sampleCluster 2) none) "photos"
        "cat.png" "upload-1" 1 3 [1, 2, 3] ownerCred ⟨"", "", [], ""⟩).2.1 =
      some .ErrIncompleteBody ∧
    (CopyObjectPart (sampleYig (sampleMultipart "" []) (sampleCluster 2) none) "photos"
        "cat.png" "upload-1" 1 3 [1, 2, 3] ownerCred ⟨"", "", [], ""⟩).2.2 =
      [Event.BackendPut "ceph-1" "rabbit" ⟨"blob-new", 2, 3, none⟩,
        Event.Recycle ⟨"ceph-1", "rabbit", "blob-new", .ObjectTypeMultipart⟩]) := by
  have h := short_write_fails (sampleYig (sampleMultipart "" []) (sampleCluster 2) none)
    "upload-1" 1 3 ⟨"", "", [], ""⟩ (sampleMultipart "" []) [] (sampleCluster 2) []
    (by decide) rfl rfl rfl rfl
  have hput := h.1 sampleReqCtx (sampleBucket (cannedAcl "private") [0]) ownerCred
    ⟨[1, 2, 3], none⟩ "" rfl rfl (by decide) rfl (by decide)
  have hcopy := h.2 "photos" "cat.png" ownerCred [1, 2, 3] rfl rfl (by decide)
  exact ⟨⟨hput.1, hput.2.1⟩, ⟨hcopy.1, hcopy.2.1⟩⟩

/-! ## Digest verification (C19) -/

/-- C19: in `PutObjectPart`, after a successful and complete backend write (at least
`size` bytes written, the count fitting an `int64`), with `calculatedMd5` the hex MD5
computed over the plaintext read by the write: if `md5Hex` is not empty and differs
from it, the operation fails with `ErrBadDigest`, its only effects are the write and
the sending of the written blob on the recycle queue, and no part metadata is
committed; if `md5Hex` is empty or equal to it, every part committed carries the
computed digest as ETag, and unless the streaming-signature verification fails the
part (number `partId`, `size` bytes, that ETag) is handed to the metadata commit, whose
success makes the operation succeed with that ETag in the result. -/
theorem digest_check (yig : YigStorage) (reqCtx : RequestContext)
    (credential : Credential) (uploadId : String) (partId : Int) (size : Int)
    (data : DataReader) (md5Hex : String) (sseRequest : SseRequest)
    (location pool : String) (outcome : PutOutcome)
    (hmem : Event.BackendPut location pool outcome ∈
      (PutObjectPart yig reqCtx credential uploadId partId size data md5Hex sseRequest).2.2)
    (hok : outcome.err = none) (hfull : size ≤ (outcome.bytesWritten : Int))
    (hfit : (outcome.bytesWritten : Int) < 9223372036854775808) :
    (md5Hex ≠ "" → md5Hex ≠ calculatedMd5 yig (data.content.take size.toNat) outcome →
      (PutObjectPart yig reqCtx credential uploadId partId size data md5Hex sseRequest).2.1 =
        some .ErrBadDigest ∧
      (PutObjectPart yig reqCtx credential uploadId partId size data md5Hex sseRequest).2.2 =
        [Event.BackendPut location pool outcome,
          Event.Recycle (recycleEntry location pool outcome)] ∧
      ∀ u p e, Event.MetaPutObjectPart u p e ∉
        (PutObjectPart yig reqCtx credential uploadId partId size data md5Hex
          sseRequest).2.2) ∧
    (md5Hex = "" ∨ md5Hex = calculatedMd5 yig (data.content.take size.toNat) outcome →
      (∀ u p e, Event.MetaPutObjectPart u p e ∈
          (PutObjectPart yig reqCtx credential uploadId partId size data md5Hex
            sseRequest).2.2 →
        p.Etag = calculatedMd5 yig (data.content.take size.toNat) outcome) ∧
      ((∀ c e, data.verify ≠ some (c, some e)) →
        ∃ u p e, Event.MetaPutObjectPart u p e ∈
            (PutObjectPart yig reqCtx credential uploadId partId size data md5Hex
              sseRequest).2.2 ∧
          p.Etag = calculatedMd5 yig (data.content.take size.toNat) outcome ∧
          p.PartNumber = partId ∧ p.Size = size ∧
          (e = none →
            (PutObjectPart yig reqCtx credential uploadId partId size data md5Hex
              sseRequest).2.1 = none ∧
            (PutObjectPart yig reqCtx credential uploadId partId size data md5Hex
              sseRequest).1.ETag =
              calculatedMd5 yig (data.content.take size.toNat) outcome))) := by
  have hnotshort : ¬ wrapInt64 outcome.bytesWritten < size := by
    rw [wrapInt64_of_range _ (by omega) hfit]
    omega
  rcases PutObjectPart_cases yig reqCtx credential uploadId partId size data md5Hex
      sseRequest with
    ⟨htrace, _⟩ | ⟨bucket, multipart, key, cluster, iv, _, _, _, _, _, _, _, heq⟩
  · rw [htrace] at hmem
    cases hmem
  · rw [heq] at hmem ⊢
    obtain ⟨rest, htr, hno, _, _⟩ :=
      PutObjectPartAfterPut_summary yig multipart cluster iv partId size data md5Hex
        sseRequest (data.content.take size.toNat)
        (cluster.Put multipart.Metadata.Pool (data.content.take size.toNat) key iv)
    have hev : Event.BackendPut location pool outcome =
        Event.BackendPut cluster.ID multipart.Metadata.Pool
          (cluster.Put multipart.Metadata.Pool (data.content.take size.toNat) key iv) := by
      rw [htr] at hmem
      rcases List.mem_cons.mp hmem with hhead | htail
      · exact hhead
      · exact absurd htail (hno _ _ _)
    simp only [Event.BackendPut.injEq] at hev
    obtain ⟨hloc, hpool, hout⟩ := hev
    subst hloc hpool hout
    rcases PutObjectPartAfterPut_outcomes yig multipart cluster iv partId size data md5Hex
        sseRequest (data.content.take size.toNat)
        (cluster.Put multipart.Metadata.Pool (data.content.take size.toNat) key iv) with
      ⟨e, he, _⟩ | ⟨_, hs, _⟩ | ⟨_, _, hb, hr⟩ | ⟨_, _, hb, c, e, hv, hr⟩ |
      ⟨_, _, hb, hv, e, hc, hr⟩ | ⟨_, _, hb, hv, hc, hnone, hetag, old, hold, hr⟩
    · rw [hok] at he
      cases he
    · exact absurd hs hnotshort
    · rw [hr]
      refine ⟨fun _ _ => ⟨rfl, rfl, ?_⟩, fun hgood => absurd hb ?_⟩
      · intro u p e hq
        simp at hq
      · rcases hgood with h | h
        · exact fun hc => hc.1 h
        · exact fun hc => hc.2 h
    · rw [hr]
      refine ⟨fun h1 h2 => absurd ⟨h1, h2⟩ hb, fun _ => ⟨?_, fun hver => absurd hv (hver c e)⟩⟩
      intro u p e2 hq
      simp at hq
    · rw [hr]
      refine ⟨fun h1 h2 => absurd ⟨h1, h2⟩ hb, fun _ => ⟨?_, fun _ => ?_⟩⟩
      · intro u p e2 hq
        simp only [List.mem_cons, reduceCtorEq, Event.MetaPutObjectPart.injEq, false_or,
          List.mem_singleton, or_false, List.not_mem_nil] at hq
        rw [hq.2.1]
        rfl
      · exact ⟨_, _, _, List.mem_cons_of_mem _ (List.mem_cons_self _ _), rfl, rfl, rfl,
          fun h => by cases h⟩
    · refine ⟨fun h1 h2 => absurd ⟨h1, h2⟩ hb, fun _ => ⟨?_, fun _ => ?_⟩⟩
      · intro u p e2 hq
        rw [hr] at hq
        rcases List.mem_append.mp hq with h1 | h2
        · simp only [List.mem_cons, reduceCtorEq, Event.MetaPutObjectPart.injEq, false_or,
            List.mem_singleton, or_false, List.not_mem_nil] at h1
          rw [h1.2.1]
          rfl
        · obtain ⟨o2, ho2⟩ := hold _ h2
          cases ho2
      · refine ⟨multipart.UploadId,
          newPart yig iv partId size
            (cluster.Put multipart.Metadata.Pool (data.content.take size.toNat) key iv)
            (calculatedMd5 yig (data.content.take size.toNat)
              (cluster.Put multipart.Metadata.Pool (data.content.take size.toNat) key iv)),
          none, ?_, rfl, rfl, rfl, fun _ => ⟨hnone, hetag⟩⟩
        rw [hr]
        exact List.mem_append_left _ (List.mem_cons_of_mem _ (List.mem_cons_self _ _))

theorem digest_check_witness :
    Event.BackendPut "ceph-1" "rabbit" ⟨"blob-new", 3, 3, none⟩ ∈
        (PutObjectPart (sampleYig (sampleMultipart "" []) (sampleCluster 3) none) sampleReqCtx
          ownerCred "upload-1" 1 3 ⟨[1, 2, 3], none⟩ "ff" ⟨"", "", [], ""⟩).2.2 ∧
      (PutObjectPart (sampleYig (sampleMultipart "" []) (sampleCluster 3) none) sampleReqCtx
          ownerCred "upload-1" 1 3 ⟨[1, 2, 3], none⟩ "ff" ⟨"", "", [], ""⟩).2.1 =
        some .ErrBadDigest :=
  ⟨by decide,
    ((digest_check (sampleYig (sampleMultipart "" []) (sampleCluster 3) none) sampleReqCtx
      ownerCred "upload-1" 1 3 ⟨[1, 2, 3], none⟩ "ff" ⟨"", "", [], ""⟩ "ceph-1" "rabbit"
      ⟨"blob-new", 3, 3, none⟩ (by decide) rfl (by decide) (by decide)).1 (by decide)
      (by decide)).1⟩

/-! ## Encryption preparation (C20) -/

/-- C20: once `PutObjectPart` (bucket present, multipart found, size within
`MAX_PART_SIZE`, ACL block passed) or `CopyObjectPart` (multipart found, size within
`MAX_PART_SIZE`) reaches the encryption preparation, the multipart's declared SSE type
decides. For SSE-C with a part request whose SSE type is not SSE-C the operation fails
with `ErrInvalidSseHeader`, for S3-KMS it fails with `ErrNotImplemented`, in both
cases without any effect (no backend write). Otherwise the preparation yields the
key: the empty key for type none (and then no initialization vector either), the
multipart's stored key for SSE-S3, the request's customer key for SSE-C; and when the
cluster is found and the initialization vector and the encryption wrapper are
obtained, the operation makes its one backend write with exactly that key. -/
theorem encryption_preparation (yig : YigStorage) (reqCtx : RequestContext)
    (credential : Credential) (uploadId : String) (partId : Int) (size : Int)
    (data : DataReader) (md5Hex : String) (sseRequest : SseRequest)
    (bucketName objectName : String) (copyData : List UInt8)
    (bucket : Bucket) (multipart : Multipart)
    (hb : reqCtx.BucketInfo = some bucket)
    (hm : yig.GetMultipart reqCtx.BucketName reqCtx.ObjectName uploadId = .ok multipart)
    (hmc : yig.GetMultipart bucketName objectName uploadId = .ok multipart)
    (hsize : size ≤ MAX_PART_SIZE)
    (hacl : PutObjectPartAcl yig.env bucket credential = none) :
    (multipart.Metadata.SseRequest.Type_ = crypto_SSEC → sseRequest.Type_ ≠ crypto_SSEC →
      PutObjectPart yig reqCtx credential uploadId partId size data md5Hex sseRequest =
        (PutObjectPartResult.zero, some .ErrInvalidSseHeader, []) ∧
      CopyObjectPart yig bucketName objectName uploadId partId size copyData credential
          sseRequest =
        (PutObjectPartResult.zero, some .ErrInvalidSseHeader, [])) ∧
    (multipart.Metadata.SseRequest.Type_ = crypto_S3KMS →
      PutObjectPart yig reqCtx credential uploadId partId size data md5Hex sseRequest =
        (PutObjectPartResult.zero, some .ErrNotImplemented, []) ∧
      CopyObjectPart yig bucketName objectName uploadId partId size copyData credential
          sseRequest =
        (PutObjectPartResult.zero, some .ErrNotImplemented, [])) ∧
    (∀ (key : List UInt8) (cluster : Cluster) (iv : List UInt8),
      (multipart.Metadata.SseRequest.Type_ = "" ∧ key = []) ∨
        (multipart.Metadata.SseRequest.Type_ = crypto_S3 ∧
          key = multipart.Metadata.EncryptionKey) ∨
        (multipart.Metadata.SseRequest.Type_ = crypto_SSEC ∧ sseRequest.Type_ = crypto_SSEC ∧
          key = sseRequest.SseCustomerKey) →
      yig.GetClusterByFsName multipart.Metadata.Location = .ok cluster →
      (if key.length ≠ 0 then yig.newInitializationVector else .ok []) = .ok iv →
      yig.wrapEncryptionReader key iv = none →
      partEncryptionKey multipart sseRequest = .ok key ∧
      (key = [] → iv = []) ∧
      (∃ rest,
        (PutObjectPart yig reqCtx credential uploadId partId size data md5Hex
            sseRequest).2.2 =
          Event.BackendPut cluster.ID multipart.Metadata.Pool
            (cluster.Put multipart.Metadata.Pool (data.content.take size.toNat) key iv) ::
            rest ∧
        ∀ l p o, Event.BackendPut l p o ∉ rest) ∧
      (∃ rest,
        (CopyObjectPart yig bucketName objectName uploadId partId size copyData credential
            sseRequest).2.2 =
          Event.BackendPut cluster.ID multipart.Metadata.Pool
            (cluster.Put multipart.Metadata.Pool (copyData.take size.toNat) key iv) :: rest ∧
        ∀ l p o, Event.BackendPut l p o ∉ rest)) := by
  have hnsize : ¬ size > MAX_PART_SIZE := not_lt.mpr hsize
  have h1 : crypto_SSEC ≠ "" := by decide
  have h2 : crypto_S3KMS ≠ "" := by decide
  have h3 : crypto_S3KMS ≠ crypto_SSEC := by decide
  have h4 : crypto_S3KMS ≠ crypto_S3 := by decide
  have h5 : crypto_S3 ≠ "" := by decide
  have h6 : crypto_S3 ≠ crypto_SSEC := by decide
  refine ⟨fun ht hr => ?_, fun ht => ?_, fun key cluster iv htype hcl hiv hwrap => ?_⟩
  · have hkey : partEncryptionKey multipart sseRequest = .error .ErrInvalidSseHeader := by
      simp [partEncryptionKey, ht, h1, hr]
    constructor
    · unfold PutObjectPart
      simp only [hb, hm, hnsize, if_false, hacl, hkey]
    · unfold CopyObjectPart
      simp only [hmc, hnsize, if_false, hkey]
  · have hkey : partEncryptionKey multipart sseRequest = .error .ErrNotImplemented := by
      simp [partEncryptionKey, ht, h2, h3, h4]
    constructor
    · unfold PutObjectPart
      simp only [hb, hm, hnsize, if_false, hacl, hkey]
    · unfold CopyObjectPart
      simp only [hmc, hnsize, if_false, hkey]
  · have hkey : partEncryptionKey multipart sseRequest = .ok key := by
      rcases htype with ⟨ht, hk⟩ | ⟨ht, hk⟩ | ⟨ht, hr, hk⟩
      · simp [partEncryptionKey, ht, hk]
      · simp [partEncryptionKey, ht, hk, h5, h6]
      · simp [partEncryptionKey, ht, hk, h1, hr]
    refine ⟨hkey, fun hk => ?_, ?_, ?_⟩
    · rw [hk] at hiv
      simp only [List.length_nil, ne_eq, not_true_eq_false, if_false, Except.ok.injEq] at hiv
      exact hiv.symm
    · rw [PutObjectPart_reaches_put yig reqCtx credential uploadId partId size data md5Hex
        sseRequest bucket multipart key cluster iv hb hm hsize hacl hkey hcl hiv hwrap]
      obtain ⟨rest, htr, hno, _, _⟩ :=
        PutObjectPartAfterPut_summary yig multipart cluster iv partId size data md5Hex
          sseRequest (data.content.take size.toNat)
          (cluster.Put multipart.Metadata.Pool (data.content.take size.toNat) key iv)
      exact ⟨rest, htr, hno⟩
    · rw [CopyObjectPart_reaches_put yig bucketName objectName uploadId partId size copyData
        credential sseRequest multipart key cluster iv hmc hsize hkey hcl hiv hwrap]
      obtain ⟨rest, htr, hno, _, _⟩ :=
        CopyObjectPartAfterPut_summary yig bucketName multipart cluster iv partId size
          credential (copyData.take size.toNat)
          (cluster.Put multipart.Metadata.Pool (copyData.take size.toNat) key iv)
      exact ⟨rest, htr, hno⟩

/-- Witness of C20, on a cluster that reports the length of the key among the bytes
written: a part request without SSE-C headers on an SSE-C upload fails with
`ErrInvalidSseHeader` and no effect; with the SSE-C headers the write is made with the
three bytes of the customer key, on an SSE-S3 upload with the two bytes of the stored
key, and on an upload without encryption with the empty key. -/
theorem encryption_preparation_witness :
    PutObjectPart (sampleYig (sampleMultipart crypto_SSEC []) keyedCluster none)
        sampleReqCtx ownerCred "upload-1" 1 3 ⟨[1, 2, 3], none⟩ "" ⟨"", "", [], ""⟩ =
      (PutObjectPartResult.zero, some .ErrInvalidSseHeader, []) ∧
    (∃ rest,
      (PutObjectPart (sampleYig (sampleMultipart crypto_SSEC []) keyedCluster none)
          sampleReqCtx ownerCred "upload-1" 1 3 ⟨[1, 2, 3], none⟩ ""
          ⟨crypto_SSEC, "", [9, 9, 9], ""⟩).2.2 =
        Event.BackendPut "ceph-1" "rabbit" ⟨"blob-new", 3 + 3, 3, none⟩ :: rest) ∧
    (∃ rest,
      (CopyObjectPart (sampleYig (sampleMultipart crypto_S3 []) keyedCluster none) "photos"
          "cat.png" "upload-1" 1 3 [1, 2, 3] ownerCred ⟨"", "", [], ""⟩).2.2 =
        Event.BackendPut "ceph-1" "rabbit" ⟨"blob-new", 3 + 2, 3, none⟩ :: rest) ∧
    (∃ rest,
      (PutObjectPart (sampleYig (sampleMultipart "" []) keyedCluster none)
          sampleReqCtx ownerCred "upload-1" 1 3 ⟨[1, 2, 3], none⟩ ""
          ⟨crypto_SSEC, "", [9, 9, 9], ""⟩).2.2 =
        Event.BackendPut "ceph-1" "rabbit" ⟨"blob-new", 3 + 0, 3, none⟩ :: rest) := by
  refine ⟨?_, ?_, ?_, ?_⟩
  · exact ((encryption_preparation
      (sampleYig (sampleMultipart crypto_SSEC []) keyedCluster none) sampleReqCtx ownerCred
      "upload-1" 1 3 ⟨[1, 2, 3], none⟩ "" ⟨"", "", [], ""⟩ "photos" "cat.png" [1, 2, 3]
      (sampleBucket (cannedAcl "private") [0]) (sampleMultipart crypto_SSEC []) rfl rfl rfl
      (by decide) (by decide)).1 rfl (by decide)).1
  · obtain ⟨rest, htr, _⟩ := ((encryption_preparation
      (sampleYig (sampleMultipart crypto_SSEC []) keyedCluster none) sampleReqCtx ownerCred
      "upload-1" 1 3 ⟨[1, 2, 3], none⟩ "" ⟨crypto_SSEC, "", [9, 9, 9], ""⟩ "photos" "cat.png"
      [1, 2, 3] (sampleBucket (cannedAcl "private") [0]) (sampleMultipart crypto_SSEC []) rfl
      rfl rfl (by decide) (by decide)).2.2 [9, 9, 9] keyedCluster [1, 2, 3]
      (Or.inr (Or.inr ⟨rfl, rfl, rfl⟩)) rfl rfl rfl).2.2.1
    exact ⟨rest, htr⟩
  · obtain ⟨rest, htr, _⟩ := ((encryption_preparation
      (sampleYig (sampleMultipart crypto_S3 []) keyedCluster none) sampleReqCtx ownerCred
      "upload-1" 1 3 ⟨[1, 2, 3], none⟩ "" ⟨"", "", [], ""⟩ "photos" "cat.png"
      [1, 2, 3] (sampleBucket (cannedAcl "private") [0]) (sampleMultipart crypto_S3 []) rfl
      rfl rfl (by decide) (by decide)).2.2 [7, 7] keyedCluster [1, 2, 3]
      (Or.inr (Or.inl ⟨rfl, rfl⟩)) rfl rfl rfl).2.2.2
    exact ⟨rest, htr⟩
  · obtain ⟨rest, htr, _⟩ := ((encryption_preparation
      (sampleYig (sampleMultipart "" []) keyedCluster none) sampleReqCtx ownerCred
      "upload-1" 1 3 ⟨[1, 2, 3], none⟩ "" ⟨crypto_SSEC, "", [9, 9, 9], ""⟩ "photos" "cat.png"
      [1, 2, 3] (sampleBucket (cannedAcl "private") [0]) (sampleMultipart "" []) rfl
      rfl rfl (by decide) (by decide)).2.2 [] keyedCluster []
      (Or.inl ⟨rfl, rfl⟩) rfl rfl rfl).2.2.1
    exact ⟨rest, htr⟩

/-! ## Fuel: more iterations do not change a result -/


theorem ListObjectsLoop_fuel_succ (t : TidbClient) (bucketName : String)
    (prefix_ delimiter : GoString) (maxKeys : Int) :
    ∀ (fuel : Nat) (s : ListObjectsState) (r : Except ApiError ListObjectsState),
      ListObjectsLoop t bucketName prefix_ delimiter maxKeys fuel s = some r →
        ListObjectsLoop t bucketName prefix_ delimiter maxKeys (fuel + 1) s = some r := by
  intro fuel
  induction fuel with
  | zero => intro s r h; simp [ListObjectsLoop] at h
  | succ n ih =>
    intro s r h
    rw [ListObjectsLoop] at h ⊢
    cases hq : t.Query (ListObjectsQuery bucketName s.marker prefix_ maxKeys) with
    | error e => rw [hq] at h; exact h
    | ok rows =>
      rw [hq] at h
      simp only [] at h ⊢
      cases hrows : forRows (ListObjectsRow t prefix_ delimiter maxKeys) rows s 0 with
      | error e => rw [hrows] at h; exact h
      | ok res =>
        obtain ⟨s2, loopcount⟩ := res
        rw [hrows] at h
        simp only [] at h ⊢
        generalize (if loopcount = 0 then { s2 with exit := true } else s2) = s3 at h ⊢
        by_cases hexit : s3.exit = true
        · rw [if_pos hexit] at h ⊢; exact h
        · rw [if_neg hexit] at h ⊢; exact ih _ _ h

theorem ListObjectsLoop_fuel_add (t : TidbClient) (bucketName : String)
    (prefix_ delimiter : GoString) (maxKeys : Int) (fuel : Nat) (s : ListObjectsState)
    (r : Except ApiError ListObjectsState)
    (h : ListObjectsLoop t bucketName prefix_ delimiter maxKeys fuel s = some r) (extra : Nat) :
    ListObjectsLoop t bucketName prefix_ delimiter maxKeys (fuel + extra) s = some r := by
  induction extra with
  | zero => exact h
  | succ k ih => exact ListObjectsLoop_fuel_succ _ _ _ _ _ _ _ _ ih

theorem ListObjects_fuel_add (t : TidbClient) (bucketName : String)
    (marker prefix_ delimiter : GoString) (maxKeys : Int) (fuel : Nat)
    (r : Except ApiError ListObjectsInfo)
    (h : ListObjects t bucketName marker prefix_ delimiter maxKeys fuel = some r) (extra : Nat) :
    ListObjects t bucketName marker prefix_ delimiter maxKeys (fuel + extra) = some r := by
  unfold ListObjects at h ⊢
  simp only [] at h ⊢
  cases hloop : ListObjectsLoop t bucketName prefix_ delimiter maxKeys fuel
      ⟨0, false, [], marker, [], ListObjectsInfo.zero⟩ with
  | none => rw [hloop] at h; simp at h
  | some res =>
    rw [hloop] at h
    rw [ListObjectsLoop_fuel_add _ _ _ _ _ _ _ _ hloop extra]
    exact h

theorem ListLatestObjectsLoop_fuel_succ (t : TidbClient) (bucketName : String)
    (marker prefix_ delimiter : GoString) (maxKeys : Int) :
    ∀ (fuel : Nat) (s : ListLatestState) (r : Except ApiError ListLatestState),
      ListLatestObjectsLoop t bucketName marker prefix_ delimiter maxKeys fuel s = some r →
        ListLatestObjectsLoop t bucketName marker prefix_ delimiter maxKeys (fuel + 1) s =
          some r := by
  intro fuel
  induction fuel with
  | zero => intro s r h; simp [ListLatestObjectsLoop] at h
  | succ n ih =>
    intro s r h
    rw [ListLatestObjectsLoop] at h ⊢
    cases hq : t.Query (ListLatestObjectsQuery bucketName s.currentMarker prefix_ maxKeys) with
    | error e => rw [hq] at h; exact h
    | ok rows =>
      rw [hq] at h
      simp only [] at h ⊢
      cases hrows : forRows (ListLatestObjectsRow t marker prefix_ delimiter maxKeys) rows
          { s with previousNullObjectMeta := none } 0 with
      | error e => rw [hrows] at h; exact h
      | ok res =>
        obtain ⟨s2, loopCount⟩ := res
        rw [hrows] at h
        simp only [] at h ⊢
        cases htrail : ListLatestObjectsTrailing t bucketName maxKeys s2 with
        | error flow =>
          rw [htrail] at h
          cases flow with
          | next s3 => exact ih _ _ h
          | stop s3 => exact h
          | fail err => exact h
        | ok s3 =>
          rw [htrail] at h
          simp only [] at h ⊢
          generalize (if loopCount = 0 then { s3 with exit := true } else s3) = s4 at h ⊢
          by_cases hexit : s4.exit = true
          · rw [if_pos hexit] at h ⊢; exact h
          · rw [if_neg hexit] at h ⊢; exact ih _ _ h

theorem ListLatestObjects_fuel_add (t : TidbClient) (bucketName : String)
    (marker prefix_ delimiter : GoString) (maxKeys : Int) (fuel : Nat)
    (r : Except ApiError ListObjectsInfo)
    (h : ListLatestObjects t bucketName marker prefix_ delimiter maxKeys fuel = some r)
    (extra : Nat) :
    ListLatestObjects t bucketName marker prefix_ delimiter maxKeys (fuel + extra) = some r := by
  have hadd : ∀ (s : ListLatestState) (res : Except ApiError ListLatestState),
      ListLatestObjectsLoop t bucketName marker prefix_ delimiter maxKeys fuel s = some res →
        ListLatestObjectsLoop t bucketName marker prefix_ delimiter maxKeys (fuel + extra) s =
          some res := by
    intro s res hres
    induction extra with
    | zero => exact hres
    | succ k ih => exact ListLatestObjectsLoop_fuel_succ _ _ _ _ _ _ _ _ _ ih
  unfold ListLatestObjects at h ⊢
  simp only [] at h ⊢
  cases hloop : ListLatestObjectsLoop t bucketName marker prefix_ delimiter maxKeys fuel
      ⟨0, false, [], [], marker, none, ListObjectsInfo.zero⟩ with
  | none => rw [hloop] at h; simp at h
  | some res =>
    rw [hloop] at h
    rw [hadd _ _ hloop]
    exact h

theorem ListVersionedMarkerLoop_fuel_succ (t : TidbClient) (bucketName : String)
    (maxKeys : Int) (nullObjMeta : Option ObjectRow) :
    ∀ (fuel : Nat) (s : ListVersionedState × Bool)
      (r : Except ApiError (ListVersionedState × Bool)),
      ListVersionedMarkerLoop t bucketName maxKeys nullObjMeta fuel s = some r →
        ListVersionedMarkerLoop t bucketName maxKeys nullObjMeta (fuel + 1) s = some r := by
  intro fuel
  induction fuel with
  | zero => intro s r h; simp [ListVersionedMarkerLoop] at h
  | succ n ih =>
    intro s r h
    rw [ListVersionedMarkerLoop] at h ⊢
    generalize t.Query _ = q at h ⊢
    cases q with
    | error e => exact h
    | ok rows =>
      simp only [] at h ⊢
      cases hrows : forRows (ListVersionedMarkerRow maxKeys nullObjMeta) rows s 0 with
      | error e => rw [hrows] at h; exact h
      | ok res =>
        obtain ⟨s2, loopCount⟩ := res
        rw [hrows] at h
        simp only [] at h ⊢
        by_cases hzero : loopCount = 0
        · rw [if_pos hzero] at h ⊢; exact h
        · rw [if_neg hzero] at h ⊢; exact ih _ _ h

theorem ListVersionedObjectsLoop_fuel_succ (t : TidbClient) (bucketName : String)
    (prefix_ delimiter : GoString) (maxKeys : Int) :
    ∀ (fuel : Nat) (s : ListVersionedState) (r : Except ApiError ListVersionedState),
      ListVersionedObjectsLoop t bucketName prefix_ delimiter maxKeys fuel s = some r →
        ListVersionedObjectsLoop t bucketName prefix_ delimiter maxKeys (fuel + 1) s =
          some r := by
  intro fuel
  induction fuel with
  | zero => intro s r h; simp [ListVersionedObjectsLoop] at h
  | succ n ih =>
    intro s r h
    rw [ListVersionedObjectsLoop] at h ⊢
    generalize t.Query _ = q at h ⊢
    cases q with
    | error e => exact h
    | ok rows =>
      simp only [] at h ⊢
      cases hrows : forRows (ListVersionedObjectsRow prefix_ delimiter maxKeys) rows s 0 with
      | error e => rw [hrows] at h; exact h
      | ok res =>
        obtain ⟨s2, loopCount⟩ := res
        rw [hrows] at h
        simp only [] at h ⊢
        generalize ListVersionedObjectsAfterRows maxKeys loopCount s2 = s3 at h ⊢
        by_cases hexit : s3.exit = true
        · rw [if_pos hexit] at h ⊢; exact h
        · rw [if_neg hexit] at h ⊢; exact ih _ _ h

theorem ListVersionedObjects_fuel_succ (t : TidbClient) (bucketName : String)
    (marker : GoString) (verIdMarker : Option Nat) (prefix_ delimiter : GoString)
    (maxKeys : Int) (fuel : Nat) (r : Except ApiError VersionedListObjectsInfo)
    (h : ListVersionedObjects t bucketName marker verIdMarker prefix_ delimiter maxKeys fuel =
      some r) :
    ListVersionedObjects t bucketName marker verIdMarker prefix_ delimiter maxKeys (fuel + 1) =
      some r := by
  unfold ListVersionedObjects at h ⊢
  simp only [] at h ⊢
  generalize (⟨0, false, [], marker, verIdMarker, none, VersionedListObjectsInfo.zero⟩ :
    ListVersionedState) = start at h ⊢
  have hmarker : ∀ res, ListVersionedMarker t bucketName delimiter maxKeys fuel start = some res →
      ListVersionedMarker t bucketName delimiter maxKeys (fuel + 1) start = some res := by
    intro res hres
    unfold ListVersionedMarker at hres ⊢
    simp only [] at hres ⊢
    split at hres
    · rename_i hcond
      rw [if_pos hcond]
      generalize t.Query _ = q at hres ⊢
      cases q with
      | error e => exact hres
      | ok nullRows =>
        simp only [] at hres ⊢
        split at hres
        · exact hres
        · rename_i start2 hprep
          cases hloop : ListVersionedMarkerLoop t bucketName maxKeys nullRows.head? fuel start2 with
          | none => rw [hloop] at hres; simp at hres
          | some res2 =>
            rw [hloop] at hres
            rw [ListVersionedMarkerLoop_fuel_succ _ _ _ _ _ _ _ hloop]
            exact hres
    · rename_i hcond
      rw [if_neg hcond]
      exact hres
  cases hm : ListVersionedMarker t bucketName delimiter maxKeys fuel start with
  | none => rw [hm] at h; simp at h
  | some res =>
    rw [hm] at h
    rw [hmarker _ hm]
    cases res with
    | error e => exact h
    | ok inner =>
      cases inner with
      | error listInfo => exact h
      | ok s =>
        simp only [] at h ⊢
        by_cases hexit : s.exit = true
        · rw [if_pos hexit] at h ⊢; exact h
        · rw [if_neg hexit] at h ⊢
          cases hloop : ListVersionedObjectsLoop t bucketName prefix_ delimiter maxKeys fuel s with
          | none => rw [hloop] at h; simp at h
          | some res2 =>
            rw [hloop] at h
            rw [ListVersionedObjectsLoop_fuel_succ _ _ _ _ _ _ _ _ hloop]
            exact h

theorem ListVersionedObjects_fuel_add (t : TidbClient) (bucketName : String)
    (marker : GoString) (verIdMarker : Option Nat) (prefix_ delimiter : GoString)
    (maxKeys : Int) (fuel : Nat) (r : Except ApiError VersionedListObjectsInfo)
    (h : ListVersionedObjects t bucketName marker verIdMarker prefix_ delimiter maxKeys fuel =
      some r) (extra : Nat) :
    ListVersionedObjects t bucketName marker verIdMarker prefix_ delimiter maxKeys
      (fuel + extra) = some r := by
  induction extra with
  | zero => exact h
  | succ k ih => exact ListVersionedObjects_fuel_succ _ _ _ _ _ _ _ _ _ ih

/-! ## Lemmas on the store model -/

theorem insertionSort_unordered (rows : List ObjectRow) :
    rows.insertionSort OrderBy.unordered.rel = rows := by
  apply List.Sorted.insertionSort_eq
  induction rows with
  | nil => exact List.sorted_nil
  | cons a l ih => exact List.sorted_cons.mpr ⟨fun _ _ => rfl, ih⟩

theorem Select_run_null_version (table : List ObjectRow) (bucketName objectName : String) :
    Select.run { bucketName := bucketName, nameEq := some (goString objectName),
                 versionEq := some 0 } table =
      .ok ((versionsOf table bucketName objectName).filter fun row => row.version == 0) := by
  unfold Select.run versionsOf
  simp only [insertionSort_unordered, List.filter_filter]
  congr 1
  apply List.filter_congr
  intro row _
  simp [Select.selects, Bool.and_comm]

theorem Select_run_smallest_versioned (table : List ObjectRow)
    (bucketName objectName : String) :
    Select.run { bucketName := bucketName, nameEq := some (goString objectName),
                 versionGt := some 0, orderBy := .version, limit := some 1 } table =
      .ok ((((versionsOf table bucketName objectName).filter fun row =>
        decide (0 < row.version)).insertionSort OrderBy.version.rel).take 1) := by
  unfold Select.run versionsOf
  simp only [List.filter_filter]
  have hsel : List.filter (Select.selects
      { bucketName := bucketName, nameEq := some (goString objectName),
        versionGt := some 0, orderBy := .version, limit := some 1 }) table =
      List.filter (fun a => decide (0 < a.version) &&
        (a.bucketname == bucketName && goString a.name == goString objectName)) table := by
    apply List.filter_congr
    intro row _
    simp [Select.selects, Bool.and_comm]
  rw [hsel]
  rfl

theorem head_insertionSort_version (rows : List ObjectRow) (row : ObjectRow)
    (hnodup : (rows.map fun r => r.version).Nodup) (hmem : row ∈ rows)
    (hmin : ∀ other ∈ rows, row.version ≤ other.version) :
    (rows.insertionSort OrderBy.version.rel).take 1 = [row] := by
  haveI : IsTotal ObjectRow OrderBy.version.rel :=
    ⟨fun a b => by simp only [OrderBy.rel, OrderBy.le, decide_eq_true_eq]; omega⟩
  haveI : IsTrans ObjectRow OrderBy.version.rel :=
    ⟨fun a b c hab hbc => by
      simp only [OrderBy.rel, OrderBy.le, decide_eq_true_eq] at hab hbc ⊢; omega⟩
  have hsorted := List.sorted_insertionSort OrderBy.version.rel rows
  have hperm := List.perm_insertionSort OrderBy.version.rel rows
  cases hs : rows.insertionSort OrderBy.version.rel with
  | nil =>
    rw [hs] at hperm
    have := hperm.symm.eq_nil
    rw [this] at hmem
    exact absurd hmem (List.not_mem_nil _)
  | cons x rest =>
    rw [hs] at hsorted hperm
    have hx : x ∈ rows := hperm.subset (List.mem_cons_self _ _)
    have hrow : row ∈ x :: rest := hperm.symm.subset hmem
    have hle : x.version ≤ row.version := by
      rcases List.mem_cons.mp hrow with h | h
      · rw [h]
      · have := List.rel_of_sorted_cons hsorted row h
        simpa [OrderBy.rel, OrderBy.le] using this
    have heq : x.version = row.version := Nat.le_antisymm hle (hmin x hx)
    have : x = row := List.inj_on_of_nodup_map hnodup hx hmem heq
    simp [this]

theorem decodeObject_time (t : TidbClient) (caller : String)
    (setNames : Option (String × String)) (row : ObjectRow) (object : Object)
    (h : decodeObject t caller setNames row = some (.ok object)) :
    t.parseTime row.lastmodifiedtime = some object.LastModifiedTime := by
  unfold decodeObject at h
  simp only [] at h
  cases htime : t.parseTime row.lastmodifiedtime with
  | none => rw [htime] at h; simp at h
  | some lastModifiedTime =>
    rw [htime] at h
    simp only [] at h
    cases hacl : t.unmarshalAcl row.acl with
    | none => rw [hacl] at h; simp at h
    | some acl =>
      rw [hacl] at h
      simp only [] at h
      cases hattrs : t.unmarshalAttrs row.customattributes with
      | none => rw [hattrs] at h; simp at h
      | some attrs =>
        rw [hattrs] at h
        simp only [] at h
        unfold loadParts at h
        simp only [] at h
        split at h
        · split at h
          · simp at h
          · split at h
            · split at h
              · simp at h
              · simp only [Option.some.injEq, Except.ok.injEq] at h
                subst h
                cases setNames with
                | none => rfl
                | some names => rfl
            · simp only [Option.some.injEq, Except.ok.injEq] at h
              subst h
              cases setNames with
              | none => rfl
              | some names => rfl
        · simp only [Option.some.injEq, Except.ok.injEq] at h
          subst h
          cases setNames with
          | none => rfl
          | some names => rfl

theorem null_rows_head (rows : List ObjectRow) (nullRow : ObjectRow)
    (hnodup : (rows.map fun r => r.version).Nodup) (hnull : isNullVersionOf rows nullRow) :
    (rows.filter fun row => row.version == 0).head? = some nullRow := by
  have hmem : nullRow ∈ rows.filter fun row => row.version == 0 :=
    List.mem_filter.mpr ⟨hnull.1, by simp [hnull.2]⟩
  cases hf : rows.filter fun row => row.version == 0 with
  | nil => rw [hf] at hmem; exact absurd hmem (List.not_mem_nil _)
  | cons x rest =>
    have hx : x ∈ rows.filter fun row => row.version == 0 := by
      rw [hf]; exact List.mem_cons_self _ _
    have hx2 := List.mem_filter.mp hx
    have hv : x.version = nullRow.version := by
      have := hx2.2
      simp only [beq_iff_eq] at this
      rw [this, hnull.2]
    have : x = nullRow := List.inj_on_of_nodup_map hnodup hx2.1 hnull.1 hv
    simp [this]

theorem smallest_versioned_take (rows : List ObjectRow) (versioned : ObjectRow)
    (hnodup : (rows.map fun r => r.version).Nodup)
    (hsmall : isSmallestVersionedOf rows versioned) :
    ((rows.filter fun row => decide (0 < row.version)).insertionSort
      OrderBy.version.rel).take 1 = [versioned] := by
  apply head_insertionSort_version
  · exact hnodup.sublist ((List.filter_sublist _).map _)
  · exact List.mem_filter.mpr ⟨hsmall.1, by simp [hsmall.2.1]⟩
  · intro other hother
    have h := List.mem_filter.mp hother
    exact hsmall.2.2 other h.1 (by simpa using h.2)

theorem GetLatestObjectVersion_of_rows (t : TidbClient) (table : List ObjectRow)
    (bucketName objectName : String) (hbegin : t.Begin = none)
    (hquery : ∀ q, t.Query q = q.run table) (nullRow : Option ObjectRow)
    (versioned : List ObjectRow) :
    ((versionsOf table bucketName objectName).filter fun row =>
      row.version == 0).head? = nullRow →
    (((versionsOf table bucketName objectName).filter fun row =>
      decide (0 < row.version)).insertionSort OrderBy.version.rel).take 1 = versioned →
    GetLatestObjectVersion t bucketName objectName =
      match (match nullRow with
        | none => some (.ok none)
        | some row =>
          match decodeObject t "GetLatestObjectVersion" none row with
          | none => none
          | some (.error err) => some (.error err)
          | some (.ok nullObject) => some (.ok (some nullObject)) :
            Option (Except ApiError (Option Object))) with
      | none => none
      | some (.error err) => some (.error err)
      | some (.ok nullObject) =>
        match latestVersionedLoop t versioned none with
        | none => none
        | some (.error err) => some (.error err)
        | some (.ok object) => some (chooseLatest nullObject object) := by
  intro hnull hversioned
  subst hnull hversioned
  unfold GetLatestObjectVersion
  simp only [hbegin, hquery, Select_run_null_version, Select_run_smallest_versioned]

/-! ## Latest-version resolution (C22) -/

/-- C22: over a store that answers the queries from a table in which the versions of
the key are distinct and every row of the key decodes, `GetLatestObjectVersion` returns
`ErrNoSuchKey` when the key has no row; the null version (version 0) when only it
exists; the row with the smallest positive version id when only versioned rows exist;
and, when both exist, the null version if its `last_modified_time` is strictly later
than that of the smallest positive version, and the versioned one otherwise (equal
times included). -/
theorem GetLatestObjectVersion_resolution (t : TidbClient) (table : List ObjectRow)
    (bucketName objectName : String) (hbegin : t.Begin = none)
    (hquery : ∀ q, t.Query q = q.run table)
    (hkey : ((versionsOf table bucketName objectName).map fun r => r.version).Nodup)
    (hdecode : ∀ row ∈ versionsOf table bucketName objectName,
      ∃ object, decodeObject t "GetLatestObjectVersion" none row = some (.ok object)) :
    (versionsOf table bucketName objectName = [] →
        GetLatestObjectVersion t bucketName objectName = some (.error .ErrNoSuchKey)) ∧
      (∀ nullRow, isNullVersionOf (versionsOf table bucketName objectName) nullRow →
        (∀ row ∈ versionsOf table bucketName objectName, row.version = 0) →
        GetLatestObjectVersion t bucketName objectName =
          decodeObject t "GetLatestObjectVersion" none nullRow) ∧
      (∀ versioned, isSmallestVersionedOf (versionsOf table bucketName objectName) versioned →
        (∀ row ∈ versionsOf table bucketName objectName, 0 < row.version) →
        GetLatestObjectVersion t bucketName objectName =
          decodeObject t "GetLatestObjectVersion" none versioned) ∧
      (∀ nullRow versioned nullTime versionedTime,
        isNullVersionOf (versionsOf table bucketName objectName) nullRow →
        isSmallestVersionedOf (versionsOf table bucketName objectName) versioned →
        t.parseTime nullRow.lastmodifiedtime = some nullTime →
        t.parseTime versioned.lastmodifiedtime = some versionedTime →
        GetLatestObjectVersion t bucketName objectName =
          decodeObject t "GetLatestObjectVersion" none
            (if nullTime > versionedTime then nullRow else versioned)) := by
  refine ⟨?_, ?_, ?_, ?_⟩
  · intro hempty
    rw [GetLatestObjectVersion_of_rows t table bucketName objectName hbegin hquery none []
      (by rw [hempty]; rfl) (by rw [hempty]; rfl)]
    rfl
  · intro nullRow hnull hall
    obtain ⟨nullObject, hobj⟩ := hdecode nullRow hnull.1
    have hnone : (versionsOf table bucketName objectName).filter
        (fun row => decide (0 < row.version)) = [] := by
      apply List.filter_eq_nil_iff.mpr
      intro row hrow
      simp [hall row hrow]
    rw [GetLatestObjectVersion_of_rows t table bucketName objectName hbegin hquery
      (some nullRow) [] (null_rows_head _ _ hkey hnull) (by rw [hnone]; rfl)]
    simp only [hobj, latestVersionedLoop, chooseLatest]
  · intro versioned hsmall hall
    obtain ⟨object, hobj⟩ := hdecode versioned hsmall.1
    have hnone : (versionsOf table bucketName objectName).filter
        (fun row => row.version == 0) = [] := by
      apply List.filter_eq_nil_iff.mpr
      intro row hrow
      have := hall row hrow
      simp only [beq_iff_eq]
      omega
    rw [GetLatestObjectVersion_of_rows t table bucketName objectName hbegin hquery none
      [versioned] (by rw [hnone]; rfl) (smallest_versioned_take _ _ hkey hsmall)]
    simp only [hobj, latestVersionedLoop, chooseLatest]
  · intro nullRow versioned nullTime versionedTime hnull hsmall hnullTime hversionedTime
    obtain ⟨nullObject, hnobj⟩ := hdecode nullRow hnull.1
    obtain ⟨object, hobj⟩ := hdecode versioned hsmall.1
    have h1 := decodeObject_time _ _ _ _ _ hnobj
    have h2 := decodeObject_time _ _ _ _ _ hobj
    rw [hnullTime] at h1
    rw [hversionedTime] at h2
    simp only [Option.some.injEq] at h1 h2
    rw [GetLatestObjectVersion_of_rows t table bucketName objectName hbegin hquery
      (some nullRow) [versioned] (null_rows_head _ _ hkey hnull)
      (smallest_versioned_take _ _ hkey hsmall)]
    simp only [hnobj, hobj, latestVersionedLoop, chooseLatest]
    subst h1 h2
    by_cases hlater : nullObject.LastModifiedTime > object.LastModifiedTime
    · rw [if_pos hlater, if_pos hlater, hnobj]
    · rw [if_neg hlater, if_neg hlater, hobj]

theorem GetLatestObjectVersion_resolution_witness :
    GetLatestObjectVersion (sampleStore nullAndVersions) "photos" "k" =
      decodeObject (sampleStore nullAndVersions) "GetLatestObjectVersion" none
        { sampleRow "k" 100 false 20 with etag := "v2" } :=
  (GetLatestObjectVersion_resolution (sampleStore nullAndVersions) nullAndVersions "photos" "k"
    rfl (fun _ => rfl) (by decide)
    (fun row hrow => by
      have hrows : versionsOf nullAndVersions "photos" "k" = nullAndVersions := by decide
      rw [hrows] at hrow
      simp only [nullAndVersions, List.mem_cons, List.mem_singleton, List.not_mem_nil,
        or_false] at hrow
      rcases hrow with h | h | h <;> subst h <;> exact ⟨_, rfl⟩)).2.2.2
    { sampleRow "k" 0 false 30 with etag := "null" }
    { sampleRow "k" 100 false 20 with etag := "v2" } 1700000000 1700000000
    (by unfold isNullVersionOf; decide) (by unfold isSmallestVersionedOf; decide) (by decide)
    (by decide)

/-! ## Versioning documents (C29) -/

/-- C29: `VersioningFromXml` succeeds exactly when the document parses and its status
is `Enabled` or `Suspended`; it then returns the decoded value, and in every other
case (any other status, an unparsable document) its error is `ErrInvalidVersioning`. -/
theorem VersioningFromXml_accepts_enabled_or_suspended
    (xmlUnmarshal : List UInt8 → Versioning × Option String) (xmlBytes : List UInt8) :
    ((VersioningFromXml xmlUnmarshal xmlBytes).2 = none ↔
        (xmlUnmarshal xmlBytes).2 = none ∧
          ((xmlUnmarshal xmlBytes).1.Status = "Enabled" ∨
            (xmlUnmarshal xmlBytes).1.Status = "Suspended")) ∧
      ((VersioningFromXml xmlUnmarshal xmlBytes).2 = none ∨
        (VersioningFromXml xmlUnmarshal xmlBytes).2 = some .ErrInvalidVersioning) ∧
      (VersioningFromXml xmlUnmarshal xmlBytes).1 = (xmlUnmarshal xmlBytes).1 := by
  unfold VersioningFromXml
  cases herr : (xmlUnmarshal xmlBytes).2 with
  | some e => simp
  | none =>
    by_cases h1 : (xmlUnmarshal xmlBytes).1.Status = "Enabled"
    · simp [h1, BucketVersioningEnabled]
    · by_cases h2 : (xmlUnmarshal xmlBytes).1.Status = "Suspended"
      · simp [h2, BucketVersioningEnabled, BucketVersioningSuspended]
      · simp [h1, h2, BucketVersioningEnabled, BucketVersioningSuspended]

theorem VersioningFromXml_accepts_enabled_or_suspended_witness :
    (VersioningFromXml sampleXmlUnmarshal [1]).2 = none ∧
      (VersioningFromXml sampleXmlUnmarshal [1]).1.Status = "Enabled" ∧
      (VersioningFromXml sampleXmlUnmarshal [3]).2 ≠ none :=
  ⟨(VersioningFromXml_accepts_enabled_or_suspended sampleXmlUnmarshal [1]).1.mpr
      ⟨by decide, Or.inl (by decide)⟩,
    by rw [(VersioningFromXml_accepts_enabled_or_suspended sampleXmlUnmarshal [1]).2.2]; decide,
    fun h =>
      absurd ((VersioningFromXml_accepts_enabled_or_suspended sampleXmlUnmarshal [3]).1.mp h).2
        (by decide)⟩

/-! ## Transaction discipline of `PutObject` (C21) -/

/-- C21 (fails on the code): when the insert of the object row fails and every other
statement succeeds, `PutObject` returns no error and commits: the part row, the
deletion of the multipart and the usage update are durable without the object row. -/
theorem PutObject_commits_without_object_row :
    PutObject insertFailsClient sampleObject (some (sampleMultipart "" [])) true =
      (none,
        [.CreatePart (samplePart 1 10 "aa") "photos" "cat.png" "16746744073709551615",
          .DeleteMultipart (sampleMultipart "" []),
          .UpdateUsage 10 "photos"]) ∧
      insertFailsClient.Exec [] (.CreateObject sampleObject) ≠ none := by
  decide

/-! ## Listing the latest versions (C26) -/

/-- C26 (fails on the code): after PUT, PUT, DELETE on one key of an Enabled bucket
(rows: delete marker, v2, v1 in ascending version order) `ListLatestObjects` lists the
key, with the entry of v2, although the latest version of the key is a delete
marker. The result is the same for every amount of fuel from 2 on. -/
theorem ListLatestObjects_lists_key_under_delete_marker (extra : Nat) :
    ListLatestObjects (sampleStore putPutDelete) "photos" [] [] [] 1000 (2 + extra) =
      some (.ok ⟨false, [], [⟨"k", "owner", "v2", 1700000000, 1, 0⟩], []⟩) :=
  ListLatestObjects_fuel_add _ _ _ _ _ _ _ _ (by decide) extra

/-! ## The parts map of a completed object (C30) -/

/-- C30 (fails on the code): completing an upload whose stored parts are 1 and 5 with
the list `[1]` succeeds and commits an object whose parts map has the keys 1 and 5;
`PutObject` stores both part rows, and reading the object back with `GetObject` panics
when it builds the parts index (`none`). -/
theorem CompleteMultipartUpload_keeps_unlisted_parts :
    gappedCompletion.2.1 = none ∧
      (committedObject gappedCompletion.2.2).map (fun object => object.Parts.map Prod.fst) =
        some [1, 5] ∧
      (committedObject gappedCompletion.2.2).map
          (fun object => (PutObject (tableClient [] [] []) object (some gappedMultipart) false).1) =
        some none ∧
      (committedObject gappedCompletion.2.2).map (fun object => buildPartsIndex object.Parts) =
        some none ∧
      (committedObject gappedCompletion.2.2).map
          (fun object => readBack object (some gappedMultipart)) = some none := by
  decide

/-! ## Listing objects: completeness, folding, pagination (C23, C24, C25) -/

theorem ListObjectsPages_succ (t : TidbClient) (bucketName : String)
    (prefix_ delimiter : GoString) (maxKeys : Int) (fuel pages : Nat) (marker : GoString)
    (page : ListObjectsInfo)
    (hpage : ListObjects t bucketName marker prefix_ delimiter maxKeys fuel = some (.ok page))
    (htrunc : page.IsTruncated = true) (rest : List ListObjectsInfo) (ended : Bool)
    (hrest : ListObjectsPages t bucketName prefix_ delimiter maxKeys fuel pages page.NextMarker =
      some (rest, ended)) :
    ListObjectsPages t bucketName prefix_ delimiter maxKeys fuel (pages + 1) marker =
      some (page :: rest, ended) := by
  simp only [ListObjectsPages, hpage, htrunc, hrest, if_true]

/-- C23 (fails on the code): over the keys `a/中` and `b` with delimiter `/` and
`maxKeys = 1`, paging from the empty marker never ends and never lists `b`: the first
page is the common prefix `a/` with `NextMarker = a/`, and every later page is again
the common prefix `a/` with `NextMarker = a/`, truncated; the reference listing holds
the object `b` and the common prefix `a/`. This holds for every amount of fuel from 4
on. -/
theorem ListObjects_paging_misses_key (pages extra : Nat) :
    ListObjectsPages (sampleStore [sampleRow "a/中" 0 false 1, sampleRow "b" 0 false 2])
        "photos" [] (goString "/") 1 (4 + extra) (pages + 1) [] =
      some (List.replicate (pages + 1) ⟨true, goString "a/", [], [goString "a/"]⟩, false) ∧
      referenceObjects [sampleRow "a/中" 0 false 1, sampleRow "b" 0 false 2] "photos" []
        (goString "/") = ["b"] ∧
      referencePrefixes [sampleRow "a/中" 0 false 1, sampleRow "b" 0 false 2] "photos" []
        (goString "/") = [goString "a/"] := by
  have hlater : ∀ n : Nat,
      ListObjectsPages (sampleStore [sampleRow "a/中" 0 false 1, sampleRow "b" 0 false 2])
          "photos" [] (goString "/") 1 (4 + extra) n (goString "a/") =
        some (List.replicate n ⟨true, goString "a/", [], [goString "a/"]⟩, false) := by
    intro n
    induction n with
    | zero => rfl
    | succ n ih =>
      exact ListObjectsPages_succ _ _ _ _ _ _ _ _ ⟨true, goString "a/", [], [goString "a/"]⟩
        (ListObjects_fuel_add _ _ _ _ _ _ _ _ (by decide) extra) rfl _ _ ih
  refine ⟨?_, by decide, by decide⟩
  exact ListObjectsPages_succ _ _ _ _ _ _ _ _ ⟨true, goString "a/", [], [goString "a/"]⟩
    (ListObjects_fuel_add _ _ _ _ _ _ _ _ (by decide) extra) rfl _ _ (hlater pages)

/-- C24 (fails on the code): with the two-byte delimiter `//` the key `a//b` is folded
into the common prefix `a/`, which ends after the first byte of the delimiter, where
the reference listing has `a//`. The example of the claim (prefix `p/`, delimiter
`/`) is listed as the claim says. -/
theorem ListObjects_folds_at_first_delimiter_byte (extra : Nat) :
    ListObjects (sampleStore [sampleRow "a//b" 0 false 1]) "photos" [] [] (goString "//") 1000
          (2 + extra) =
        some (.ok ⟨false, [], [], [goString "a/"]⟩) ∧
      referencePrefixes [sampleRow "a//b" 0 false 1] "photos" [] (goString "//") =
        [goString "a//"] ∧
      ListObjects
          (sampleStore [sampleRow "p/a" 0 false 1, sampleRow "p/b" 0 false 2,
            sampleRow "p/c/x" 0 false 3, sampleRow "q/y" 0 false 4])
          "photos" [] (goString "p/") (goString "/") 1000 (3 + extra) =
        some (.ok ⟨false, [], [sampleEntry "p/a", sampleEntry "p/b"], [goString "p/c/"]⟩) :=
  ⟨ListObjects_fuel_add _ _ _ _ _ _ _ _ (by decide) extra, by decide,
    ListObjects_fuel_add _ _ _ _ _ _ _ _ (by decide) extra⟩

/-- C25 (fails on the code): over the rows `a/` (a delete marker), `a/b` and `c` with
delimiter `/` and `maxKeys = 1`, the listing from the empty marker is the object `c`
with `IsTruncated = false`, although the reference listing has two entries, the common
prefix `a/` and the object `c`. -/
theorem ListObjects_not_truncated_with_more_matches (extra : Nat) :
    ListObjects
        (sampleStore [sampleRow "a/" 0 true 1, sampleRow "a/b" 0 false 2, sampleRow "c" 0 false 3])
        "photos" [] [] (goString "/") 1 (4 + extra) =
      some (.ok ⟨false, goString "c", [sampleEntry "c"], []⟩) ∧
      referenceMatches
        [sampleRow "a/" 0 true 1, sampleRow "a/b" 0 false 2, sampleRow "c" 0 false 3]
        "photos" [] (goString "/") = 2 :=
  ⟨ListObjects_fuel_add _ _ _ _ _ _ _ _ (by decide) extra, by decide⟩


/-! ## The order of names in the store -/

theorem UInt8_eq_of_toNat_eq (a b : UInt8) (h : a.toNat = b.toNat) : a = b := by
  apply UInt8.eq_of_toBitVec_eq
  exact BitVec.eq_of_toNat_eq h

theorem bytesLess_nil_right (a : GoString) : bytesLess a [] = false := by
  cases a <;> rfl

theorem bytesLess_cons (a b : UInt8) (s t : GoString) :
    bytesLess (a :: s) (b :: t) = (decide (a.toNat < b.toNat) || (a == b && bytesLess s t)) := by
  rfl

theorem bytesLess_irrefl : ∀ a : GoString, bytesLess a a = false
  | [] => rfl
  | a :: s => by
    rw [bytesLess_cons, bytesLess_irrefl s]
    simp

theorem bytesLess_trans : ∀ a b c : GoString,
    bytesLess a b = true → bytesLess b c = true → bytesLess a c = true
  | _, [], _ => by intro h; rw [bytesLess_nil_right] at h; cases h
  | _, _ :: _, [] => by intro _ h; rw [bytesLess_nil_right] at h; cases h
  | [], _ :: _, _ :: _ => by intro _ _; rfl
  | a :: s, b :: t, c :: u => by
    intro hab hbc
    rw [bytesLess_cons] at hab hbc ⊢
    simp only [Bool.or_eq_true, decide_eq_true_eq, Bool.and_eq_true, beq_iff_eq] at hab hbc ⊢
    rcases hab with h1 | ⟨h1, h2⟩
    · rcases hbc with h3 | ⟨h3, _⟩
      · left; omega
      · left; rw [← h3]; exact h1
    · rcases hbc with h3 | ⟨h3, h4⟩
      · left; rw [h1]; exact h3
      · right; exact ⟨h1.trans h3, bytesLess_trans s t u h2 h4⟩

theorem bytesLess_asymm (a b : GoString) (h : bytesLess a b = true) : bytesLess b a = false := by
  cases hba : bytesLess b a with
  | false => rfl
  | true =>
    have := bytesLess_trans a b a h hba
    rw [bytesLess_irrefl] at this
    cases this

theorem bytesLess_total : ∀ a b : GoString,
    bytesLess a b = false → bytesLess b a = false → a = b
  | [], [] => fun _ _ => rfl
  | [], _ :: _ => by intro h; cases h
  | _ :: _, [] => by intro _ h; cases h
  | a :: s, b :: t => by
    intro hab hba
    rw [bytesLess_cons] at hab hba
    simp only [Bool.or_eq_false_iff, decide_eq_false_iff_not, Bool.and_eq_false_iff,
      beq_eq_false_iff_ne] at hab hba
    have hnat : a.toNat = b.toNat := by omega
    have heq : a = b := UInt8_eq_of_toNat_eq a b hnat
    subst heq
    have hs : bytesLess s t = false := by
      rcases hab.2 with h | h
      · exact absurd rfl h
      · exact h
    have ht : bytesLess t s = false := by
      rcases hba.2 with h | h
      · exact absurd rfl h
      · exact h
    rw [bytesLess_total s t hs ht]

theorem bytesLess_nil_left (a : GoString) (h : a ≠ []) : bytesLess [] a = true := by
  cases a with
  | nil => exact absurd rfl h
  | cons x rest => rfl

/-- The relation of `order by name` is total and transitive. -/
theorem OrderBy_name_total (a b : ObjectRow) : OrderBy.name.rel a b ∨ OrderBy.name.rel b a := by
  simp only [OrderBy.rel, OrderBy.le, Bool.not_eq_true']
  cases h : bytesLess (goString b.name) (goString a.name) with
  | false => left; rfl
  | true => right; exact bytesLess_asymm _ _ h

theorem OrderBy_name_trans (a b c : ObjectRow) (hab : OrderBy.name.rel a b)
    (hbc : OrderBy.name.rel b c) : OrderBy.name.rel a c := by
  simp only [OrderBy.rel, OrderBy.le, Bool.not_eq_true'] at hab hbc ⊢
  cases hca : bytesLess (goString c.name) (goString a.name) with
  | false => rfl
  | true =>
    -- c < a, ¬ b < a, ¬ c < b: then a ≤ b ≤ c < a
    cases hab2 : bytesLess (goString a.name) (goString b.name) with
    | true =>
      have := bytesLess_trans _ _ _ hca hab2
      rw [hbc] at this
      cases this
    | false =>
      have heq := bytesLess_total _ _ hab2 hab
      rw [heq] at hca
      rw [hbc] at hca
      cases hca

theorem OrderBy_nameVersion_total (a b : ObjectRow) :
    OrderBy.nameVersion.rel a b ∨ OrderBy.nameVersion.rel b a := by
  simp only [OrderBy.rel, OrderBy.le, Bool.or_eq_true, Bool.and_eq_true, Bool.not_eq_true',
    decide_eq_true_eq]
  cases hab : bytesLess (goString a.name) (goString b.name) with
  | true => left; left; rfl
  | false =>
    cases hba : bytesLess (goString b.name) (goString a.name) with
    | true => right; left; rfl
    | false =>
      rcases Nat.le_total a.version b.version with h | h
      · left; right; exact ⟨rfl, h⟩
      · right; right; exact ⟨rfl, h⟩

theorem OrderBy_nameVersion_trans (a b c : ObjectRow) (hab : OrderBy.nameVersion.rel a b)
    (hbc : OrderBy.nameVersion.rel b c) : OrderBy.nameVersion.rel a c := by
  simp only [OrderBy.rel, OrderBy.le, Bool.or_eq_true, Bool.and_eq_true, Bool.not_eq_true',
    decide_eq_true_eq] at hab hbc ⊢
  rcases hab with h1 | ⟨h1, h2⟩
  · rcases hbc with h3 | ⟨h3, _⟩
    · left; exact bytesLess_trans _ _ _ h1 h3
    · -- a < b, ¬ c < b
      cases hbc2 : bytesLess (goString b.name) (goString c.name) with
      | true => left; exact bytesLess_trans _ _ _ h1 hbc2
      | false =>
        have heq := bytesLess_total _ _ hbc2 h3
        left; rw [← heq]; exact h1
  · rcases hbc with h3 | ⟨h3, h4⟩
    · -- ¬ b < a, b < c
      cases hab2 : bytesLess (goString a.name) (goString b.name) with
      | true => left; exact bytesLess_trans _ _ _ hab2 h3
      | false =>
        have heq := bytesLess_total _ _ hab2 h1
        left; rw [heq]; exact h3
    · -- ¬ b < a, ¬ c < b, versions ordered
      cases hab2 : bytesLess (goString a.name) (goString b.name) with
      | true =>
        cases hbc2 : bytesLess (goString b.name) (goString c.name) with
        | true => left; exact bytesLess_trans _ _ _ hab2 hbc2
        | false =>
          have heq := bytesLess_total _ _ hbc2 h3
          left; rw [← heq]; exact hab2
      | false =>
        have heq1 := bytesLess_total _ _ hab2 h1
        cases hbc2 : bytesLess (goString b.name) (goString c.name) with
        | true => left; rw [heq1]; exact hbc2
        | false =>
          have heq2 := bytesLess_total _ _ hbc2 h3
          right
          refine ⟨?_, Nat.le_trans h2 h4⟩
          rw [heq1, heq2]
          exact bytesLess_irrefl _

/-- The first row of a sorted selection: nothing is selected, or the `limit 1` result
is one selected row that the order puts before every selected row. -/
theorem take_one_insertionSort (o : OrderBy)
    (htotal : ∀ a b, o.rel a b ∨ o.rel b a) (htrans : ∀ a b c, o.rel a b → o.rel b c → o.rel a c)
    (rows : List ObjectRow) :
    (rows = [] ∧ (rows.insertionSort o.rel).take 1 = []) ∨
      ∃ x, (rows.insertionSort o.rel).take 1 = [x] ∧ x ∈ rows ∧ ∀ y ∈ rows, o.rel x y := by
  haveI : IsTotal ObjectRow o.rel := ⟨htotal⟩
  haveI : IsTrans ObjectRow o.rel := ⟨htrans⟩
  have hsorted := List.sorted_insertionSort o.rel rows
  have hperm := List.perm_insertionSort o.rel rows
  cases hs : rows.insertionSort o.rel with
  | nil =>
    rw [hs] at hperm
    left
    exact ⟨hperm.symm.eq_nil, rfl⟩
  | cons x rest =>
    rw [hs] at hsorted hperm
    right
    refine ⟨x, rfl, hperm.subset (List.mem_cons_self _ _), ?_⟩
    intro y hy
    rcases List.mem_cons.mp (hperm.symm.subset hy) with h | h
    · rw [h]
      rcases htotal x x with h2 | h2 <;> exact h2
    · exact List.rel_of_sorted_cons hsorted y h

/-! ## Lemmas on `forRows` and on the queries of the listings -/

theorem forRows_nil {σ : Type} (body : σ → ObjectRow → Flow σ) (s : σ) (loopcount : Nat) :
    forRows body [] s loopcount = .ok (s, loopcount) := rfl

theorem forRows_cons {σ : Type} (body : σ → ObjectRow → Flow σ) (row : ObjectRow)
    (rest : List ObjectRow) (s : σ) (loopcount : Nat) :
    forRows body (row :: rest) s loopcount =
      match body s row with
      | .next s => forRows body rest s (loopcount + 1)
      | .stop s => .ok (s, loopcount + 1)
      | .fail err => .error err := rfl

theorem Select_run_ListObjectsQuery (table : List ObjectRow) (bucketName : String)
    (marker : GoString) (maxKeys : Int) (hmax : 0 ≤ maxKeys) :
    Select.run (ListObjectsQuery bucketName marker [] maxKeys) table =
      .ok (((rowsAfter (bucketRows table bucketName) marker).insertionSort
        OrderBy.name.rel).take maxKeys.toNat) := by
  have hsel : List.filter (ListObjectsQuery bucketName marker [] maxKeys).selects table =
      rowsAfter (bucketRows table bucketName) marker := by
    unfold rowsAfter bucketRows
    rw [List.filter_filter]
    apply List.filter_congr
    intro row _
    unfold ListObjectsQuery
    by_cases hm : marker = []
    · simp [hm, Select.selects]
    · have : marker.isEmpty = false := by
        cases marker with
        | nil => exact absurd rfl hm
        | cons a l => rfl
      simp [hm, Select.selects, this, Bool.and_comm]
  have hord : (ListObjectsQuery bucketName marker [] maxKeys).orderBy = .name := by
    unfold ListObjectsQuery
    by_cases hm : marker = [] <;> simp [hm]
  have hlimit : (ListObjectsQuery bucketName marker [] maxKeys).limit = some maxKeys := by
    unfold ListObjectsQuery
    by_cases hm : marker = [] <;> simp [hm]
  unfold Select.run
  simp only [hsel, hord, hlimit]
  rw [if_neg (by omega)]

theorem rowsAfter_nil_marker (rows : List ObjectRow) : rowsAfter rows [] = rows := by
  unfold rowsAfter
  simp

theorem mem_rowsAfter (rows : List ObjectRow) (marker : GoString) (row : ObjectRow)
    (hmarker : marker ≠ []) :
    row ∈ rowsAfter rows marker ↔ row ∈ rows ∧ bytesLess marker (goString row.name) = true := by
  unfold rowsAfter
  have : marker.isEmpty = false := by
    cases marker with
    | nil => exact absurd rfl hmarker
    | cons a l => rfl
  simp [this]

theorem rowsAfter_subset (rows : List ObjectRow) (marker : GoString) (row : ObjectRow)
    (h : row ∈ rowsAfter rows marker) : row ∈ rows :=
  (List.mem_filter.mp h).1

theorem rowsAfter_length_lt (rows : List ObjectRow) (marker : GoString) (x : ObjectRow)
    (hx : x ∈ rowsAfter rows marker) (hname : goString x.name ≠ []) :
    (rowsAfter rows (goString x.name)).length < (rowsAfter rows marker).length := by
  have heq : rowsAfter rows (goString x.name) =
      (rowsAfter rows marker).filter fun y => bytesLess (goString x.name) (goString y.name) := by
    unfold rowsAfter
    rw [List.filter_filter]
    apply List.filter_congr
    intro y _
    have hne : (goString x.name).isEmpty = false := by
      cases h : goString x.name with
      | nil => exact absurd h hname
      | cons a l => rfl
    rw [hne]
    simp only [Bool.false_or]
    cases hxy : bytesLess (goString x.name) (goString y.name) with
    | false => simp
    | true =>
      simp only [Bool.true_and]
      cases hm : marker.isEmpty with
      | true => rfl
      | false =>
        have hmx : bytesLess marker (goString x.name) = true := by
          have := (List.mem_filter.mp hx).2
          rw [hm] at this
          simpa using this
        simp [bytesLess_trans _ _ _ hmx hxy]
  rw [heq]
  apply List.length_filter_lt_length_iff_exists.mpr
  exact ⟨x, hx, by simp [bytesLess_irrefl]⟩

/-! ## `ListObjects` with `maxKeys = 1`, no prefix and no delimiter -/

theorem ListObjectsRow_delete_marker (t : TidbClient) (maxKeys : Int) (s : ListObjectsState)
    (row : ObjectRow) (hdm : row.deletemarker = true) :
    ListObjectsRow t [] [] maxKeys s row =
      .next { s with lastMarker := s.marker, marker := goString row.name } := by
  unfold ListObjectsRow
  simp [strings.HasPrefix, hdm]

theorem ListObjectsRow_live (t : TidbClient) (maxKeys : Int) (s : ListObjectsState)
    (row : ObjectRow) (lastt : Int) (hdm : row.deletemarker = false)
    (htime : t.parseTime row.lastmodifiedtime = some lastt)
    (hfound : s.listInfo.Objects ≠ []) :
    ∃ s2, (ListObjectsRow t [] [] maxKeys s row = .next s2 ∨
        ListObjectsRow t [] [] maxKeys s row = .stop s2) ∧
      s2.marker = goString row.name ∧ s2.listInfo.Objects ≠ [] := by
  unfold ListObjectsRow
  simp only [strings.HasPrefix, List.isPrefixOf, hdm, htime, List.length_nil, ne_eq,
    not_true_eq_false, false_and, if_false, Bool.not_true, Bool.false_eq_true]
  split
  · rename_i hzero
    simp [ListObjectsState.counted] at hzero
  · split
    · refine ⟨_, Or.inr rfl, rfl, ?_⟩
      simp only [ListObjectsState.truncated, ListObjectsState.counted]
      split <;> exact hfound
    · refine ⟨_, Or.inl rfl, rfl, ?_⟩
      simp

theorem ListObjectsRow_first_live (t : TidbClient) (s : ListObjectsState)
    (row : ObjectRow) (lastt : Int) (hdm : row.deletemarker = false)
    (htime : t.parseTime row.lastmodifiedtime = some lastt) (hcount : s.count = 0) :
    ∃ s2, ListObjectsRow t [] [] 1 s row = .next s2 ∧
      s2.marker = goString row.name ∧ s2.listInfo.Objects ≠ [] ∧ s2.exit = s.exit := by
  unfold ListObjectsRow
  simp only [strings.HasPrefix, List.isPrefixOf, hdm, htime, List.length_nil, ne_eq,
    not_true_eq_false, false_and, if_false, Bool.not_true, Bool.false_eq_true]
  split
  · rename_i hzero
    simp [ListObjectsState.counted] at hzero
  · split
    · rename_i hgt
      simp [ListObjectsState.counted, hcount] at hgt
    · refine ⟨_, rfl, rfl, ?_, rfl⟩
      simp

theorem ListObjectsLoop_round (t : TidbClient) (table : List ObjectRow) (bucketName : String)
    (hquery : ∀ q, t.Query q = q.run table) (fuel : Nat) (s : ListObjectsState) :
    (rowsAfter (bucketRows table bucketName) s.marker = [] ∧
        ListObjectsLoop t bucketName [] [] 1 (fuel + 1) s = some (.ok { s with exit := true })) ∨
      ∃ x, x ∈ rowsAfter (bucketRows table bucketName) s.marker ∧
        (∀ y ∈ rowsAfter (bucketRows table bucketName) s.marker, OrderBy.name.rel x y) ∧
        ListObjectsLoop t bucketName [] [] 1 (fuel + 1) s =
          match ListObjectsRow t [] [] 1 s x with
          | .next s2 =>
            if s2.exit then some (.ok s2) else ListObjectsLoop t bucketName [] [] 1 fuel s2
          | .stop s2 =>
            if s2.exit then some (.ok s2) else ListObjectsLoop t bucketName [] [] 1 fuel s2
          | .fail err => some (.error err) := by
  rw [ListObjectsLoop, hquery, Select_run_ListObjectsQuery table bucketName s.marker 1 (by omega)]
  rcases take_one_insertionSort .name OrderBy_name_total OrderBy_name_trans
      (rowsAfter (bucketRows table bucketName) s.marker) with ⟨hnil, htake⟩ | ⟨x, htake, hx, hmin⟩
  · left
    refine ⟨hnil, ?_⟩
    have h1 : (1 : Int).toNat = 1 := rfl
    rw [h1, htake]
    simp [forRows]
  · right
    refine ⟨x, hx, hmin, ?_⟩
    have h1 : (1 : Int).toNat = 1 := rfl
    rw [h1, htake]
    simp only [forRows_cons, forRows_nil]
    cases ListObjectsRow t [] [] 1 s x with
    | next s2 => simp
    | stop s2 => simp
    | fail err => rfl

theorem ListObjectsLoop_found (t : TidbClient) (table : List ObjectRow) (bucketName : String)
    (hquery : ∀ q, t.Query q = q.run table)
    (hnames : ∀ row ∈ bucketRows table bucketName, goString row.name ≠ [])
    (htime : ∀ row ∈ bucketRows table bucketName, t.parseTime row.lastmodifiedtime ≠ none) :
    ∀ (n : Nat) (s : ListObjectsState), s.listInfo.Objects ≠ [] →
      (rowsAfter (bucketRows table bucketName) s.marker).length ≤ n →
      ∃ r, ListObjectsLoop t bucketName [] [] 1 (n + 1) s = some (.ok r) ∧
        r.listInfo.Objects ≠ [] := by
  intro n
  induction n with
  | zero =>
    intro s hfound hlen
    rcases ListObjectsLoop_round t table bucketName hquery 0 s with ⟨_, hloop⟩ | ⟨x, hx, _, _⟩
    · exact ⟨_, hloop, hfound⟩
    · have := List.length_pos_of_mem hx
      omega
  | succ k ih =>
    intro s hfound hlen
    rcases ListObjectsLoop_round t table bucketName hquery (k + 1) s with
      ⟨_, hloop⟩ | ⟨x, hx, _, hloop⟩
    · exact ⟨_, hloop, hfound⟩
    · have hxB := rowsAfter_subset _ _ _ hx
      have hlt := rowsAfter_length_lt _ _ _ hx (hnames x hxB)
      have hstep : ∃ s2, (ListObjectsRow t [] [] 1 s x = .next s2 ∨
          ListObjectsRow t [] [] 1 s x = .stop s2) ∧
          s2.marker = goString x.name ∧ s2.listInfo.Objects ≠ [] := by
        cases hdm : x.deletemarker with
        | true =>
          exact ⟨_, Or.inl (ListObjectsRow_delete_marker t 1 s x hdm), rfl, hfound⟩
        | false =>
          cases hparse : t.parseTime x.lastmodifiedtime with
          | none => exact absurd hparse (htime x hxB)
          | some lastt => exact ListObjectsRow_live t 1 s x lastt hdm hparse hfound
      obtain ⟨s2, hrow, hmarker, hfound2⟩ := hstep
      have hrec : ∃ r, (if s2.exit = true then some (Except.ok s2)
          else ListObjectsLoop t bucketName [] [] 1 (k + 1) s2) = some (.ok r) ∧
          r.listInfo.Objects ≠ [] := by
        by_cases hexit : s2.exit = true
        · rw [if_pos hexit]
          exact ⟨_, rfl, hfound2⟩
        · rw [if_neg hexit]
          apply ih s2 hfound2
          rw [hmarker]
          omega
      rcases hrow with hrow | hrow <;> rw [hrow] at hloop <;> rw [hloop] <;> exact hrec

theorem ListObjectsLoop_search (t : TidbClient) (table : List ObjectRow) (bucketName : String)
    (hquery : ∀ q, t.Query q = q.run table)
    (hnames : ∀ row ∈ bucketRows table bucketName, goString row.name ≠ [])
    (hdistinct : ((bucketRows table bucketName).map fun row => goString row.name).Nodup)
    (htime : ∀ row ∈ bucketRows table bucketName, t.parseTime row.lastmodifiedtime ≠ none) :
    ∀ (n : Nat) (s : ListObjectsState), s.count = 0 → s.exit = false →
      s.commonPrefixes = [] → s.listInfo.Objects = [] →
      (rowsAfter (bucketRows table bucketName) s.marker).length ≤ n →
      (∀ row ∈ bucketRows table bucketName,
        row ∉ rowsAfter (bucketRows table bucketName) s.marker → row.deletemarker = true) →
      ∃ r, ListObjectsLoop t bucketName [] [] 1 (n + 2) s = some (.ok r) ∧
        ((r.listInfo.Objects ≠ [] ∧
            ∃ row ∈ bucketRows table bucketName, row.deletemarker = false) ∨
          (r.listInfo.Objects = [] ∧ r.commonPrefixes = [] ∧
            ∀ row ∈ bucketRows table bucketName, row.deletemarker = true)) := by
  intro n
  induction n with
  | zero =>
    intro s hcount hexit hprefixes hobjects hlen hpassed
    rcases ListObjectsLoop_round t table bucketName hquery 1 s with
      ⟨hnil, hloop⟩ | ⟨x, hx, _, _⟩
    · refine ⟨_, hloop, Or.inr ⟨hobjects, hprefixes, ?_⟩⟩
      intro row hrow
      apply hpassed row hrow
      rw [hnil]
      exact List.not_mem_nil _
    · have := List.length_pos_of_mem hx
      omega
  | succ k ih =>
    intro s hcount hexit hprefixes hobjects hlen hpassed
    rcases ListObjectsLoop_round t table bucketName hquery (k + 2) s with
      ⟨hnil, hloop⟩ | ⟨x, hx, hmin, hloop⟩
    · refine ⟨_, hloop, Or.inr ⟨hobjects, hprefixes, ?_⟩⟩
      intro row hrow
      apply hpassed row hrow
      rw [hnil]
      exact List.not_mem_nil _
    · have hxB := rowsAfter_subset _ _ _ hx
      have hlt := rowsAfter_length_lt _ _ _ hx (hnames x hxB)
      cases hdm : x.deletemarker with
      | true =>
        rw [ListObjectsRow_delete_marker t 1 s x hdm] at hloop
        simp only [hexit, Bool.false_eq_true, if_false] at hloop
        rw [hloop]
        refine ih ⟨s.count, false, s.marker, goString x.name, s.commonPrefixes, s.listInfo⟩
          hcount rfl hprefixes hobjects ?_ ?_
        · show (rowsAfter (bucketRows table bucketName) (goString x.name)).length ≤ k
          omega
        · intro row hrow hnot
          show row.deletemarker = true
          have hnot2 : ¬ (row ∈ bucketRows table bucketName ∧
              bytesLess (goString x.name) (goString row.name) = true) := by
            intro h
            exact hnot ((mem_rowsAfter _ _ _ (hnames x hxB)).mpr h)
          by_cases hafter : row ∈ rowsAfter (bucketRows table bucketName) s.marker
          · have h1 := hmin row hafter
            simp only [OrderBy.rel, OrderBy.le, Bool.not_eq_true'] at h1
            have h2 : bytesLess (goString x.name) (goString row.name) = false := by
              cases h : bytesLess (goString x.name) (goString row.name) with
              | false => rfl
              | true => exact absurd ⟨hrow, h⟩ hnot2
            have heq := bytesLess_total _ _ h2 h1
            have : x = row := List.inj_on_of_nodup_map hdistinct hxB hrow heq
            rw [← this]
            exact hdm
          · exact hpassed row hrow hafter
      | false =>
        cases hparse : t.parseTime x.lastmodifiedtime with
        | none => exact absurd hparse (htime x hxB)
        | some lastt =>
          obtain ⟨s2, hrow, hmarker, hfound2, hexit2⟩ :=
            ListObjectsRow_first_live t s x lastt hdm hparse hcount
          rw [hrow] at hloop
          simp only [hexit2, hexit, Bool.false_eq_true, if_false] at hloop
          rw [hloop]
          obtain ⟨r, hr, hrobj⟩ := ListObjectsLoop_found t table bucketName hquery hnames htime
            (k + 1) s2 hfound2 (by rw [hmarker]; omega)
          exact ⟨r, hr, Or.inl ⟨hrobj, x, hxB, hdm⟩⟩

/-! ## `ListVersionedObjects` from the empty markers -/

theorem Select_run_ListVersionedObjectsQuery_start (table : List ObjectRow)
    (bucketName : String) (maxKeys : Int) (hmax : 0 ≤ maxKeys) :
    Select.run (ListVersionedObjectsQuery bucketName [] none [] maxKeys) table =
      .ok (((bucketRows table bucketName).insertionSort OrderBy.nameVersion.rel).take
        maxKeys.toNat) := by
  have hsel : List.filter (ListVersionedObjectsQuery bucketName [] none [] maxKeys).selects
      table = bucketRows table bucketName := by
    unfold bucketRows
    apply List.filter_congr
    intro row _
    simp [ListVersionedObjectsQuery, Select.selects]
  unfold Select.run
  simp only [hsel]
  simp only [ListVersionedObjectsQuery, if_true]
  rw [if_neg (by omega)]

theorem ListVersionedMarker_empty (t : TidbClient) (bucketName : String)
    (delimiter : GoString) (maxKeys : Int) (fuel : Nat) (s : ListVersionedState)
    (hmarker : s.currentKeyMarker = []) :
    ListVersionedMarker t bucketName delimiter maxKeys fuel s = some (.ok (.ok s)) := by
  unfold ListVersionedMarker
  simp [hmarker]

theorem ListVersionedObjects_one (t : TidbClient) (table : List ObjectRow)
    (bucketName : String) (hquery : ∀ q, t.Query q = q.run table) (extra : Nat) :
    (bucketRows table bucketName = [] ∧
        ∃ info, ListVersionedObjects t bucketName [] none [] [] 1 (1 + extra) =
            some (.ok info) ∧ info.Objects = [] ∧ info.Prefixes = []) ∨
      (bucketRows table bucketName ≠ [] ∧
        ∃ info, ListVersionedObjects t bucketName [] none [] [] 1 (1 + extra) =
            some (.ok info) ∧ info.Objects ≠ []) := by
  rw [Nat.add_comm 1 extra]
  unfold ListVersionedObjects
  simp only [ListVersionedMarker_empty t bucketName [] 1 (extra + 1)
    ⟨0, false, [], [], none, none, VersionedListObjectsInfo.zero⟩ rfl,
    Bool.false_eq_true, if_false]
  rw [ListVersionedObjectsLoop, hquery,
    Select_run_ListVersionedObjectsQuery_start table bucketName 1 (by omega)]
  have h1 : (1 : Int).toNat = 1 := rfl
  rw [h1]
  rcases take_one_insertionSort .nameVersion OrderBy_nameVersion_total
      OrderBy_nameVersion_trans (bucketRows table bucketName) with
    ⟨hnil, htake⟩ | ⟨x, htake, hx, _⟩
  · left
    refine ⟨hnil, ?_⟩
    rw [htake]
    simp [forRows, ListVersionedObjectsAfterRows, VersionedListObjectsInfo.zero]
  · right
    refine ⟨List.ne_nil_of_mem hx, ?_⟩
    rw [htake]
    by_cases hv : x.version = 0
    · simp [forRows, ListVersionedObjectsRow, ListVersionedObjectsCompare, strings.HasPrefix,
        hv, NullVersion, ListVersionedState.emit, ListVersionedState.counted,
        ListVersionedState.truncated, ListVersionedState.listed,
        ListVersionedObjectsAfterRows, VersionedListObjectsInfo.zero]
    · simp [forRows, ListVersionedObjectsRow, ListVersionedObjectsCompare, strings.HasPrefix,
        hv, NullVersion, ListVersionedState.emit, ListVersionedState.counted,
        ListVersionedState.truncated, ListVersionedState.listed,
        ListVersionedObjectsAfterRows, VersionedListObjectsInfo.zero]

/-! ## Empty buckets (C28) -/

theorem take_one_length_ne_zero {α : Type} (l : List α) :
    ((l.take 1).length ≠ 0) ↔ l ≠ [] := by
  cases l with
  | nil => simp
  | cons a rest => simp

/-- For a bucket with versioning `Disabled` whose only row is a delete marker, a table
that no operation on a `Disabled` bucket leaves behind, `IsEmptyBucket` returns
true. -/
theorem IsEmptyBucket_disabled_delete_marker :
    IsEmptyBucket (sampleStore [sampleRow "a" 0 true 1]) (versionedBucket "Disabled") 3 =
        some (true, none) ∧
      bucketRows [sampleRow "a" 0 true 1] "photos" ≠ [] := by
  decide

/-- The two branches of `IsEmptyBucket` over a store that answers the queries from a
table of rows and a table of uploads: it returns (with enough fuel, and without error)
true exactly when the bucket has no in-flight multipart upload and, for a bucket that
is not `Disabled`, no object row of any kind (delete markers included); for a
`Disabled` bucket with one row per key and readable times, no object row other than
delete markers. -/
theorem IsEmptyBucket_cases (t : TidbClient) (table : List ObjectRow)
    (uploads : List (String × String)) (bucket : Bucket)
    (hquery : ∀ q, t.Query q = q.run table)
    (huploads : ∀ maxUploads, t.ListMultipartUploads bucket.Name maxUploads =
      .ok ((uploadsOf uploads bucket.Name).take maxUploads.toNat))
    (extra : Nat) :
    (bucket.Versioning ≠ BucketVersioningDisabled →
        IsEmptyBucket t bucket (1 + extra) =
          some (decide (bucketRows table bucket.Name = [] ∧
            uploadsOf uploads bucket.Name = []), none)) ∧
      (bucket.Versioning = BucketVersioningDisabled →
        oneRowPerKey (bucketRows table bucket.Name) →
        (∀ row ∈ bucketRows table bucket.Name, t.parseTime row.lastmodifiedtime ≠ none) →
        IsEmptyBucket t bucket ((bucketRows table bucket.Name).length + 2 + extra) =
          some (decide ((∀ row ∈ bucketRows table bucket.Name, row.deletemarker = true) ∧
            uploadsOf uploads bucket.Name = []), none)) := by
  have hup : (match t.ListMultipartUploads bucket.Name 1 with
      | .error err => some (false, some err)
      | .ok uploads => if uploads.length ≠ 0 then some (false, none) else some (true, none)) =
      some (decide (uploadsOf uploads bucket.Name = []), none) := by
    rw [huploads 1]
    have h1 : (1 : Int).toNat = 1 := rfl
    rw [h1]
    by_cases hU : uploadsOf uploads bucket.Name = []
    · simp [hU]
    · have := (take_one_length_ne_zero (uploadsOf uploads bucket.Name)).mpr hU
      simp [hU, this]
  constructor
  · intro hversioning
    unfold IsEmptyBucket
    simp only [hversioning, if_false]
    rcases ListVersionedObjects_one t table bucket.Name hquery extra with
      ⟨hnil, info, hinfo, hobjects, hprefixes⟩ | ⟨hne, info, hinfo, hobjects⟩
    · rw [hinfo]
      simp only [hobjects, hprefixes, List.length_nil, ne_eq, not_true_eq_false, or_self,
        decide_False]
      rw [hup]
      simp [hnil]
    · rw [hinfo]
      have hlen : info.Objects.length ≠ 0 := by
        intro h
        exact hobjects (List.length_eq_zero.mp h)
      simp [hlen, hne]
  · intro hversioning hkeys htime
    unfold IsEmptyBucket
    simp only [hversioning, if_true]
    obtain ⟨r, hr, hcases⟩ := ListObjectsLoop_search t table bucket.Name hquery hkeys.1 hkeys.2
      htime (bucketRows table bucket.Name).length
      ⟨0, false, [], [], [], ListObjectsInfo.zero⟩ rfl rfl rfl rfl
      (by rw [rowsAfter_nil_marker])
      (by
        intro row hrow hnot
        rw [rowsAfter_nil_marker] at hnot
        exact absurd hrow hnot)
    have hr2 := ListObjectsLoop_fuel_add _ _ _ _ _ _ _ _ hr extra
    unfold ListObjects
    simp only [hr2]
    rcases hcases with ⟨hobjects, row, hrow, hlive⟩ | ⟨hobjects, hprefixes, hall⟩
    · have hlen : r.listInfo.Objects.length ≠ 0 := by
        intro h
        exact hobjects (List.length_eq_zero.mp h)
      have hnotall : ¬ ∀ row ∈ bucketRows table bucket.Name, row.deletemarker = true := by
        intro h
        rw [h row hrow] at hlive
        cases hlive
      simp [hlen, hnotall]
    · simp only [hobjects, hprefixes, List.length_nil, ne_eq, not_true_eq_false, or_self,
        decide_False]
      rw [hup]
      simp only [Prod.mk.injEq, Option.some.injEq, decide_eq_decide, and_true]
      exact ⟨fun h => ⟨hall, h⟩, fun h => h.2⟩

/-- C28: over a store that answers the queries from a table of rows and a table of
uploads, `IsEmptyBucket` returns (with enough fuel, and without error) true if and only
if the bucket has no object row of any kind (no versioned version, no null version, no
delete marker) and no in-flight multipart upload, for buckets in `Disabled`, `Enabled`
and `Suspended` versioning alike. The rows of a `Disabled` bucket are those that a
bucket without versioning holds: one row per key, no delete marker, readable times. -/
theorem IsEmptyBucket_iff_empty (t : TidbClient) (table : List ObjectRow)
    (uploads : List (String × String)) (bucket : Bucket)
    (hquery : ∀ q, t.Query q = q.run table)
    (huploads : ∀ maxUploads, t.ListMultipartUploads bucket.Name maxUploads =
      .ok ((uploadsOf uploads bucket.Name).take maxUploads.toNat))
    (hdisabled : bucket.Versioning = BucketVersioningDisabled →
      oneRowPerKey (bucketRows table bucket.Name) ∧
        ∀ row ∈ bucketRows table bucket.Name,
          row.deletemarker = false ∧ t.parseTime row.lastmodifiedtime ≠ none)
    (extra : Nat) :
    IsEmptyBucket t bucket ((bucketRows table bucket.Name).length + 2 + extra) =
      some (decide (bucketRows table bucket.Name = [] ∧ uploadsOf uploads bucket.Name = []),
        none) := by
  by_cases hversioning : bucket.Versioning = BucketVersioningDisabled
  · obtain ⟨hkeys, hrows⟩ := hdisabled hversioning
    rw [(IsEmptyBucket_cases t table uploads bucket hquery huploads extra).2 hversioning hkeys
      fun row hrow => (hrows row hrow).2]
    have hiff : (∀ row ∈ bucketRows table bucket.Name, row.deletemarker = true) ↔
        bucketRows table bucket.Name = [] := by
      constructor
      · intro hall
        cases hlist : bucketRows table bucket.Name with
        | nil => rfl
        | cons row rest =>
          have hmem : row ∈ bucketRows table bucket.Name := by
            rw [hlist]
            exact List.mem_cons_self row rest
          have h1 := hall row hmem
          rw [(hrows row hmem).1] at h1
          cases h1
      · intro hnil row hrow
        rw [hnil] at hrow
        cases hrow
    simp only [hiff]
  · have h := (IsEmptyBucket_cases t table uploads bucket hquery huploads
      ((bucketRows table bucket.Name).length + 1 + extra)).1 hversioning
    rw [show (bucketRows table bucket.Name).length + 2 + extra =
      1 + ((bucketRows table bucket.Name).length + 1 + extra) by omega]
    exact h

/-- Witness of C28: a delete marker in an `Enabled` bucket, an upload in flight in a
`Suspended` bucket and an object in a `Disabled` bucket each make `IsEmptyBucket`
return false, and a `Disabled` bucket without rows and uploads is empty. -/
theorem IsEmptyBucket_iff_empty_witness :
    IsEmptyBucket (tableClient [sampleRow "a" 7 true 1] [] []) (versionedBucket "Enabled") 3 =
        some (false, none) ∧
      IsEmptyBucket (tableClient [] [] [("photos", "upload-1")]) (versionedBucket "Suspended") 2 =
        some (false, none) ∧
      IsEmptyBucket (tableClient [sampleRow "a" 0 false 1] [] []) (versionedBucket "Disabled") 3 =
        some (false, none) ∧
      IsEmptyBucket (tableClient [] [] []) (versionedBucket "Disabled") 2 =
        some (true, none) :=
  ⟨IsEmptyBucket_iff_empty (tableClient [sampleRow "a" 7 true 1] [] [])
      [sampleRow "a" 7 true 1] [] (versionedBucket "Enabled") (fun _ => rfl) (fun _ => rfl)
      (fun h => absurd h (by decide)) 0,
    IsEmptyBucket_iff_empty (tableClient [] [] [("photos", "upload-1")])
      [] [("photos", "upload-1")] (versionedBucket "Suspended") (fun _ => rfl) (fun _ => rfl)
      (fun h => absurd h (by decide)) 0,
    IsEmptyBucket_iff_empty (tableClient [sampleRow "a" 0 false 1] [] [])
      [sampleRow "a" 0 false 1] [] (versionedBucket "Disabled") (fun _ => rfl) (fun _ => rfl)
      (fun _ => ⟨by unfold oneRowPerKey; decide, by decide⟩) 0,
    IsEmptyBucket_iff_empty (tableClient [] [] []) [] [] (versionedBucket "Disabled")
      (fun _ => rfl) (fun _ => rfl)
      (fun _ => ⟨by unfold oneRowPerKey; decide, by decide⟩) 0⟩

/-! ## `ListVersionedObjects` over a bucket that fits into one page -/

theorem ListVersionedState.counted_objects (s : ListVersionedState) (maxKeys : Int)
    (key : GoString) (versionId : Nat) :
    (s.counted maxKeys key versionId).listInfo.Objects = s.listInfo.Objects ∧
      (s.counted maxKeys key versionId).listInfo.IsTruncated = s.listInfo.IsTruncated := by
  unfold ListVersionedState.counted
  simp only []
  split <;> exact ⟨rfl, rfl⟩

theorem ListVersionedState.emit_ok (s : ListVersionedState) (maxKeys : Int)
    (o : datatype.VersionedObject) (hfit : (s.count : Int) + 1 ≤ maxKeys) :
    ∃ s2, s.emit maxKeys o = .ok s2 ∧ s2.count = s.count + 1 ∧
      s2.listInfo.Objects = s.listInfo.Objects ++ [o] ∧
      s2.listInfo.IsTruncated = s.listInfo.IsTruncated ∧ s2.exit = s.exit ∧
      s2.commonPrefixes = s.commonPrefixes ∧ s2.currentKeyMarker = s.currentKeyMarker ∧
      s2.currentVerIdMarker = s.currentVerIdMarker ∧
      s2.previousNullObjectMeta = s.previousNullObjectMeta := by
  have hnot : ¬ (((s.counted maxKeys (goString o.Key) o.VersionId).count : Int) > maxKeys) := by
    simp only [ListVersionedState.counted]
    push_cast
    omega
  refine ⟨(s.counted maxKeys (goString o.Key) o.VersionId).listed o, ?_, rfl, ?_, ?_, rfl, rfl,
    rfl, rfl, rfl⟩
  · unfold ListVersionedState.emit
    simp only []
    rw [if_neg hnot]
  · simp only [ListVersionedState.listed,
      (ListVersionedState.counted_objects s maxKeys (goString o.Key) o.VersionId).1]
  · simp only [ListVersionedState.listed,
      (ListVersionedState.counted_objects s maxKeys (goString o.Key) o.VersionId).2]

theorem ListVersionedObjectsRow_plain (maxKeys : Int) (s : ListVersionedState) (r : ObjectRow)
    (hskip : ¬ (s.currentKeyMarker = goString r.name ∧ s.currentVerIdMarker = some r.version)) :
    ListVersionedObjectsRow [] [] maxKeys s r =
      match ListVersionedObjectsCompare maxKeys
          { s with currentKeyMarker := goString r.name, currentVerIdMarker := some r.version }
          r with
      | .error flow => flow
      | .ok s2 =>
        if r.version = 0 then .next { s2 with previousNullObjectMeta := some r }
        else
          match s2.emit maxKeys (ModifyMetaToVersionedObjectResult r) with
          | .error s3 => .stop s3
          | .ok s3 => .next s3 := by
  unfold ListVersionedObjectsRow
  simp only [hskip, if_false]
  cases ListVersionedObjectsCompare maxKeys
      { s with currentKeyMarker := goString r.name, currentVerIdMarker := some r.version } r with
  | error flow => rfl
  | ok s2 => simp [strings.HasPrefix, NullVersion]

theorem ListVersionedObjectsCompare_none (maxKeys : Int) (s : ListVersionedState)
    (r : ObjectRow) (hp : s.previousNullObjectMeta = none) :
    ListVersionedObjectsCompare maxKeys s r = .ok s := by
  unfold ListVersionedObjectsCompare
  rw [hp]

theorem ListVersionedObjectsCompare_flush (maxKeys : Int) (s : ListVersionedState)
    (r p : ObjectRow) (hp : s.previousNullObjectMeta = some p)
    (hcase : r.name ≠ p.name ∨ p.createtime > r.createtime)
    (hfit : (s.count : Int) + 1 ≤ maxKeys) :
    ∃ s2, ListVersionedObjectsCompare maxKeys s r = .ok s2 ∧ s2.count = s.count + 1 ∧
      s2.listInfo.Objects = s.listInfo.Objects ++ [ModifyMetaToVersionedObjectResult p] ∧
      s2.listInfo.IsTruncated = s.listInfo.IsTruncated ∧ s2.exit = s.exit ∧
      s2.commonPrefixes = s.commonPrefixes ∧ s2.currentKeyMarker = s.currentKeyMarker ∧
      s2.currentVerIdMarker = s.currentVerIdMarker ∧ s2.previousNullObjectMeta = none := by
  unfold ListVersionedObjectsCompare
  rw [hp]
  simp only []
  by_cases hname : r.name ≠ p.name
  · rw [if_pos hname]
    have hnot : ¬ (((s.counted maxKeys (goString p.name) p.version).count : Int) > maxKeys) := by
      simp only [ListVersionedState.counted]
      push_cast
      omega
    rw [if_neg hnot]
    refine ⟨_, rfl, rfl, ?_, ?_, rfl, rfl, rfl, rfl, rfl⟩
    · simp only [ListVersionedState.listed,
        (ListVersionedState.counted_objects s maxKeys (goString p.name) p.version).1]
    · simp only [ListVersionedState.listed,
        (ListVersionedState.counted_objects s maxKeys (goString p.name) p.version).2]
  · rw [if_neg hname]
    have hlatest : p.createtime > r.createtime := by
      rcases hcase with h | h
      · exact absurd h hname
      · exact h
    simp only [hlatest, decide_True, if_true, Bool.not_true, Bool.false_eq_true, if_false]
    obtain ⟨s2, hemit, h1, h2, h3, h4, h5, h6, h7, h8⟩ :=
      ListVersionedState.emit_ok { s with previousNullObjectMeta := none } maxKeys
        (ModifyMetaToVersionedObjectResult p) hfit
    rw [hemit]
    exact ⟨s2, rfl, h1, h2, h3, h4, h5, h6, h7, h8⟩

theorem ListVersionedObjectsCompare_keep (maxKeys : Int) (s : ListVersionedState)
    (r p : ObjectRow) (hp : s.previousNullObjectMeta = some p) (hname : r.name = p.name)
    (hlatest : ¬ p.createtime > r.createtime) (hfit : (s.count : Int) + 1 ≤ maxKeys) :
    ∃ s2, ListVersionedObjectsCompare maxKeys s r = .error (.next s2) ∧
      s2.count = s.count + 1 ∧
      s2.listInfo.Objects = s.listInfo.Objects ++ [ModifyMetaToVersionedObjectResult r] ∧
      s2.listInfo.IsTruncated = s.listInfo.IsTruncated ∧ s2.exit = s.exit ∧
      s2.commonPrefixes = s.commonPrefixes ∧ s2.currentKeyMarker = s.currentKeyMarker ∧
      s2.currentVerIdMarker = s.currentVerIdMarker ∧
      s2.previousNullObjectMeta = some p := by
  unfold ListVersionedObjectsCompare
  rw [hp]
  simp only [hname, ne_eq, not_true_eq_false, if_false, hlatest, decide_False,
    Bool.false_eq_true, Bool.not_false, if_true]
  obtain ⟨s2, hemit, h1, h2, h3, h4, h5, h6, h7, h8⟩ :=
    ListVersionedState.emit_ok s maxKeys (ModifyMetaToVersionedObjectResult r) hfit
  rw [hemit]
  exact ⟨s2, rfl, h1, h2, h3, h4, h5, h6, h7, h8.trans hp⟩

theorem versionsListed_step (maxKeys : Int) (processed : List ObjectRow) (r : ObjectRow)
    (s : ListVersionedState) (hinv : versionsListed processed s)
    (hnew : rowKey r ∉ processed.map rowKey)
    (hfit : (processed.length : Int) + 1 ≤ maxKeys) :
    ∃ s2, ListVersionedObjectsRow [] [] maxKeys s r = .next s2 ∧
      versionsListed (processed ++ [r]) s2 := by
  obtain ⟨out, hobj, hnonnull, hnull, hlen, hcount, hexit, hprefixes, htrunc, hmark⟩ := hinv
  have hlast : (processed ++ [r]).getLast? = some r := by simp
  have hskip : ¬ (s.currentKeyMarker = goString r.name ∧
      s.currentVerIdMarker = some r.version) := by
    intro h
    cases hl : processed.getLast? with
    | none =>
      rw [hl] at hmark
      simp only [Prod.mk.injEq] at hmark
      rw [hmark.2] at h
      cases h.2
    | some last =>
      rw [hl] at hmark
      simp only [Prod.mk.injEq] at hmark
      have hmem : last ∈ processed := List.mem_of_getLast?_eq_some hl
      apply hnew
      apply List.mem_map.mpr
      refine ⟨last, hmem, ?_⟩
      unfold rowKey
      rw [← hmark.1, ← Option.some.inj (hmark.2 ▸ h.2 : some last.version = some r.version)]
      rw [h.1]
  rw [ListVersionedObjectsRow_plain maxKeys s r hskip]
  rcases Option.eq_none_or_eq_some s.previousNullObjectMeta with hp | ⟨p, hp⟩
  · rw [hp] at hnull hlen
    simp only [Option.toList, List.append_nil, List.length_nil, Nat.add_zero] at hnull hlen
    rw [ListVersionedObjectsCompare_none maxKeys
      { s with currentKeyMarker := goString r.name, currentVerIdMarker := some r.version } r hp]
    simp only []
    by_cases hv : r.version = 0
    · rw [if_pos hv]
      refine ⟨_, rfl, out, hobj, ?_, ?_, ?_, hcount, hexit, hprefixes, htrunc, ?_⟩
      · simp [List.filter_append, hv, hnonnull]
      · simp [List.filter_append, hv, hnull]
      · simp [hlen]
      · rw [hlast]
    · rw [if_neg hv]
      obtain ⟨s3, hemit, h1, h2, h3, h4, h5, h6, h7, h8⟩ :=
        ListVersionedState.emit_ok
          { s with currentKeyMarker := goString r.name, currentVerIdMarker := some r.version }
          maxKeys (ModifyMetaToVersionedObjectResult r)
          (by show (s.count : Int) + 1 ≤ maxKeys; rw [hcount, hlen]; exact hfit)
      rw [hemit]
      refine ⟨s3, rfl, out ++ [r], ?_, ?_, ?_, ?_, ?_, h4.trans hexit, h5.trans hprefixes,
        h3.trans htrunc, ?_⟩
      · rw [h2]; simp [hobj]
      · simp [List.filter_append, hv, hnonnull]
      · rw [h8]; simp [List.filter_append, hv, hnull, hp]
      · rw [h8]; simp [hlen, hp]
      · rw [h1]; simp [hcount]
      · rw [h6, h7, hlast]
  · rw [hp] at hnull hlen
    simp only [Option.toList, List.length_singleton] at hnull hlen
    have hpmem : p ∈ processed.filter (fun r => r.version == 0) := by
      rw [← hnull]; simp
    have hpv : p.version = 0 := by
      have := (List.mem_filter.mp hpmem).2
      simpa using this
    have hpin : p ∈ processed := (List.mem_filter.mp hpmem).1
    have hsame : r.name = p.name → r.version ≠ 0 := by
      intro hname hv
      apply hnew
      apply List.mem_map.mpr
      refine ⟨p, hpin, ?_⟩
      unfold rowKey
      rw [hname, hv, hpv]
    have hfit1 : (s.count : Int) + 1 ≤ maxKeys := by
      rw [hcount]; omega
    by_cases hcase : r.name ≠ p.name ∨ p.createtime > r.createtime
    · obtain ⟨s2, hcmp, h1, h2, h3, h4, h5, h6, h7, h8⟩ :=
        ListVersionedObjectsCompare_flush maxKeys
          { s with currentKeyMarker := goString r.name, currentVerIdMarker := some r.version }
          r p hp hcase hfit1
      rw [hcmp]
      simp only []
      by_cases hv : r.version = 0
      · rw [if_pos hv]
        refine ⟨_, rfl, out ++ [p], ?_, ?_, ?_, ?_, ?_, h4.trans hexit, h5.trans hprefixes,
          h3.trans htrunc, ?_⟩
        · show s2.listInfo.Objects = _
          rw [h2]; simp [hobj]
        · simp [List.filter_append, hv, hpv, hnonnull]
        · simp [List.filter_append, hv, hpv, ← hnull]
        · simp; omega
        · show s2.count = _
          rw [h1]; simp [hcount]
        · show (s2.currentKeyMarker, s2.currentVerIdMarker) = _
          rw [h6, h7, hlast]
      · rw [if_neg hv]
        obtain ⟨s3, hemit, k1, k2, k3, k4, k5, k6, k7, k8⟩ :=
          ListVersionedState.emit_ok s2 maxKeys (ModifyMetaToVersionedObjectResult r)
            (by rw [h1]; show ((s.count + 1 : Nat) : Int) + 1 ≤ maxKeys
                rw [hcount]; omega)
        rw [hemit]
        refine ⟨s3, rfl, out ++ [p, r], ?_, ?_, ?_, ?_, ?_, (k4.trans h4).trans hexit,
          (k5.trans h5).trans hprefixes, (k3.trans h3).trans htrunc, ?_⟩
        · rw [k2, h2]; simp [hobj]
        · simp [List.filter_append, hv, hpv, hnonnull]
        · rw [k8, h8]; simp [List.filter_append, hv, hpv, ← hnull]
        · rw [k8, h8]; simp; omega
        · rw [k1, h1]; simp [hcount]
        · rw [k6, k7, h6, h7, hlast]
    · have hname : r.name = p.name := by
        by_contra h
        exact hcase (Or.inl h)
      have hlatest : ¬ p.createtime > r.createtime := fun h => hcase (Or.inr h)
      have hv : r.version ≠ 0 := hsame hname
      obtain ⟨s2, hcmp, h1, h2, h3, h4, h5, h6, h7, h8⟩ :=
        ListVersionedObjectsCompare_keep maxKeys
          { s with currentKeyMarker := goString r.name, currentVerIdMarker := some r.version }
          r p hp hname hlatest hfit1
      rw [hcmp]
      refine ⟨s2, rfl, out ++ [r], ?_, ?_, ?_, ?_, ?_, h4.trans hexit, h5.trans hprefixes,
        h3.trans htrunc, ?_⟩
      · rw [h2]; simp [hobj]
      · simp [List.filter_append, hv, hnonnull]
      · rw [h8]; simp [List.filter_append, hv, ← hnull]
      · rw [h8]; simp; omega
      · rw [h1]; simp [hcount]
      · rw [h6, h7, hlast]

theorem versionsListed_forRows (maxKeys : Int) :
    ∀ (rest processed : List ObjectRow) (s : ListVersionedState) (loopCount : Nat),
      versionsListed processed s → ((processed ++ rest).map rowKey).Nodup →
      ((processed ++ rest).length : Int) ≤ maxKeys →
      ∃ s2, forRows (ListVersionedObjectsRow [] [] maxKeys) rest s loopCount =
          .ok (s2, loopCount + rest.length) ∧ versionsListed (processed ++ rest) s2 := by
  intro rest
  induction rest with
  | nil =>
    intro processed s loopCount hinv _ _
    exact ⟨s, rfl, by simpa using hinv⟩
  | cons r rest ih =>
    intro processed s loopCount hinv hnodup hfit
    have hnew : rowKey r ∉ processed.map rowKey := by
      rw [List.map_append, List.map_cons] at hnodup
      have := (List.nodup_append.mp hnodup).2.2
      intro hmem
      exact this hmem (List.mem_cons_self _ _)
    have hfit1 : (processed.length : Int) + 1 ≤ maxKeys := by
      rw [List.length_append, List.length_cons] at hfit
      push_cast at hfit
      omega
    obtain ⟨s1, hrow, hinv1⟩ := versionsListed_step maxKeys processed r s hinv hnew hfit1
    have happ : processed ++ r :: rest = (processed ++ [r]) ++ rest := by simp
    obtain ⟨s2, hrest, hinv2⟩ := ih (processed ++ [r]) s1 (loopCount + 1) hinv1
      (by rw [← happ]; exact hnodup) (by rw [← happ]; exact hfit)
    refine ⟨s2, ?_, by rw [happ]; exact hinv2⟩
    rw [forRows_cons, hrow]
    simp only []
    rw [hrest, List.length_cons]
    congr 2
    omega

theorem versionsListed_start :
    versionsListed [] ⟨0, false, [], [], none, none, VersionedListObjectsInfo.zero⟩ :=
  ⟨[], rfl, rfl, rfl, rfl, rfl, rfl, rfl, rfl, rfl⟩

theorem versionsListed_flush (maxKeys : Int) (processed : List ObjectRow)
    (s : ListVersionedState) (hinv : versionsListed processed s)
    (hfit : (processed.length : Int) ≤ maxKeys) :
    ∃ (s2 : ListVersionedState) (out : List ObjectRow),
      (match s.previousNullObjectMeta with
        | some previous =>
          match s.emit maxKeys (ModifyMetaToVersionedObjectResult previous) with
          | .error s => s
          | .ok s => { s with exit := true }
        | none => { s with exit := true }) = s2 ∧
      s2.exit = true ∧ s2.listInfo.Objects = out.map ModifyMetaToVersionedObjectResult ∧
      out.filter (fun r => r.version != 0) = processed.filter (fun r => r.version != 0) ∧
      out.filter (fun r => r.version == 0) = processed.filter (fun r => r.version == 0) ∧
      s2.listInfo.IsTruncated = false ∧ s2.commonPrefixes = [] := by
  obtain ⟨out, hobj, hnonnull, hnull, hlen, hcount, hexit, hprefixes, htrunc, _⟩ := hinv
  rcases Option.eq_none_or_eq_some s.previousNullObjectMeta with hp | ⟨p, hp⟩
  · rw [hp] at hnull
    simp only [Option.toList, List.append_nil] at hnull
    simp only [hp]
    exact ⟨_, out, rfl, rfl, hobj, hnonnull, hnull, htrunc, hprefixes⟩
  · rw [hp] at hnull hlen
    simp only [Option.toList, List.length_singleton] at hnull hlen
    simp only [hp]
    have hpmem : p ∈ processed.filter (fun r => r.version == 0) := by
      rw [← hnull]; simp
    have hpv : p.version = 0 := by
      have := (List.mem_filter.mp hpmem).2
      simpa using this
    obtain ⟨s3, hemit, h1, h2, h3, h4, h5, h6, h7, h8⟩ :=
      ListVersionedState.emit_ok s maxKeys (ModifyMetaToVersionedObjectResult p)
        (by rw [hcount]; omega)
    simp only [hemit]
    refine ⟨_, out ++ [p], rfl, rfl, ?_, ?_, ?_, h3.trans htrunc, h5.trans hprefixes⟩
    · show s3.listInfo.Objects = _
      rw [h2]; simp [hobj]
    · simp [List.filter_append, hpv, hnonnull]
    · simp [List.filter_append, hpv, ← hnull]

theorem Select_run_ListVersionedObjectsQuery_resume (table : List ObjectRow)
    (bucketName : String) (marker : GoString) (v : Nat) (maxKeys : Int)
    (hmarker : marker ≠ []) (hmax : 0 ≤ maxKeys) :
    Select.run (ListVersionedObjectsQuery bucketName marker (some v) [] maxKeys) table =
      .ok ((((bucketRows table bucketName).filter fun row =>
        !bytesLess (goString row.name) marker && decide (v ≤ row.version)).insertionSort
          OrderBy.nameVersion.rel).take maxKeys.toNat) := by
  have hq : ListVersionedObjectsQuery bucketName marker (some v) [] maxKeys =
      { bucketName := bucketName, nameGe := some marker, versionGe := some v,
        orderBy := .nameVersion, limit := some maxKeys } := by
    simp [ListVersionedObjectsQuery, hmarker]
  rw [hq]
  have hsel : List.filter (Select.selects
      { bucketName := bucketName, nameGe := some marker, versionGe := some v,
        orderBy := .nameVersion, limit := some maxKeys }) table =
      (bucketRows table bucketName).filter fun row =>
        !bytesLess (goString row.name) marker && decide (v ≤ row.version) := by
    unfold bucketRows
    rw [List.filter_filter]
    apply List.filter_congr
    intro row _
    simp only [Select.selects, Bool.and_true]
    cases row.bucketname == bucketName <;> cases bytesLess (goString row.name) marker <;>
      cases decide (v ≤ row.version) <;> rfl
  unfold Select.run
  simp only [hsel]
  rw [if_neg (by omega)]

theorem eq_singleton_of_nodup {α : Type} (l : List α) (x : α) (hnodup : l.Nodup)
    (hx : x ∈ l) (hall : ∀ y ∈ l, y = x) : l = [x] := by
  cases l with
  | nil => exact absurd hx (List.not_mem_nil _)
  | cons a rest =>
    have ha : a = x := hall a (List.mem_cons_self _ _)
    cases rest with
    | nil => rw [ha]
    | cons b rest2 =>
      have hb : b = x := hall b (List.mem_cons_of_mem _ (List.mem_cons_self _ _))
      have hne := (List.nodup_cons.mp hnodup).1
      rw [ha, hb] at hne
      exact absurd (List.mem_cons_self _ _) hne

theorem rows_from_last (rows pre : List ObjectRow) (last : ObjectRow)
    (hkeys : (rows.map rowKey).Nodup)
    (hperm : (pre ++ [last]).Perm rows)
    (hsorted : (pre ++ [last]).Sorted OrderBy.nameVersion.rel) :
    (rows.filter fun row =>
      !bytesLess (goString row.name) (goString last.name) && decide (last.version ≤ row.version)) =
      [last] := by
  have hlast : last ∈ rows := hperm.subset (by simp)
  apply eq_singleton_of_nodup
  · exact (List.Nodup.of_map _ hkeys).filter _
  · apply List.mem_filter.mpr
    refine ⟨hlast, ?_⟩
    simp [bytesLess_irrefl]
  · intro y hy
    have hy2 := List.mem_filter.mp hy
    have hsel := hy2.2
    simp only [Bool.and_eq_true, Bool.not_eq_true', decide_eq_true_eq] at hsel
    have hyL : y ∈ pre ++ [last] := hperm.symm.subset hy2.1
    have hrel : OrderBy.nameVersion.rel y last := by
      rcases List.mem_append.mp hyL with h | h
      · exact (List.pairwise_append.mp hsorted).2.2 y h last (List.mem_singleton_self _)
      · rw [List.mem_singleton.mp h]
        rcases OrderBy_nameVersion_total last last with h2 | h2 <;> exact h2
    simp only [OrderBy.rel, OrderBy.le, Bool.or_eq_true, Bool.and_eq_true, Bool.not_eq_true',
      decide_eq_true_eq] at hrel
    rcases hrel with h | ⟨h1, h2⟩
    · rw [hsel.1] at h
      cases h
    · have hname := bytesLess_total _ _ hsel.1 h1
      have hversion : y.version = last.version := Nat.le_antisymm h2 hsel.2
      apply List.inj_on_of_nodup_map hkeys hy2.1 hlast
      unfold rowKey
      rw [hname, hversion]

theorem ListVersionedObjectsAfterRows_one (maxKeys : Int) (processed : List ObjectRow)
    (s : ListVersionedState) (hinv : versionsListed processed s)
    (hfit : (processed.length : Int) ≤ maxKeys) :
    ∃ (s2 : ListVersionedState) (out : List ObjectRow),
      ListVersionedObjectsAfterRows maxKeys 1 s = s2 ∧ s2.exit = true ∧
      s2.listInfo.Objects = out.map ModifyMetaToVersionedObjectResult ∧
      out.filter (fun r => r.version != 0) = processed.filter (fun r => r.version != 0) ∧
      out.filter (fun r => r.version == 0) = processed.filter (fun r => r.version == 0) ∧
      s2.listInfo.IsTruncated = false ∧ s2.commonPrefixes = [] := by
  obtain ⟨s2, out, hflush, hrest⟩ := versionsListed_flush maxKeys processed s hinv hfit
  refine ⟨s2, out, ?_, hrest⟩
  have hexit : s.exit = false := by
    obtain ⟨_, _, _, _, _, _, hexit, _⟩ := hinv
    exact hexit
  unfold ListVersionedObjectsAfterRows
  simp only [hexit, Bool.false_eq_true, if_false, if_true]
  exact hflush

theorem ListVersionedObjectsRow_skip (maxKeys : Int) (s : ListVersionedState) (r : ObjectRow)
    (hkey : s.currentKeyMarker = goString r.name)
    (hversion : s.currentVerIdMarker = some r.version) :
    ListVersionedObjectsRow [] [] maxKeys s r = .next s := by
  unfold ListVersionedObjectsRow
  simp [hkey, hversion]

theorem ListVersionedObjectsLoop_fits (t : TidbClient) (table : List ObjectRow)
    (bucketName : String) (maxKeys : Int) (hquery : ∀ q, t.Query q = q.run table)
    (hfit : ((bucketRows table bucketName).length : Int) ≤ maxKeys)
    (hkeys : ((bucketRows table bucketName).map rowKey).Nodup)
    (hnames : ∀ row ∈ bucketRows table bucketName, goString row.name ≠ []) :
    ∃ (s2 : ListVersionedState) (out : List ObjectRow),
      ListVersionedObjectsLoop t bucketName [] [] maxKeys 2
          ⟨0, false, [], [], none, none, VersionedListObjectsInfo.zero⟩ = some (.ok s2) ∧
      s2.listInfo.Objects = out.map ModifyMetaToVersionedObjectResult ∧
      out.filter (fun r => r.version != 0) =
        ((bucketRows table bucketName).insertionSort OrderBy.nameVersion.rel).filter
          (fun r => r.version != 0) ∧
      out.filter (fun r => r.version == 0) =
        ((bucketRows table bucketName).insertionSort OrderBy.nameVersion.rel).filter
          (fun r => r.version == 0) ∧
      s2.listInfo.IsTruncated = false ∧ s2.commonPrefixes = [] := by
  haveI : IsTotal ObjectRow OrderBy.nameVersion.rel := ⟨OrderBy_nameVersion_total⟩
  haveI : IsTrans ObjectRow OrderBy.nameVersion.rel := ⟨OrderBy_nameVersion_trans⟩
  generalize hL : (bucketRows table bucketName).insertionSort OrderBy.nameVersion.rel = L
  have hpermL : L.Perm (bucketRows table bucketName) := by
    rw [← hL]; exact List.perm_insertionSort _ _
  have hsortedL : L.Sorted OrderBy.nameVersion.rel := by
    rw [← hL]; exact List.sorted_insertionSort _ _
  have hlenL : L.length = (bucketRows table bucketName).length := hpermL.length_eq
  have hkeysL : (L.map rowKey).Nodup := (hpermL.map rowKey).nodup_iff.mpr hkeys
  have hmax : 0 ≤ maxKeys := by omega
  have htake : L.take maxKeys.toNat = L := List.take_of_length_le (by omega)
  obtain ⟨s1, hrows, hinv1⟩ := versionsListed_forRows maxKeys L []
    ⟨0, false, [], [], none, none, VersionedListObjectsInfo.zero⟩ 0 versionsListed_start
    (by simpa using hkeysL) (by simpa [hlenL] using hfit)
  simp only [List.nil_append, Nat.zero_add] at hrows hinv1
  have hexit1 : s1.exit = false := by
    obtain ⟨_, _, _, _, _, _, hexit, _⟩ := hinv1
    exact hexit
  have hstart : ListVersionedObjectsLoop t bucketName [] [] maxKeys 2
      ⟨0, false, [], [], none, none, VersionedListObjectsInfo.zero⟩ =
      (if (ListVersionedObjectsAfterRows maxKeys L.length s1).exit = true then
        some (.ok (ListVersionedObjectsAfterRows maxKeys L.length s1))
      else ListVersionedObjectsLoop t bucketName [] [] maxKeys 1
        (ListVersionedObjectsAfterRows maxKeys L.length s1)) := by
    show ListVersionedObjectsLoop t bucketName [] [] maxKeys (1 + 1) _ = _
    rw [ListVersionedObjectsLoop, hquery,
      Select_run_ListVersionedObjectsQuery_start table bucketName maxKeys hmax, hL, htake]
    simp only [hrows]
  rw [hstart]
  have hfitL : (L.length : Int) ≤ maxKeys := by rw [hlenL]; exact hfit
  rcases Nat.lt_or_ge L.length 2 with hshort | hlong
  · rcases Nat.lt_or_ge L.length 1 with hzero | hone
    · -- no row
      have hnil : L = [] := List.length_eq_zero.mp (by omega)
      obtain ⟨out, hobj, hnonnull, hnull, hlen, _, _, hprefixes, htrunc, _⟩ := hinv1
      have hafter : ListVersionedObjectsAfterRows maxKeys L.length s1 =
          { s1 with exit := true } := by
        unfold ListVersionedObjectsAfterRows
        simp [hexit1, hnil]
      rw [hafter]
      simp only [if_true]
      rw [hnil] at hnonnull hnull hlen
      have hout : out = [] :=
        List.length_eq_zero.mp (by simp only [List.length_nil] at hlen; omega)
      refine ⟨_, out, rfl, hobj, ?_, ?_, htrunc, hprefixes⟩
      · rw [hnil, hout]
      · rw [hnil, hout]
    · -- one row
      have hlen1 : L.length = 1 := by omega
      rw [hlen1]
      obtain ⟨s2, out, hafter, hexit2, hrest⟩ :=
        ListVersionedObjectsAfterRows_one maxKeys L s1 hinv1 hfitL
      rw [hafter, if_pos hexit2]
      exact ⟨s2, out, rfl, hrest⟩
  · -- two rows or more: a second query from the last row
    have hafter : ListVersionedObjectsAfterRows maxKeys L.length s1 = s1 := by
      unfold ListVersionedObjectsAfterRows
      have h1 : L.length ≠ 1 := by omega
      have h0 : L.length ≠ 0 := by omega
      simp [hexit1, h1, h0]
    rw [hafter]
    simp only [hexit1, Bool.false_eq_true, if_false]
    have hne : L ≠ [] := by
      intro h
      rw [h] at hlong
      simp at hlong
    have hsplit : L.dropLast ++ [L.getLast hne] = L := List.dropLast_append_getLast hne
    have hlastmem : L.getLast hne ∈ bucketRows table bucketName :=
      hpermL.subset (List.getLast_mem hne)
    have hmarkers : s1.currentKeyMarker = goString (L.getLast hne).name ∧
        s1.currentVerIdMarker = some (L.getLast hne).version := by
      obtain ⟨_, _, _, _, _, _, _, _, _, hmark⟩ := hinv1
      rw [List.getLast?_eq_getLast L hne] at hmark
      simp only [Prod.mk.injEq] at hmark
      exact hmark
    have hsecond : ((bucketRows table bucketName).filter fun row =>
        !bytesLess (goString row.name) (goString (L.getLast hne).name) &&
          decide ((L.getLast hne).version ≤ row.version)) = [L.getLast hne] :=
      rows_from_last (bucketRows table bucketName) L.dropLast (L.getLast hne) hkeys
        (by rw [hsplit]; exact hpermL) (by rw [hsplit]; exact hsortedL)
    have hone : maxKeys.toNat ≥ 1 := by omega
    have htake2 : ([L.getLast hne].insertionSort OrderBy.nameVersion.rel).take maxKeys.toNat =
        [L.getLast hne] := by
      simp only [List.insertionSort, List.orderedInsert]
      exact List.take_of_length_le (by simpa using hone)
    obtain ⟨s2, out, hafter2, hexit2, hrest⟩ :=
      ListVersionedObjectsAfterRows_one maxKeys L s1 hinv1 hfitL
    have hround : ListVersionedObjectsLoop t bucketName [] [] maxKeys (0 + 1) s1 =
        some (.ok s2) := by
      rw [ListVersionedObjectsLoop, hquery, hmarkers.1, hmarkers.2,
        Select_run_ListVersionedObjectsQuery_resume table bucketName _ _ maxKeys
          (hnames _ hlastmem) hmax, hsecond, htake2]
      simp only [forRows_cons, forRows_nil,
        ListVersionedObjectsRow_skip maxKeys s1 (L.getLast hne) hmarkers.1 hmarkers.2,
        Nat.zero_add]
      rw [hafter2, if_pos hexit2]
    exact ⟨s2, out, hround, hrest⟩

/-! ## Listing every version (C27) -/

/-- C27: over a store that answers the queries from a table in which the bucket holds
at most `maxKeys` rows, with distinct `(name, version)` keys and non-empty names,
`ListVersionedObjects` with empty markers, empty prefix and empty delimiter returns
(for every amount of fuel from 2 on) a listing that is not truncated and whose entries
are exactly the rows of the bucket, delete markers included, each once; the entries of
a key that has no null version are in ascending order of version id. -/
theorem ListVersionedObjects_lists_every_row (t : TidbClient) (table : List ObjectRow)
    (bucketName : String) (maxKeys : Int) (hquery : ∀ q, t.Query q = q.run table)
    (hfit : ((bucketRows table bucketName).length : Int) ≤ maxKeys)
    (hkeys : ((bucketRows table bucketName).map rowKey).Nodup)
    (hnames : ∀ row ∈ bucketRows table bucketName, goString row.name ≠ []) (extra : Nat) :
    ∃ info, ListVersionedObjects t bucketName [] none [] [] maxKeys (2 + extra) =
        some (.ok info) ∧
      info.IsTruncated = false ∧ info.Prefixes = [] ∧
      info.Objects.Perm ((bucketRows table bucketName).map ModifyMetaToVersionedObjectResult) ∧
      ∀ key : String,
        (∀ row ∈ bucketRows table bucketName, row.name = key → row.version ≠ 0) →
        ((info.Objects.filter fun o => o.Key == key).map fun o => o.VersionId).Sorted
          (· < ·) := by
  haveI : IsTotal ObjectRow OrderBy.nameVersion.rel := ⟨OrderBy_nameVersion_total⟩
  haveI : IsTrans ObjectRow OrderBy.nameVersion.rel := ⟨OrderBy_nameVersion_trans⟩
  obtain ⟨s2, out, hloop, hobj, hnonnull, hnull, htrunc, hprefixes⟩ :=
    ListVersionedObjectsLoop_fits t table bucketName maxKeys hquery hfit hkeys hnames
  generalize hL : (bucketRows table bucketName).insertionSort OrderBy.nameVersion.rel = L
    at hnonnull hnull
  have hpermL : L.Perm (bucketRows table bucketName) := by
    rw [← hL]; exact List.perm_insertionSort _ _
  have hsortedL : L.Sorted OrderBy.nameVersion.rel := by
    rw [← hL]; exact List.sorted_insertionSort _ _
  have hkeysL : (L.map rowKey).Nodup := (hpermL.map rowKey).nodup_iff.mpr hkeys
  have hnot : (fun r : ObjectRow => !(r.version != 0)) = fun r => r.version == 0 := by
    funext r
    cases h : r.version == 0 <;> simp [bne, h]
  have hpermOut : out.Perm L := by
    have h1 := List.filter_append_perm (fun r : ObjectRow => r.version != 0) out
    have h2 := List.filter_append_perm (fun r : ObjectRow => r.version != 0) L
    rw [hnot] at h1 h2
    rw [hnonnull, hnull] at h1
    exact h1.symm.trans h2
  have hresult : ListVersionedObjects t bucketName [] none [] [] maxKeys 2 =
      some (.ok { s2.listInfo with Prefixes := s2.commonPrefixes }) := by
    unfold ListVersionedObjects
    simp only [ListVersionedMarker_empty t bucketName [] maxKeys 2
      ⟨0, false, [], [], none, none, VersionedListObjectsInfo.zero⟩ rfl,
      Bool.false_eq_true, if_false, hloop]
  refine ⟨_, ListVersionedObjects_fuel_add _ _ _ _ _ _ _ _ _ hresult extra, htrunc, hprefixes,
    ?_, ?_⟩
  · show s2.listInfo.Objects.Perm _
    rw [hobj]
    exact (hpermOut.trans hpermL).map _
  · intro key hkey
    show ((s2.listInfo.Objects.filter fun o => o.Key == key).map fun o => o.VersionId).Sorted
      (· < ·)
    rw [hobj, List.filter_map, List.map_map]
    have hfilter : out.filter ((fun o : datatype.VersionedObject => o.Key == key) ∘
        ModifyMetaToVersionedObjectResult) =
        (L.filter fun r => r.version != 0).filter fun r => r.name == key := by
      rw [← hnonnull, List.filter_filter]
      apply List.filter_congr
      intro r hr
      have hrB : r ∈ bucketRows table bucketName := (hpermOut.trans hpermL).subset hr
      simp only [Function.comp, ModifyMetaToVersionedObjectResult]
      cases hname : r.name == key with
      | false => rfl
      | true =>
        have := hkey r hrB (by simpa using hname)
        simp [this]
    rw [hfilter]
    have hpair : L.Pairwise fun a b => OrderBy.nameVersion.rel a b ∧ rowKey a ≠ rowKey b :=
      List.Pairwise.and hsortedL (List.pairwise_map.mp hkeysL)
    have hsub : ((L.filter fun r => r.version != 0).filter fun r => r.name == key).Sublist L :=
      (List.filter_sublist _).trans (List.filter_sublist _)
    have hpair2 := hpair.sublist hsub
    apply List.pairwise_map.mpr
    apply hpair2.imp_of_mem
    intro a b ha hb hab
    have hna : a.name = key := by
      have := (List.mem_filter.mp ha).2
      simpa using this
    have hnb : b.name = key := by
      have := (List.mem_filter.mp hb).2
      simpa using this
    obtain ⟨hrel, hne⟩ := hab
    simp only [OrderBy.rel, OrderBy.le, Bool.or_eq_true, Bool.and_eq_true, Bool.not_eq_true',
      decide_eq_true_eq, hna, hnb, bytesLess_irrefl, Bool.false_eq_true, false_or,
      true_and] at hrel
    have hver : a.version ≠ b.version := by
      intro h
      apply hne
      unfold rowKey
      rw [hna, hnb, h]
    show a.version < b.version
    omega

theorem ListVersionedObjects_lists_every_row_witness :
    (∃ info, ListVersionedObjects (sampleStore putPutDelete) "photos" [] none [] [] 1000 2 =
        some (.ok info) ∧
      info.IsTruncated = false ∧ info.Prefixes = [] ∧
      info.Objects.Perm
        ((bucketRows putPutDelete "photos").map ModifyMetaToVersionedObjectResult) ∧
      ∀ key : String,
        (∀ row ∈ bucketRows putPutDelete "photos", row.name = key → row.version ≠ 0) →
        ((info.Objects.filter fun o => o.Key == key).map fun o => o.VersionId).Sorted
          (· < ·)) ∧
      ListVersionedObjects (sampleStore putPutDelete) "photos" [] none [] [] 1000 2 =
        some (.ok ⟨false, [], none,
          [⟨"k", 100, true, "owner", "", 1, 0⟩, ⟨"k", 200, false, "owner", "v2", 1, 0⟩,
            ⟨"k", 300, false, "owner", "v1", 1, 0⟩], []⟩) :=
  ⟨ListVersionedObjects_lists_every_row (sampleStore putPutDelete) putPutDelete "photos" 1000
      (fun _ => rfl) (by decide) (by decide) (by decide) 0,
    by decide⟩

/-! ## Allow and error exclude each other in the policy stage (C34) -/

theorem IsBucketPolicyAllowed_allow_no_error (env : Env) (c : Credential)
    (bucket : Option Bucket) (r : Request) (action : Action) (objectName : String)
    (h : (IsBucketPolicyAllowed env c bucket r action objectName).1 = true) :
    (IsBucketPolicyAllowed env c bucket r action objectName).2 = none := by
  unfold IsBucketPolicyAllowed at h ⊢
  cases bucket with
  | none => simp at h
  | some bucket =>
    simp only at h ⊢
    by_cases howner : bucket.OwnerId = c.ExternRootId ∧ c.ExternUserId = c.ExternRootId
    · rw [if_pos howner]
    · rw [if_neg howner] at h ⊢
      cases hp : env.Unmarshal bucket.Policy with
      | none => rw [hp] at h; simp at h
      | some p =>
        rw [hp] at h
        simp only at h ⊢
        by_cases hallow :
            p.IsAllowed (bucketPolicyArgs env c bucket r action objectName) = .PolicyAllow
        · rw [if_pos hallow]
        · rw [if_neg hallow] at h
          by_cases hdeny :
              p.IsAllowed (bucketPolicyArgs env c bucket r action objectName) = .PolicyDeny
          · rw [if_pos hdeny] at h; simp at h
          · rw [if_neg hdeny] at h; simp at h

theorem IsRamPolicyAllowed_allow_no_error (env : Env) (p : Option Policy) (r : Request)
    (action : Action) (h : (IsRamPolicyAllowed env p r action).1 = true) :
    (IsRamPolicyAllowed env p r action).2 = none := by
  unfold IsRamPolicyAllowed at h ⊢
  cases p with
  | none =>
    simp only at h
    split at h <;> simp at h
  | some p =>
    simp only at h ⊢
    split
    · rfl
    · rename_i hallow
      simp only [hallow, if_false] at h
      split at h
      · simp at h
      · split at h <;> simp at h

theorem policyThenRam_allow_no_error (env : Env) (c : Credential) (bucket : Option Bucket)
    (r : Request) (action : Action) (objectName : String)
    (h : (policyThenRam env c bucket r action objectName).1 = true) :
    (policyThenRam env c bucket r action objectName).2 = none := by
  unfold policyThenRam at h ⊢
  simp only at h ⊢
  split
  · cases bucket with
    | none => exact IsBucketPolicyAllowed_allow_no_error env c none r action objectName (by simpa using h)
    | some bucketInfo =>
      simp only at h ⊢
      split
      · rename_i hcond howner
        rw [if_pos hcond] at h
        simp only [if_pos howner] at h
        exact IsRamPolicyAllowed_allow_no_error env c.Policy r action h
      · rename_i hcond howner
        rw [if_pos hcond] at h
        simp only [if_neg howner] at h
        exact IsBucketPolicyAllowed_allow_no_error env c _ r action objectName h
  · rename_i hcond
    rw [if_neg hcond] at h
    exact IsBucketPolicyAllowed_allow_no_error env c bucket r action objectName h

/-- C34: allow and error exclude each other in the policy stage. `IsBucketPolicyAllowed`
and `IsRamPolicyAllowed` never return `allow = true` with an error; hence an error that
`checkRequestAuth` returns from the policy evaluation (the signature check, where there
is one, passed) comes with `AllowOtherUserAccess = false`, and so does every error of
`checkSourceBucketAuth`. -/
theorem policy_allow_excludes_error (env : Env) (ctx : RequestContext) (r : Request)
    (action : Action) (c : Credential) (bucket : Option Bucket) (objectName : String)
    (p : Option Policy) :
    ((IsBucketPolicyAllowed env c bucket r action objectName).1 = true →
        (IsBucketPolicyAllowed env c bucket r action objectName).2 = none) ∧
    ((IsRamPolicyAllowed env p r action).1 = true →
        (IsRamPolicyAllowed env p r action).2 = none) ∧
    ((ctx.AuthType.isSigned = true → (env.IsReqAuthenticated r).2 = none) →
        (checkRequestAuth env ctx r action).2 ≠ none →
        (checkRequestAuth env ctx r action).1.AllowOtherUserAccess = false) ∧
    ((checkSourceBucketAuth env r action bucket objectName c).2 ≠ none →
        (checkSourceBucketAuth env r action bucket objectName c).1.AllowOtherUserAccess =
          false) := by
  refine ⟨IsBucketPolicyAllowed_allow_no_error env c bucket r action objectName,
    IsRamPolicyAllowed_allow_no_error env p r action, ?_, ?_⟩
  · intro hauth herr
    have hsigned : ∀ res : Bool × Option ApiError, (res.1 = true → res.2 = none) →
        res.2 ≠ none → res.1 = false := by
      intro res hres hne
      cases hb : res.1 with
      | false => rfl
      | true => exact absurd (hres hb) hne
    have hsignedCase : (env.IsReqAuthenticated r).2 = none →
        (match (env.IsReqAuthenticated r).2 with
          | some err => ((env.IsReqAuthenticated r).1, some err)
          | none =>
            if action = ListAllMyBucketsAction ∨ action = CreateBucketAction then
              ({ (env.IsReqAuthenticated r).1 with
                  AllowOtherUserAccess :=
                    (IsRamPolicyAllowed env (env.IsReqAuthenticated r).1.Policy r action).1 },
                (IsRamPolicyAllowed env (env.IsReqAuthenticated r).1.Policy r action).2)
            else
              ({ (env.IsReqAuthenticated r).1 with
                  AllowOtherUserAccess :=
                    (policyThenRam env (env.IsReqAuthenticated r).1 ctx.BucketInfo r action
                      ctx.ObjectName).1 },
                (policyThenRam env (env.IsReqAuthenticated r).1 ctx.BucketInfo r action
                  ctx.ObjectName).2) : Credential × Option ApiError).2 ≠ none →
        (match (env.IsReqAuthenticated r).2 with
          | some err => ((env.IsReqAuthenticated r).1, some err)
          | none =>
            if action = ListAllMyBucketsAction ∨ action = CreateBucketAction then
              ({ (env.IsReqAuthenticated r).1 with
                  AllowOtherUserAccess :=
                    (IsRamPolicyAllowed env (env.IsReqAuthenticated r).1.Policy r action).1 },
                (IsRamPolicyAllowed env (env.IsReqAuthenticated r).1.Policy r action).2)
            else
              ({ (env.IsReqAuthenticated r).1 with
                  AllowOtherUserAccess :=
                    (policyThenRam env (env.IsReqAuthenticated r).1 ctx.BucketInfo r action
                      ctx.ObjectName).1 },
                (policyThenRam env (env.IsReqAuthenticated r).1 ctx.BucketInfo r action
                  ctx.ObjectName).2) : Credential × Option ApiError).1.AllowOtherUserAccess =
          false := by
      intro hnone
      rw [hnone]
      simp only
      by_cases hact : action = ListAllMyBucketsAction ∨ action = CreateBucketAction
      · rw [if_pos hact]
        exact hsigned _ (IsRamPolicyAllowed_allow_no_error env _ r action)
      · rw [if_neg hact]
        exact hsigned _ (policyThenRam_allow_no_error env _ ctx.BucketInfo r action _)
    unfold checkRequestAuth at herr ⊢
    cases hty : ctx.AuthType <;> simp only [hty] at herr ⊢
    case AuthTypeUnknown => rfl
    case AuthTypeOther => rfl
    case AuthTypeAnonymous =>
      by_cases hact : action = ListAllMyBucketsAction
      · rw [if_pos hact]; rfl
      · rw [if_neg hact] at herr ⊢
        exact hsigned _ (IsBucketPolicyAllowed_allow_no_error env _ ctx.BucketInfo r action _) herr
    all_goals exact hsignedCase (hauth (by rw [hty]; rfl)) herr
  · intro herr
    unfold checkSourceBucketAuth at herr ⊢
    cases hb : (policyThenRam env c bucket r action objectName).1 with
    | false => simp [hb]
    | true =>
      exact absurd (policyThenRam_allow_no_error env c bucket r action objectName hb) herr

/-- Witness of C34: the bucket policy of the sample bucket denies the request of a
stranger, and the error comes with `AllowOtherUserAccess = false`. -/
theorem policy_allow_excludes_error_witness :
    (checkRequestAuth (sampleEnv (strangerCred none))
        (sampleCtx .AuthTypeSignedV4 (some (sampleBucket (cannedAcl "private") [2])))
        sampleRequest "s3:GetObject").2 = some .ErrAccessDenied ∧
    (checkRequestAuth (sampleEnv (strangerCred none))
        (sampleCtx .AuthTypeSignedV4 (some (sampleBucket (cannedAcl "private") [2])))
        sampleRequest "s3:GetObject").1.AllowOtherUserAccess = false :=
  ⟨by decide,
    (policy_allow_excludes_error (sampleEnv (strangerCred none))
      (sampleCtx .AuthTypeSignedV4 (some (sampleBucket (cannedAcl "private") [2])))
      sampleRequest "s3:GetObject" (strangerCred none) none "" none).2.2.1
      (fun _ => rfl) (by decide)⟩

/-! ## The source address of a request (C35) -/

theorem take_indexFrom_comma_space : ∀ (l : List Char) (i : Nat),
    (indexFrom [',', ' '] l i = -1 → beforeCommaSpace l = l) ∧
      (indexFrom [',', ' '] l i ≠ -1 →
        ∃ k : Nat, indexFrom [',', ' '] l i = (i : Int) + k ∧ l.take k = beforeCommaSpace l)
  | [], i => by
    refine ⟨fun _ => rfl, fun h => ?_⟩
    exact absurd (by simp [indexFrom]) h
  | c :: cs, i => by
    by_cases hp : [',', ' '].isPrefixOf (c :: cs) = true
    · have hidx : indexFrom [',', ' '] (c :: cs) i = (i : Int) := by
        rw [indexFrom, if_pos hp]
      refine ⟨fun h => ?_, fun _ => ⟨0, ?_, ?_⟩⟩
      · rw [hidx] at h; omega
      · rw [hidx]; simp
      · rw [beforeCommaSpace, if_pos hp]; rfl
    · have hidx : indexFrom [',', ' '] (c :: cs) i = indexFrom [',', ' '] cs (i + 1) := by
        rw [indexFrom, if_neg hp]
      have ih := take_indexFrom_comma_space cs (i + 1)
      refine ⟨fun h => ?_, fun h => ?_⟩
      · rw [beforeCommaSpace, if_neg hp, ih.1 (hidx ▸ h)]
      · obtain ⟨k, hk, htake⟩ := ih.2 (hidx ▸ h)
        refine ⟨k + 1, ?_, ?_⟩
        · rw [hidx, hk]; push_cast; ring
        · rw [beforeCommaSpace, if_neg hp, List.take_succ_cons, htake]

theorem take_stringsIndex_comma_space (fwd : String) :
    fwd.data.take
        (if stringsIndex fwd ", " == -1 then (fwd.length : Int)
          else stringsIndex fwd ", ").toNat =
      beforeCommaSpace fwd.data := by
  have h := take_indexFrom_comma_space fwd.data 0
  have hsep : (", " : String).data = [',', ' '] := rfl
  unfold stringsIndex
  rw [hsep]
  by_cases hidx : indexFrom [',', ' '] fwd.data 0 = -1
  · rw [hidx, h.1 hidx]
    have htrue : ((-1 : Int) == -1) = true := rfl
    rw [htrue, if_pos rfl, Int.toNat_ofNat]
    exact List.take_length fwd.data
  · obtain ⟨k, hk, htake⟩ := h.2 hidx
    have hne : (indexFrom [',', ' '] fwd.data 0 == -1) = false := by
      simpa using hidx
    rw [hne]
    simp only [Bool.false_eq_true, if_false]
    rw [hk]
    simpa using htake

/-- Counterexample to C35 as stated: with `X-Forwarded-For: , 10.0.0.2` the header is
non-empty and the first entry of its list is empty, yet the result is the host of the
remote address, and it changes with the remote address. -/
theorem GetSourceIP_counterexample :
    HeaderGet (forwardedRequest ", 10.0.0.2" "192.0.2.1:4711").Header xForwardedFor ≠ "" ∧
      firstListEntry ", 10.0.0.2" = "" ∧
      GetSourceIP (sampleEnv ownerCred) (forwardedRequest ", 10.0.0.2" "192.0.2.1:4711") =
        "192.0.2.1" ∧
      GetSourceIP (sampleEnv ownerCred) (forwardedRequest ", 10.0.0.2" "192.0.2.9:4711") =
        "192.0.2.9" := by
  decide

/-- The branches of `GetSourceIP`. The address is taken from `X-Forwarded-For` when
that header is non-empty (what stands before its first `, `, the whole value when there
is none), else from `X-Real-IP` when that one is non-empty, else from the first `for=`
value of `Forwarded` without the double quotes around it. When the address so taken is
non-empty it is the result; when it is empty the result is the host of the remote
address. -/
theorem GetSourceIP_cases (env : Env) (r : Request) :
    (HeaderGet r.Header xForwardedFor ≠ "" →
        (beforeCommaSpace (HeaderGet r.Header xForwardedFor).data ≠ [] →
          GetSourceIP env r =
            String.mk (beforeCommaSpace (HeaderGet r.Header xForwardedFor).data)) ∧
        (beforeCommaSpace (HeaderGet r.Header xForwardedFor).data = [] →
          GetSourceIP env r = env.SplitHostPort r.RemoteAddr)) ∧
    (HeaderGet r.Header xForwardedFor = "" → HeaderGet r.Header xRealIP ≠ "" →
        GetSourceIP env r = HeaderGet r.Header xRealIP) ∧
    (HeaderGet r.Header xForwardedFor = "" → HeaderGet r.Header xRealIP = "" →
        (forwardedFor r ≠ [] → GetSourceIP env r = String.mk (forwardedFor r)) ∧
        (forwardedFor r = [] → GetSourceIP env r = env.SplitHostPort r.RemoteAddr)) := by
  have hmk : ∀ l : List Char, String.mk l ≠ "" ↔ l ≠ [] := by
    intro l
    constructor
    · intro h hl; exact h (by rw [hl])
    · intro h hl; exact h (by simpa using congrArg String.data hl)
  refine ⟨fun hxff => ⟨fun hne => ?_, fun hempty => ?_⟩, fun hxff hxri => ?_,
    fun hxff hxri => ⟨fun hne => ?_, fun hempty => ?_⟩⟩
  · unfold GetSourceIP
    simp only [if_pos hxff, take_stringsIndex_comma_space]
    rw [if_pos ((hmk _).2 hne)]
  · unfold GetSourceIP
    simp only [if_pos hxff, take_stringsIndex_comma_space]
    rw [hempty, if_neg (by simp)]
  · unfold GetSourceIP
    have h1 : ¬HeaderGet r.Header xForwardedFor ≠ "" := by simpa using hxff
    simp only [if_neg h1, if_pos hxri]
  · unfold GetSourceIP forwardedFor at *
    have h1 : ¬HeaderGet r.Header xForwardedFor ≠ "" := by simpa using hxff
    have h2 : ¬HeaderGet r.Header xRealIP ≠ "" := by simpa using hxri
    simp only [if_neg h1, if_neg h2]
    by_cases hfwd : HeaderGet r.Header forwarded ≠ ""
    · simp only [if_pos hfwd]
      cases hfind : forRegexFind (HeaderGet r.Header forwarded).data with
      | none => rw [hfind] at hne; exact absurd rfl hne
      | some g =>
        rw [hfind] at hne
        simp only at hne ⊢
        rw [if_pos ((hmk _).2 hne)]
    · have hdata : (HeaderGet r.Header forwarded).data = [] := by
        have : HeaderGet r.Header forwarded = "" := by simpa using hfwd
        rw [this]
      rw [hdata] at hne
      exact absurd rfl hne
  · unfold GetSourceIP forwardedFor at *
    have h1 : ¬HeaderGet r.Header xForwardedFor ≠ "" := by simpa using hxff
    have h2 : ¬HeaderGet r.Header xRealIP ≠ "" := by simpa using hxri
    simp only [if_neg h1, if_neg h2]
    by_cases hfwd : HeaderGet r.Header forwarded ≠ ""
    · simp only [if_pos hfwd]
      cases hfind : forRegexFind (HeaderGet r.Header forwarded).data with
      | none => simp
      | some g =>
        rw [hfind] at hempty
        simp only at hempty ⊢
        rw [hempty, if_neg (by simp)]
    · simp only [if_neg hfwd]
      rw [if_neg (by simp)]

theorem beforeCommaSpace_of_commaSpaceSeparated : ∀ (l : List Char),
    commaSpaceSeparated l = true → beforeCommaSpace l = l.takeWhile fun c => c != ','
  | [], _ => rfl
  | c :: cs, h => by
    rw [commaSpaceSeparated, Bool.and_eq_true, Bool.or_eq_true] at h
    by_cases hc : c = ','
    · subst hc
      have hsp : [' '].isPrefixOf cs = true := by
        rcases h.1 with h1 | h1
        · exact absurd h1 (by decide)
        · exact h1
      have hp : [',', ' '].isPrefixOf (',' :: cs) = true := by
        rw [List.isPrefixOf_cons₂]
        simpa using hsp
      rw [beforeCommaSpace, if_pos hp]
      rfl
    · have hcf : (',' == c) = false := by
        simp only [beq_eq_false_iff_ne, ne_eq]
        exact fun h => hc h.symm
      have hp : ¬[',', ' '].isPrefixOf (c :: cs) = true := by
        rw [List.isPrefixOf_cons₂, hcf]
        simp
      have hne : (c != ',') = true := by simpa using hc
      rw [beforeCommaSpace, if_neg hp, List.takeWhile_cons, hne,
        beforeCommaSpace_of_commaSpaceSeparated cs h.2]
      rfl

/-- C35 (amended): the precedence of `GetSourceIP`. The address is taken from
`X-Forwarded-For` when that header is non-empty: the first entry of its list, for a
list whose entries are separated by `, `, whatever `X-Real-IP` and `Forwarded` are;
else from `X-Real-IP` when that one is non-empty; else from the first `for=` value of
`Forwarded` without the double quotes around it. When the address so taken is
non-empty it is the result, whatever the remote address is; when it is empty the
result is the host of the remote address. -/
theorem GetSourceIP_precedence (env : Env) (r : Request) :
    (HeaderGet r.Header xForwardedFor ≠ "" →
      commaSpaceSeparated (HeaderGet r.Header xForwardedFor).data = true →
        (firstListEntry (HeaderGet r.Header xForwardedFor) ≠ "" →
          GetSourceIP env r = firstListEntry (HeaderGet r.Header xForwardedFor)) ∧
        (firstListEntry (HeaderGet r.Header xForwardedFor) = "" →
          GetSourceIP env r = env.SplitHostPort r.RemoteAddr)) ∧
    (HeaderGet r.Header xForwardedFor = "" → HeaderGet r.Header xRealIP ≠ "" →
        GetSourceIP env r = HeaderGet r.Header xRealIP) ∧
    (HeaderGet r.Header xForwardedFor = "" → HeaderGet r.Header xRealIP = "" →
        (forwardedFor r ≠ [] → GetSourceIP env r = String.mk (forwardedFor r)) ∧
        (forwardedFor r = [] → GetSourceIP env r = env.SplitHostPort r.RemoteAddr)) := by
  obtain ⟨hxff, hrest⟩ := GetSourceIP_cases env r
  refine ⟨fun hne hsep => ?_, hrest⟩
  have hfirst : firstListEntry (HeaderGet r.Header xForwardedFor) =
      String.mk (beforeCommaSpace (HeaderGet r.Header xForwardedFor).data) := by
    rw [beforeCommaSpace_of_commaSpaceSeparated _ hsep]
    rfl
  rw [hfirst]
  refine ⟨fun h => (hxff hne).1 fun hnil => h (by rw [hnil]), fun h => (hxff hne).2 ?_⟩
  simpa using congrArg String.data h

/-- Witness of C35 (amended): the sample request carries
`X-Forwarded-For: 10.0.0.1, 10.0.0.2` and its source address is `10.0.0.1`; with
`X-Forwarded-For: , 10.0.0.2` the source address is the host of the remote address. -/
theorem GetSourceIP_precedence_witness :
    HeaderGet sampleRequest.Header xForwardedFor ≠ "" ∧
      commaSpaceSeparated (HeaderGet sampleRequest.Header xForwardedFor).data = true ∧
      firstListEntry (HeaderGet sampleRequest.Header xForwardedFor) ≠ "" ∧
      GetSourceIP (sampleEnv ownerCred) sampleRequest = "10.0.0.1" ∧
      GetSourceIP (sampleEnv ownerCred) (forwardedRequest ", 10.0.0.2" "192.0.2.1:4711") =
        sampleSplitHostPort "192.0.2.1:4711" :=
  ⟨by decide, by decide, by decide,
    ((GetSourceIP_precedence (sampleEnv ownerCred) sampleRequest).1 (by decide)
      (by decide)).1 (by decide),
    ((GetSourceIP_precedence (sampleEnv ownerCred)
      (forwardedRequest ", 10.0.0.2" "192.0.2.1:4711")).1 (by decide) (by decide)).2
      (by decide)⟩

/-! ## The condition values of a request (C36) -/

theorem valuesOf_of_not_hasKey (entries : List (String × List String)) (key : String)
    (h : hasKey entries key = false) : valuesOf entries key = [] := by
  induction entries with
  | nil => rfl
  | cons kv rest ih =>
    simp only [hasKey, List.any_cons, Bool.or_eq_false_iff] at h
    have hrest : valuesOf rest key = [] := ih (by simpa [hasKey] using h.2)
    simp only [valuesOf] at hrest ⊢
    rw [List.filter_cons_of_neg (by simp [h.1])]
    exact hrest

theorem mergeValues_apply (entries : List (String × List String)) :
    ∀ (args : StrMap) (key : String),
      mergeValues args entries key =
        if hasKey entries key then some ((args key).getD [] ++ valuesOf entries key)
        else args key := by
  induction entries with
  | nil => intro args key; rfl
  | cons kv rest ih =>
    intro args key
    have hstep : mergeValues args (kv :: rest) =
        mergeValues
          (match args kv.1 with
            | some existingValues => args.set kv.1 (existingValues ++ kv.2)
            | none => args.set kv.1 kv.2) rest := rfl
    rw [hstep, ih]
    by_cases hk : kv.1 = key
    · have hhas : hasKey (kv :: rest) key = true := by simp [hasKey, hk]
      have hvalues : valuesOf (kv :: rest) key = kv.2 ++ valuesOf rest key := by
        simp [valuesOf, hk]
      have hset : (match args kv.1 with
            | some existingValues => args.set kv.1 (existingValues ++ kv.2)
            | none => args.set kv.1 kv.2) key = some ((args key).getD [] ++ kv.2) := by
        subst hk
        cases hargs : args kv.1 with
        | none => simp [StrMap.set]
        | some existingValues => simp [StrMap.set]
      rw [hhas, hvalues, hset, if_pos rfl]
      by_cases hrest : hasKey rest key = true
      · rw [if_pos hrest]; simp
      · rw [if_neg hrest, valuesOf_of_not_hasKey rest key (by simpa using hrest)]; simp
    · have hhas : hasKey (kv :: rest) key = hasKey rest key := by simp [hasKey, hk]
      have hvalues : valuesOf (kv :: rest) key = valuesOf rest key := by
        simp [valuesOf, hk]
      have hset : (match args kv.1 with
            | some existingValues => args.set kv.1 (existingValues ++ kv.2)
            | none => args.set kv.1 kv.2) key = args key := by
        have hne : ¬key = kv.1 := fun h => hk h.symm
        cases hargs : args kv.1 with
        | none => simp [StrMap.set, hne]
        | some existingValues => simp [StrMap.set, hne]
      rw [hhas, hvalues, hset]

/-- The entries of `getConditionValues` for every location constraint: the key
`SourceIp` maps to exactly one value, `GetSourceIP(request)`; the key
`LocationConstraint` maps to exactly the location constraint when a non-empty one is
passed; every other key maps to the header values followed by the query values for
that key (and is absent when there are none). -/
theorem getConditionValues_entries (env : Env) (request : Request)
    (locationConstraint key : String) :
    getConditionValues env request locationConstraint "SourceIp" =
        some [GetSourceIP env request] ∧
    (locationConstraint ≠ "" →
      getConditionValues env request locationConstraint "LocationConstraint" =
        some [locationConstraint]) ∧
    (key ≠ "SourceIp" → (key = "LocationConstraint" → locationConstraint = "") →
      getConditionValues env request locationConstraint key =
        if hasKey request.Header key || hasKey request.Query key then
          some (valuesOf request.Header key ++ valuesOf request.Query key)
        else none) := by
  refine ⟨?_, fun hlc => ?_, fun hkey hloc => ?_⟩
  · unfold getConditionValues
    by_cases hlc : locationConstraint ≠ ""
    · simp only [if_pos hlc, StrMap.set]
      rfl
    · simp only [if_neg hlc, StrMap.set]
      rfl
  · unfold getConditionValues
    simp only [if_pos hlc, StrMap.set]
    rfl
  · have hmerged : getConditionValues env request locationConstraint key =
        mergeValues (mergeValues StrMap.empty request.Header) request.Query key := by
      unfold getConditionValues
      by_cases hlc : locationConstraint ≠ ""
      · have hne : ¬key = "LocationConstraint" := fun h => hlc (hloc h)
        simp only [if_pos hlc, StrMap.set]
        rw [if_neg hne, if_neg hkey]
      · simp only [if_neg hlc, StrMap.set]
        rw [if_neg hkey]
    rw [hmerged, mergeValues_apply, mergeValues_apply]
    by_cases hq : hasKey request.Query key = true
    · rw [if_pos hq, hq, Bool.or_true, if_pos rfl]
      by_cases hh : hasKey request.Header key = true
      · rw [if_pos hh]; simp [StrMap.empty]
      · rw [if_neg hh, valuesOf_of_not_hasKey request.Header key (by simpa using hh)]
        simp [StrMap.empty]
    · have hqf : hasKey request.Query key = false := by simpa using hq
      rw [if_neg hq, hqf, Bool.or_false, valuesOf_of_not_hasKey request.Query key hqf]
      by_cases hh : hasKey request.Header key = true
      · rw [if_pos hh, if_pos hh]; simp [StrMap.empty]
      · rw [if_neg hh, if_neg hh]; rfl

/-- C36: in the condition values that `IsBucketPolicyAllowed` and `IsRamPolicyAllowed`
build, both with `getConditionValues(r, "")`, the key `SourceIp` maps to exactly one
value, `GetSourceIP(request)`, for every request; a header or a query parameter named
`SourceIp` added to the request does not change that entry; every other key maps to
the header values followed by the query values for that key (and is absent when the
request carries none). -/
theorem condition_values_of_request (env : Env) (request : Request) (c : Credential)
    (bucket : Bucket) (action : Action) (objectName key : String) :
    (bucketPolicyArgs env c bucket request action objectName).ConditionValues =
        getConditionValues env request "" ∧
    (ramPolicyArgs env request action).ConditionValues = getConditionValues env request "" ∧
    getConditionValues env request "" "SourceIp" = some [GetSourceIP env request] ∧
    (∀ values : List String,
      getConditionValues env { request with Header := ("SourceIp", values) :: request.Header }
          "" "SourceIp" = some [GetSourceIP env request] ∧
        getConditionValues env { request with Query := ("SourceIp", values) :: request.Query }
          "" "SourceIp" = some [GetSourceIP env request]) ∧
    (key ≠ "SourceIp" →
      getConditionValues env request "" key =
        if hasKey request.Header key || hasKey request.Query key then
          some (valuesOf request.Header key ++ valuesOf request.Query key)
        else none) := by
  refine ⟨rfl, rfl, (getConditionValues_entries env request "" key).1, fun values => ⟨?_, ?_⟩,
    fun hkey => (getConditionValues_entries env request "" key).2.2 hkey fun _ => rfl⟩
  · rw [(getConditionValues_entries env _ "" key).1]
    have h1 : ("X-Forwarded-For" == "SourceIp") = false := by decide
    have h2 : ("X-Real-Ip" == "SourceIp") = false := by decide
    have h3 : ("Forwarded" == "SourceIp") = false := by decide
    simp only [GetSourceIP, HeaderGet, xForwardedFor, xRealIP, forwarded, List.lookup, h1, h2,
      h3]
  · rw [(getConditionValues_entries env _ "" key).1]
    rfl

/-- Witness of C36: the query parameter `SourceIp` of the sample request does not reach
the entry `SourceIp`, and the key `LocationConstraint` maps to the value of the query
parameter of that name. -/
theorem condition_values_of_request_witness :
    getConditionValues (sampleEnv ownerCred) queryRequest "" "SourceIp" = some ["10.0.0.1"] ∧
      valuesOf queryRequest.Query "SourceIp" = ["127.0.0.1"] ∧
      getConditionValues (sampleEnv ownerCred) queryRequest "" "LocationConstraint" =
        some ["eu"] :=
  ⟨by decide, by decide,
    (condition_values_of_request (sampleEnv ownerCred) queryRequest ownerCred
      (sampleBucket (cannedAcl "private") [0]) "s3:GetObject" "cat.png"
      "LocationConstraint").2.2.2.2 (by decide)⟩

/-! ## Completing with an empty list (C37) -/

/-- C37: `CompleteMultipartUpload` with an empty list of uploaded parts passes the
validation loop for every multipart upload (no part is looked at, so neither
`ErrInvalidPart` nor `PartTooSmall` arises), and the object it commits has size 0 and
the ETag `hex(MD5(""))` followed by `-0`; when the freezer step and the metadata
commit do not fail the operation succeeds with that size and ETag. -/
theorem complete_empty_list (yig : YigStorage) (reqCtx : RequestContext)
    (credential : Credential) (uploadId : String) (bucket : Bucket) (multipart : Multipart)
    (hb : reqCtx.BucketInfo = some bucket)
    (hacl : CompleteMultipartUploadAcl yig.env bucket credential = none)
    (hm : yig.GetMultipart reqCtx.BucketName reqCtx.ObjectName uploadId = .ok multipart) :
    completeLoop 0 [] 0 multipart.Parts 0 [] = .ok (multipart.Parts, 0, []) ∧
    (∀ o m e,
      Event.MetaPutObject o m e ∈
          (CompleteMultipartUpload yig reqCtx credential uploadId []).2.2 →
        o.Size = 0 ∧ o.Etag = hexEncodeToString (yig.md5Sum []) ++ "-0" ∧
          o.Parts = multipart.Parts) ∧
    ((deleteOldFreezer yig reqCtx bucket
          (completedObject yig reqCtx bucket multipart 0
            (hexEncodeToString (yig.md5Sum []) ++ "-0"))).1 = none →
      yig.MetaPutObject reqCtx
          (completedObject yig reqCtx bucket multipart 0
            (hexEncodeToString (yig.md5Sum []) ++ "-0")) multipart false = none →
      (CompleteMultipartUpload yig reqCtx credential uploadId []).2.1 = none ∧
        (CompleteMultipartUpload yig reqCtx credential uploadId []).1.ObjectSize = 0 ∧
        (CompleteMultipartUpload yig reqCtx credential uploadId []).1.ETag =
          hexEncodeToString (yig.md5Sum []) ++ "-0" ∧
        Event.MetaPutObject
            (completedObject yig reqCtx bucket multipart 0
              (hexEncodeToString (yig.md5Sum []) ++ "-0")) multipart none ∈
          (CompleteMultipartUpload yig reqCtx credential uploadId []).2.2) := by
  have hzero : "-" ++ toString (0 : Nat) = "-0" := by decide
  have hloop : completeLoop 0 [] 0 multipart.Parts 0 [] = .ok (multipart.Parts, 0, []) := rfl
  have hrun : CompleteMultipartUpload yig reqCtx credential uploadId [] =
      (let result := { CompleteMultipartResult.zero with
          ETag := hexEncodeToString (yig.md5Sum []) ++ "-0" }
       let object := completedObject yig reqCtx bucket multipart 0 result.ETag
       let freezerStep := deleteOldFreezer yig reqCtx bucket object
       match freezerStep.1 with
       | some err => (result, some err, freezerStep.2)
       | none =>
         let commit := yig.MetaPutObject reqCtx object multipart false
         let committed := Event.MetaPutObject object multipart commit
         match commit with
         | some err => (result, some err, freezerStep.2 ++ [committed])
         | none =>
           let sseRequest := multipart.Metadata.SseRequest
           let result := { result with
             ObjectSize := object.Size
             ContentType := object.ContentType
             CreateTime := object.CreateTime
             SseType := sseRequest.Type_
             SseAwsKmsKeyIdBase64 := yig.base64 sseRequest.SseAwsKmsKeyId.toUTF8.toList
             SseCustomerAlgorithm := sseRequest.SseCustomerAlgorithm
             SseCustomerKeyMd5Base64 := yig.base64 sseRequest.SseCustomerKey }
           let removeOld : List Event :=
             match reqCtx.ObjectInfo with
             | some eldObject =>
               if bucket.Versioning ≠ BucketVersioningEnabled then [.RemoveOldObject eldObject]
               else []
             | none => []
           (result, none,
             freezerStep.2 ++
               [committed,
                 .CacheRemove (reqCtx.BucketName ++ ":" ++ reqCtx.ObjectName ++ ":" ++
                   object.VersionId),
                 .DataCacheRemove (reqCtx.BucketName ++ ":" ++ reqCtx.ObjectName ++ ":" ++
                   object.VersionId)] ++
               removeOld)) := by
    unfold CompleteMultipartUpload
    simp only [hb, hacl, hm, List.length_nil, hloop, String.append_assoc, hzero]
  refine ⟨hloop, ?_, ?_⟩
  · intro o m e hmem
    rw [hrun] at hmem
    simp only at hmem
    have hobj : ∀ o2 m2 e2, Event.MetaPutObject o2 m2 e2 ∈
        (deleteOldFreezer yig reqCtx bucket
          (completedObject yig reqCtx bucket multipart 0
            (hexEncodeToString (yig.md5Sum []) ++ "-0"))).2 → False := by
      intro o2 m2 e2 h2
      obtain ⟨f, e3, hev⟩ := deleteOldFreezer_events _ _ _ _ _ h2
      cases hev
    have hfields : o = completedObject yig reqCtx bucket multipart 0
        (hexEncodeToString (yig.md5Sum []) ++ "-0") →
        o.Size = 0 ∧ o.Etag = hexEncodeToString (yig.md5Sum []) ++ "-0" ∧
          o.Parts = multipart.Parts := by
      intro ho; rw [ho]; exact ⟨rfl, rfl, rfl⟩
    split at hmem
    · exact absurd hmem (hobj o m e)
    · split at hmem
      · simp only [List.mem_append, List.mem_singleton, Event.MetaPutObject.injEq] at hmem
        rcases hmem with hmem | hmem
        · exact absurd hmem (hobj o m e)
        · exact hfields hmem.1
      · simp only [List.mem_append, List.mem_cons, Event.MetaPutObject.injEq,
          List.not_mem_nil, or_false, reduceCtorEq] at hmem
        rcases hmem with (hmem | hmem) | hmem
        · exact absurd hmem (hobj o m e)
        · exact hfields hmem.1
        · exfalso
          revert hmem
          split
          · split <;> simp
          · simp
  · intro hfreezer hcommit
    rw [hrun]
    simp only [hfreezer, hcommit]
    refine ⟨trivial, rfl, trivial, ?_⟩
    simp

/-- Witness of C37: the sample upload, completed with the empty list, gives an object of
size 0 with the ETag `00-0` (the sample digest of the empty string is the byte 0). -/
theorem complete_empty_list_witness :
    (CompleteMultipartUpload (sampleYig gappedMultipart (sampleCluster 0) none) sampleReqCtx
        ownerCred "upload-1" []).2.1 = none ∧
      (CompleteMultipartUpload (sampleYig gappedMultipart (sampleCluster 0) none) sampleReqCtx
        ownerCred "upload-1" []).1.ObjectSize = 0 ∧
      (CompleteMultipartUpload (sampleYig gappedMultipart (sampleCluster 0) none) sampleReqCtx
        ownerCred "upload-1" []).1.ETag = "00-0" :=
  have h := (complete_empty_list (sampleYig gappedMultipart (sampleCluster 0) none)
    sampleReqCtx ownerCred "upload-1" (sampleBucket (cannedAcl "private") [0]) gappedMultipart
    rfl (by decide) rfl).2.2 (by decide) (by decide)
  ⟨h.1, h.2.1, by decide⟩

/-! ## Recycling the old object after a completion (C39) -/

/-- The outcomes of `CompleteMultipartUpload` on a bucket: it fails without launching
`removeOldObject`, or it succeeds, and then the effects after the freezer step are the
commit of the completed object, the two cache invalidations and the launch of
`removeOldObject` on the old object when there is one and the bucket is not Enabled. -/
theorem CompleteMultipartUpload_outcomes (yig : YigStorage) (reqCtx : RequestContext)
    (credential : Credential) (uploadId : String) (ups : List CompletePart) (bucket : Bucket)
    (hb : reqCtx.BucketInfo = some bucket) :
    ((CompleteMultipartUpload yig reqCtx credential uploadId ups).2.1 ≠ none ∧
      ∀ old, Event.RemoveOldObject old ∉
        (CompleteMultipartUpload yig reqCtx credential uploadId ups).2.2) ∨
    ((CompleteMultipartUpload yig reqCtx credential uploadId ups).2.1 = none ∧
      ∃ (object : Object) (multipart : Multipart) (freezerEvents : List Event),
        (∀ ev ∈ freezerEvents, ∃ f e, ev = Event.DeleteFreezer f e) ∧
        object.NullVersion = (if bucket.Versioning = BucketVersioningEnabled then false
          else true) ∧
        (CompleteMultipartUpload yig reqCtx credential uploadId ups).2.2 =
          freezerEvents ++
            [Event.MetaPutObject object multipart none,
              .CacheRemove (reqCtx.BucketName ++ ":" ++ reqCtx.ObjectName ++ ":" ++
                object.VersionId),
              .DataCacheRemove (reqCtx.BucketName ++ ":" ++ reqCtx.ObjectName ++ ":" ++
                object.VersionId)] ++
            (match reqCtx.ObjectInfo with
              | some eldObject =>
                if bucket.Versioning ≠ BucketVersioningEnabled then
                  [Event.RemoveOldObject eldObject]
                else []
              | none => [])) := by
  unfold CompleteMultipartUpload
  simp only [hb]
  cases hacl : CompleteMultipartUploadAcl yig.env bucket credential with
  | some err => left; simp
  | none =>
    simp only
    cases hm : yig.GetMultipart reqCtx.BucketName reqCtx.ObjectName uploadId with
    | error err => left; simp
    | ok multipart =>
      simp only
      cases hloop : completeLoop ups.length ups 0 multipart.Parts 0 [] with
      | error err => left; simp
      | ok st =>
        obtain ⟨final, total, written⟩ := st
        simp only
        generalize hobj : completedObject yig reqCtx bucket { multipart with Parts := final }
          total (hexEncodeToString (yig.md5Sum written) ++ "-" ++ toString ups.length) = object
        have hnull : object.NullVersion =
            (if bucket.Versioning = BucketVersioningEnabled then false else true) := by
          rw [← hobj]; rfl
        have hfreezer : ∀ ev ∈ (deleteOldFreezer yig reqCtx bucket object).2,
            ∃ f e, ev = Event.DeleteFreezer f e :=
          fun ev hev => deleteOldFreezer_events yig reqCtx bucket object ev hev
        cases hstep : (deleteOldFreezer yig reqCtx bucket object).1 with
        | some err =>
          left
          refine ⟨by simp, fun old hmem => ?_⟩
          obtain ⟨f, e, hev⟩ := hfreezer _ hmem
          cases hev
        | none =>
          simp only
          cases hcommit : yig.MetaPutObject reqCtx object { multipart with Parts := final }
              false with
          | some err =>
            left
            refine ⟨by simp, fun old hmem => ?_⟩
            simp only [List.mem_append, List.mem_singleton, reduceCtorEq, or_false] at hmem
            obtain ⟨f, e, hev⟩ := hfreezer _ hmem
            cases hev
          | none =>
            right
            exact ⟨rfl, object, { multipart with Parts := final }, _, hfreezer, hnull, rfl⟩

/-- C39: after a successful metadata commit in `CompleteMultipartUpload`,
`removeOldObject` is launched if and only if an old object existed for the key and the
bucket's versioning is not Enabled, and then on that old object; in an Enabled bucket
it is never launched; it is not launched either when the operation fails. The committed
object has `NullVersion = true` exactly when the versioning is not Enabled. -/
theorem recycle_old_object_after_complete (yig : YigStorage) (reqCtx : RequestContext)
    (credential : Credential) (uploadId : String) (ups : List CompletePart) (bucket : Bucket)
    (hb : reqCtx.BucketInfo = some bucket) :
    ((∃ old, Event.RemoveOldObject old ∈
          (CompleteMultipartUpload yig reqCtx credential uploadId ups).2.2) ↔
        (CompleteMultipartUpload yig reqCtx credential uploadId ups).2.1 = none ∧
          reqCtx.ObjectInfo ≠ none ∧ bucket.Versioning ≠ BucketVersioningEnabled) ∧
    (∀ old, Event.RemoveOldObject old ∈
          (CompleteMultipartUpload yig reqCtx credential uploadId ups).2.2 →
        reqCtx.ObjectInfo = some old) ∧
    (∀ o m, Event.MetaPutObject o m none ∈
          (CompleteMultipartUpload yig reqCtx credential uploadId ups).2.2 →
        (o.NullVersion = true ↔ bucket.Versioning ≠ BucketVersioningEnabled)) := by
  rcases CompleteMultipartUpload_outcomes yig reqCtx credential uploadId ups bucket hb with
    ⟨herr, hnone⟩ | ⟨hok, object, multipart, freezerEvents, hfreezer, hnull, htrace⟩
  · refine ⟨⟨fun ⟨old, hold⟩ => absurd hold (hnone old), fun h => absurd h.1 herr⟩,
      fun old hold => absurd hold (hnone old), fun o m hmem => ?_⟩
    exfalso
    revert hmem herr
    unfold CompleteMultipartUpload
    simp only [hb]
    cases CompleteMultipartUploadAcl yig.env bucket credential with
    | some err => simp
    | none =>
      simp only
      cases yig.GetMultipart reqCtx.BucketName reqCtx.ObjectName uploadId with
      | error err => simp
      | ok multipart =>
        simp only
        cases completeLoop ups.length ups 0 multipart.Parts 0 [] with
        | error err => simp
        | ok st =>
          obtain ⟨final, total, written⟩ := st
          simp only
          generalize completedObject yig reqCtx bucket { multipart with Parts := final }
            total (hexEncodeToString (yig.md5Sum written) ++ "-" ++ toString ups.length) =
              object
          cases hstep : (deleteOldFreezer yig reqCtx bucket object).1 with
          | some err =>
            simp only
            intro _ hmem
            obtain ⟨f, e, hev⟩ := deleteOldFreezer_events yig reqCtx bucket object _ hmem
            cases hev
          | none =>
            simp only
            cases hcommit : yig.MetaPutObject reqCtx object { multipart with Parts := final }
                false with
            | some err =>
              simp only
              intro _ hmem
              simp only [List.mem_append, List.mem_singleton, Event.MetaPutObject.injEq,
                reduceCtorEq, and_false, or_false] at hmem
              obtain ⟨f, e, hev⟩ := deleteOldFreezer_events yig reqCtx bucket object _ hmem
              cases hev
            | none => simp
  · have hmemOld : ∀ old, Event.RemoveOldObject old ∈
          (CompleteMultipartUpload yig reqCtx credential uploadId ups).2.2 ↔
        reqCtx.ObjectInfo = some old ∧ bucket.Versioning ≠ BucketVersioningEnabled := by
      intro old
      rw [htrace]
      simp only [List.mem_append, List.mem_cons, List.not_mem_nil, or_false, reduceCtorEq,
        false_or]
      constructor
      · rintro (hmem | hmem)
        · obtain ⟨f, e, hev⟩ := hfreezer _ hmem
          cases hev
        · cases hinfo : reqCtx.ObjectInfo with
          | none => rw [hinfo] at hmem; simp at hmem
          | some eldObject =>
            rw [hinfo] at hmem
            simp only at hmem
            by_cases hv : bucket.Versioning ≠ BucketVersioningEnabled
            · rw [if_pos hv] at hmem
              simp only [List.mem_singleton, Event.RemoveOldObject.injEq] at hmem
              exact ⟨by rw [hmem], hv⟩
            · rw [if_neg hv] at hmem; simp at hmem
      · rintro ⟨hinfo, hv⟩
        right
        rw [hinfo]
        simp only
        rw [if_pos hv]
        simp
    refine ⟨⟨fun ⟨old, hold⟩ => ⟨hok, ?_, ((hmemOld old).1 hold).2⟩, fun h => ?_⟩,
      fun old hold => ((hmemOld old).1 hold).1, fun o m hmem => ?_⟩
    · rw [((hmemOld old).1 hold).1]; simp
    · cases hinfo : reqCtx.ObjectInfo with
      | none => exact absurd hinfo h.2.1
      | some eldObject => exact ⟨eldObject, (hmemOld eldObject).2 ⟨hinfo, h.2.2⟩⟩
    · rw [htrace] at hmem
      simp only [List.mem_append, List.mem_cons, Event.MetaPutObject.injEq, List.not_mem_nil,
        or_false, reduceCtorEq, and_true] at hmem
      have ho : o = object := by
        rcases hmem with (hmem | hmem) | hmem
        · obtain ⟨f, e, hev⟩ := hfreezer _ hmem
          cases hev
        · exact hmem.1
        · exfalso
          revert hmem
          split
          · split <;> simp
          · simp
      rw [ho, hnull]
      by_cases hv : bucket.Versioning = BucketVersioningEnabled
      · simp [hv]
      · simp [hv]

/-- Witness of C39: completing the sample upload over an existing object launches
`removeOldObject` on it in a Suspended bucket and not in an Enabled one. -/
theorem recycle_old_object_after_complete_witness :
    (overwriteCtx "Suspended").BucketInfo = some (versionedBucket "Suspended") ∧
      (CompleteMultipartUpload (sampleYig gappedMultipart (sampleCluster 0) none)
        (overwriteCtx "Suspended") ownerCred "upload-1" [⟨1, "aa"⟩]).2.1 = none ∧
      Event.RemoveOldObject sampleObject ∈
        (CompleteMultipartUpload (sampleYig gappedMultipart (sampleCluster 0) none)
          (overwriteCtx "Suspended") ownerCred "upload-1" [⟨1, "aa"⟩]).2.2 ∧
      ¬∃ old, Event.RemoveOldObject old ∈
        (CompleteMultipartUpload (sampleYig gappedMultipart (sampleCluster 0) none)
          (overwriteCtx "Enabled") ownerCred "upload-1" [⟨1, "aa"⟩]).2.2 :=
  ⟨rfl, by decide, by decide,
    fun h =>
      absurd
        (((recycle_old_object_after_complete
          (sampleYig gappedMultipart (sampleCluster 0) none) (overwriteCtx "Enabled") ownerCred
          "upload-1" [⟨1, "aa"⟩] (versionedBucket "Enabled") rfl).1.1 h).2.2)
        (by decide)⟩

/-! ## Paging through the parts of an upload (C31) -/

theorem listPartsLoop_absent (parts : PartsMap) (maxParts : Int) :
    ∀ (left : Nat) (i : Int) (listed : List datatype.Part),
      (∀ j, i ≤ j → parts.lookup j = none) →
      listPartsLoop parts maxParts left i listed = listed
  | 0, _, _, _ => rfl
  | left + 1, i, listed, h => by
    rw [listPartsLoop, h i (le_refl i)]
    exact listPartsLoop_absent parts maxParts left (i + 1) listed
      fun j hj => h j (by omega)

theorem listPartsLoop_some (parts : PartsMap) (maxParts : Int) (left : Nat) (i : Int)
    (listed : List datatype.Part) (p : Part) (h : parts.lookup i = some p) :
    listPartsLoop parts maxParts (left + 1) i listed =
      if ((listed ++ [listPartsEntry i p]).length : Int) > maxParts then
        listed ++ [listPartsEntry i p]
      else listPartsLoop parts maxParts left (i + 1) (listed ++ [listPartsEntry i p]) := by
  rw [listPartsLoop, h]

theorem ListObjectPartsPages_succ (yig : YigStorage) (iam : ListPartsEnv)
    (credential : Credential) (bucketName objectName uploadId : String) (maxParts : Int)
    (calls : Nat) (marker : Int) (page : ListPartsResponse)
    (hpage : ListObjectParts yig iam credential bucketName objectName
      ⟨"", uploadId, maxParts, marker⟩ = some (page, none))
    (htrunc : page.IsTruncated = true) (rest : List (List datatype.Part)) (ended : Bool)
    (hrest : ListObjectPartsPages yig iam credential bucketName objectName uploadId maxParts
      calls page.NextPartNumberMarker = some (rest, ended)) :
    ListObjectPartsPages yig iam credential bucketName objectName uploadId maxParts
        (calls + 1) marker = some (page.Parts :: rest, ended) := by
  simp only [ListObjectPartsPages, hpage, htrunc, hrest, if_true]

theorem ListObjectPartsPages_last (yig : YigStorage) (iam : ListPartsEnv)
    (credential : Credential) (bucketName objectName uploadId : String) (maxParts : Int)
    (calls : Nat) (marker : Int) (page : ListPartsResponse)
    (hpage : ListObjectParts yig iam credential bucketName objectName
      ⟨"", uploadId, maxParts, marker⟩ = some (page, none))
    (htrunc : page.IsTruncated = false) :
    ListObjectPartsPages yig iam credential bucketName objectName uploadId maxParts
        (calls + 1) marker = some ([page.Parts], true) := by
  simp only [ListObjectPartsPages, hpage, htrunc, Bool.false_eq_true, if_false]

/-- C31 (fails on the code): over the stored parts 1, 2 and 3 with `MaxParts = 1`,
paging from `PartNumberMarker = 0` ends after two pages, part 1 (truncated, with
`NextPartNumberMarker = 2`) and part 3: part 2 is on no page. -/
theorem ListObjectParts_paging_skips_part (calls : Nat) :
    ListObjectPartsPages (sampleYig threeParts (sampleCluster 0) none) sampleIam ownerCred
        "photos" "cat.png" "upload-1" 1 (2 + calls) 0 =
      some ([[listedPart 1 102400 "\"aa\""], [listedPart 3 10 "\"cc\""]], true) ∧
    (ListObjectParts (sampleYig threeParts (sampleCluster 0) none) sampleIam ownerCred
        "photos" "cat.png" ⟨"", "upload-1", 1, 0⟩).map (fun page => page.1.NextPartNumberMarker) =
      some 2 ∧
    threeParts.Parts.map (fun e => e.1) = [1, 2, 3] := by
  have hloop1 : listPartsLoop threeParts.Parts 1 (9998 + 1 + 1) 1 [] =
      [listedPart 1 102400 "\"aa\"", listedPart 2 102400 "\"bb\""] := by
    rw [listPartsLoop_some threeParts.Parts 1 (9998 + 1) 1 [] (samplePart 1 102400 "aa")
        (by decide), if_neg (by decide),
      listPartsLoop_some threeParts.Parts 1 9998 (1 + 1) _ (samplePart 2 102400 "bb")
        (by decide), if_pos (by decide)]
    decide
  have habsent : ∀ j : Int, 3 + 1 ≤ j → threeParts.Parts.lookup j = none := by
    intro j hj
    have h1 : (j == 1) = false := by simp; omega
    have h2 : (j == 2) = false := by simp; omega
    have h3 : (j == 3) = false := by simp; omega
    simp [threeParts, sampleMultipart, List.lookup, h1, h2, h3]
  have hloop2 : listPartsLoop threeParts.Parts 1 (9997 + 1) 3 [] =
      [listedPart 3 10 "\"cc\""] := by
    rw [listPartsLoop_some threeParts.Parts 1 9997 3 [] (samplePart 3 10 "cc") (by decide),
      if_neg (by decide), listPartsLoop_absent _ _ _ _ _ habsent]
    decide
  have hpage1 : ListObjectParts (sampleYig threeParts (sampleCluster 0) none) sampleIam
      ownerCred "photos" "cat.png" ⟨"", "upload-1", 1, 0⟩ =
      some (⟨"photos", "cat.png", "upload-1", ⟨"owner", "owner"⟩, ⟨"owner", "owner"⟩, 0, 0, 2, 1,
          true, "", [listedPart 1 102400 "\"aa\""]⟩, none) := by
    have hrun : ListObjectParts (sampleYig threeParts (sampleCluster 0) none) sampleIam
        ownerCred "photos" "cat.png" ⟨"", "upload-1", 1, 0⟩ =
        ListObjectPartsAfterLoop sampleIam "photos" "cat.png" ⟨"", "upload-1", 1, 0⟩ threeParts
          (listPartsLoop threeParts.Parts 1 (9998 + 1 + 1) 1 []) := rfl
    rw [hrun, hloop1]
    decide
  have hpage2 : ListObjectParts (sampleYig threeParts (sampleCluster 0) none) sampleIam
      ownerCred "photos" "cat.png" ⟨"", "upload-1", 1, 2⟩ =
      some (⟨"photos", "cat.png", "upload-1", ⟨"owner", "owner"⟩, ⟨"owner", "owner"⟩, 0, 2, 0, 1,
          false, "", [listedPart 3 10 "\"cc\""]⟩, none) := by
    have hrun : ListObjectParts (sampleYig threeParts (sampleCluster 0) none) sampleIam
        ownerCred "photos" "cat.png" ⟨"", "upload-1", 1, 2⟩ =
        ListObjectPartsAfterLoop sampleIam "photos" "cat.png" ⟨"", "upload-1", 1, 2⟩ threeParts
          (listPartsLoop threeParts.Parts 1 (9997 + 1) 3 []) := rfl
    rw [hrun, hloop2]
    decide
  refine ⟨?_, by rw [hpage1]; rfl, by decide⟩
  rw [show 2 + calls = (calls + 1) + 1 by omega]
  exact ListObjectPartsPages_succ _ _ _ _ _ _ _ _ _ _ hpage1 rfl _ _
    (ListObjectPartsPages_last _ _ _ _ _ _ _ _ _ _ hpage2 rfl)

/-! ## Creating a bucket if it is absent (C38) -/

/-- C38 (fails on the code): when no bucket of the name exists and the insert fails,
`CheckAndPutBucket` returns `processed = true` together with the error, and no row is
stored; a failing lookup, the sibling path, returns `false` with its error. -/
theorem CheckAndPutBucket_reports_created_on_failed_insert :
    GetBucket bucketInsertFailsClient "photos" = .error .ErrNoSuchBucket ∧
      CheckAndPutBucket bucketInsertFailsClient (versionedBucket "Disabled") =
        (true, some (.InTidbFatalError "CheckAndPutBucket transaction executes error"), []) ∧
      CheckAndPutBucket
          { bucketInsertFailsClient with
            QueryRowBucket := fun _ => some (.error "bad connection") }
          (versionedBucket "Disabled") =
        (false, some (.InTidbFatalError "GetBucket scan row error"), []) := by
  decide

/-! ## Listing the latest versions page by page (C32) -/

theorem ListLatestObjectsPages_last (t : TidbClient) (bucketName : String)
    (prefix_ delimiter : GoString) (maxKeys : Int) (fuel pages : Nat) (marker : GoString)
    (page : ListObjectsInfo)
    (hpage : ListLatestObjects t bucketName marker prefix_ delimiter maxKeys fuel =
      some (.ok page))
    (htrunc : page.IsTruncated = false) :
    ListLatestObjectsPages t bucketName prefix_ delimiter maxKeys fuel (pages + 1) marker =
      some ([page], true) := by
  simp only [ListLatestObjectsPages, hpage, htrunc, Bool.false_eq_true, if_false]

/-- C32 (fails on the code): over the rows of one key after PUT, PUT, DELETE, the
pages of `ListLatestObjects` with `maxKeys = 1` hold no object, and the pages with
`maxKeys = 2` hold the object `k`. In both cases the listing ends with its first page;
this holds for every amount of fuel from 2 on. -/
theorem ListLatestObjects_pages_depend_on_page_size (pages extra : Nat) :
    ListLatestObjectsPages (sampleStore putPutDelete) "photos" [] [] 1 (2 + extra) (pages + 1)
        [] = some ([⟨false, [], [], []⟩], true) ∧
      ListLatestObjectsPages (sampleStore putPutDelete) "photos" [] [] 2 (2 + extra)
          (pages + 1) [] =
        some ([⟨false, [], [⟨"k", "owner", "v2", 1700000000, 1, 0⟩], []⟩], true) ∧
      listedKeys [⟨false, [], [], []⟩] ≠
        listedKeys [⟨false, [], [⟨"k", "owner", "v2", 1700000000, 1, 0⟩], []⟩] :=
  ⟨ListLatestObjectsPages_last _ _ _ _ _ _ _ _ _
      (ListLatestObjects_fuel_add _ _ _ _ _ _ _ _ (by decide) extra) rfl,
    ListLatestObjectsPages_last _ _ _ _ _ _ _ _ _
      (ListLatestObjects_fuel_add _ _ _ _ _ _ _ _ (by decide) extra) rfl,
    by decide⟩

/-! ## The page size of a listing of versions (C33) -/

/-- C33 (fails on the code): with `maxKeys = 1` over the two rows `a` and `b`,
`ListVersionedObjects` returns the one entry `a` and `IsTruncated = false`; with
`maxKeys = 2` over the rows `a` (version 200), `b` (version 300) and `c` (version 100)
it returns `a` and `b` and `IsTruncated = false`. In both cases a row is left that is
not returned. This holds for every amount of fuel from 2 on. -/
theorem ListVersionedObjects_not_truncated_with_rows_left (extra : Nat) :
    ListVersionedObjects
        (sampleStore [sampleRow "a" 100 false 2, sampleRow "b" 100 false 1]) "photos" [] none
        [] [] 1 (2 + extra) =
      some (.ok ⟨false, goString "a", some 100, [sampleVersion "a" 100], []⟩) ∧
    ListVersionedObjects
        (sampleStore
          [sampleRow "a" 200 false 2, sampleRow "b" 300 false 1, sampleRow "c" 100 false 3])
        "photos" [] none [] [] 2 (2 + extra) =
      some (.ok ⟨false, goString "b", some 300,
        [sampleVersion "a" 200, sampleVersion "b" 300], []⟩) :=
  ⟨ListVersionedObjects_fuel_add _ _ _ _ _ _ _ _ _ (by decide) extra,
    ListVersionedObjects_fuel_add _ _ _ _ _ _ _ _ _ (by decide) extra⟩

/-! ## The outer loop of `ListObjects` ends -/

theorem length_filter_le_of_imp {α : Type} (l : List α) (p q : α → Bool)
    (h : ∀ x ∈ l, p x = true → q x = true) :
    (l.filter p).length ≤ (l.filter q).length := by
  have heq : l.filter p = (l.filter q).filter p := by
    rw [List.filter_filter]
    apply List.filter_congr
    intro x hx
    cases hp : p x with
    | false => simp
    | true => simp [h x hx hp]
  rw [heq]
  exact List.length_filter_le _ _

theorem length_filter_lt_of_imp {α : Type} (l : List α) (p q : α → Bool)
    (h : ∀ x ∈ l, p x = true → q x = true) (x : α) (hx : x ∈ l) (hq : q x = true)
    (hp : p x = false) :
    (l.filter p).length < (l.filter q).length := by
  have heq : l.filter p = (l.filter q).filter p := by
    rw [List.filter_filter]
    apply List.filter_congr
    intro y hy
    cases hpy : p y with
    | false => simp
    | true => simp [h y hy hpy]
  rw [heq]
  apply List.length_filter_lt_length_iff_exists.mpr
  exact ⟨x, List.mem_filter.mpr ⟨hx, hq⟩, by simp [hp]⟩

theorem bytesLess_append : ∀ (a b : GoString), b ≠ [] → bytesLess a (a ++ b) = true
  | [], b, hb => bytesLess_nil_left b hb
  | _ :: a, b, hb => by
    rw [List.cons_append, bytesLess_cons]
    simp [bytesLess_append a b hb]

theorem bytesLess_of_le_of_lt (a b c : GoString)
    (hab : a = b ∨ bytesLess a b = true) (hbc : bytesLess b c = true) :
    bytesLess a c = true := by
  rcases hab with hab | hab
  · rw [hab]; exact hbc
  · exact bytesLess_trans a b c hab hbc

/-- Moving the cursor forward does not bring rows back beyond it. -/
theorem rowsBeyond_length_le (rows : List ObjectRow) (m0 m1 : GoString)
    (hle : m0 = m1 ∨ bytesLess m0 m1 = true) :
    (rowsBeyond rows m1).length ≤ (rowsBeyond rows m0).length :=
  length_filter_le_of_imp rows _ _ fun _ _ hx => bytesLess_of_le_of_lt m0 m1 _ hle hx

theorem rowsBeyond_length_lt (rows : List ObjectRow) (m0 m1 : GoString)
    (hle : m0 = m1 ∨ bytesLess m0 m1 = true) (x : ObjectRow) (hx : x ∈ rows)
    (h0 : bytesLess m0 (goString x.name) = true) (h1 : bytesLess m1 (goString x.name) = false) :
    (rowsBeyond rows m1).length < (rowsBeyond rows m0).length :=
  length_filter_lt_of_imp rows _ _
    (fun _ _ hy => bytesLess_of_le_of_lt m0 m1 _ hle hy) x hx h0 h1

theorem foldsAt_mono (prefix_ delimiter m0 m1 : GoString)
    (hle : m0 = m1 ∨ bytesLess m0 m1 = true) (row : ObjectRow)
    (h : foldsAt prefix_ delimiter m1 row = true) : foldsAt prefix_ delimiter m0 row = true := by
  unfold foldsAt at h ⊢
  cases hkey : foldKey prefix_ delimiter row with
  | none => rw [hkey] at h; cases h
  | some key =>
    rw [hkey] at h
    simp only [Bool.not_eq_true'] at h ⊢
    cases hlt : bytesLess key m0 with
    | false => rfl
    | true =>
      rcases hle with hle | hle
      · rw [← hle, hlt] at h; cases h
      · rw [bytesLess_trans key m0 m1 hlt hle] at h; cases h

theorem foldsAhead_length_le (rows : List ObjectRow) (prefix_ delimiter m0 m1 : GoString)
    (hle : m0 = m1 ∨ bytesLess m0 m1 = true) :
    (foldsAhead rows prefix_ delimiter m1).length ≤
      (foldsAhead rows prefix_ delimiter m0).length :=
  length_filter_le_of_imp rows _ _ fun x _ hx => foldsAt_mono prefix_ delimiter m0 m1 hle x hx

theorem foldsAhead_length_lt (rows : List ObjectRow) (prefix_ delimiter m0 m1 : GoString)
    (hle : m0 = m1 ∨ bytesLess m0 m1 = true) (x : ObjectRow) (hx : x ∈ rows)
    (h0 : foldsAt prefix_ delimiter m0 x = true) (h1 : foldsAt prefix_ delimiter m1 x = false) :
    (foldsAhead rows prefix_ delimiter m1).length <
      (foldsAhead rows prefix_ delimiter m0).length :=
  length_filter_lt_of_imp rows _ _
    (fun y _ hy => foldsAt_mono prefix_ delimiter m0 m1 hle y hy) x hx h0 h1

/-- The measure falls when the count has not fallen and the cursor has moved forward
past a row. -/
theorem ListObjectsMeasure_lt_of_row (rows : List ObjectRow) (prefix_ delimiter : GoString)
    (maxKeys : Int) (start s : ListObjectsState) (hfrom : start.count ≤ s.count)
    (hle : start.marker = s.marker ∨ bytesLess start.marker s.marker = true)
    (x : ObjectRow) (hx : x ∈ rows)
    (h0 : bytesLess start.marker (goString x.name) = true)
    (h1 : bytesLess s.marker (goString x.name) = false) :
    ListObjectsMeasure rows prefix_ delimiter maxKeys s <
      ListObjectsMeasure rows prefix_ delimiter maxKeys start := by
  unfold ListObjectsMeasure
  have hc : (maxKeys.toNat - s.count) * (2 * rows.length + 1) ≤
      (maxKeys.toNat - start.count) * (2 * rows.length + 1) :=
    Nat.mul_le_mul_right _ (by omega)
  have hb := rowsBeyond_length_lt rows _ _ hle x hx h0 h1
  have hf := foldsAhead_length_le rows prefix_ delimiter _ _ hle
  omega

/-- The measure falls when the count has not fallen and the cursor has moved forward
past the common prefix of a row. -/
theorem ListObjectsMeasure_lt_of_fold (rows : List ObjectRow) (prefix_ delimiter : GoString)
    (maxKeys : Int) (start s : ListObjectsState) (hfrom : start.count ≤ s.count)
    (hle : start.marker = s.marker ∨ bytesLess start.marker s.marker = true)
    (x : ObjectRow) (hx : x ∈ rows)
    (h0 : foldsAt prefix_ delimiter start.marker x = true)
    (h1 : foldsAt prefix_ delimiter s.marker x = false) :
    ListObjectsMeasure rows prefix_ delimiter maxKeys s <
      ListObjectsMeasure rows prefix_ delimiter maxKeys start := by
  unfold ListObjectsMeasure
  have hc : (maxKeys.toNat - s.count) * (2 * rows.length + 1) ≤
      (maxKeys.toNat - start.count) * (2 * rows.length + 1) :=
    Nat.mul_le_mul_right _ (by omega)
  have hb := rowsBeyond_length_le rows _ _ hle
  have hf := foldsAhead_length_lt rows prefix_ delimiter _ _ hle x hx h0 h1
  omega

/-- The measure falls when the count has risen and not passed `maxKeys`, wherever the
cursor is. -/
theorem ListObjectsMeasure_lt_of_count (rows : List ObjectRow) (prefix_ delimiter : GoString)
    (maxKeys : Int) (start s : ListObjectsState) (hfrom : start.count < s.count)
    (hcount : s.count ≤ maxKeys.toNat) :
    ListObjectsMeasure rows prefix_ delimiter maxKeys s <
      ListObjectsMeasure rows prefix_ delimiter maxKeys start := by
  unfold ListObjectsMeasure
  have hsplit : maxKeys.toNat - start.count = (maxKeys.toNat - s.count) +
      (s.count - start.count) := by omega
  have hone : 1 * (2 * rows.length + 1) ≤ (s.count - start.count) * (2 * rows.length + 1) :=
    Nat.mul_le_mul_right _ (by omega)
  have hb : (rowsBeyond rows s.marker).length ≤ rows.length := List.length_filter_le _ _
  have hf : (foldsAhead rows prefix_ delimiter s.marker).length ≤ rows.length :=
    List.length_filter_le _ _
  rw [hsplit, Nat.add_mul]
  omega

theorem ListObjectsState.counted_count (s : ListObjectsState) (maxKeys : Int)
    (key : GoString) : (s.counted maxKeys key).count = s.count + 1 := rfl

theorem ListObjectsState.counted_exit (s : ListObjectsState) (maxKeys : Int)
    (key : GoString) : (s.counted maxKeys key).exit = s.exit := rfl

theorem ListObjectsState.counted_marker (s : ListObjectsState) (maxKeys : Int)
    (key : GoString) : (s.counted maxKeys key).marker = s.marker := rfl

theorem MaxKeySuffix_ne_nil : MaxKeySuffix ≠ [] := by decide

/-- The row loop of `ListObjects` on one row beyond the cursor from which the iteration
began: it fails, or goes on to the next row with the cursor on this row, or leaves the
loop with `exit` set or a lower measure. -/
theorem ListObjectsRow_step (t : TidbClient) (rows : List ObjectRow)
    (prefix_ delimiter : GoString) (maxKeys : Int) (hmax : 0 ≤ maxKeys)
    (start s : ListObjectsState) (row : ObjectRow) (hrow : row ∈ rows)
    (hbeyond : bytesLess start.marker (goString row.name) = true)
    (hexit : s.exit = false) (hcount : s.count ≤ maxKeys.toNat)
    (hfrom : start.count ≤ s.count)
    (hmarker : s.marker = start.marker ∨
      (bytesLess start.marker s.marker = true ∧ ∃ q ∈ rows, goString q.name = s.marker)) :
    (∃ err, ListObjectsRow t prefix_ delimiter maxKeys s row = .fail err) ∨
    (∃ s1, ListObjectsRow t prefix_ delimiter maxKeys s row = .next s1 ∧
        ListObjectsState.advanced rows maxKeys start s1) ∨
    (∃ s1, ListObjectsRow t prefix_ delimiter maxKeys s row = .stop s1 ∧
        ListObjectsState.progress rows prefix_ delimiter maxKeys start s1) := by
  have hadv : ListObjectsState.advanced rows maxKeys start
      { s with lastMarker := s.marker, marker := goString row.name } :=
    ⟨hexit, hcount, hfrom, hbeyond, row, hrow, rfl⟩
  generalize hflow : ListObjectsRow t prefix_ delimiter maxKeys s row = flow
  unfold ListObjectsRow at hflow
  simp only [] at hflow
  split at hflow
  · subst hflow
    exact Or.inr (Or.inl ⟨_, rfl, hadv⟩)
  · rename_i hprefix
    split at hflow
    · subst hflow
      exact Or.inr (Or.inl ⟨_, rfl, hadv⟩)
    · rename_i hlive
      split at hflow
      · rename_i hfold
        have hkey : foldKey prefix_ delimiter row =
            some (prefix_ ++ (strings.TrimPrefix (goString row.name) prefix_).take
              (strings.Index (strings.TrimPrefix (goString row.name) prefix_) delimiter + 1).toNat) := by
          unfold foldKey
          rw [if_neg hprefix, if_neg hlive, if_pos hfold]
        generalize prefix_ ++ (strings.TrimPrefix (goString row.name) prefix_).take
          (strings.Index (strings.TrimPrefix (goString row.name) prefix_) delimiter + 1).toNat =
            key at hkey hflow
        split at hflow
        · -- the cursor was on this common prefix: skip it
          rename_i hlast
          have hlast2 : s.marker = key := hlast
          subst hflow
          refine Or.inr (Or.inr ⟨_, rfl, Or.inr ⟨hcount, ?_⟩⟩)
          have hstep : bytesLess s.marker (key ++ MaxKeySuffix) = true := by
            rw [hlast2]; exact bytesLess_append key MaxKeySuffix MaxKeySuffix_ne_nil
          rcases hmarker with hm | ⟨hm, q, hq, hqname⟩
          · apply ListObjectsMeasure_lt_of_fold rows prefix_ delimiter maxKeys start
              ⟨s.count, s.exit, s.marker, key ++ MaxKeySuffix, s.commonPrefixes, s.listInfo⟩
              hfrom (Or.inr (by rw [← hm]; exact hstep)) row hrow
            · unfold foldsAt
              rw [hkey, ← hm, hlast2]
              show (!bytesLess key key) = true
              rw [bytesLess_irrefl]
              rfl
            · unfold foldsAt
              rw [hkey]
              show (!bytesLess key (key ++ MaxKeySuffix)) = false
              rw [bytesLess_append key MaxKeySuffix MaxKeySuffix_ne_nil]
              rfl
          · apply ListObjectsMeasure_lt_of_row rows prefix_ delimiter maxKeys start
              ⟨s.count, s.exit, s.marker, key ++ MaxKeySuffix, s.commonPrefixes, s.listInfo⟩
              hfrom (Or.inr (bytesLess_trans _ _ _ hm hstep)) q hq
            · rw [hqname]; exact hm
            · show bytesLess (key ++ MaxKeySuffix) (goString q.name) = false
              rw [hqname]
              exact bytesLess_asymm _ _ hstep
        · split at hflow
          · split at hflow
            · subst hflow
              exact Or.inr (Or.inr ⟨_, rfl, Or.inl rfl⟩)
            · rename_i hnot
              subst hflow
              have hle : s.count + 1 ≤ maxKeys.toNat := by
                simp only [ListObjectsState.counted_count] at hnot
                omega
              refine Or.inr (Or.inr ⟨_, rfl, Or.inr ⟨hle, ?_⟩⟩)
              exact ListObjectsMeasure_lt_of_count rows prefix_ delimiter maxKeys start
                ⟨s.count + 1, _, _, _, _, _⟩ (show start.count < s.count + 1 by omega) hle
          · subst hflow
            exact Or.inr (Or.inl ⟨_, rfl, hadv⟩)
      · split at hflow
        · subst hflow
          exact Or.inl ⟨_, rfl⟩
        · split at hflow
          · rename_i hzero
            simp only [ListObjectsState.counted_count] at hzero
            omega
          · split at hflow
            · subst hflow
              exact Or.inr (Or.inr ⟨_, rfl, Or.inl rfl⟩)
            · rename_i hnot
              subst hflow
              have hle : s.count + 1 ≤ maxKeys.toNat := by
                simp only [ListObjectsState.counted_count] at hnot
                omega
              exact Or.inr (Or.inl ⟨_, rfl, hexit, hle, by
                show start.count ≤ s.count + 1
                omega, hbeyond, row, hrow, rfl⟩)

/-- A state of the row loop that has read a row and not left has a lower measure than
the state in which the iteration began. -/
theorem ListObjectsState.progress_of_advanced (rows : List ObjectRow)
    (prefix_ delimiter : GoString) (maxKeys : Int) (start s : ListObjectsState)
    (h : ListObjectsState.advanced rows maxKeys start s) :
    ListObjectsState.progress rows prefix_ delimiter maxKeys start s := by
  obtain ⟨_, hcount, hfrom, hm, q, hq, hqname⟩ := h
  refine Or.inr ⟨hcount, ?_⟩
  apply ListObjectsMeasure_lt_of_row rows prefix_ delimiter maxKeys start s hfrom (Or.inr hm) q hq
  · rw [hqname]; exact hm
  · rw [hqname]; exact bytesLess_irrefl _

/-- The row loop of `ListObjects` over rows beyond the cursor from which the iteration
began, after it has read a row: it fails, or ends with `exit` set or a lower measure. -/
theorem forRows_ListObjectsRow_progress (t : TidbClient) (rows : List ObjectRow)
    (prefix_ delimiter : GoString) (maxKeys : Int) (hmax : 0 ≤ maxKeys)
    (start : ListObjectsState) :
    ∀ (batch : List ObjectRow),
      (∀ r ∈ batch, r ∈ rows ∧ bytesLess start.marker (goString r.name) = true) →
      ∀ (s : ListObjectsState) (k : Nat), ListObjectsState.advanced rows maxKeys start s →
        (∃ err, forRows (ListObjectsRow t prefix_ delimiter maxKeys) batch s k = .error err) ∨
        ∃ s1 k1, forRows (ListObjectsRow t prefix_ delimiter maxKeys) batch s k = .ok (s1, k1) ∧
          ListObjectsState.progress rows prefix_ delimiter maxKeys start s1 := by
  intro batch
  induction batch with
  | nil =>
    intro _ s k hadv
    exact Or.inr ⟨s, k, rfl,
      ListObjectsState.progress_of_advanced rows prefix_ delimiter maxKeys start s hadv⟩
  | cons row rest ih =>
    intro hbatch s k hadv
    obtain ⟨hexit, hcount, hfrom, hm, hq⟩ := hadv
    have hrow := hbatch row (List.mem_cons_self _ _)
    rw [forRows_cons]
    rcases ListObjectsRow_step t rows prefix_ delimiter maxKeys hmax start s row hrow.1 hrow.2
        hexit hcount hfrom (Or.inr ⟨hm, hq⟩) with
      ⟨err, hflow⟩ | ⟨s1, hflow, hadv1⟩ | ⟨s1, hflow, hprog⟩
    · rw [hflow]
      exact Or.inl ⟨err, rfl⟩
    · rw [hflow]
      exact ih (fun r hr => hbatch r (List.mem_cons_of_mem _ hr)) s1 (k + 1) hadv1
    · rw [hflow]
      exact Or.inr ⟨s1, k + 1, rfl, hprog⟩

/-- The rows that a query of `ListObjects` returns from a table: rows of the bucket
whose name lies beyond the marker. -/
theorem ListObjectsQuery_rows (table : List ObjectRow) (bucketName : String)
    (marker prefix_ : GoString) (maxKeys : Int) (hmax : 0 ≤ maxKeys)
    (hnames : ∀ row ∈ bucketRows table bucketName, goString row.name ≠ []) :
    ∃ batch, Select.run (ListObjectsQuery bucketName marker prefix_ maxKeys) table = .ok batch ∧
      ∀ r ∈ batch, r ∈ bucketRows table bucketName ∧
        bytesLess marker (goString r.name) = true := by
  have hlimit : (ListObjectsQuery bucketName marker prefix_ maxKeys).limit = some maxKeys := by
    unfold ListObjectsQuery
    by_cases hp : prefix_ = [] <;> by_cases hm : marker = [] <;> simp [hp, hm]
  have hsel : ∀ r, (ListObjectsQuery bucketName marker prefix_ maxKeys).selects r = true →
      r.bucketname = bucketName ∧ (marker ≠ [] → bytesLess marker (goString r.name) = true) := by
    intro r hr
    unfold ListObjectsQuery at hr
    by_cases hp : prefix_ = [] <;> by_cases hm : marker = [] <;>
      simp [hp, hm, Select.selects] at hr <;> simp [hm] <;> tauto
  refine ⟨((table.filter (ListObjectsQuery bucketName marker prefix_ maxKeys).selects).insertionSort
    (ListObjectsQuery bucketName marker prefix_ maxKeys).orderBy.rel).take maxKeys.toNat, ?_, ?_⟩
  · unfold Select.run
    simp only [hlimit]
    rw [if_neg (by omega)]
  · intro r hr
    have hmem : r ∈ table.filter (ListObjectsQuery bucketName marker prefix_ maxKeys).selects :=
      (List.perm_insertionSort _ _).mem_iff.mp (List.mem_of_mem_take hr)
    obtain ⟨htable, hselects⟩ := List.mem_filter.mp hmem
    obtain ⟨hbucket, hgt⟩ := hsel r hselects
    have hrow : r ∈ bucketRows table bucketName :=
      List.mem_filter.mpr ⟨htable, by simp [hbucket]⟩
    refine ⟨hrow, ?_⟩
    by_cases hm : marker = []
    · rw [hm]; exact bytesLess_nil_left _ (hnames r hrow)
    · exact hgt hm

/-- One iteration of the outer loop of `ListObjects` over a table: it fails, or it ends
with `exit` set or a lower measure. -/
theorem ListObjectsRound_progress (t : TidbClient) (table : List ObjectRow)
    (bucketName : String) (prefix_ delimiter : GoString) (maxKeys : Int)
    (hquery : ∀ q, t.Query q = q.run table)
    (hnames : ∀ row ∈ bucketRows table bucketName, goString row.name ≠ [])
    (hmax : 0 ≤ maxKeys) (s : ListObjectsState) (hexit : s.exit = false)
    (hcount : s.count ≤ maxKeys.toNat) :
    (∃ err, ListObjectsRound t bucketName prefix_ delimiter maxKeys s = .error err) ∨
    ∃ s1, ListObjectsRound t bucketName prefix_ delimiter maxKeys s = .ok s1 ∧
      ListObjectsState.progress (bucketRows table bucketName) prefix_ delimiter maxKeys s s1 := by
  obtain ⟨batch, hrun, hbatch⟩ :=
    ListObjectsQuery_rows table bucketName s.marker prefix_ maxKeys hmax hnames
  unfold ListObjectsRound
  rw [hquery, hrun]
  simp only
  cases batch with
  | nil =>
    rw [forRows_nil]
    exact Or.inr ⟨_, rfl, Or.inl rfl⟩
  | cons row rest =>
    have hrow := hbatch row (List.mem_cons_self _ _)
    have hfinish : ∀ (s1 : ListObjectsState) (k1 : Nat),
        ListObjectsState.progress (bucketRows table bucketName) prefix_ delimiter maxKeys s s1 →
        ListObjectsState.progress (bucketRows table bucketName) prefix_ delimiter maxKeys s
          (if k1 = 0 then { s1 with exit := true } else s1) := by
      intro s1 k1 hprog
      by_cases hk : k1 = 0
      · rw [if_pos hk]; exact Or.inl rfl
      · rw [if_neg hk]; exact hprog
    rw [forRows_cons]
    rcases ListObjectsRow_step t (bucketRows table bucketName) prefix_ delimiter maxKeys hmax s s
        row hrow.1 hrow.2 hexit hcount (le_refl _) (Or.inl rfl) with
      ⟨err, hflow⟩ | ⟨s1, hflow, hadv1⟩ | ⟨s1, hflow, hprog⟩
    · rw [hflow]
      exact Or.inl ⟨err, rfl⟩
    · rw [hflow]
      simp only
      rcases forRows_ListObjectsRow_progress t (bucketRows table bucketName) prefix_ delimiter
          maxKeys hmax s rest (fun r hr => hbatch r (List.mem_cons_of_mem _ hr)) s1 (0 + 1)
          hadv1 with
        ⟨err, hloop⟩ | ⟨s2, k2, hloop, hprog⟩
      · rw [hloop]
        exact Or.inl ⟨err, rfl⟩
      · rw [hloop]
        exact Or.inr ⟨_, rfl, hfinish s2 k2 hprog⟩
    · rw [hflow]
      exact Or.inr ⟨_, rfl, hfinish s1 (0 + 1) hprog⟩

/-- The outer loop of `ListObjects` is its iteration, repeated until `exit` is set. -/
theorem ListObjectsLoop_succ (t : TidbClient) (bucketName : String)
    (prefix_ delimiter : GoString) (maxKeys : Int) (fuel : Nat) (s : ListObjectsState) :
    ListObjectsLoop t bucketName prefix_ delimiter maxKeys (fuel + 1) s =
      match ListObjectsRound t bucketName prefix_ delimiter maxKeys s with
      | .error err => some (.error err)
      | .ok s1 =>
        if s1.exit then some (.ok s1)
        else ListObjectsLoop t bucketName prefix_ delimiter maxKeys fuel s1 := by
  rw [ListObjectsLoop]
  unfold ListObjectsRound
  cases t.Query (ListObjectsQuery bucketName s.marker prefix_ maxKeys) with
  | error cause => rfl
  | ok rows =>
    simp only
    cases forRows (ListObjectsRow t prefix_ delimiter maxKeys) rows s 0 with
    | error err => rfl
    | ok res => rfl

/-- The outer loop of `ListObjects` over a table returns when the fuel exceeds the
measure of the state it starts in. -/
theorem ListObjectsLoop_terminates (t : TidbClient) (table : List ObjectRow)
    (bucketName : String) (prefix_ delimiter : GoString) (maxKeys : Int)
    (hquery : ∀ q, t.Query q = q.run table)
    (hnames : ∀ row ∈ bucketRows table bucketName, goString row.name ≠ [])
    (hmax : 0 ≤ maxKeys) :
    ∀ (fuel : Nat) (s : ListObjectsState), s.exit = false → s.count ≤ maxKeys.toNat →
      ListObjectsMeasure (bucketRows table bucketName) prefix_ delimiter maxKeys s < fuel →
      ∃ r, ListObjectsLoop t bucketName prefix_ delimiter maxKeys fuel s = some r := by
  intro fuel
  induction fuel with
  | zero => intro s _ _ h; omega
  | succ fuel ih =>
    intro s hexit hcount hmeasure
    rw [ListObjectsLoop_succ]
    rcases ListObjectsRound_progress t table bucketName prefix_ delimiter maxKeys hquery hnames
        hmax s hexit hcount with ⟨err, hround⟩ | ⟨s1, hround, hprog⟩
    · rw [hround]
      exact ⟨_, rfl⟩
    · rw [hround]
      simp only
      by_cases hexit1 : s1.exit = true
      · rw [if_pos hexit1]
        exact ⟨_, rfl⟩
      · rw [if_neg hexit1]
        rcases hprog with hprog | ⟨hcount1, hlt⟩
        · exact absurd hprog hexit1
        · exact ih s1 (by simpa using hexit1) hcount1 (by omega)

/-- `ListObjects` terminates on every table whose rows have non-empty names, for every
marker, prefix, delimiter and `maxKeys ≥ 0`: it returns after at most
`(maxKeys + 1) * (2 * rows + 1)` queries, `rows` being the number of rows of the
bucket. -/
theorem ListObjects_terminates (t : TidbClient) (table : List ObjectRow) (bucketName : String)
    (marker prefix_ delimiter : GoString) (maxKeys : Int)
    (hquery : ∀ q, t.Query q = q.run table)
    (hnames : ∀ row ∈ bucketRows table bucketName, goString row.name ≠ [])
    (hmax : 0 ≤ maxKeys) (extra : Nat) :
    ∃ result, ListObjects t bucketName marker prefix_ delimiter maxKeys
      ((maxKeys.toNat + 1) * (2 * (bucketRows table bucketName).length + 1) + extra) =
        some result := by
  have hstart : ListObjectsMeasure (bucketRows table bucketName) prefix_ delimiter maxKeys
      ⟨0, false, [], marker, [], ListObjectsInfo.zero⟩ <
      (maxKeys.toNat + 1) * (2 * (bucketRows table bucketName).length + 1) := by
    unfold ListObjectsMeasure
    have hb : (rowsBeyond (bucketRows table bucketName) marker).length ≤
        (bucketRows table bucketName).length := List.length_filter_le _ _
    have hf : (foldsAhead (bucketRows table bucketName) prefix_ delimiter marker).length ≤
        (bucketRows table bucketName).length := List.length_filter_le _ _
    rw [Nat.add_mul]
    simp only [Nat.sub_zero, Nat.one_mul]
    omega
  obtain ⟨r, hr⟩ := ListObjectsLoop_terminates t table bucketName prefix_ delimiter maxKeys
    hquery hnames hmax _ ⟨0, false, [], marker, [], ListObjectsInfo.zero⟩ rfl (Nat.zero_le _)
    hstart
  have hbase : ∃ result, ListObjects t bucketName marker prefix_ delimiter maxKeys
      ((maxKeys.toNat + 1) * (2 * (bucketRows table bucketName).length + 1)) =
        some result := by
    unfold ListObjects
    simp only
    rw [hr]
    cases r with
    | error err => exact ⟨_, rfl⟩
    | ok s => exact ⟨_, rfl⟩
  obtain ⟨result, hresult⟩ := hbase
  exact ⟨result, ListObjects_fuel_add _ _ _ _ _ _ _ _ hresult extra⟩

/-! ## Progress of the iterations of `ListObjects` (C40) -/

/-- Counterexample to C40 as stated: over the one key `a/中`, the first iteration of
`ListObjects` called with the marker `a/`, the delimiter `/` and `maxKeys = 1000` makes
none of the steps listed there. It ends with `exit` unset, no common prefix recorded
and the count still 0; the cursor has moved from `a/` to `a/` followed by
`MaxKeySuffix`, past no row: the row `a/中` lies beyond the new cursor as it lay beyond
the old one, and the next query returns it again. The call returns after four
queries. -/
theorem ListObjectsRound_counterexample :
    ListObjectsRound (sampleStore [sampleRow "a/中" 0 false 1]) "photos" [] (goString "/") 1000
        (startAt (goString "a/")) =
      .ok ⟨0, false, goString "a/", goString "a/" ++ MaxKeySuffix, [], ListObjectsInfo.zero⟩ ∧
    rowsBeyond [sampleRow "a/中" 0 false 1] (goString "a/") = [sampleRow "a/中" 0 false 1] ∧
    rowsBeyond [sampleRow "a/中" 0 false 1] (goString "a/" ++ MaxKeySuffix) =
      [sampleRow "a/中" 0 false 1] ∧
    (sampleStore [sampleRow "a/中" 0 false 1]).Query
        (ListObjectsQuery "photos" (goString "a/" ++ MaxKeySuffix) [] 1000) =
      .ok [sampleRow "a/中" 0 false 1] ∧
    ListObjects (sampleStore [sampleRow "a/中" 0 false 1]) "photos" (goString "a/") []
        (goString "/") 1000 3 = none ∧
    ListObjects (sampleStore [sampleRow "a/中" 0 false 1]) "photos" (goString "a/") []
        (goString "/") 1000 4 = some (.ok ⟨false, [], [], [goString "a/"]⟩) := by
  decide

/-- C40 (amended): over a store that answers the queries from a table whose rows have
non-empty names, `ListObjects` terminates for every marker, prefix, delimiter and
`maxKeys ≥ 0`. Each iteration of the outer re-query loop that starts with `exit` unset
and a count within `maxKeys` fails, sets `exit`, or lowers the measure
`ListObjectsMeasure` (the entries that may still be counted, weighted by
`2 * rows + 1`, plus the rows beyond the cursor, plus the rows whose common prefix is
not before the cursor) and keeps the count within `maxKeys`; the measure of the start
state is below `(maxKeys + 1) * (2 * rows + 1)`, and the call returns within that many
queries, `rows` being the number of rows of the bucket. -/
theorem ListObjects_queries_bounded (t : TidbClient) (table : List ObjectRow)
    (bucketName : String) (marker prefix_ delimiter : GoString) (maxKeys : Int)
    (hquery : ∀ q, t.Query q = q.run table)
    (hnames : ∀ row ∈ bucketRows table bucketName, goString row.name ≠ [])
    (hmax : 0 ≤ maxKeys) (extra : Nat) :
    (∀ s : ListObjectsState, s.exit = false → s.count ≤ maxKeys.toNat →
      (∃ err, ListObjectsRound t bucketName prefix_ delimiter maxKeys s = .error err) ∨
      ∃ s1, ListObjectsRound t bucketName prefix_ delimiter maxKeys s = .ok s1 ∧
        (s1.exit = true ∨
          (s1.count ≤ maxKeys.toNat ∧
            ListObjectsMeasure (bucketRows table bucketName) prefix_ delimiter maxKeys s1 <
              ListObjectsMeasure (bucketRows table bucketName) prefix_ delimiter maxKeys s))) ∧
    ListObjectsMeasure (bucketRows table bucketName) prefix_ delimiter maxKeys
        (startAt marker) <
      (maxKeys.toNat + 1) * (2 * (bucketRows table bucketName).length + 1) ∧
    ∃ result, ListObjects t bucketName marker prefix_ delimiter maxKeys
      ((maxKeys.toNat + 1) * (2 * (bucketRows table bucketName).length + 1) + extra) =
        some result := by
  refine ⟨fun s hexit hcount =>
      ListObjectsRound_progress t table bucketName prefix_ delimiter maxKeys hquery hnames hmax
        s hexit hcount, ?_,
    ListObjects_terminates t table bucketName marker prefix_ delimiter maxKeys hquery hnames
      hmax extra⟩
  unfold ListObjectsMeasure startAt
  have hb : (rowsBeyond (bucketRows table bucketName) marker).length ≤
      (bucketRows table bucketName).length := List.length_filter_le _ _
  have hf : (foldsAhead (bucketRows table bucketName) prefix_ delimiter marker).length ≤
      (bucketRows table bucketName).length := List.length_filter_le _ _
  rw [Nat.add_mul]
  simp only [Nat.sub_zero, Nat.one_mul]
  omega

/-- Witness of C40 (amended): over the one key `a/中`, the call with the marker `a/`,
the delimiter `/` and `maxKeys = 1000` returns within `1001 * 3` queries. -/
theorem ListObjects_queries_bounded_witness :
    (∀ q, (sampleStore [sampleRow "a/中" 0 false 1]).Query q =
        q.run [sampleRow "a/中" 0 false 1]) ∧
      (∀ row ∈ bucketRows [sampleRow "a/中" 0 false 1] "photos", goString row.name ≠ []) ∧
      ∃ result, ListObjects (sampleStore [sampleRow "a/中" 0 false 1]) "photos" (goString "a/")
        [] (goString "/") 1000 (1001 * 3) = some result :=
  ⟨fun _ => rfl, by decide,
    (ListObjects_queries_bounded (sampleStore [sampleRow "a/中" 0 false 1])
      [sampleRow "a/中" 0 false 1] "photos" (goString "a/") [] (goString "/") 1000
      (fun _ => rfl) (by decide) (by decide) 0).2.2⟩

end Yig
